import Mathlib

/-!
# Message-routing core of the router node (`src/router_node.c`)

A shallow embedding of the routing engine: the address table, the per-link
FIFOs, the ingress handler `router_rx_handler`, the egress scheduler
`router_writable_link_handler` and `qd_router_send`.

Conventions of the embedding

* A C pointer to a record is a natural number; the records live in total
  heaps (`address`, `link`, `node`, `delivery`) of the state.  A `qd_link_t`
  and the `qd_router_link_t` stored as its context are identified.
* A DEQ list is a Lean list, head first.
* `int` values (mask bits, the origin, link credit) are `Int`; `size_t`
  sizes and the statistics counters are `Nat`; the `uint64_t` delivery tag
  wraps modulo `2^64`.
* Calls into the protocol library and into in-process handlers are recorded,
  in call order, in the `calls` log of the state.
* The router lock and memory release (`qd_message_free`,
  `free_qd_routed_event_t`) have no counterpart: handlers run atomically.
-/

namespace QpidDispatch

/-! ## Data model -/

/-- Modelled from the spec: the bitmask module (`bitmask.c`) is not among the
sources.  A bitmask is the collection of its set bit numbers; `first_set`
yields the lowest set bit, `set_bit` and `clear_bit` add and remove one bit,
`value` tests one bit. -/
structure qd_bitmask_t where
  bits : List Int
deriving DecidableEq, Repr

/-- Modelled from the spec: `qd_bitmask(0)`, the bitmask with no bit set. -/
def qd_bitmask_empty : qd_bitmask_t := ⟨[]⟩

/-- Modelled from the spec: `qd_bitmask_set_bit`. -/
def qd_bitmask_set_bit (b : qd_bitmask_t) (bitnum : Int) : qd_bitmask_t :=
  if bitnum ∈ b.bits then b else ⟨bitnum :: b.bits⟩

/-- Modelled from the spec: `qd_bitmask_clear_bit`. -/
def qd_bitmask_clear_bit (b : qd_bitmask_t) (bitnum : Int) : qd_bitmask_t :=
  ⟨b.bits.filter (fun x => decide (x ≠ bitnum))⟩

/-- Modelled from the spec: `qd_bitmask_value`. -/
def qd_bitmask_value (b : qd_bitmask_t) (bitnum : Int) : Bool :=
  decide (bitnum ∈ b.bits)

/-- Modelled from the spec: `qd_bitmask_first_set`, the lowest set bit, or
`none` when no bit is set. -/
def qd_bitmask_first_set (b : qd_bitmask_t) : Option Int :=
  match b.bits with
  | [] => none
  | x :: xs => some (xs.foldl min x)

/-- A field iterator, given by the octets it presents under each of the views
the router selects (`iterator.c`, which computes the views, is not among the
sources). -/
structure qd_field_iterator_t where
  all : String
  no_host : String
  address_hash : String
  node_hash : String
deriving DecidableEq, Repr

/-- The call `qd_field_iterator_prefix(iter, p)` on a view: do the octets of
the view start with `p`. -/
def qd_field_iterator_prefix (view : String) (p : String) : Bool :=
  p.data.isPrefixOf view.data

/-- The call `qd_field_iterator_equal(iter, s)` on a view. -/
def qd_field_iterator_equal (view : String) (s : String) : Bool :=
  decide (view = s)

/-- A parsed field as far as the router inspects it: a scalar with its raw
iterator, a list with the raw iterators of its sub-values in index order, or
any other compound value. -/
inductive qd_parsed_field_t where
  | scalar (raw : qd_field_iterator_t)
  | list (items : List qd_field_iterator_t)
  | other
deriving DecidableEq, Repr

def qd_parse_is_list : qd_parsed_field_t → Bool
  | .list _ => true
  | _ => false

def qd_parse_is_scalar : qd_parsed_field_t → Bool
  | .scalar _ => true
  | _ => false

/-- Values written by the composer into the outgoing delivery annotations. -/
inductive qd_composed_value_t where
  | string (s : String)
  | list (items : List String)
deriving DecidableEq, Repr

/-- A composed map: the key/value pairs in insertion order. -/
abbrev qd_composed_field_t := List (String × qd_composed_value_t)

/-- A message as far as the router looks into it. -/
structure qd_message_t where
  /-- result of `qd_message_check(msg, QD_DEPTH_PROPERTIES)` -/
  check_properties : Bool
  /-- result of `qd_message_field_iterator(msg, QD_FIELD_TO)` -/
  field_to : Option qd_field_iterator_t
  /-- result of `qd_message_delivery_annotations(msg)`: the parsed map the message arrived with -/
  delivery_annotations : Option (List (String × qd_parsed_field_t))
  /-- the annotations installed by `qd_message_set_delivery_annotations` -/
  composed_annotations : Option qd_composed_field_t
  /-- the rest of the content -/
  content : String
deriving DecidableEq, Repr

def qd_message_check (msg : qd_message_t) : Bool := msg.check_properties

def qd_message_field_iterator_to (msg : qd_message_t) : Option qd_field_iterator_t := msg.field_to

def qd_message_delivery_annotations (msg : qd_message_t) :
    Option (List (String × qd_parsed_field_t)) := msg.delivery_annotations

/-- The call `qd_message_copy`: the copy has the content of the original. -/
def qd_message_copy (msg : qd_message_t) : qd_message_t := msg

def qd_message_set_delivery_annotations (msg : qd_message_t) (da : qd_composed_field_t) :
    qd_message_t :=
  { msg with composed_annotations := some da }

/-- The call `qd_parse_value_by_key`: the value of the first entry with the key. -/
def qd_parse_value_by_key : List (String × qd_parsed_field_t) → String → Option qd_parsed_field_t
  | [], _ => none
  | (k, v) :: rest, key => if k = key then some v else qd_parse_value_by_key rest key

/-- Modelled from the spec: the delivery-annotation key of the trace list
(the constant `QD_DA_TRACE` is declared outside the sources). -/
def QD_DA_TRACE : String := "trace"

/-- Modelled from the spec: the delivery-annotation key of the ingress router
(the constant `QD_DA_INGRESS` is declared outside the sources). -/
def QD_DA_INGRESS : String := "ingress"

/-- Disposition code `PN_ACCEPTED` of the protocol library. -/
def PN_ACCEPTED : Nat := 0x24
/-- Disposition code `PN_REJECTED` of the protocol library. -/
def PN_REJECTED : Nat := 0x25
/-- Disposition code `PN_RELEASED` of the protocol library. -/
def PN_RELEASED : Nat := 0x26

inductive qd_link_type_t where
  | QD_LINK_ENDPOINT
  | QD_LINK_ROUTER
deriving DecidableEq, Repr

inductive qd_direction_t where
  | QD_INCOMING
  | QD_OUTGOING
deriving DecidableEq, Repr

inductive qd_forward_t where
  | QD_FORWARD_MULTICAST
deriving DecidableEq, Repr

structure qd_address_semantics_t where
  bypass_valid_origins : Bool
  forward : qd_forward_t
deriving DecidableEq, Repr

def router_semantics : qd_address_semantics_t := ⟨true, .QD_FORWARD_MULTICAST⟩
def default_semantics : qd_address_semantics_t := ⟨false, .QD_FORWARD_MULTICAST⟩

/-- A routed event: a message event (`message` present, `delivery` optional)
or a status event (`delivery`, `disposition`, `settle`). -/
structure qd_routed_event_t where
  delivery : Option Nat
  message : Option qd_message_t
  settle : Bool
  disposition : Nat
deriving DecidableEq, Repr

structure qd_router_link_t where
  mask_bit : Int
  link_type : qd_link_type_t
  link_direction : qd_direction_t
  owning_addr : Option Nat
  connected_link : Option Nat
  peer_link : Option Nat
  ref : Bool
  event_fifo : List qd_routed_event_t
  msg_fifo : List qd_routed_event_t
deriving DecidableEq, Repr

structure qd_router_node_t where
  mask_bit : Int
  next_hop : Option Nat
  peer_link : Option Nat
  ref_count : Nat
  valid_origins : qd_bitmask_t
deriving DecidableEq, Repr

/-- An address record.  The five `deliveries_*` statistics are fields declared
in `router_private.h`; they are taken to be `uint64_t` counters, like the
delivery tag of `router_writable_link_handler`.  `router_node.c` only ever
applies `++` to them, which wraps modulo `2^64` (see `uint64_wrap`). -/
structure qd_address_t where
  handler : Option Nat
  handler_context : Nat
  semantics : qd_address_semantics_t
  rlinks : List Nat
  rnodes : List Nat
  deliveries_ingress : Nat
  deliveries_egress : Nat
  deliveries_transit : Nat
  deliveries_to_container : Nat
  deliveries_from_container : Nat
deriving DecidableEq, Repr

/-- A delivery: its link and tag, what the remote end reported (`settled`,
`disp`, `disp_changed`), the peer pointer, and whether `qd_delivery_free` was
called on it and with which final disposition. -/
structure qd_delivery_t where
  link : Nat
  tag : Nat
  settled : Bool
  disp : Nat
  disp_changed : Bool
  peer : Option Nat
  freed : Option Nat
deriving DecidableEq, Repr

/-- A value of a terminus capabilities field as far as the router inspects it:
a symbol, or anything else. -/
inductive pn_atom_t where
  | symbol (s : String)
  | other
deriving DecidableEq, Repr

/-- A terminus of a protocol link: its address (absent when null), the dynamic
flag and the capabilities data, first value first. -/
structure pn_terminus_t where
  address : Option String
  dynamic : Bool
  capabilities : List pn_atom_t
deriving DecidableEq, Repr

/-- Calls leaving the router core, as logged in call order. -/
inductive qd_call where
  | pn_link_advance (link : Nat)
  | pn_link_flow (link : Nat) (credit : Nat)
  | qd_link_activate (link : Nat)
  | handler (h : Nat) (context : Nat) (msg : Option qd_message_t) (link_maskbit : Int)
  | qd_message_send (msg : Option qd_message_t) (link : Nat)
  | pn_delivery_update (delivery : Nat) (disposition : Nat)
  | pn_link_offered (link : Nat) (offer : Nat)
  | pn_link_drained (link : Nat)
  | pn_link_open (link : Nat)
  | pn_link_close (link : Nat)
  | qd_router_mobile_added (iter : qd_field_iterator_t)
  | qd_router_mobile_removed (key : String)
deriving DecidableEq, Repr

/-- The router together with the records it points to, the protocol objects
it is handed (links with their connection and termini, connections with their
role and shared context, deliveries) and the log of its outward calls.

* `address`, `link`, `node`, `delivery`: the heaps of records; `address_next`
  and `delivery_next` are the next records that `new_qd_address_t` and
  `qd_delivery` hand out.
* `link_context l`: whether `qd_link_get_context(l)` is set, that is whether
  the router link record of the protocol link `l` exists.
* `link_conn l`: `qd_link_connection(l)`; `conn_role c`: the role in the
  server configuration of connection `c`, `none` without configuration; `conn_context c`: the
  mask bit held by the shared context of `c` (`qd_link_get_conn_context`),
  `none` when there is no shared context.
* `remote_source`, `remote_target`, `link_source`, `link_target`: the termini
  of a protocol link. -/
structure qd_router_t where
  router_area : String
  router_id : String
  addrs : List Nat
  addr_hash : List (String × Nat)
  address : Nat → qd_address_t
  address_next : Nat
  links : List Nat
  link : Nat → qd_router_link_t
  link_context : Nat → Bool
  link_conn : Nat → Nat
  conn_role : Nat → Option String
  conn_context : Nat → Option Int
  remote_source : Nat → pn_terminus_t
  remote_target : Nat → pn_terminus_t
  link_source : Nat → pn_terminus_t
  link_target : Nat → pn_terminus_t
  node : Nat → qd_router_node_t
  out_links_by_mask_bit : Int → Option Nat
  neighbor_free_mask : qd_bitmask_t
  router_addr : Option Nat
  hello_addr : Option Nat
  dtag : Nat
  delivery : Nat → qd_delivery_t
  delivery_next : Nat
  calls : List qd_call

/-- Store `v` at index `i` of a heap. -/
def upd {α : Type} (f : Nat → α) (i : Nat) (v : α) : Nat → α :=
  fun j => if j = i then v else f j

def local_prefix : String := "_local/"
def topo_prefix : String := "_topo/"

/-- The global `direct_prefix` as built by `qd_router`. -/
def direct_prefix (s : qd_router_t) : String :=
  "_topo/" ++ s.router_area ++ "/" ++ s.router_id ++ "/"

/-- The global `node_id` as built by `qd_router`. -/
def node_id (s : qd_router_t) : String :=
  s.router_area ++ "/" ++ s.router_id

/-- The call `qd_hash_retrieve`: the address stored under the key, if any. -/
def qd_hash_retrieve : List (String × Nat) → String → Option Nat
  | [], _ => none
  | (k, a) :: rest, key => if k = key then some a else qd_hash_retrieve rest key

/-! ## State primitives -/

def log_call (s : qd_router_t) (c : qd_call) : qd_router_t :=
  { s with calls := s.calls ++ [c] }

def qd_link_activate (s : qd_router_t) (l : Nat) : qd_router_t :=
  log_call s (.qd_link_activate l)

/-- The statement `DEQ_INSERT_TAIL(l->msg_fifo, re)`. -/
def msg_fifo_insert_tail (s : qd_router_t) (l : Nat) (re : qd_routed_event_t) : qd_router_t :=
  { s with link := upd s.link l { s.link l with msg_fifo := (s.link l).msg_fifo ++ [re] } }

/-- The statement `DEQ_INSERT_TAIL(l->event_fifo, re)`. -/
def event_fifo_insert_tail (s : qd_router_t) (l : Nat) (re : qd_routed_event_t) : qd_router_t :=
  { s with link := upd s.link l { s.link l with event_fifo := (s.link l).event_fifo ++ [re] } }

def set_address (s : qd_router_t) (a : Nat) (v : qd_address_t) : qd_router_t :=
  { s with address := upd s.address a v }

def qd_delivery_settled (s : qd_router_t) (d : Nat) : Bool := (s.delivery d).settled

/-- Modelled from the spec: `qd_delivery_free(delivery, final_disposition)`
(defined outside the sources) frees the delivery with the given disposition. -/
def qd_delivery_free (s : qd_router_t) (d : Nat) (final_disposition : Nat) : qd_router_t :=
  { s with delivery := upd s.delivery d { s.delivery d with freed := some final_disposition } }

/-- Modelled from the spec: `qd_delivery_set_peer(d, peer)` (defined outside
the sources) makes `d` point to `peer`. -/
def qd_delivery_set_peer (s : qd_router_t) (d peer : Nat) : qd_router_t :=
  { s with delivery := upd s.delivery d { s.delivery d with peer := some peer } }

/-- Modelled from the spec: `qd_delivery(link, tag)` (defined outside the
sources) allocates a new delivery on the link, not settled, without peer. -/
def qd_delivery (s : qd_router_t) (link : Nat) (tag : Nat) : qd_router_t × Nat :=
  ({ s with
       delivery := upd s.delivery s.delivery_next
         { link := link, tag := tag, settled := false, disp := 0, disp_changed := false,
           peer := none, freed := none },
       delivery_next := s.delivery_next + 1 },
   s.delivery_next)

/-! ## `router_annotate_message` -/

/-- The trace-copy loop of `router_annotate_message`: every item of the
incoming trace list is compared with `node_id` (setting `drop` on equality)
and copied to the outgoing list. -/
def annotate_trace_loop (nid : String) :
    List qd_field_iterator_t → List String × Bool → List String × Bool
  | [], acc => acc
  | iter :: rest, (out, drop) =>
    let drop := if qd_field_iterator_equal iter.all nid then true else drop
    annotate_trace_loop nid rest (out ++ [iter.all], drop)

/-- The function `router_annotate_message(router, msg, &drop)`: the message with
its new delivery annotations, the value of `drop` afterwards, and the
returned ingress iterator. -/
def router_annotate_message (nid : String) (msg : qd_message_t) (drop : Bool) :
    qd_message_t × Bool × Option qd_field_iterator_t :=
  let in_da := qd_message_delivery_annotations msg
  let trace := match in_da with
    | some da => qd_parse_value_by_key da QD_DA_TRACE
    | none => none
  let ingress := match in_da with
    | some da => qd_parse_value_by_key da QD_DA_INGRESS
    | none => none
  let copied : List String × Bool := match trace with
    | some (.list items) => annotate_trace_loop nid items ([], drop)
    | _ => ([], drop)
  let trace_out := copied.1 ++ [nid]
  let ingress_iter : Option qd_field_iterator_t := match ingress with
    | some (.scalar raw) => some raw
    | _ => none
  let ingress_out : String := match ingress_iter with
    | some raw => raw.all
    | none => nid
  let out_da : qd_composed_field_t :=
    [(QD_DA_TRACE, .list trace_out), (QD_DA_INGRESS, .string ingress_out)]
  (qd_message_set_delivery_annotations msg out_da, copied.2, ingress_iter)

/-! ## `router_rx_handler` -/

/-- The routed event built for one forwarded copy: the ingress delivery is
attached when this is the first copy (`fanout == 1`) and the delivery is not
settled. -/
def rx_routed_event (s : qd_router_t) (msg : qd_message_t) (delivery : Nat) (fanout : Nat) :
    qd_routed_event_t :=
  { delivery := if fanout = 1 ∧ qd_delivery_settled s delivery = false then some delivery else none,
    message := some (qd_message_copy msg),
    settle := false,
    disposition := 0 }

/-- Arithmetic on `uint64_t` wraps modulo `2^64`. -/
def uint64_wrap (n : Nat) : Nat := n % 2 ^ 64

/-- The value of a `uint64_t` counter that held `c` after `n` executions of
`c++`. -/
def uint64_incr (c : Nat) : Nat → Nat
  | 0 => c
  | n + 1 => uint64_wrap (uint64_incr c n + 1)

/-- The statement `addr->deliveries_ingress++`, on a 64-bit unsigned counter. -/
def incr_ingress (s : qd_router_t) (addr : Nat) : qd_router_t :=
  set_address s addr
    { s.address addr with
      deliveries_ingress := uint64_wrap ((s.address addr).deliveries_ingress + 1) }

/-- The statement `addr->deliveries_egress++`, on a 64-bit unsigned counter. -/
def incr_egress (s : qd_router_t) (addr : Nat) : qd_router_t :=
  set_address s addr
    { s.address addr with
      deliveries_egress := uint64_wrap ((s.address addr).deliveries_egress + 1) }

/-- The statement `addr->deliveries_transit++`, on a 64-bit unsigned counter. -/
def incr_transit (s : qd_router_t) (addr : Nat) : qd_router_t :=
  set_address s addr
    { s.address addr with
      deliveries_transit := uint64_wrap ((s.address addr).deliveries_transit + 1) }

/-- The statement `addr->deliveries_to_container++`, on a 64-bit unsigned counter. -/
def incr_to_container (s : qd_router_t) (addr : Nat) : qd_router_t :=
  set_address s addr
    { s.address addr with
      deliveries_to_container := uint64_wrap ((s.address addr).deliveries_to_container + 1) }

/-- The statement `addr->deliveries_from_container++`, on a 64-bit unsigned counter. -/
def incr_from_container (s : qd_router_t) (addr : Nat) : qd_router_t :=
  set_address s addr
    { s.address addr with
      deliveries_from_container := uint64_wrap ((s.address addr).deliveries_from_container + 1) }

/-- One pass through the body of the `addr->rlinks` loop of `router_rx_handler`. -/
def rx_local_body (msg : qd_message_t) (delivery addr dest_link : Nat)
    (acc : qd_router_t × Nat) : qd_router_t × Nat :=
  let fanout := acc.2 + 1
  let s := msg_fifo_insert_tail acc.1 dest_link (rx_routed_event acc.1 msg delivery fanout)
  let s := incr_egress s addr
  let s := qd_link_activate s dest_link
  (s, fanout)

/-- The loop of `router_rx_handler` over `addr->rlinks`: one copy per local
link, counted in `fanout` and in `deliveries_egress`. -/
def rx_forward_local (msg : qd_message_t) (delivery : Nat) (addr : Nat) :
    List Nat → qd_router_t × Nat → qd_router_t × Nat
  | [], acc => acc
  | dest_link :: rest, acc =>
    rx_forward_local msg delivery addr rest (rx_local_body msg delivery addr dest_link acc)

/-- The outbound link towards a destination node: `next_hop->peer_link` when
there is a next hop, else the node's own `peer_link`. -/
def rx_dest_link (s : qd_router_t) (rnode : Nat) : Option Nat :=
  match (s.node rnode).next_hop with
  | some nh => (s.node nh).peer_link
  | none => (s.node rnode).peer_link

/-- The loop of `router_rx_handler` over `addr->rnodes` that builds `link_set`. -/
def rx_link_set (s : qd_router_t) (origin : Int) : List Nat → qd_bitmask_t → qd_bitmask_t
  | [], link_set => link_set
  | rnode :: rest, link_set =>
    let link_set := match rx_dest_link s rnode with
      | some dest_link =>
        if qd_bitmask_value (s.node rnode).valid_origins origin
        then qd_bitmask_set_bit link_set (s.link dest_link).mask_bit
        else link_set
      | none => link_set
    rx_link_set s origin rest link_set

/-- One pass through the body of the `link_set` loop of `router_rx_handler`,
after `link_bit` was taken out of `link_set`. -/
def rx_remote_body (msg : qd_message_t) (delivery addr : Nat) (link_bit : Int)
    (acc : qd_router_t × Nat) : qd_router_t × Nat :=
  match acc.1.out_links_by_mask_bit link_bit with
  | some dest_link =>
    let fanout := acc.2 + 1
    let s := msg_fifo_insert_tail acc.1 dest_link (rx_routed_event acc.1 msg delivery fanout)
    let s := incr_transit s addr
    let s := qd_link_activate s dest_link
    (s, fanout)
  | none => acc

/-- The loop `while (qd_bitmask_first_set(link_set, &link_bit))` of
`router_rx_handler`; the first argument bounds the number of iterations. -/
def rx_forward_remote (msg : qd_message_t) (delivery : Nat) (addr : Nat) :
    Nat → qd_bitmask_t → qd_router_t × Nat → qd_router_t × Nat
  | 0, _, acc => acc
  | n + 1, link_set, acc =>
    match qd_bitmask_first_set link_set with
    | none => acc
    | some link_bit =>
      rx_forward_remote msg delivery addr n (qd_bitmask_clear_bit link_set link_bit)
        (rx_remote_body msg delivery addr link_bit acc)

/-- The mask bit of the ingress router as computed by `router_rx_handler`. -/
def rx_origin (s : qd_router_t) (ingress_iter : Option qd_field_iterator_t) (addr : Nat) : Int :=
  match ingress_iter with
  | some iter =>
    if (s.address addr).semantics.bypass_valid_origins = false then
      match qd_hash_retrieve s.addr_hash iter.node_hash with
      | some origin_addr =>
        match (s.address origin_addr).rnodes with
        | [rref] => (s.node rref).mask_bit
        | _ => -1
      | none => -1
    else 0
  | none => 0

/-- The local variables of `router_rx_handler` that outlive the routing block. -/
structure rx_locals where
  s : qd_router_t
  msg : qd_message_t
  in_process_copy : Option qd_message_t
  handler : Option Nat
  handler_context : Nat
  fanout : Nat

/-- The ingress count of `router_rx_handler`: deliveries arriving on an endpoint
link are counted in `deliveries_ingress`. -/
def rx_count_ingress (s : qd_router_t) (rlink addr : Nat) : qd_router_t :=
  if (s.link rlink).link_type = .QD_LINK_ENDPOINT then incr_ingress s addr else s

/-- The block `if (!drop && addr->handler)` of `router_rx_handler`: the
in-process handler is captured together with a copy of the message. -/
def rx_capture_handler (s : qd_router_t) (addr : Nat) (msg : qd_message_t) (drop : Bool) :
    rx_locals :=
  if drop = false ∧ ((s.address addr).handler).isSome then
    { s := incr_to_container s addr,
      msg := msg,
      in_process_copy := some (qd_message_copy msg),
      handler := (s.address addr).handler,
      handler_context := (s.address addr).handler_context,
      fanout := 0 }
  else
    { s := s, msg := msg, in_process_copy := none, handler := none, handler_context := 0,
      fanout := 0 }

/-- The remote fan-out of `router_rx_handler` (the block `if (!is_direct)`):
the origin, the link set and one copy per link of the set. -/
def rx_fan_out_remote (msg : qd_message_t) (delivery addr : Nat)
    (ingress_iter : Option qd_field_iterator_t) (acc : qd_router_t × Nat) : qd_router_t × Nat :=
  let origin := rx_origin acc.1 ingress_iter addr
  if origin ≥ 0 then
    let link_set := rx_link_set acc.1 origin (acc.1.address addr).rnodes qd_bitmask_empty
    rx_forward_remote msg delivery addr link_set.bits.length link_set acc
  else acc

/-- The block `if (!drop && !is_local)` of `router_rx_handler`: the local
fan-out followed, unless the address is direct, by the remote fan-out. -/
def rx_fan_out (msg : qd_message_t) (delivery addr : Nat)
    (ingress_iter : Option qd_field_iterator_t) (drop is_local is_direct : Bool)
    (acc : qd_router_t × Nat) : qd_router_t × Nat :=
  if drop = false ∧ is_local = false then
    let loc := rx_forward_local msg delivery addr (acc.1.address addr).rlinks acc
    if is_direct = false then rx_fan_out_remote msg delivery addr ingress_iter loc
    else loc
  else acc

/-- The block `if (addr) ...` of `router_rx_handler`. -/
def rx_addr_found (s : qd_router_t) (rlink delivery : Nat) (msg : qd_message_t) (addr : Nat)
    (is_local is_direct : Bool) : rx_locals :=
  let s := rx_count_ingress s rlink addr
  let ann := router_annotate_message (node_id s) msg false
  let msg := ann.1
  let drop := ann.2.1
  let ingress_iter := ann.2.2
  let captured := rx_capture_handler s addr msg drop
  let out := rx_fan_out msg delivery addr ingress_iter drop is_local is_direct
    (captured.s, captured.fanout)
  { captured with s := out.1, fanout := out.2 }

/-- The locals of `router_rx_handler` when nothing was routed: no handler, no
copy, `fanout = 0`. -/
def rx_no_route (s : qd_router_t) (msg : qd_message_t) : rx_locals :=
  { s := s, msg := msg, in_process_copy := none, handler := none, handler_context := 0,
    fanout := 0 }

/-- The block `if (iter)` of `router_rx_handler` up to the end of `if (addr)`:
the address lookup under the `to` field and the forwarding for a known
address. -/
def rx_route (s : qd_router_t) (rlink delivery : Nat) (msg : qd_message_t)
    (iter : qd_field_iterator_t) : rx_locals :=
  let addr := qd_hash_retrieve s.addr_hash iter.address_hash
  let is_local := qd_field_iterator_prefix iter.no_host local_prefix
  let is_direct := qd_field_iterator_prefix iter.no_host ( direct_prefix s)
  match addr with
  | some a => rx_addr_found s rlink delivery msg a is_local is_direct
  | none => rx_no_route s msg

/-- The decision of `router_rx_handler` on the ingress delivery: `ACCEPTED`
when a handler was captured, `RELEASED` when nothing was forwarded, freed
when it arrived settled, else left alive. -/
def rx_ingress_outcome (r : rx_locals) (delivery : Nat) : qd_router_t :=
  if r.handler.isSome then qd_delivery_free r.s delivery PN_ACCEPTED
  else if r.fanout = 0 then qd_delivery_free r.s delivery PN_RELEASED
  else if qd_delivery_settled r.s delivery then qd_delivery_free r.s delivery 0
  else r.s

/-- The message-routing part of `router_rx_handler`, from the validity check
to the decision on the ingress delivery. -/
def rx_message_routing (s : qd_router_t) (rlink delivery : Nat) (msg : qd_message_t) :
    rx_locals :=
  if qd_message_check msg then
    match qd_message_field_iterator_to msg with
    | some iter =>
      let r := rx_route s rlink delivery msg iter
      { r with s := rx_ingress_outcome r delivery }
    | none => rx_no_route s msg
  else
    { rx_no_route s msg with s := qd_delivery_free s delivery PN_REJECTED }

/-- The start of `router_rx_handler` for a complete message: the delivery is
consumed and one replacement credit issued. -/
def rx_consume (s : qd_router_t) (link : Nat) : qd_router_t :=
  log_call (log_call s (.pn_link_advance link)) (.pn_link_flow link 1)

/-- The link-routing short cut of `router_rx_handler`: the message goes to the
connected link as it is. -/
def rx_link_routing (s : qd_router_t) (clink delivery : Nat) (msg : qd_message_t) :
    qd_router_t :=
  let settled := qd_delivery_settled s delivery
  let re : qd_routed_event_t :=
    { delivery := if settled then none else some delivery,
      message := some msg, settle := false, disposition := 0 }
  let s := msg_fifo_insert_tail s clink re
  let s := if settled then qd_delivery_free s delivery 0 else s
  qd_link_activate s clink

/-- The inbound delivery handler `router_rx_handler(router, link, delivery)`;
`received` is what `qd_message_receive(delivery)` returns, `none` while the
message is incomplete. -/
def router_rx_handler (s : qd_router_t) (link delivery : Nat) (received : Option qd_message_t) :
    qd_router_t :=
  match received with
  | none => s
  | some msg =>
    let s := rx_consume s link
    match (s.link link).connected_link with
    | some clink => rx_link_routing s clink delivery msg
    | none =>
      let r := rx_message_routing s link delivery msg
      match r.handler with
      | some h =>
        log_call r.s (.handler h r.handler_context r.in_process_copy (r.s.link link).mask_bit)
      | none => r.s

/-! ## `router_writable_link_handler` -/

/-- The loop that moves routed events from the head of `msg_fifo` to the tail
of `to_send`, leaving as soon as `DEQ_SIZE(to_send) == link_credit`.  The
result is `(msg_fifo, to_send)`. -/
def writable_move (link_credit : Int) :
    List qd_routed_event_t → List qd_routed_event_t →
      List qd_routed_event_t × List qd_routed_event_t
  | [], to_send => ([], to_send)
  | re :: msg_fifo, to_send =>
    let to_send := to_send ++ [re]
    if (to_send.length : Int) = link_credit then (msg_fifo, to_send)
    else writable_move link_credit msg_fifo to_send

/-- The local variables of the send loop of `router_writable_link_handler`. -/
structure writable_locals where
  s : qd_router_t
  tag : Nat
  event_count : Nat

/-- One pass through the body of the `to_send` loop: a new delivery with the
next tag, the message sent, the deliveries peered or the new delivery freed
pre-settled, the link advanced. -/
def writable_send_body (link : Nat) (re : qd_routed_event_t) (acc : writable_locals) :
    writable_locals :=
  let tag := uint64_wrap (acc.tag + 1)
  let alloc := qd_delivery acc.s link tag
  let s := alloc.1
  let delivery := alloc.2
  let s := log_call s (.qd_message_send re.message link)
  let s := match re.delivery with
    | some d => qd_delivery_set_peer (qd_delivery_set_peer s d delivery) delivery d
    | none => qd_delivery_free s delivery 0
  let s := log_call s (.pn_link_advance link)
  { s := s, tag := tag, event_count := acc.event_count + 1 }

/-- The loop over `to_send`. -/
def writable_send (link : Nat) : List qd_routed_event_t → writable_locals → writable_locals
  | [], acc => acc
  | re :: to_send, acc => writable_send link to_send (writable_send_body link re acc)

/-- One pass through the body of the loop over the status events. -/
def writable_event_body (re : qd_routed_event_t) (acc : qd_router_t × Nat) : qd_router_t × Nat :=
  match re.delivery with
  | some d =>
    let upd1 : qd_router_t × Nat :=
      if re.disposition ≠ 0
      then (log_call acc.1 (.pn_delivery_update d re.disposition), acc.2 + 1)
      else acc
    if re.settle then (qd_delivery_free upd1.1 d 0, upd1.2 + 1) else upd1
  | none => acc

/-- The loop over the status events taken from `event_fifo`. -/
def writable_events : List qd_routed_event_t → qd_router_t × Nat → qd_router_t × Nat
  | [], acc => acc
  | re :: events, acc => writable_events events (writable_event_body re acc)

/-- The end of `router_writable_link_handler`: the offer is reported when
messages remain queued, else the link is reported drained, which counts as an
event when the drain mode has just changed to true. -/
def writable_report (s : qd_router_t) (link : Nat) (offer : Nat) (drain_changed drain_mode : Bool)
    (event_count : Nat) : qd_router_t × Nat :=
  if offer > 0 then
    (log_call s (.pn_link_offered link offer), event_count)
  else
    let s := log_call s (.pn_link_drained link)
    if drain_changed ∧ drain_mode then (s, event_count + 1) else (s, event_count)

/-- The move of `router_writable_link_handler` under the lock: with positive
credit the move loop runs from an empty `to_send`, else nothing moves.  The
result is `(msg_fifo, to_send)`. -/
def writable_take (link_credit : Int) (msg_fifo : List qd_routed_event_t) :
    List qd_routed_event_t × List qd_routed_event_t :=
  if link_credit > 0 then writable_move link_credit msg_fifo [] else (msg_fifo, [])

/-- The router after the locked block of `router_writable_link_handler`: the
`event_fifo` of the link emptied, the moved events taken off its `msg_fifo`,
and, with positive credit, `dtag` advanced by the size of `to_send`. -/
def writable_locked (s : qd_router_t) (link : Nat) (link_credit : Int) : qd_router_t :=
  let moved := writable_take link_credit (s.link link).msg_fifo
  let s := { s with
    link := upd s.link link { s.link link with event_fifo := [], msg_fifo := moved.1 } }
  if link_credit > 0 then { s with dtag := uint64_wrap (s.dtag + moved.2.length) } else s

/-- The outgoing link writable handler `router_writable_link_handler(router, link)`;
`link_credit` is `pn_link_credit`, `drain_changed` and `drain_mode` are what
`qd_link_drain_changed` reports.  The result is the state afterwards and the
returned `event_count`.  (The local `tag` is read from `dtag` under positive
credit only; without credit `to_send` is empty and `tag` is never used.) -/
def router_writable_link_handler (s : qd_router_t) (link : Nat) (link_credit : Int)
    (drain_changed drain_mode : Bool) : qd_router_t × Nat :=
  let events := (s.link link).event_fifo
  let to_send := (writable_take link_credit (s.link link).msg_fifo).2
  let tag := s.dtag
  let s := writable_locked s link link_credit
  let offer := (s.link link).msg_fifo.length
  let sent := writable_send link to_send { s := s, tag := tag, event_count := 0 }
  let done := writable_events events (sent.s, sent.event_count)
  writable_report done.1 link offer drain_changed drain_mode done.2

/-! ## `qd_router_send` -/

/-- The routed event built by `qd_router_send` for one copy. -/
def send_routed_event (msg : qd_message_t) : qd_routed_event_t :=
  { delivery := none, message := some (qd_message_copy msg), settle := false, disposition := 0 }

/-- One pass through the body of the `addr->rlinks` loop of `qd_router_send`. -/
def send_local_body (msg : qd_message_t) (addr dest_link : Nat) (s : qd_router_t) : qd_router_t :=
  let s := msg_fifo_insert_tail s dest_link (send_routed_event msg)
  let s := qd_link_activate s dest_link
  incr_egress s addr

/-- The loop of `qd_router_send` over `addr->rlinks`. -/
def send_forward_local (msg : qd_message_t) (addr : Nat) : List Nat → qd_router_t → qd_router_t
  | [], s => s
  | dest_link :: rest, s => send_forward_local msg addr rest (send_local_body msg addr dest_link s)

/-- The loop of `qd_router_send` over `addr->rnodes` that builds `link_set`. -/
def send_link_set (s : qd_router_t) : List Nat → qd_bitmask_t → qd_bitmask_t
  | [], link_set => link_set
  | rnode :: rest, link_set =>
    let link_set := match rx_dest_link s rnode with
      | some dest_link => qd_bitmask_set_bit link_set (s.link dest_link).mask_bit
      | none => link_set
    send_link_set s rest link_set

/-- One pass through the body of the `link_set` loop of `qd_router_send`,
after `link_bit` was taken out of `link_set`. -/
def send_remote_body (msg : qd_message_t) (addr : Nat) (link_bit : Int) (s : qd_router_t) :
    qd_router_t :=
  match s.out_links_by_mask_bit link_bit with
  | some dest_link =>
    let s := msg_fifo_insert_tail s dest_link (send_routed_event msg)
    let s := qd_link_activate s dest_link
    incr_transit s addr
  | none => s

/-- The loop `while (qd_bitmask_first_set(link_set, &link_bit))` of
`qd_router_send`; the first argument bounds the number of iterations. -/
def send_forward_remote (msg : qd_message_t) (addr : Nat) :
    Nat → qd_bitmask_t → qd_router_t → qd_router_t
  | 0, _, s => s
  | n + 1, link_set, s =>
    match qd_bitmask_first_set link_set with
    | none => s
    | some link_bit =>
      send_forward_remote msg addr n (qd_bitmask_clear_bit link_set link_bit)
        (send_remote_body msg addr link_bit s)

/-- The function `qd_router_send(qd, address, msg)`. -/
def qd_router_send (s : qd_router_t) (address : qd_field_iterator_t) (msg : qd_message_t) :
    qd_router_t :=
  match qd_hash_retrieve s.addr_hash address.address_hash with
  | some addr =>
    let s := incr_from_container s addr
    let s := send_forward_local msg addr (s.address addr).rlinks s
    let link_set := send_link_set s (s.address addr).rnodes qd_bitmask_empty
    send_forward_remote msg addr link_set.bits.length link_set s
  | none => s

/-- An address record without the statistics counters that message routing
bumps: what is left is the handler, the semantics, the destinations and
`deliveries_from_container`. -/
def address_config (a : qd_address_t) : qd_address_t :=
  { a with
    deliveries_ingress := 0
    deliveries_egress := 0
    deliveries_transit := 0
    deliveries_to_container := 0 }

/-- A link record without its message FIFO. -/
def link_config (l : qd_router_link_t) : qd_router_link_t :=
  { l with msg_fifo := [] }

/-! ## Observation points inside `router_rx_handler` -/

/-- The message as annotated by `router_rx_handler` before any copy is taken. -/
def rx_annotated (s : qd_router_t) (msg : qd_message_t) : qd_message_t :=
  (router_annotate_message (node_id s) msg false).1

/-- The value of `drop` after the annotation. -/
def rx_drop (s : qd_router_t) (msg : qd_message_t) : Bool :=
  (router_annotate_message (node_id s) msg false).2.1

/-- The ingress iterator returned by the annotation. -/
def rx_ingress_iter (s : qd_router_t) (msg : qd_message_t) : Option qd_field_iterator_t :=
  (router_annotate_message (node_id s) msg false).2.2

/-- The state and `fanout` of `router_rx_handler` for the known address `addr`
right before the loop over `addr->rlinks`. -/
def rx_before_local (s : qd_router_t) (link : Nat) (msg : qd_message_t) (addr : Nat) :
    qd_router_t × Nat :=
  let s1 := rx_count_ingress (rx_consume s link) link addr
  let captured := rx_capture_handler s1 addr (rx_annotated s msg) (rx_drop s msg)
  (captured.s, captured.fanout)

/-- The state and `fanout` of `router_rx_handler` for the known address `addr`
right after the loop over `addr->rlinks`, before the remote fan-out. -/
def rx_after_local (s : qd_router_t) (link delivery : Nat) (msg : qd_message_t) (addr : Nat) :
    qd_router_t × Nat :=
  rx_forward_local (rx_annotated s msg) delivery addr
    ((rx_before_local s link msg addr).1.address addr).rlinks (rx_before_local s link msg addr)

/-- The address record that the `to` field of the message resolves to, if any. -/
def rx_resolved (s : qd_router_t) (msg : qd_message_t) : Option Nat :=
  match qd_message_field_iterator_to msg with
  | some iter => qd_hash_retrieve s.addr_hash iter.address_hash
  | none => none

/-- The link set that `router_rx_handler` builds for the message and the
address `addr`: the loop over `addr->rnodes` run with the origin of the
message. -/
def rx_link_set_of (s : qd_router_t) (msg : qd_message_t) (addr : Nat) : qd_bitmask_t :=
  rx_link_set s (rx_origin s (rx_ingress_iter s msg) addr) (s.address addr).rnodes
    qd_bitmask_empty

/-! ## The wire, as seen in the call log -/

/-- The messages handed to `qd_message_send` on link `l`, in call order. -/
def sent_on (l : Nat) : List qd_call → List (Option qd_message_t)
  | [] => []
  | .qd_message_send m l' :: rest => if l' = l then m :: sent_on l rest else sent_on l rest
  | _ :: rest => sent_on l rest

/-- The messages of the events queued on the `msg_fifo` of link `l`, head first. -/
def queued_on (s : qd_router_t) (l : Nat) : List (Option qd_message_t) :=
  (s.link l).msg_fifo.map (fun re => re.message)

/-! ## Interleavings of producers and the egress scheduler -/

/-- One invocation of a producer of routed message events (`router_rx_handler`
or `qd_router_send`) or of the consumer `router_writable_link_handler`. -/
inductive router_op where
  | rx (link delivery : Nat) (received : Option qd_message_t)
  | send (address : qd_field_iterator_t) (msg : qd_message_t)
  | writable (link : Nat) (link_credit : Int) (drain_changed drain_mode : Bool)

/-- The state after one invocation. -/
def router_op.apply (s : qd_router_t) : router_op → qd_router_t
  | .rx link delivery received => router_rx_handler s link delivery received
  | .send address msg => qd_router_send s address msg
  | .writable link link_credit drain_changed drain_mode =>
    (router_writable_link_handler s link link_credit drain_changed drain_mode).1

/-- The state after a sequence of invocations, first to last. -/
def run_ops : List router_op → qd_router_t → qd_router_t
  | [], s => s
  | op :: ops, s => run_ops ops (op.apply s)

/-- The messages that one invocation enqueues on the `msg_fifo` of link `l`:
for a producer, what its `msg_fifo` holds afterwards beyond its length
before; for the egress scheduler, nothing. -/
def enqueued_by (s : qd_router_t) (l : Nat) : router_op → List (Option qd_message_t)
  | .writable _ _ _ _ => []
  | op => (((op.apply s).link l).msg_fifo.drop (s.link l).msg_fifo.length).map
            (fun re => re.message)

/-- The messages enqueued on link `l` over a sequence of invocations, in
enqueue order. -/
def enqueued_on (l : Nat) : List router_op → qd_router_t → List (Option qd_message_t)
  | [], _ => []
  | op :: ops, s => enqueued_by s l op ++ enqueued_on l ops (op.apply s)

/-! ## Frames: what the routing code leaves alone -/

/-- What the forwarding loops of `router_rx_handler` and `qd_router_send` for
address `addr` leave alone: they only append to message FIFOs, bump the egress
and transit counters of `addr`, and activate links. -/
structure fwd_frame (addr : Nat) (s s' : qd_router_t) : Prop where
  delivery : s'.delivery = s.delivery
  delivery_next : s'.delivery_next = s.delivery_next
  addr_hash : s'.addr_hash = s.addr_hash
  addrs : s'.addrs = s.addrs
  links : s'.links = s.links
  node : s'.node = s.node
  out_links : s'.out_links_by_mask_bit = s.out_links_by_mask_bit
  free_mask : s'.neighbor_free_mask = s.neighbor_free_mask
  area : s'.router_area = s.router_area
  id : s'.router_id = s.router_id
  dtag : s'.dtag = s.dtag
  address_other : ∀ b, b ≠ addr → s'.address b = s.address b
  address_same : { s'.address addr with deliveries_egress := 0, deliveries_transit := 0 } =
    { s.address addr with deliveries_egress := 0, deliveries_transit := 0 }
  link_same : ∀ l, link_config (s'.link l) = link_config (s.link l)
  fifo_grows : ∀ l, (s.link l).msg_fifo <+: (s'.link l).msg_fifo
  calls_grow : ∃ cs, s'.calls = s.calls ++ cs ∧ ∀ c ∈ cs, ∃ l, c = qd_call.qd_link_activate l

/-- What the routing block of `router_rx_handler` leaves alone: it only
appends to message FIFOs, bumps statistics counters other than
`deliveries_from_container`, and activates links. -/
structure route_frame (s s' : qd_router_t) : Prop where
  delivery : s'.delivery = s.delivery
  delivery_next : s'.delivery_next = s.delivery_next
  addr_hash : s'.addr_hash = s.addr_hash
  addrs : s'.addrs = s.addrs
  links : s'.links = s.links
  node : s'.node = s.node
  out_links : s'.out_links_by_mask_bit = s.out_links_by_mask_bit
  free_mask : s'.neighbor_free_mask = s.neighbor_free_mask
  area : s'.router_area = s.router_area
  id : s'.router_id = s.router_id
  dtag : s'.dtag = s.dtag
  address_same : ∀ b,
    address_config (s'.address b) = address_config (s.address b)
  link_same : ∀ l, link_config (s'.link l) = link_config (s.link l)
  fifo_grows : ∀ l, (s.link l).msg_fifo <+: (s'.link l).msg_fifo
  calls_grow : ∃ cs, s'.calls = s.calls ++ cs ∧ ∀ c ∈ cs, ∃ l, c = qd_call.qd_link_activate l

/-- The incoming trace list of a message: the items of the `trace` entry of
its delivery annotations when that entry is a list, else no item. -/
def incoming_trace (msg : qd_message_t) : List qd_field_iterator_t :=
  match qd_message_delivery_annotations msg with
  | some da =>
    match qd_parse_value_by_key da QD_DA_TRACE with
    | some (.list items) => items
    | _ => []
  | none => []

/-! ## `router_disp_handler` -/

/-- The delivery disposition handler `router_disp_handler(router, link, delivery)`. -/
def router_disp_handler (s : qd_router_t) (_link : Nat) (delivery : Nat) : qd_router_t :=
  let changed := (s.delivery delivery).disp_changed
  let disp := (s.delivery delivery).disp
  let settled := (s.delivery delivery).settled
  let peer := (s.delivery delivery).peer
  let s := match peer with
    | some p =>
      if changed ∨ settled then
        let peer_link := (s.delivery p).link
        let re : qd_routed_event_t :=
          { delivery := some p, message := none, settle := settled,
            disposition := if changed then disp else 0 }
        let s := event_fifo_insert_tail s peer_link re
        qd_link_activate s peer_link
      else s
    | none => s
  if settled then qd_delivery_free s delivery 0 else s

/-! ## Link references and `qd_router_check_addr` -/

/-- The function `qd_router_add_link_ref_LH(&addr->rlinks, link)`: a new
reference at the tail of the list, remembered in `link->ref`. -/
def qd_router_add_link_ref_LH (s : qd_router_t) (addr link : Nat) : qd_router_t :=
  let s := set_address s addr { s.address addr with rlinks := (s.address addr).rlinks ++ [link] }
  { s with link := upd s.link link { s.link link with ref := true } }

/-- The list without the last occurrence of `x`: a link's `ref` is the
reference added last for it. -/
def remove_last (x : Nat) (xs : List Nat) : List Nat :=
  (xs.reverse.erase x).reverse

/-- The function `qd_router_del_link_ref_LH(&addr->rlinks, link)`: when the
link has a reference, that reference leaves the list and `link->ref` is
cleared. -/
def qd_router_del_link_ref_LH (s : qd_router_t) (addr link : Nat) : qd_router_t :=
  if (s.link link).ref then
    let s := set_address s addr
      { s.address addr with rlinks := remove_last link (s.address addr).rlinks }
    { s with link := upd s.link link { s.link link with ref := false } }
  else s

/-- The call `qd_hash_key_by_handle(addr->hash_handle)`: the key under which
the address record sits in the table.  The hash handle of an address record is
the table entry that holds the record. -/
def qd_hash_key_by_handle : List (String × Nat) → Nat → Option String
  | [], _ => none
  | (k, a) :: rest, addr => if a = addr then some k else qd_hash_key_by_handle rest addr

/-- The call `qd_hash_remove_by_handle2(hash, addr->hash_handle, &key)`: the
table without the entry of the address record. -/
def qd_hash_remove_by_handle (h : List (String × Nat)) (addr : Nat) : List (String × Nat) :=
  h.filter (fun e => decide (e.2 ≠ addr))

/-- The call `qd_hash_insert(hash, iter, addr, &handle)` with the key that the
iterator presents. -/
def qd_hash_insert (h : List (String × Nat)) (key : String) (addr : Nat) : List (String × Nat) :=
  h ++ [(key, addr)]

/-- The statement `DEQ_REMOVE(list, x)` on a list of records that carry their
own list links, so that a record is in the list at most once. -/
def deq_remove (xs : List Nat) (x : Nat) : List Nat :=
  xs.filter (fun y => decide (y ≠ x))

/-- The first octet of a key is `M`: the address is of mobile class. -/
def key_is_mobile (key : Option String) : Bool :=
  match key with
  | some k => decide (k.data.head? = some 'M')
  | none => false

/-- The function `qd_router_check_addr(router, addr, was_local)`. -/
def qd_router_check_addr (s : qd_router_t) (addr : Option Nat) (was_local : Bool) :
    qd_router_t :=
  match addr with
  | none => s
  | some a =>
    let to_delete : Bool :=
      decide ((s.address a).handler = none ∧ (s.address a).rlinks.length = 0 ∧
        (s.address a).rnodes.length = 0)
    let no_more_locals : Bool := was_local && decide ((s.address a).rlinks.length = 0)
    let key : Option String :=
      if to_delete then qd_hash_key_by_handle s.addr_hash a
      else if no_more_locals then qd_hash_key_by_handle s.addr_hash a
      else none
    let s1 :=
      if to_delete then
        { s with
          addr_hash := qd_hash_remove_by_handle s.addr_hash a
          addrs := deq_remove s.addrs a }
      else s
    if no_more_locals ∧ key_is_mobile key then log_call s1 (.qd_router_mobile_removed (key.getD ""))
    else s1

/-! ## Link classification and the mask-bit allocator -/

def router_role : String := "inter-router"

/-- Modelled from the spec: the fixed capability symbol `ROUTER` of
inter-router links (the constant `QD_CAPABILITY_ROUTER` is declared outside
the sources; its bytes are implementation-defined). -/
def QD_CAPABILITY_ROUTER : String := "qd.router"

/-- The function `qd_router_connection_is_inter_router(conn)`. -/
def qd_router_connection_is_inter_router (s : qd_router_t) (conn : Nat) : Bool :=
  match s.conn_role conn with
  | some role => decide (role = router_role)
  | none => false

/-- The function `qd_router_terminus_is_router(term)`: the first value of the
capabilities is the router symbol. -/
def qd_router_terminus_is_router (term : pn_terminus_t) : Bool :=
  match term.capabilities with
  | .symbol sym :: _ => decide (sym = QD_CAPABILITY_ROUTER)
  | _ => false

/-- The function `qd_router_find_mask_bit_LH(router, link)`: the bit of the
shared context of the link's connection when there is one; else the lowest
free bit, which is cleared and recorded in a new shared context; else `-1`. -/
def qd_router_find_mask_bit_LH (s : qd_router_t) (link : Nat) : qd_router_t × Int :=
  match s.conn_context (s.link_conn link) with
  | some mask_bit => (s, mask_bit)
  | none =>
    match qd_bitmask_first_set s.neighbor_free_mask with
    | some mask_bit =>
      ({ s with
          neighbor_free_mask := qd_bitmask_clear_bit s.neighbor_free_mask mask_bit
          conn_context := upd s.conn_context (s.link_conn link) (some mask_bit) },
       mask_bit)
    | none => (s, -1)

/-! ## `qd_router_generate_temp_addr` -/

def temp_addr_table : String :=
  "abcdefghijklmnopqrstuvwxyzABCDEFGHIJKLMNOPQRSTUVWXYZ0123456789+_"

/-- The six characters of the discriminator for the random draw `rnd`. -/
def temp_addr_discriminator (rnd : Nat) : List Char :=
  (List.range 6).map (fun idx => temp_addr_table.data.getD ((rnd >>> (idx * 6)) &&& 63) 'a')

/-- The function `qd_router_generate_temp_addr(router, buffer, length)` for the
random draw `rnd`: what `snprintf` leaves in the buffer. -/
def qd_router_generate_temp_addr (s : qd_router_t) (rnd : Nat) (length : Nat) : String :=
  let full := "amqp:/" ++ topo_prefix ++ s.router_area ++ "/" ++ s.router_id ++ "/temp." ++
    String.mk (temp_addr_discriminator rnd)
  String.mk (full.data.take (length - 1))

/-! ## Link open handlers -/

/-- The record a link handler creates for a new link, before its mask bit and
address are known. -/
def new_router_link (link_type : qd_link_type_t) (dir : qd_direction_t) (mask_bit : Int) :
    qd_router_link_t :=
  { mask_bit := mask_bit, link_type := link_type, link_direction := dir, owning_addr := none,
    connected_link := none, peer_link := none, ref := false, event_fifo := [], msg_fifo := [] }

/-- The statements `qd_link_set_context(link, rlink)` with a new record. -/
def set_link_record (s : qd_router_t) (link : Nat) (rlink : qd_router_link_t) : qd_router_t :=
  { s with link := upd s.link link rlink, link_context := upd s.link_context link true }

/-- The two calls `pn_terminus_copy` of the link handlers: the local termini
become copies of the remote ones. -/
def copy_termini (s : qd_router_t) (link : Nat) : qd_router_t :=
  { s with
    link_source := upd s.link_source link (s.remote_source link)
    link_target := upd s.link_target link (s.remote_target link) }

/-- The statement `DEQ_INSERT_TAIL(router->links, rlink)`. -/
def links_insert_tail (s : qd_router_t) (link : Nat) : qd_router_t :=
  { s with links := s.links ++ [link] }

/-- The new incoming link handler `router_incoming_link_handler(router, link)`. -/
def router_incoming_link_handler (s : qd_router_t) (link : Nat) : qd_router_t :=
  let is_router := qd_router_terminus_is_router (s.remote_source link)
  if is_router = true ∧ qd_router_connection_is_inter_router s (s.link_conn link) = false then
    log_call s (.pn_link_close link)
  else
    let found : qd_router_t × Int :=
      if is_router then qd_router_find_mask_bit_LH s link else (s, 0)
    let rlink := new_router_link (if is_router then .QD_LINK_ROUTER else .QD_LINK_ENDPOINT)
      .QD_INCOMING found.2
    let s := set_link_record found.1 link rlink
    let s := links_insert_tail s link
    let s := copy_termini s link
    let s := log_call s (.pn_link_flow link 1000)
    log_call s (.pn_link_open link)

/-- The call `qd_field_iterator_octet(iter)` on a view: its first octet, or 0
at the end. -/
def qd_field_iterator_octet (view : String) : Char :=
  view.data.headD (Char.ofNat 0)

/-- The address record `new_qd_address_t` hands out after `memset(addr, 0, ...)`,
with the given semantics. -/
def new_address (semantics : qd_address_semantics_t) : qd_address_t :=
  { handler := none, handler_context := 0, semantics := semantics, rlinks := [], rnodes := [],
    deliveries_ingress := 0, deliveries_egress := 0, deliveries_transit := 0,
    deliveries_to_container := 0, deliveries_from_container := 0 }

/-- The lookup of an address record under a key and, when there is none, the
creation of a new record that is inserted under the key and appended to the
address list.  The result is the state and the address record. -/
def find_or_create_address (s : qd_router_t) (key : String) (semantics : qd_address_semantics_t) :
    qd_router_t × Nat :=
  match qd_hash_retrieve s.addr_hash key with
  | some addr => (s, addr)
  | none =>
    ({ s with
        address := upd s.address s.address_next (new_address semantics)
        address_next := s.address_next + 1
        addr_hash := qd_hash_insert s.addr_hash key s.address_next
        addrs := s.addrs ++ [s.address_next] },
     s.address_next)

/-- The router-link branch of `router_outgoing_link_handler`: the link gets the
mask bit of its connection, joins the links of the hello address and is
indexed in `out_links_by_mask_bit`.  (`hello_addr` is assigned in interior
mode only; without it the source dereferences an unassigned pointer, and the
embedding leaves the link without address.) -/
def outgoing_router_link (s : qd_router_t) (link : Nat) : qd_router_t :=
  let found := qd_router_find_mask_bit_LH s link
  let s := set_link_record found.1 link
    (new_router_link .QD_LINK_ROUTER .QD_OUTGOING found.2)
  let s := match s.hello_addr with
    | some hello =>
      let s := qd_router_add_link_ref_LH s hello link
      { s with link := upd s.link link { s.link link with owning_addr := some hello } }
    | none => s
  { s with
    out_links_by_mask_bit := fun b => if b = found.2 then some link else s.out_links_by_mask_bit b }

/-- The endpoint branch of `router_outgoing_link_handler` for the source
address given by `iter`: the address record is looked up or created, the link
joins its `rlinks`, and `propagate` tells whether this is the first local
subscriber of a non-dynamic address. -/
def outgoing_endpoint_link (s : qd_router_t) (link : Nat) (iter : qd_field_iterator_t)
    (is_dynamic : Bool) : qd_router_t × Bool :=
  let s := set_link_record s link (new_router_link .QD_LINK_ENDPOINT .QD_OUTGOING 0)
  let found := find_or_create_address s iter.address_hash default_semantics
  let s := found.1
  let addr := found.2
  let s := { s with link := upd s.link link { s.link link with owning_addr := some addr } }
  let s := qd_router_add_link_ref_LH s addr link
  (s, !is_dynamic && decide ((s.address addr).rlinks.length = 1))

/-- The iterator with no octets, standing for a null iterator. -/
def null_iterator : qd_field_iterator_t :=
  { all := "", no_host := "", address_hash := "", node_hash := "" }

/-- The part of `router_outgoing_link_handler` after the three rejections.
`iter` is the iterator over the source address of a non-dynamic endpoint link
(never null for such a link: a null source address was rejected). -/
def outgoing_link_accept (iterator_string : String → qd_field_iterator_t) (s : qd_router_t)
    (link : Nat) (rnd : Nat) (iter : Option qd_field_iterator_t) (is_router is_dynamic : Bool) :
    qd_router_t :=
  let s := copy_termini s link
  if is_router then
    let s := outgoing_router_link s link
    let s := links_insert_tail s link
    log_call s (.pn_link_open link)
  else
    let temp_addr := qd_router_generate_temp_addr s rnd 1000
    let iter : qd_field_iterator_t :=
      if is_dynamic then iterator_string temp_addr else iter.getD null_iterator
    let s :=
      if is_dynamic then
        { s with
          link_source := upd s.link_source link
            { s.link_source link with address := some temp_addr } }
      else s
    let bound := outgoing_endpoint_link s link iter is_dynamic
    let s := links_insert_tail bound.1 link
    let s := if bound.2 then log_call s (.qd_router_mobile_added iter) else s
    log_call s (.pn_link_open link)

/-- The new outgoing link handler `router_outgoing_link_handler(router, link)`;
`iterator_string` is `qd_field_iterator_string` of the iterator library and
`rnd` the value that `random()` returns if it is called. -/
def router_outgoing_link_handler (iterator_string : String → qd_field_iterator_t)
    (s : qd_router_t) (link : Nat) (rnd : Nat) : qd_router_t :=
  let r_src := (s.remote_source link).address
  let is_dynamic := (s.remote_source link).dynamic
  let is_router := qd_router_terminus_is_router (s.remote_target link)
  if is_router = true ∧ qd_router_connection_is_inter_router s (s.link_conn link) = false then
    log_call s (.pn_link_close link)
  else if r_src = none ∧ is_router = false ∧ is_dynamic = false then
    log_call s (.pn_link_close link)
  else
    let iter : Option qd_field_iterator_t :=
      if is_router = false ∧ is_dynamic = false then r_src.map iterator_string else none
    match iter with
    | some it =>
      if qd_field_iterator_octet it.address_hash ≠ 'M' then log_call s (.pn_link_close link)
      else outgoing_link_accept iterator_string s link rnd iter is_router is_dynamic
    | none => outgoing_link_accept iterator_string s link rnd iter is_router is_dynamic

/-! ## `router_link_detach_handler` -/

/-- The first statements of `router_link_detach_handler`: the shared context of
the link's connection, when there is one, is freed and reset. -/
def detach_conn_context (s : qd_router_t) (link : Nat) : qd_router_t :=
  match s.conn_context (s.link_conn link) with
  | some _ => { s with conn_context := upd s.conn_context (s.link_conn link) none }
  | none => s

/-- The address whose `rlinks` an outgoing link is a member of. -/
def detach_oaddr (rlink : qd_router_link_t) : Option Nat :=
  if rlink.link_direction = .QD_OUTGOING then rlink.owning_addr else none

/-- The locked part of `router_link_detach_handler` for a link with a record,
up to the removal from the link list. -/
def detach_unlink (s : qd_router_t) (link : Nat) : qd_router_t :=
  let rlink := s.link link
  let s := match detach_oaddr rlink with
    | some a => qd_router_del_link_ref_LH s a link
    | none => s
  let s :=
    if rlink.link_type = .QD_LINK_ROUTER ∧ rlink.link_direction = .QD_OUTGOING then
      if s.out_links_by_mask_bit rlink.mask_bit = some link then
        { s with
          out_links_by_mask_bit := fun b =>
            if b = rlink.mask_bit then none else s.out_links_by_mask_bit b }
      else s
    else s
  let s :=
    if rlink.link_type = .QD_LINK_ROUTER ∧ rlink.link_direction = .QD_INCOMING then
      { s with neighbor_free_mask := qd_bitmask_set_bit s.neighbor_free_mask rlink.mask_bit }
    else s
  { s with links := deq_remove s.links link }

/-- The link detached handler `router_link_detach_handler(router, link, closed)`.
The record freed at the end is no longer the context of the link. -/
def router_link_detach_handler (s : qd_router_t) (link : Nat) (_closed : Bool) : qd_router_t :=
  let s := detach_conn_context s link
  if s.link_context link = false then s
  else
    let oaddr := detach_oaddr (s.link link)
    let s := detach_unlink s link
    let s := qd_router_check_addr s oaddr true
    { s with link_context := upd s.link_context link false }

/-! ## `router_outbound_open_handler` -/

/-- The outbound connection handler `router_outbound_open_handler(router, conn)`;
`receiver` and `sender` are the links that the two calls of `qd_link` create
on the connection. -/
def router_outbound_open_handler (s : qd_router_t) (conn receiver sender : Nat) : qd_router_t :=
  if qd_router_connection_is_inter_router s conn = false then s
  else
    match qd_bitmask_first_set s.neighbor_free_mask with
    | none => s
    | some mask_bit =>
      let s := { s with
        neighbor_free_mask := qd_bitmask_clear_bit s.neighbor_free_mask mask_bit }
      let s := { s with
        link_conn := upd s.link_conn receiver conn
        link_target := upd s.link_target receiver
          { s.link_target receiver with
            capabilities := (s.link_target receiver).capabilities ++
              [.symbol QD_CAPABILITY_ROUTER] } }
      let s := set_link_record s receiver
        (new_router_link .QD_LINK_ROUTER .QD_INCOMING mask_bit)
      let s := links_insert_tail s receiver
      let s := { s with
        link_conn := upd s.link_conn sender conn
        link_source := upd s.link_source sender
          { s.link_source sender with
            capabilities := (s.link_source sender).capabilities ++
              [.symbol QD_CAPABILITY_ROUTER] } }
      let s := set_link_record s sender
        { new_router_link .QD_LINK_ROUTER .QD_OUTGOING mask_bit with
          owning_addr := s.hello_addr }
      let s := match s.hello_addr with
        | some hello => qd_router_add_link_ref_LH s hello sender
        | none => s
      let s := { s with
        out_links_by_mask_bit := fun b =>
          if b = mask_bit then some sender else s.out_links_by_mask_bit b }
      let s := links_insert_tail s sender
      let s := log_call s (.pn_link_open receiver)
      let s := log_call s (.pn_link_open sender)
      log_call s (.pn_link_flow receiver 1000)

/-! ## `qd_router` and `qd_router_register_address` -/

/-- The function `qd_router_register_address(qd, address, handler, semantics,
context)`: the state afterwards and the address record returned. -/
def qd_router_register_address (iterator_string : String → qd_field_iterator_t)
    (s : qd_router_t) (address : String) (handler : Option Nat)
    (semantics : qd_address_semantics_t) (context : Nat) : qd_router_t × Nat :=
  let iter := iterator_string ("L" ++ address)
  let found := find_or_create_address s iter.no_host semantics
  let s := found.1
  let addr := found.2
  (set_address s addr { s.address addr with handler := handler, handler_context := context },
   addr)

inductive qd_router_mode_t where
  | QD_ROUTER_MODE_STANDALONE
  | QD_ROUTER_MODE_INTERIOR
  | QD_ROUTER_MODE_EDGE
deriving DecidableEq, Repr

/-- Modelled from the spec: `qd_bitmask(1)`, the bitmask of the given width
with every bit set. -/
def qd_bitmask_full (width : Nat) : qd_bitmask_t :=
  ⟨(List.range width).map (fun n => (n : Int))⟩

/-- The function `qd_router(qd, mode, area, id)` as far as the routing tables
go: `world` holds the protocol objects and the heaps the router finds, `width`
is `qd_bitmask_width()`. -/
def qd_router (iterator_string : String → qd_field_iterator_t) (world : qd_router_t)
    (width : Nat) (mode : qd_router_mode_t) (area id : String) : qd_router_t :=
  let s := { world with
    router_area := area
    router_id := id
    addrs := []
    addr_hash := []
    links := []
    out_links_by_mask_bit := fun _ => none
    neighbor_free_mask := qd_bitmask_full width
    dtag := 1
    router_addr := none
    hello_addr := none }
  if mode = .QD_ROUTER_MODE_INTERIOR then
    let r1 := qd_router_register_address iterator_string s "qdrouter" none router_semantics 0
    let r2 := qd_router_register_address iterator_string r1.1 "qdhello" none router_semantics 0
    { r2.1 with router_addr := some r1.2, hello_addr := some r2.2 }
  else s

/-! ## The grounds for refusing an outgoing link -/

/-- The three grounds on which the specification says an outgoing link is
refused: (a) the remote target claims the router capability on a connection
that is not inter-router; (b) an endpoint link that is not dynamic has no
source address; (c) an endpoint link that is not dynamic has a source address
whose hash key does not begin with `M`. -/
def outgoing_link_rejected (iterator_string : String → qd_field_iterator_t) (s : qd_router_t)
    (link : Nat) : Bool :=
  let is_router := qd_router_terminus_is_router (s.remote_target link)
  let is_dynamic := (s.remote_source link).dynamic
  (is_router && !qd_router_connection_is_inter_router s (s.link_conn link)) ||
  (!is_router && !is_dynamic && decide ((s.remote_source link).address = none)) ||
  (!is_router && !is_dynamic &&
    match (s.remote_source link).address with
    | some src => decide ((iterator_string src).address_hash.data.head? ≠ some 'M')
    | none => false)

/-- The iterator over the source address that an accepted endpoint link is
bound to: the temporary address for a dynamic source, else the remote source
address. -/
def outgoing_source_iterator (iterator_string : String → qd_field_iterator_t) (s : qd_router_t)
    (link : Nat) (rnd : Nat) : qd_field_iterator_t :=
  if (s.remote_source link).dynamic then
    iterator_string (qd_router_generate_temp_addr s rnd 1000)
  else ((s.remote_source link).address.map iterator_string).getD null_iterator

/-! ## Router events and reachable states -/

/-- The events that change the routing tables: the registration of an address,
the opening of an incoming or outgoing link by the peer, the opening of an
outbound connection, the detach of a link, and a check of an address. -/
inductive router_event where
  | register_address (address : String) (handler : Option Nat)
      (semantics : qd_address_semantics_t) (context : Nat)
  | incoming_link (link : Nat)
  | outgoing_link (link : Nat) (rnd : Nat)
  | outbound_open (conn receiver sender : Nat)
  | link_detach (link : Nat) (closed : Bool)
  | check_addr (addr : Option Nat) (was_local : Bool)
deriving DecidableEq, Repr

/-- The state after an event. -/
def router_event.apply (iterator_string : String → qd_field_iterator_t) (s : qd_router_t) :
    router_event → qd_router_t
  | .register_address address handler semantics context =>
    (qd_router_register_address iterator_string s address handler semantics context).1
  | .incoming_link link => router_incoming_link_handler s link
  | .outgoing_link link rnd => router_outgoing_link_handler iterator_string s link rnd
  | .outbound_open conn receiver sender => router_outbound_open_handler s conn receiver sender
  | .link_detach link closed => router_link_detach_handler s link closed
  | .check_addr addr was_local => qd_router_check_addr s addr was_local

/-- The states reached from `s0` by events that the guard admits. -/
inductive reachable (iterator_string : String → qd_field_iterator_t)
    (guard : qd_router_t → router_event → Prop) (s0 : qd_router_t) : qd_router_t → Prop where
  | init : reachable iterator_string guard s0 s0
  | step (s : qd_router_t) (e : router_event) :
      reachable iterator_string guard s0 s → guard s e →
      reachable iterator_string guard s0 (e.apply iterator_string s)

/-- The container's discipline for links: an open handler runs for a link that
has no router link record, and the two links of an outbound connection are
new and distinct. -/
def router_event.fresh (s : qd_router_t) : router_event → Prop
  | .incoming_link link => s.link_context link = false
  | .outgoing_link link _ => s.link_context link = false
  | .outbound_open _ receiver sender =>
    s.link_context receiver = false ∧ s.link_context sender = false ∧ receiver ≠ sender
  | _ => True

/-- Registrations pass a handler. -/
def router_event.registers_handler (_s : qd_router_t) : router_event → Prop
  | .register_address _ handler _ _ => handler ≠ none
  | _ => True

/-- A link with a record of an incoming router link. -/
def live_incoming_router (s : qd_router_t) (link : Nat) : Prop :=
  s.link_context link = true ∧ (s.link link).link_type = .QD_LINK_ROUTER ∧
  (s.link link).link_direction = .QD_INCOMING

/-- The discipline under which the mask bits are accounted for: links are new
when they open; an incoming router link opens on an inter-router connection
only while that connection carries no other incoming router link, and while a
mask bit is at hand (the connection has a shared context or a bit is free). -/
def router_event.orderly (s : qd_router_t) : router_event → Prop
  | .incoming_link link =>
    s.link_context link = false ∧
    (qd_router_terminus_is_router (s.remote_source link) = true →
      qd_router_connection_is_inter_router s (s.link_conn link) = true →
      (∀ other, live_incoming_router s other → s.link_conn other ≠ s.link_conn link) ∧
      (s.conn_context (s.link_conn link) ≠ none ∨
        qd_bitmask_first_set s.neighbor_free_mask ≠ none))
  | .outgoing_link link _ => s.link_context link = false
  | .outbound_open _ receiver sender =>
    s.link_context receiver = false ∧ s.link_context sender = false ∧ receiver ≠ sender
  | _ => True

/-- The protocol objects and heaps before the router starts: no link has a
router link record, no connection has a shared context, and no address record
has a member in its `rlinks`. -/
def pristine (world : qd_router_t) : Prop :=
  (∀ link, world.link_context link = false) ∧
  (∀ conn, world.conn_context conn = none) ∧
  (∀ addr, (world.address addr).rlinks = [])

/-- The address record is in the address table: in the hash table under some
key, or in the address list. -/
def in_address_table (s : qd_router_t) (addr : Nat) : Prop :=
  addr ∈ s.addrs ∨ ∃ key, (key, addr) ∈ s.addr_hash

/-- The address record has no handler, no `rlinks` and no `rnodes`. -/
def address_unused (s : qd_router_t) (addr : Nat) : Prop :=
  (s.address addr).handler = none ∧ (s.address addr).rlinks = [] ∧
  (s.address addr).rnodes = []

/-- Every entry of `out_links_by_mask_bit` is a link with a record of an
outgoing router link whose mask bit is the index. -/
def out_links_indexed (s : qd_router_t) : Prop :=
  ∀ b l, s.out_links_by_mask_bit b = some l →
    s.link_context l = true ∧ (s.link l).mask_bit = b ∧
    (s.link l).link_type = .QD_LINK_ROUTER ∧ (s.link l).link_direction = .QD_OUTGOING

/-- Every unused address record in the address table is one of the two
addresses that `qd_router` registers for the router itself. -/
def unused_only_router_addrs (s : qd_router_t) : Prop :=
  ∀ a, in_address_table s a → address_unused s a →
    s.router_addr = some a ∨ s.hello_addr = some a

/-- The `rlinks` of the address records agree with the `owning_addr` of the
link records: a link with a record of an outgoing link that names an address
is once in the `rlinks` of that address and has its `ref`; each member of an
`rlinks` is such a link; and the addresses named by links, by `hello_addr`
and by the table have been handed out. -/
structure rlinks_consistent (s : qd_router_t) : Prop where
  member_once : ∀ l a, s.link_context l = true →
    (s.link l).link_direction = .QD_OUTGOING → (s.link l).owning_addr = some a →
    (s.address a).rlinks.count l = 1 ∧ (s.link l).ref = true
  member_owned : ∀ a l, l ∈ (s.address a).rlinks →
    s.link_context l = true ∧ (s.link l).link_direction = .QD_OUTGOING ∧
    (s.link l).owning_addr = some a
  owner_allocated : ∀ l a, s.link_context l = true → (s.link l).owning_addr = some a →
    a < s.address_next
  hello_allocated : ∀ h, s.hello_addr = some h → h < s.address_next
  table_allocated : ∀ k a, (k, a) ∈ s.addr_hash → a < s.address_next

/-- The accounting of the mask bits, over the free mask, the shared contexts
of the connections, and the incoming router links with their mask bits and
connections: a bit held by a shared context is not free and is held by one
connection only; the bit of an incoming router link is not free, is not held
by another connection, and is the bit of no other incoming router link. -/
structure mask_inv (free : qd_bitmask_t) (ctx : Nat → Option Int) (live : Nat → Prop)
    (mask : Nat → Int) (conn : Nat → Nat) : Prop where
  held_not_free : ∀ c b, ctx c = some b → b ∉ free.bits
  held_once : ∀ c c' b, ctx c = some b → ctx c' = some b → c = c'
  incoming_not_free : ∀ l, live l → mask l ∉ free.bits
  incoming_not_held_elsewhere : ∀ l c, live l → c ≠ conn l → ctx c ≠ some (mask l)
  incoming_distinct : ∀ l l', live l → live l' → mask l = mask l' → l = l'

/-- The accounting of the mask bits in a router state. -/
def mask_bits_accounted (s : qd_router_t) : Prop :=
  mask_inv s.neighbor_free_mask s.conn_context (live_incoming_router s)
    (fun l => (s.link l).mask_bit) s.link_conn

/-- The incoming ingress annotation of a message: the raw iterator of the
`ingress` entry of its delivery annotations when that entry is a scalar, else
none. -/
def incoming_ingress (msg : qd_message_t) : Option qd_field_iterator_t :=
  match qd_message_delivery_annotations msg with
  | some da =>
    match qd_parse_value_by_key da QD_DA_INGRESS with
    | some (.scalar raw) => some raw
    | _ => none
  | none => none

/-- The two calls by which `router_writable_link_handler` reports the state of
the link at its end. -/
def is_link_report : qd_call → Bool
  | .pn_link_offered _ _ => true
  | .pn_link_drained _ => true
  | _ => false

/-- A status event that makes `router_writable_link_handler` update a
disposition: it has a delivery and a non-zero disposition. -/
def updates_disposition (re : qd_routed_event_t) : Bool :=
  re.delivery.isSome && decide (re.disposition ≠ 0)

/-- A status event that makes `router_writable_link_handler` settle a
delivery: it has a delivery and `settle` set. -/
def settles_delivery (re : qd_routed_event_t) : Bool :=
  re.delivery.isSome && re.settle

/-- An invocation of `router_writable_link_handler`. -/
def router_op.is_writable : router_op → Bool
  | .writable _ _ _ _ => true
  | _ => false

/-- The links of `s'` differ from those of `s` only by events without
delivery appended to message FIFOs, and the deliveries are the same. -/
def appends_unpeered (s s' : qd_router_t) : Prop :=
  (∀ l, ∃ evs : List qd_routed_event_t,
    (s'.link l).msg_fifo = (s.link l).msg_fifo ++ evs ∧ (∀ e ∈ evs, e.delivery = none) ∧
    (s'.link l).event_fifo = (s.link l).event_fifo) ∧
  s'.delivery = s.delivery

/-- The routed events that `s'` holds on the `msg_fifo` of link `l` beyond
those that `s` holds there. -/
def enqueued_events (s s' : qd_router_t) (l : Nat) : List qd_routed_event_t :=
  (s'.link l).msg_fifo.drop (s.link l).msg_fifo.length

/-- What the fan-out of `router_rx_handler` for the delivery `d` has done at a
point `acc` (state and `fanout`) since the state `s0`: the deliveries are
untouched; every event appended to a message FIFO carries no delivery or
carries `d`, and `d` only when it is not settled; and once a copy has been
counted for a delivery that is not settled, some appended event carries `d`. -/
def rx_tagged (d : Nat) (s0 : qd_router_t) (acc : qd_router_t × Nat) : Prop :=
  acc.1.delivery = s0.delivery ∧
  (∀ l, ∃ evs : List qd_routed_event_t,
    (acc.1.link l).msg_fifo = (s0.link l).msg_fifo ++ evs ∧
    ∀ e ∈ evs, e.delivery = none ∨
      (e.delivery = some d ∧ qd_delivery_settled s0 d = false)) ∧
  (1 ≤ acc.2 → qd_delivery_settled s0 d = false →
    ∃ l, ∃ evs : List qd_routed_event_t,
      (acc.1.link l).msg_fifo = (s0.link l).msg_fifo ++ evs ∧
      ∃ e ∈ evs, e.delivery = some d)

/-- What a call notifies about the mobile address with hash key `k`: `true`
for `qd_router_mobile_added`, `false` for `qd_router_mobile_removed`, nothing
for any other call. -/
def mobile_note (k : String) : qd_call → Option Bool
  | .qd_router_mobile_added iter => if iter.address_hash = k then some true else none
  | .qd_router_mobile_removed key => if key = k then some false else none
  | _ => none

/-- The notifications about the address with hash key `k` in a call log, in
call order. -/
def mobile_notes (k : String) (calls : List qd_call) : List Bool :=
  calls.filterMap (mobile_note k)

/-- The first `n` terms of the sequence added, removed, added, removed, ... -/
def alternation : Nat → List Bool
  | 0 => []
  | n + 1 => alternation n ++ [decide (n % 2 = 0)]

/-- The local subscribers of the address with hash key `k`: the `rlinks` of
the record that the table holds under `k`, none when it holds no record. -/
def local_subscribers (s : qd_router_t) (k : String) : List Nat :=
  match qd_hash_retrieve s.addr_hash k with
  | some a => (s.address a).rlinks
  | none => []

/-- The hash table holds every key once and every address record once. -/
def table_wf (s : qd_router_t) : Prop :=
  (s.addr_hash.map Prod.fst).Nodup ∧ (s.addr_hash.map Prod.snd).Nodup

/-- The operations of the subscribers of the address with hash key `k`: the
open of a new outgoing endpoint link whose source is not dynamic and has that
key, and the detach of a link that has no record or is an outgoing link bound
to the record that the table holds under `k`. -/
def router_event.subscribes (iterator_string : String → qd_field_iterator_t) (k : String)
    (s : qd_router_t) : router_event → Prop
  | .outgoing_link link _ =>
    s.link_context link = false ∧
    qd_router_terminus_is_router (s.remote_target link) = false ∧
    (s.remote_source link).dynamic = false ∧
    ∃ src, (s.remote_source link).address = some src ∧ (iterator_string src).address_hash = k
  | .link_detach link _ =>
    s.link_context link = true →
      (s.link link).link_direction = .QD_OUTGOING ∧
      ∃ a, (s.link link).owning_addr = some a ∧ qd_hash_retrieve s.addr_hash k = some a
  | _ => False

/-- What holds of the notifications about the address with key `k` after the
operations of its subscribers since `s0`: the link references are consistent,
the table is well formed, and the notifications since `s0` alternate, starting
with `qd_router_mobile_added`, their number being odd exactly when the address
has a local subscriber. -/
structure subscription_inv (k : String) (s0 s : qd_router_t) : Prop where
  consistent : rlinks_consistent s
  table : table_wf s
  notes : ∃ n, mobile_notes k s.calls = mobile_notes k s0.calls ++ alternation n ∧
    (n % 2 = 1 ↔ local_subscribers s k ≠ [])

/-! ## The log (`log.c`) -/

def TEXT_MAX : Nat := 512
def LIST_MAX : Nat := 1000

/-- A retained log entry `qd_log_entry_t`. -/
structure qd_log_entry_t where
  module : String
  cls : Int
  file : String
  line : Int
  time : Int
  text : String
deriving DecidableEq, Repr

/-- The statics of `log.c`: `mask`, the list `entries`, and the lines written
to `stderr`, each given by the entry it renders (time, module, class, text). -/
structure qd_log_t where
  mask : Int
  entries : List qd_log_entry_t
  stderr : List qd_log_entry_t
deriving DecidableEq, Repr

/-- The arguments of one call of `qd_log_impl`, together with what the
environment supplies: `now` is the value that `time` stores and `formatted`
the text that the format and its arguments expand to. -/
structure qd_log_args where
  module : String
  cls : Int
  file : String
  line : Int
  now : Int
  formatted : String
deriving DecidableEq, Repr

/-- The entry that `qd_log_impl` fills in: `vsnprintf` keeps at most
`TEXT_MAX - 1` characters of the text. -/
def qd_log_entry (a : qd_log_args) : qd_log_entry_t :=
  { module := a.module, cls := a.cls, file := a.file, line := a.line, time := a.now,
    text := String.mk (a.formatted.data.take (TEXT_MAX - 1)) }

/-- The function `qd_log_impl(module, cls, file, line, fmt, ...)`. -/
def qd_log_impl (s : qd_log_t) (a : qd_log_args) : qd_log_t :=
  if Int.land a.cls s.mask = 0 then s
  else
    let entry := qd_log_entry a
    let s := { s with stderr := s.stderr ++ [entry] }
    let entries := s.entries ++ [entry]
    let entries := if entries.length > LIST_MAX then entries.tail else entries
    { s with entries := entries }

/-- The function `qd_log_set_mask(mask)`. -/
def qd_log_set_mask (s : qd_log_t) (mask : Int) : qd_log_t :=
  { s with mask := mask }

/-- The function `qd_log_initialize()`: `DEQ_INIT(entries)`. -/
def qd_log_initialize (s : qd_log_t) : qd_log_t :=
  { s with entries := [] }

/-- The calls into the log after its initialisation. -/
inductive qd_log_op where
  | log (a : qd_log_args)
  | set_mask (mask : Int)
deriving DecidableEq, Repr

def qd_log_op.apply (s : qd_log_t) : qd_log_op → qd_log_t
  | .log a => qd_log_impl s a
  | .set_mask mask => qd_log_set_mask s mask

/-- The log after a sequence of calls, first to last. -/
def qd_log_run : List qd_log_op → qd_log_t → qd_log_t
  | [], s => s
  | op :: ops, s => qd_log_run ops (op.apply s)

/-! ## Example configurations -/

/-- An endpoint link record as `router_incoming_link_handler` creates it. -/
def blank_link : qd_router_link_t :=
  { mask_bit := 0, link_type := .QD_LINK_ENDPOINT, link_direction := .QD_INCOMING,
    owning_addr := none, connected_link := none, peer_link := none, ref := false,
    event_fifo := [], msg_fifo := [] }

/-- An address record as created by `memset(addr, 0, ...)` with the default semantics. -/
def blank_address : qd_address_t :=
  { handler := none, handler_context := 0, semantics := default_semantics, rlinks := [],
    rnodes := [], deliveries_ingress := 0, deliveries_egress := 0, deliveries_transit := 0,
    deliveries_to_container := 0, deliveries_from_container := 0 }

def blank_node : qd_router_node_t :=
  { mask_bit := 0, next_hop := none, peer_link := none, ref_count := 0,
    valid_origins := qd_bitmask_empty }

/-- An unsettled delivery without peer. -/
def blank_delivery : qd_delivery_t :=
  { link := 0, tag := 0, settled := false, disp := 0, disp_changed := false, peer := none,
    freed := none }

/-- A terminus without address and without capabilities. -/
def blank_terminus : pn_terminus_t :=
  { address := none, dynamic := false, capabilities := [] }

/-- Router `A/r1` with no address, no node and no indexed link. -/
def blank_router : qd_router_t :=
  { router_area := "A", router_id := "r1", addrs := [], addr_hash := [],
    address := fun _ => blank_address, address_next := 100,
    links := [], link := fun _ => blank_link,
    link_context := fun _ => false, link_conn := fun _ => 0,
    conn_role := fun _ => none, conn_context := fun _ => none,
    remote_source := fun _ => blank_terminus, remote_target := fun _ => blank_terminus,
    link_source := fun _ => blank_terminus, link_target := fun _ => blank_terminus,
    node := fun _ => blank_node, out_links_by_mask_bit := fun _ => none,
    neighbor_free_mask := qd_bitmask_empty, router_addr := none, hello_addr := none,
    dtag := 1, delivery := fun _ => blank_delivery, delivery_next := 100, calls := [] }

/-- The iterator over the mobile address `svc`. -/
def iter_svc : qd_field_iterator_t :=
  { all := "svc", no_host := "svc", address_hash := "Msvc", node_hash := "Msvc" }

/-- A valid message to `svc` without delivery annotations. -/
def msg_svc : qd_message_t :=
  { check_properties := true, field_to := some iter_svc, delivery_annotations := none,
    composed_annotations := none, content := "payload" }

/-- A message whose properties section does not parse. -/
def msg_invalid : qd_message_t :=
  { check_properties := false, field_to := none, delivery_annotations := none,
    composed_annotations := none, content := "garbage" }

/-- An outgoing endpoint link bound to address record 1. -/
def consumer_link : qd_router_link_t :=
  { blank_link with link_direction := .QD_OUTGOING, owning_addr := some 1, ref := true }

/-- Router `A/r1` where the mobile address `svc` (record 1) has the in-process
handler 9 with context 77 and the local consumer link 2. -/
def router_with_handler : qd_router_t :=
  { blank_router with
    addrs := [1]
    addr_hash := [("Msvc", 1)]
    address := fun a =>
      if a = 1 then { blank_address with handler := some 9, handler_context := 77, rlinks := [2] }
      else blank_address
    links := [1, 2]
    link := fun l => if l = 2 then consumer_link else blank_link }

/-- The raw iterator over a router id found in an annotation. -/
def iter_router (area id : String) : qd_field_iterator_t :=
  { all := area ++ "/" ++ id, no_host := area ++ "/" ++ id, address_hash := "M" ++ area ++ "/" ++ id,
    node_hash := "R" ++ id }

/-- A valid message to `svc` that already went through router `A/r2`. -/
def msg_svc_via_r2 : qd_message_t :=
  { msg_svc with
    delivery_annotations := some
      [("trace", .list [iter_router "A" "r2"]), ("ingress", .scalar (iter_router "A" "r2"))] }

/-- A valid message to `svc` whose trace is `["A/r2", "A/r1"]`. -/
def msg_svc_looped : qd_message_t :=
  { msg_svc with
    delivery_annotations := some
      [("trace", .list [iter_router "A" "r2", iter_router "A" "r1"]),
       ("ingress", .scalar (iter_router "A" "r2"))] }

/-- An outgoing inter-router link with the given mask bit, bound to the hello
address (record 9). -/
def router_out_link (bit : Int) : qd_router_link_t :=
  { blank_link with
    mask_bit := bit, link_type := .QD_LINK_ROUTER, link_direction := .QD_OUTGOING,
    owning_addr := some 9, ref := true }

/-- Router `A/r1` with the next-hop topology of the dedup scenario: the mobile
address `svc` (record 1) is reachable at the remote routers 3 and 4, both
through the neighbour 5, whose peer link 70 has mask bit 7; router `r2`
(node 2, mask bit 2, address record 2) is a valid origin for both. -/
def router_next_hop : qd_router_t :=
  { blank_router with
    addrs := [1, 2]
    addr_hash := [("Msvc", 1), ("Rr2", 2)]
    address := fun a =>
      if a = 1 then { blank_address with rnodes := [3, 4] }
      else if a = 2 then { blank_address with semantics := router_semantics, rnodes := [2] }
      else blank_address
    links := [1, 70]
    link := fun l => if l = 70 then router_out_link 7 else blank_link
    node := fun n =>
      if n = 2 then { blank_node with mask_bit := 2 }
      else if n = 3 then
        { blank_node with mask_bit := 3, next_hop := some 5, valid_origins := ⟨[2]⟩ }
      else if n = 4 then
        { blank_node with mask_bit := 4, next_hop := some 5, valid_origins := ⟨[2]⟩ }
      else if n = 5 then { blank_node with mask_bit := 7, peer_link := some 70 }
      else blank_node
    out_links_by_mask_bit := fun bit => if bit = 7 then some 70 else none }

/-- Router `A/r1` with the topology of the origin-filtering scenario: the
mobile address `svc` (record 1) has the local consumer link 2 and the remote
destination 3, reached over link 70 (mask bit 7); router `r2` has mask bit 5,
and node 3 does not list 5 among its valid origins. -/
def router_origin_filter : qd_router_t :=
  { blank_router with
    addrs := [1, 2]
    addr_hash := [("Msvc", 1), ("Rr2", 2)]
    address := fun a =>
      if a = 1 then { blank_address with rlinks := [2], rnodes := [3] }
      else if a = 2 then { blank_address with semantics := router_semantics, rnodes := [2] }
      else blank_address
    links := [1, 2, 70]
    link := fun l =>
      if l = 2 then consumer_link else if l = 70 then router_out_link 7 else blank_link
    node := fun n =>
      if n = 2 then { blank_node with mask_bit := 5 }
      else if n = 3 then
        { blank_node with mask_bit := 7, peer_link := some 70, valid_origins := ⟨[1, 2]⟩ }
      else blank_node
    out_links_by_mask_bit := fun bit => if bit = 7 then some 70 else none }

/-- Router `A/r1` where one address record (record 9, key `Lqdhello`) has the
inter-router link 70 (mask bit 7, indexed under 7) among its local links and
also the remote destination 3, which is reached over that same link 70. -/
def router_link_both : qd_router_t :=
  { blank_router with
    addrs := [9]
    addr_hash := [("Lqdhello", 9)]
    address := fun a =>
      if a = 9 then
        { blank_address with semantics := router_semantics, rlinks := [70], rnodes := [3] }
      else blank_address
    links := [1, 70]
    link := fun l => if l = 70 then router_out_link 7 else blank_link
    node := fun n =>
      if n = 3 then
        { blank_node with mask_bit := 7, peer_link := some 70, valid_origins := ⟨[0]⟩ }
      else blank_node
    out_links_by_mask_bit := fun bit => if bit = 7 then some 70 else none
    hello_addr := some 9 }

/-- The iterator over the address `_topo/all/all/qdhello`. -/
def iter_hello_all : qd_field_iterator_t :=
  { all := "_topo/all/all/qdhello", no_host := "_topo/all/all/qdhello",
    address_hash := "Lqdhello", node_hash := "Lqdhello" }

/-- A valid message to `_topo/all/all/qdhello` without delivery annotations. -/
def msg_hello_all : qd_message_t :=
  { check_properties := true, field_to := some iter_hello_all, delivery_annotations := none,
    composed_annotations := none, content := "hello" }

/-- A message event without delivery carrying a message with the given content. -/
def queued_event (content : String) : qd_routed_event_t :=
  { delivery := none,
    message := some { msg_svc with content := content },
    settle := false, disposition := 0 }

/-- Router `A/r1` whose link 2 has three message events queued. -/
def router_backlog : qd_router_t :=
  { blank_router with
    links := [2]
    link := fun l =>
      if l = 2 then
        { consumer_link with
          msg_fifo := [queued_event "m1", queued_event "m2", queued_event "m3"] }
      else blank_link }

/-- Router `A/r1` whose link 2 has two message events queued: the first
carries the ingress delivery 5, the second arrived pre-settled and carries
none.  Deliveries below 100 are allocated. -/
def router_peering : qd_router_t :=
  { blank_router with
    links := [2]
    link := fun l =>
      if l = 2 then
        { consumer_link with
          msg_fifo := [{ queued_event "m1" with delivery := some 5 }, queued_event "m2"] }
      else blank_link }

/-- Router `A/r1` with two peered deliveries: delivery 5 on link 1 reports
`ACCEPTED` and settled, its peer is delivery 6 on link 2. -/
def router_settling : qd_router_t :=
  { blank_router with
    links := [1, 2]
    link := fun l => if l = 2 then consumer_link else blank_link
    delivery := fun d =>
      if d = 5 then
        { blank_delivery with
          link := 1, settled := true, disp := PN_ACCEPTED, disp_changed := true, peer := some 6 }
      else if d = 6 then { blank_delivery with link := 2, peer := some 5 }
      else blank_delivery }

/-- Router `A/r1` whose table holds the record 1 of the mobile address `svc`
without handler and destinations, and the record 2 of `other` with a handler. -/
def router_stale_addr : qd_router_t :=
  { blank_router with
    addrs := [1, 2]
    addr_hash := [("Msvc", 1), ("Mother", 2)]
    address := fun a => if a = 2 then { blank_address with handler := some 9 } else blank_address }

/-- An iterator library for the examples: an address under `_local/` hashes to
`L` and the rest, any other address to `M` and the address. -/
def example_iterator_string (a : String) : qd_field_iterator_t :=
  { all := a, no_host := a,
    address_hash :=
      if a.data.take 7 = "_local/".data then "L" ++ String.mk (a.data.drop 7) else "M" ++ a,
    node_hash :=
      if a.data.take 7 = "_local/".data then "L" ++ String.mk (a.data.drop 7) else "M" ++ a }

/-- A terminus that claims the router capability. -/
def router_terminus : pn_terminus_t :=
  { address := none, dynamic := false, capabilities := [.symbol QD_CAPABILITY_ROUTER] }

/-- The protocol objects of the examples: connections 1 and 2 are inter-router;
links 7 and 12 (incoming) and 8 (outgoing) on connection 1 and link 9
(incoming) on connection 2 claim the router capability; link 20 on connection 3 subscribes
to `svc`, link 21 to `_local/qdhello`, link 22 has no source address and
link 23 asks for a dynamic source. -/
def world_links : qd_router_t :=
  { blank_router with
    conn_role := fun c => if c = 1 then some router_role else if c = 2 then some router_role
      else none
    link_conn := fun l => if l = 7 then 1 else if l = 8 then 1 else if l = 9 then 2
      else if l = 12 then 1 else 3
    remote_source := fun l =>
      if l = 7 then router_terminus
      else if l = 9 then router_terminus
      else if l = 12 then router_terminus
      else if l = 20 then { blank_terminus with address := some "svc" }
      else if l = 21 then { blank_terminus with address := some "_local/qdhello" }
      else if l = 23 then { blank_terminus with dynamic := true }
      else blank_terminus
    remote_target := fun l => if l = 8 then router_terminus else blank_terminus }

/-- The interior router `A/r1` over `world_links` with two mask bits, as
`qd_router` sets it up. -/
def router_interior : qd_router_t :=
  qd_router example_iterator_string world_links 2 .QD_ROUTER_MODE_INTERIOR "A" "r1"

/-- The interior router with every mask bit taken. -/
def router_exhausted : qd_router_t :=
  { router_interior with neighbor_free_mask := qd_bitmask_empty }

/-- A valid message to `svc` whose ingress annotation names the router `A/r9`,
which the address table does not know. -/
def msg_svc_from_unknown : qd_message_t :=
  { msg_svc with delivery_annotations := some [("ingress", .scalar (iter_router "A" "r9"))] }

/-- The router `router_backlog` with the delivery-tag counter at the largest
value of a `uint64_t`. -/
def router_backlog_wrap : qd_router_t :=
  { router_backlog with dtag := 18446744073709551615 }

/-- The router `router_origin_filter` where the delivery 5 on link 1 arrived
settled. -/
def router_presettled : qd_router_t :=
  { router_origin_filter with
    delivery := fun d =>
      if d = 5 then { blank_delivery with link := 1, settled := true } else blank_delivery }

/-- Router `A/r1` where the mobile address `svc` (record 1) has the remote
destination 3, whose `peer_link` is link 50.  The outgoing inter-router links
50 and 70 both have mask bit 7, and `out_links_by_mask_bit[7]` holds link
70.  Node 3 accepts origin 0. -/
def router_peer_not_indexed : qd_router_t :=
  { blank_router with
    addrs := [1]
    addr_hash := [("Msvc", 1)]
    address := fun a => if a = 1 then { blank_address with rnodes := [3] } else blank_address
    links := [1, 50, 70]
    link := fun l =>
      if l = 50 then router_out_link 7 else if l = 70 then router_out_link 7 else blank_link
    node := fun n =>
      if n = 3 then
        { blank_node with mask_bit := 3, peer_link := some 50, valid_origins := ⟨[0]⟩ }
      else blank_node
    out_links_by_mask_bit := fun bit => if bit = 7 then some 70 else none }

/-- The log statics at program start: the mask is `LOG_INFO` (4 in `log.h`),
the list is empty. -/
def log_start : qd_log_t := { mask := 4, entries := [], stderr := [] }

/-- A call of class 4 with the given text. -/
def log_info_call (text : String) : qd_log_args :=
  { module := "ROUTER", cls := 4, file := "router_node.c", line := 1, now := 0,
    formatted := text }

/-- The log with 1000 retained entries. -/
def log_full : qd_log_t :=
  { mask := 4, entries := List.replicate 1000 (qd_log_entry (log_info_call "old")), stderr := [] }

/-- A valid message without `to` field. -/
def msg_no_to : qd_message_t :=
  { msg_svc with field_to := none }

/-- The interior router after a sequence of events, first to last. -/
def interior_after (events : List router_event) : qd_router_t :=
  events.foldl (router_event.apply example_iterator_string) router_interior

/-! ## Basic facts about the state primitives -/

theorem uint64_wrap_add (a b : Nat) : uint64_wrap (uint64_wrap a + b) = uint64_wrap (a + b) := by
  unfold uint64_wrap
  exact Nat.mod_add_mod a _ b

theorem uint64_wrap_lt (a : Nat) : uint64_wrap a < 2 ^ 64 := by
  unfold uint64_wrap
  exact Nat.mod_lt _ (by norm_num)

theorem uint64_wrap_of_lt (a : Nat) (h : a < 2 ^ 64) : uint64_wrap a = a := by
  unfold uint64_wrap
  exact Nat.mod_eq_of_lt h

theorem uint64_wrap_inj (a i j : Nat) (hi : i < 2 ^ 64) (hj : j < 2 ^ 64)
    (h : uint64_wrap (a + i + 1) = uint64_wrap (a + j + 1)) : i = j := by
  unfold uint64_wrap at h
  norm_num at h hi hj
  omega

theorem uint64_incr_zero (c : Nat) : uint64_incr c 0 = c := rfl

theorem uint64_incr_succ (c n : Nat) :
    uint64_incr c (n + 1) = uint64_wrap (uint64_incr c n + 1) := rfl

theorem uint64_incr_one (c : Nat) : uint64_incr c 1 = uint64_wrap (c + 1) := rfl

/-- After at least one increment the counter holds the sum modulo `2^64`. -/
theorem uint64_incr_succ_eq (c n : Nat) : uint64_incr c (n + 1) = uint64_wrap (c + (n + 1)) := by
  induction n with
  | zero => rfl
  | succ n ih => rw [uint64_incr_succ, ih, uint64_wrap_add, Nat.add_assoc]

/-- Incrementing first and then `n` times is incrementing `n + 1` times. -/
theorem uint64_incr_first (c n : Nat) :
    uint64_incr (uint64_wrap (c + 1)) n = uint64_incr c (n + 1) := by
  induction n with
  | zero => rfl
  | succ n ih => rw [uint64_incr_succ, ih, ← uint64_incr_succ]

theorem uint64_incr_add (c m n : Nat) :
    uint64_incr (uint64_incr c m) n = uint64_incr c (m + n) := by
  induction n with
  | zero => rfl
  | succ n ih => rw [uint64_incr_succ, ih, ← Nat.add_assoc, uint64_incr_succ]

/-- Without overflow the counter holds the plain sum. -/
theorem uint64_incr_of_lt (c n : Nat) (h : c + n < 2 ^ 64) : uint64_incr c n = c + n := by
  cases n with
  | zero => rfl
  | succ n => rw [uint64_incr_succ_eq, uint64_wrap_of_lt _ h]

@[simp] theorem upd_same {α : Type} (f : Nat → α) (i : Nat) (v : α) : upd f i v i = v := by
  simp [upd]

@[simp] theorem upd_other {α : Type} (f : Nat → α) (i j : Nat) (v : α) (h : j ≠ i) :
    upd f i v j = f j := by
  simp [upd, h]

theorem upd_apply {α : Type} (f : Nat → α) (i j : Nat) (v : α) :
    upd f i v j = if j = i then v else f j := rfl

theorem fwd_frame.refl_fwd (addr : Nat) (s : qd_router_t) : fwd_frame addr s s where
  delivery := by simp
  delivery_next := by simp
  addr_hash := by simp
  addrs := by simp
  links := by simp
  node := by simp
  out_links := by simp
  free_mask := by simp
  area := by simp
  id := by simp
  dtag := by simp
  address_other := by simp
  address_same := by simp
  link_same := by simp
  fifo_grows := by simp
  calls_grow := ⟨[], by simp⟩

theorem fwd_frame.trans_fwd {addr : Nat} {s1 s2 s3 : qd_router_t}
    (h12 : fwd_frame addr s1 s2) (h23 : fwd_frame addr s2 s3) : fwd_frame addr s1 s3 where
  delivery := h23.delivery.trans h12.delivery
  delivery_next := h23.delivery_next.trans h12.delivery_next
  addr_hash := h23.addr_hash.trans h12.addr_hash
  addrs := h23.addrs.trans h12.addrs
  links := h23.links.trans h12.links
  node := h23.node.trans h12.node
  out_links := h23.out_links.trans h12.out_links
  free_mask := h23.free_mask.trans h12.free_mask
  area := h23.area.trans h12.area
  id := h23.id.trans h12.id
  dtag := h23.dtag.trans h12.dtag
  address_other := fun b hb => (h23.address_other b hb).trans (h12.address_other b hb)
  address_same := h23.address_same.trans h12.address_same
  link_same := fun l => (h23.link_same l).trans (h12.link_same l)
  fifo_grows := fun l => (h12.fifo_grows l).trans (h23.fifo_grows l)
  calls_grow := by
    obtain ⟨c1, e1, a1⟩ := h12.calls_grow
    obtain ⟨c2, e2, a2⟩ := h23.calls_grow
    refine ⟨c1 ++ c2, by rw [e2, e1, List.append_assoc], ?_⟩
    intro c hc
    rcases List.mem_append.mp hc with h | h
    · exact a1 c h
    · exact a2 c h

/-- Appending a routed event to a message FIFO, bumping egress or transit of
`addr` and activating a link stays within the frame. -/
theorem fwd_frame_enqueue (addr : Nat) (s : qd_router_t) (l : Nat) (re : qd_routed_event_t) :
    fwd_frame addr s (msg_fifo_insert_tail s l re) where
  delivery := rfl
  delivery_next := rfl
  addr_hash := rfl
  addrs := rfl
  links := rfl
  node := rfl
  out_links := rfl
  free_mask := rfl
  area := rfl
  id := rfl
  dtag := rfl
  address_other := fun _ _ => rfl
  address_same := rfl
  link_same := by
    intro l'
    by_cases h : l' = l
    · subst h; simp [msg_fifo_insert_tail, link_config]
    · simp [msg_fifo_insert_tail, h]
  fifo_grows := by
    intro l'
    by_cases h : l' = l
    · subst h; simp [msg_fifo_insert_tail]
    · simp [msg_fifo_insert_tail, h]
  calls_grow := ⟨[], by simp [msg_fifo_insert_tail]⟩

theorem fwd_frame_activate (addr : Nat) (s : qd_router_t) (l : Nat) :
    fwd_frame addr s (qd_link_activate s l) where
  delivery := rfl
  delivery_next := rfl
  addr_hash := rfl
  addrs := rfl
  links := rfl
  node := rfl
  out_links := rfl
  free_mask := rfl
  area := rfl
  id := rfl
  dtag := rfl
  address_other := fun _ _ => rfl
  address_same := rfl
  link_same := fun _ => rfl
  fifo_grows := fun _ => List.prefix_refl _
  calls_grow := ⟨[qd_call.qd_link_activate l], rfl, by simp⟩

theorem fwd_frame_incr_egress (addr : Nat) (s : qd_router_t) :
    fwd_frame addr s (incr_egress s addr) where
  delivery := rfl
  delivery_next := rfl
  addr_hash := rfl
  addrs := rfl
  links := rfl
  node := rfl
  out_links := rfl
  free_mask := rfl
  area := rfl
  id := rfl
  dtag := rfl
  address_other := fun b hb => by simp [incr_egress, set_address, hb]
  address_same := by simp [incr_egress, set_address]
  link_same := fun _ => rfl
  fifo_grows := fun _ => List.prefix_refl _
  calls_grow := ⟨[], by simp [incr_egress, set_address]⟩

theorem fwd_frame_incr_transit (addr : Nat) (s : qd_router_t) :
    fwd_frame addr s (incr_transit s addr) where
  delivery := rfl
  delivery_next := rfl
  addr_hash := rfl
  addrs := rfl
  links := rfl
  node := rfl
  out_links := rfl
  free_mask := rfl
  area := rfl
  id := rfl
  dtag := rfl
  address_other := fun b hb => by simp [incr_transit, set_address, hb]
  address_same := by simp [incr_transit, set_address]
  link_same := fun _ => rfl
  fifo_grows := fun _ => List.prefix_refl _
  calls_grow := ⟨[], by simp [incr_transit, set_address]⟩

theorem rx_local_body_frame (msg : qd_message_t) (delivery addr dest_link : Nat)
    (acc : qd_router_t × Nat) :
    fwd_frame addr acc.1 (rx_local_body msg delivery addr dest_link acc).1 :=
  ((fwd_frame_enqueue addr _ _ _).trans_fwd (fwd_frame_incr_egress addr _)).trans_fwd
    (fwd_frame_activate addr _ _)

theorem rx_remote_body_frame (msg : qd_message_t) (delivery addr : Nat) (link_bit : Int)
    (acc : qd_router_t × Nat) :
    fwd_frame addr acc.1 (rx_remote_body msg delivery addr link_bit acc).1 := by
  unfold rx_remote_body
  cases acc.1.out_links_by_mask_bit link_bit with
  | none => exact fwd_frame.refl_fwd _ _
  | some dest_link =>
    exact ((fwd_frame_enqueue addr _ _ _).trans_fwd (fwd_frame_incr_transit addr _)).trans_fwd
      (fwd_frame_activate addr _ _)

theorem rx_forward_local_frame (msg : qd_message_t) (delivery addr : Nat) (ls : List Nat) :
    ∀ acc : qd_router_t × Nat,
      fwd_frame addr acc.1 (rx_forward_local msg delivery addr ls acc).1 := by
  induction ls with
  | nil => intro acc; exact fwd_frame.refl_fwd _ _
  | cons l rest ih =>
    intro acc
    exact (rx_local_body_frame msg delivery addr l acc).trans_fwd (ih _)

theorem rx_forward_remote_frame (msg : qd_message_t) (delivery addr : Nat) (n : Nat) :
    ∀ (link_set : qd_bitmask_t) (acc : qd_router_t × Nat),
      fwd_frame addr acc.1 (rx_forward_remote msg delivery addr n link_set acc).1 := by
  induction n with
  | zero => intro link_set acc; exact fwd_frame.refl_fwd _ _
  | succ n ih =>
    intro link_set acc
    unfold rx_forward_remote
    cases qd_bitmask_first_set link_set with
    | none => exact fwd_frame.refl_fwd _ _
    | some link_bit =>
      exact (rx_remote_body_frame msg delivery addr link_bit acc).trans_fwd (ih _ _)

/-! ## Fan-out counting -/

theorem rx_forward_local_fanout (msg : qd_message_t) (delivery addr : Nat) (ls : List Nat) :
    ∀ acc : qd_router_t × Nat,
      (rx_forward_local msg delivery addr ls acc).2 = acc.2 + ls.length := by
  induction ls with
  | nil => intro acc; simp [rx_forward_local]
  | cons l rest ih =>
    intro acc
    simp only [rx_forward_local, ih, List.length_cons, rx_local_body]
    omega

theorem rx_remote_body_fanout (msg : qd_message_t) (delivery addr : Nat) (link_bit : Int)
    (acc : qd_router_t × Nat) :
    acc.2 ≤ (rx_remote_body msg delivery addr link_bit acc).2 ∧
      ((rx_remote_body msg delivery addr link_bit acc).2 = acc.2 →
        rx_remote_body msg delivery addr link_bit acc = acc) := by
  unfold rx_remote_body
  cases acc.1.out_links_by_mask_bit link_bit with
  | none => simp
  | some dest_link => simp

/-- The remote loop never lowers `fanout`, and it leaves the state alone when
`fanout` comes out unchanged. -/
theorem rx_forward_remote_fanout (msg : qd_message_t) (delivery addr : Nat) (n : Nat) :
    ∀ (link_set : qd_bitmask_t) (acc : qd_router_t × Nat),
      acc.2 ≤ (rx_forward_remote msg delivery addr n link_set acc).2 ∧
      ((rx_forward_remote msg delivery addr n link_set acc).2 = acc.2 →
        rx_forward_remote msg delivery addr n link_set acc = acc) := by
  induction n with
  | zero => intro link_set acc; simp [rx_forward_remote]
  | succ n ih =>
    intro link_set acc
    unfold rx_forward_remote
    cases qd_bitmask_first_set link_set with
    | none => simp
    | some link_bit =>
      have hb := rx_remote_body_fanout msg delivery addr link_bit acc
      have hr := ih (qd_bitmask_clear_bit link_set link_bit)
        (rx_remote_body msg delivery addr link_bit acc)
      refine ⟨le_trans hb.1 hr.1, ?_⟩
      intro heq
      have h1 : (rx_remote_body msg delivery addr link_bit acc).2 = acc.2 := by
        have := hr.1
        simp only at heq
        omega
      have h2 := hb.2 h1
      simp only [h2] at hr ⊢
      exact hr.2 (by simpa [h2] using heq)

theorem rx_fan_out_remote_frame (msg : qd_message_t) (delivery addr : Nat)
    (ingress_iter : Option qd_field_iterator_t) (acc : qd_router_t × Nat) :
    fwd_frame addr acc.1 (rx_fan_out_remote msg delivery addr ingress_iter acc).1 := by
  unfold rx_fan_out_remote
  simp only
  split
  · exact rx_forward_remote_frame _ _ _ _ _ _
  · exact fwd_frame.refl_fwd _ _

theorem rx_fan_out_frame (msg : qd_message_t) (delivery addr : Nat)
    (ingress_iter : Option qd_field_iterator_t) (drop is_local is_direct : Bool)
    (acc : qd_router_t × Nat) :
    fwd_frame addr acc.1
      (rx_fan_out msg delivery addr ingress_iter drop is_local is_direct acc).1 := by
  unfold rx_fan_out
  simp only
  split
  · split
    · exact (rx_forward_local_frame _ _ _ _ _).trans_fwd (rx_fan_out_remote_frame _ _ _ _ _)
    · exact rx_forward_local_frame _ _ _ _ _
  · exact fwd_frame.refl_fwd _ _

theorem rx_fan_out_remote_fanout (msg : qd_message_t) (delivery addr : Nat)
    (ingress_iter : Option qd_field_iterator_t) (acc : qd_router_t × Nat) :
    acc.2 ≤ (rx_fan_out_remote msg delivery addr ingress_iter acc).2 ∧
      ((rx_fan_out_remote msg delivery addr ingress_iter acc).2 = acc.2 →
        rx_fan_out_remote msg delivery addr ingress_iter acc = acc) := by
  unfold rx_fan_out_remote
  simp only
  split
  · exact rx_forward_remote_fanout _ _ _ _ _ _
  · simp

/-- The fan-out never lowers `fanout`; when `fanout` comes out unchanged,
nothing was enqueued and the state is the one before. -/
theorem rx_fan_out_fanout (msg : qd_message_t) (delivery addr : Nat)
    (ingress_iter : Option qd_field_iterator_t) (drop is_local is_direct : Bool)
    (acc : qd_router_t × Nat) :
    acc.2 ≤ (rx_fan_out msg delivery addr ingress_iter drop is_local is_direct acc).2 ∧
      ((rx_fan_out msg delivery addr ingress_iter drop is_local is_direct acc).2 = acc.2 →
        rx_fan_out msg delivery addr ingress_iter drop is_local is_direct acc = acc) := by
  unfold rx_fan_out
  simp only
  have hloc := rx_forward_local_fanout msg delivery addr (acc.1.address addr).rlinks acc
  have hloc0 : (rx_forward_local msg delivery addr (acc.1.address addr).rlinks acc).2 = acc.2 →
      rx_forward_local msg delivery addr (acc.1.address addr).rlinks acc = acc := by
    intro h
    have hl : (acc.1.address addr).rlinks.length = 0 := by omega
    rw [List.length_eq_zero] at hl
    rw [hl]
    rfl
  split
  · split
    · have hrem := rx_fan_out_remote_fanout msg delivery addr ingress_iter
        (rx_forward_local msg delivery addr (acc.1.address addr).rlinks acc)
      refine ⟨by omega, ?_⟩
      intro heq
      have h1 : (rx_forward_local msg delivery addr (acc.1.address addr).rlinks acc).2 = acc.2 := by
        omega
      have h2 := hloc0 h1
      rw [h2] at hrem heq ⊢
      exact hrem.2 heq
    · exact ⟨by omega, hloc0⟩
  · simp

theorem rx_capture_handler_fanout (s : qd_router_t) (addr : Nat) (msg : qd_message_t)
    (drop : Bool) : (rx_capture_handler s addr msg drop).fanout = 0 := by
  unfold rx_capture_handler
  split <;> rfl

theorem rx_capture_handler_link (s : qd_router_t) (addr : Nat) (msg : qd_message_t)
    (drop : Bool) : (rx_capture_handler s addr msg drop).s.link = s.link := by
  unfold rx_capture_handler
  split <;> rfl

theorem rx_capture_handler_delivery (s : qd_router_t) (addr : Nat) (msg : qd_message_t)
    (drop : Bool) : (rx_capture_handler s addr msg drop).s.delivery = s.delivery := by
  unfold rx_capture_handler
  split <;> rfl

theorem rx_capture_handler_calls (s : qd_router_t) (addr : Nat) (msg : qd_message_t)
    (drop : Bool) : (rx_capture_handler s addr msg drop).s.calls = s.calls := by
  unfold rx_capture_handler
  split <;> rfl

theorem rx_count_ingress_link (s : qd_router_t) (rlink addr : Nat) :
    (rx_count_ingress s rlink addr).link = s.link := by
  unfold rx_count_ingress
  split <;> rfl

theorem rx_count_ingress_delivery (s : qd_router_t) (rlink addr : Nat) :
    (rx_count_ingress s rlink addr).delivery = s.delivery := by
  unfold rx_count_ingress
  split <;> rfl

theorem rx_count_ingress_calls (s : qd_router_t) (rlink addr : Nat) :
    (rx_count_ingress s rlink addr).calls = s.calls := by
  unfold rx_count_ingress
  split <;> rfl

/-- When the block for a known address ends with `fanout = 0`, no link record
was changed. -/
theorem rx_addr_found_fanout_zero (s : qd_router_t) (rlink delivery : Nat) (msg : qd_message_t)
    (addr : Nat) (is_local is_direct : Bool)
    (h : (rx_addr_found s rlink delivery msg addr is_local is_direct).fanout = 0) :
    (rx_addr_found s rlink delivery msg addr is_local is_direct).s.link = s.link := by
  unfold rx_addr_found at h ⊢
  simp only at h ⊢
  generalize router_annotate_message (node_id (rx_count_ingress s rlink addr)) msg false = ann
    at h ⊢
  have h0 := rx_capture_handler_fanout (rx_count_ingress s rlink addr) addr ann.1 ann.2.1
  have hl := rx_capture_handler_link (rx_count_ingress s rlink addr) addr ann.1 ann.2.1
  generalize rx_capture_handler (rx_count_ingress s rlink addr) addr ann.1 ann.2.1 = c
    at h h0 hl ⊢
  have hf := rx_fan_out_fanout ann.1 delivery addr ann.2.2 ann.2.1 is_local is_direct
    (c.s, c.fanout)
  rw [hf.2 (by rw [h]; exact h0.symm)]
  simp only
  rw [hl, rx_count_ingress_link]

/-! ## What message routing leaves alone -/

theorem route_frame.refl_route (s : qd_router_t) : route_frame s s where
  delivery := by simp
  delivery_next := by simp
  addr_hash := by simp
  addrs := by simp
  links := by simp
  node := by simp
  out_links := by simp
  free_mask := by simp
  area := by simp
  id := by simp
  dtag := by simp
  address_same := by simp
  link_same := by simp
  fifo_grows := by simp
  calls_grow := ⟨[], by simp⟩

theorem route_frame.trans_route {s1 s2 s3 : qd_router_t}
    (h12 : route_frame s1 s2) (h23 : route_frame s2 s3) : route_frame s1 s3 where
  delivery := h23.delivery.trans h12.delivery
  delivery_next := h23.delivery_next.trans h12.delivery_next
  addr_hash := h23.addr_hash.trans h12.addr_hash
  addrs := h23.addrs.trans h12.addrs
  links := h23.links.trans h12.links
  node := h23.node.trans h12.node
  out_links := h23.out_links.trans h12.out_links
  free_mask := h23.free_mask.trans h12.free_mask
  area := h23.area.trans h12.area
  id := h23.id.trans h12.id
  dtag := h23.dtag.trans h12.dtag
  address_same := fun b => (h23.address_same b).trans (h12.address_same b)
  link_same := fun l => (h23.link_same l).trans (h12.link_same l)
  fifo_grows := fun l => (h12.fifo_grows l).trans (h23.fifo_grows l)
  calls_grow := by
    obtain ⟨c1, e1, a1⟩ := h12.calls_grow
    obtain ⟨c2, e2, a2⟩ := h23.calls_grow
    refine ⟨c1 ++ c2, by rw [e2, e1, List.append_assoc], ?_⟩
    intro c hc
    rcases List.mem_append.mp hc with h | h
    · exact a1 c h
    · exact a2 c h

theorem fwd_frame.route {addr : Nat} {s s' : qd_router_t} (h : fwd_frame addr s s') :
    route_frame s s' where
  delivery := h.delivery
  delivery_next := h.delivery_next
  addr_hash := h.addr_hash
  addrs := h.addrs
  links := h.links
  node := h.node
  out_links := h.out_links
  free_mask := h.free_mask
  area := h.area
  id := h.id
  dtag := h.dtag
  address_same := by
    intro b
    by_cases hb : b = addr
    · subst hb
      have := h.address_same
      simp only [address_config, qd_address_t.mk.injEq] at this ⊢
      tauto
    · rw [h.address_other b hb]
  link_same := h.link_same
  fifo_grows := h.fifo_grows
  calls_grow := h.calls_grow

theorem route_frame_set_counters (s : qd_router_t) (addr : Nat) (v : qd_address_t)
    (hv : address_config v = address_config (s.address addr)) :
    route_frame s (set_address s addr v) where
  delivery := rfl
  delivery_next := rfl
  addr_hash := rfl
  addrs := rfl
  links := rfl
  node := rfl
  out_links := rfl
  free_mask := rfl
  area := rfl
  id := rfl
  dtag := rfl
  address_same := by
    intro b
    by_cases hb : b = addr
    · subst hb; simpa [set_address] using hv
    · simp [set_address, hb]
  link_same := fun _ => rfl
  fifo_grows := fun _ => List.prefix_refl _
  calls_grow := ⟨[], by simp [set_address]⟩

theorem rx_count_ingress_frame (s : qd_router_t) (rlink addr : Nat) :
    route_frame s (rx_count_ingress s rlink addr) := by
  unfold rx_count_ingress
  split
  · exact route_frame_set_counters s addr _ rfl
  · exact route_frame.refl_route s

theorem rx_capture_handler_frame (s : qd_router_t) (addr : Nat) (msg : qd_message_t)
    (drop : Bool) : route_frame s (rx_capture_handler s addr msg drop).s := by
  unfold rx_capture_handler
  split
  · exact route_frame_set_counters s addr _ rfl
  · exact route_frame.refl_route s

theorem rx_addr_found_frame (s : qd_router_t) (rlink delivery : Nat) (msg : qd_message_t)
    (addr : Nat) (is_local is_direct : Bool) :
    route_frame s (rx_addr_found s rlink delivery msg addr is_local is_direct).s := by
  unfold rx_addr_found
  simp only
  exact ((rx_count_ingress_frame s rlink addr).trans_route (rx_capture_handler_frame _ _ _ _)).trans_route
    (rx_fan_out_frame _ _ _ _ _ _ _ (_, _)).route

theorem rx_route_frame (s : qd_router_t) (rlink delivery : Nat) (msg : qd_message_t)
    (iter : qd_field_iterator_t) : route_frame s (rx_route s rlink delivery msg iter).s := by
  unfold rx_route
  simp only
  split
  · exact rx_addr_found_frame _ _ _ _ _ _ _
  · exact route_frame.refl_route s

theorem route_frame.mask_bit {s s' : qd_router_t} (h : route_frame s s') (l : Nat) :
    (s'.link l).mask_bit = (s.link l).mask_bit :=
  have h1 : (link_config (s'.link l)).mask_bit = (link_config (s.link l)).mask_bit :=
    congrArg _ (h.link_same l)
  h1

theorem route_frame.event_fifo {s s' : qd_router_t} (h : route_frame s s') (l : Nat) :
    (s'.link l).event_fifo = (s.link l).event_fifo :=
  have h1 : (link_config (s'.link l)).event_fifo = (link_config (s.link l)).event_fifo :=
    congrArg _ (h.link_same l)
  h1

theorem route_frame.handler {s s' : qd_router_t} (h : route_frame s s') (b : Nat) :
    (s'.address b).handler = (s.address b).handler :=
  have h1 : (address_config (s'.address b)).handler = (address_config (s.address b)).handler :=
    congrArg _ (h.address_same b)
  h1

theorem route_frame.rlinks {s s' : qd_router_t} (h : route_frame s s') (b : Nat) :
    (s'.address b).rlinks = (s.address b).rlinks :=
  have h1 : (address_config (s'.address b)).rlinks = (address_config (s.address b)).rlinks :=
    congrArg _ (h.address_same b)
  h1

theorem route_frame.rnodes {s s' : qd_router_t} (h : route_frame s s') (b : Nat) :
    (s'.address b).rnodes = (s.address b).rnodes :=
  have h1 : (address_config (s'.address b)).rnodes = (address_config (s.address b)).rnodes :=
    congrArg _ (h.address_same b)
  h1

theorem route_frame.semantics {s s' : qd_router_t} (h : route_frame s s') (b : Nat) :
    (s'.address b).semantics = (s.address b).semantics :=
  have h1 : (address_config (s'.address b)).semantics = (address_config (s.address b)).semantics :=
    congrArg _ (h.address_same b)
  h1

theorem rx_consume_frame (s : qd_router_t) (link : Nat) :
    (rx_consume s link).link = s.link ∧ (rx_consume s link).address = s.address ∧
      (rx_consume s link).delivery = s.delivery ∧ (rx_consume s link).addr_hash = s.addr_hash ∧
      (rx_consume s link).calls = s.calls ++ [.pn_link_advance link, .pn_link_flow link 1] := by
  simp [rx_consume, log_call]

/-! ## Claims about `router_rx_handler` -/

theorem rx_ingress_outcome_link (r : rx_locals) (delivery : Nat) :
    (rx_ingress_outcome r delivery).link = r.s.link := by
  unfold rx_ingress_outcome
  split
  · rfl
  · split
    · rfl
    · split <;> rfl

theorem rx_ingress_outcome_calls (r : rx_locals) (delivery : Nat) :
    (rx_ingress_outcome r delivery).calls = r.s.calls := by
  unfold rx_ingress_outcome
  split
  · rfl
  · split
    · rfl
    · split <;> rfl

theorem rx_ingress_outcome_address (r : rx_locals) (delivery : Nat) :
    (rx_ingress_outcome r delivery).address = r.s.address := by
  unfold rx_ingress_outcome
  split
  · rfl
  · split
    · rfl
    · split <;> rfl

/-- Unfolding of `router_rx_handler` for message routing with a `to` field. -/
theorem router_rx_handler_routed (s : qd_router_t) (link delivery : Nat) (msg : qd_message_t)
    (iter : qd_field_iterator_t)
    (hconn : (s.link link).connected_link = none)
    (hvalid : qd_message_check msg = true)
    (hto : qd_message_field_iterator_to msg = some iter) :
    router_rx_handler s link delivery (some msg) =
      match (rx_route (rx_consume s link) link delivery msg iter).handler with
      | some h =>
        log_call (rx_ingress_outcome (rx_route (rx_consume s link) link delivery msg iter) delivery)
          (.handler h (rx_route (rx_consume s link) link delivery msg iter).handler_context
            (rx_route (rx_consume s link) link delivery msg iter).in_process_copy
            (s.link link).mask_bit)
      | none => rx_ingress_outcome (rx_route (rx_consume s link) link delivery msg iter) delivery := by
  have hconn' : ((rx_consume s link).link link).connected_link = none := hconn
  simp only [router_rx_handler, hconn', rx_message_routing, hvalid, hto, if_true]
  have hm : ((rx_ingress_outcome (rx_route (rx_consume s link) link delivery msg iter)
      delivery).link link).mask_bit = (s.link link).mask_bit := by
    rw [rx_ingress_outcome_link, (rx_route_frame _ _ _ _ _).mask_bit]
    rfl
  rw [hm]

/-- When routing ends with `fanout = 0`, no link record was changed. -/
theorem rx_route_fanout_zero (s : qd_router_t) (rlink delivery : Nat) (msg : qd_message_t)
    (iter : qd_field_iterator_t) (h : (rx_route s rlink delivery msg iter).fanout = 0) :
    (rx_route s rlink delivery msg iter).s.link = s.link := by
  unfold rx_route at h ⊢
  simp only at h ⊢
  cases hret : qd_hash_retrieve s.addr_hash iter.address_hash with
  | some a =>
    rw [hret] at h
    exact rx_addr_found_fanout_zero _ _ _ _ _ _ _ h
  | none => rfl

/-- C1: for a message-routed ingress (no `connected_link` on the incoming
link, message valid through the properties section, `to` field present) that
ends with no in-process handler captured and `fanout = 0`, and in particular
whenever the `to` address has no address record, `router_rx_handler` frees
the ingress delivery with disposition `RELEASED` and leaves the `msg_fifo` of
every link unchanged. -/
theorem C1_no_subscriber_released (s : qd_router_t) (link delivery : Nat) (msg : qd_message_t)
    (iter : qd_field_iterator_t)
    (hconn : (s.link link).connected_link = none)
    (hvalid : qd_message_check msg = true)
    (hto : qd_message_field_iterator_to msg = some iter) :
    (qd_hash_retrieve s.addr_hash iter.address_hash = none →
      (rx_route (rx_consume s link) link delivery msg iter).handler = none ∧
      (rx_route (rx_consume s link) link delivery msg iter).fanout = 0) ∧
    ((rx_route (rx_consume s link) link delivery msg iter).handler = none →
      (rx_route (rx_consume s link) link delivery msg iter).fanout = 0 →
      ((router_rx_handler s link delivery (some msg)).delivery delivery).freed
          = some PN_RELEASED ∧
      ∀ l, ((router_rx_handler s link delivery (some msg)).link l).msg_fifo
          = (s.link l).msg_fifo) := by
  constructor
  · intro hnone
    have hnone' : qd_hash_retrieve (rx_consume s link).addr_hash iter.address_hash = none := hnone
    simp [rx_route, hnone', rx_no_route]
  · intro hh hf
    rw [router_rx_handler_routed s link delivery msg iter hconn hvalid hto, hh]
    simp only [rx_ingress_outcome, hh, hf, Option.isSome_none, Bool.false_eq_true, if_false,
      if_true]
    refine ⟨by simp [qd_delivery_free], ?_⟩
    intro l
    show ((rx_route (rx_consume s link) link delivery msg iter).s.link l).msg_fifo = _
    rw [rx_route_fanout_zero _ _ _ _ _ hf]
    rfl

/-- C1 at the message `msg_svc` arriving on link 1 of a router without any
address: delivery 5 is released and the FIFO of link 2 stays empty. -/
theorem C1_no_subscriber_released_witness :
    (blank_router.link 1).connected_link = none ∧
    qd_message_check msg_svc = true ∧
    qd_message_field_iterator_to msg_svc = some iter_svc ∧
    qd_hash_retrieve blank_router.addr_hash iter_svc.address_hash = none ∧
    ((router_rx_handler blank_router 1 5 (some msg_svc)).delivery 5).freed = some PN_RELEASED ∧
    ((router_rx_handler blank_router 1 5 (some msg_svc)).link 2).msg_fifo = [] :=
  have h := C1_no_subscriber_released blank_router 1 5 msg_svc iter_svc rfl rfl rfl
  have h0 := h.1 rfl
  ⟨rfl, rfl, rfl, rfl, (h.2 h0.1 h0.2).1, (h.2 h0.1 h0.2).2 2⟩

/-- C2: a complete message that fails validation through the properties
section, received on a link without `connected_link`, has its delivery freed
with disposition `REJECTED`; no link record (so no `msg_fifo` and no
`event_fifo`) and no address record (so no counter) changes, and the only
outward calls are the two that consume the delivery: no handler is invoked. -/
theorem C2_invalid_message_rejected (s : qd_router_t) (link delivery : Nat) (msg : qd_message_t)
    (hconn : (s.link link).connected_link = none)
    (hinvalid : qd_message_check msg = false) :
    ((router_rx_handler s link delivery (some msg)).delivery delivery).freed
        = some PN_REJECTED ∧
    (router_rx_handler s link delivery (some msg)).link = s.link ∧
    (router_rx_handler s link delivery (some msg)).address = s.address ∧
    (router_rx_handler s link delivery (some msg)).calls
        = s.calls ++ [.pn_link_advance link, .pn_link_flow link 1] := by
  have hconn' : ((rx_consume s link).link link).connected_link = none := hconn
  simp only [router_rx_handler, hconn', rx_message_routing, hinvalid, rx_no_route]
  simp [qd_delivery_free, rx_consume, log_call]

/-- C2 at the message `msg_invalid` arriving on link 1: delivery 5 is rejected. -/
theorem C2_invalid_message_rejected_witness :
    (blank_router.link 1).connected_link = none ∧
    qd_message_check msg_invalid = false ∧
    ((router_rx_handler blank_router 1 5 (some msg_invalid)).delivery 5).freed
        = some PN_REJECTED ∧
    (router_rx_handler blank_router 1 5 (some msg_invalid)).calls
        = [.pn_link_advance 1, .pn_link_flow 1 1] :=
  have h := C2_invalid_message_rejected blank_router 1 5 msg_invalid rfl rfl
  ⟨rfl, rfl, h.1, h.2.2.2⟩

/-! ### The trace check of `router_annotate_message` -/

theorem annotate_trace_loop_drop (nid : String) (items : List qd_field_iterator_t) :
    ∀ (out : List String) (drop : Bool),
      (annotate_trace_loop nid items (out, drop)).2 =
        (drop || items.any (fun it => decide (it.all = nid))) := by
  induction items with
  | nil => intro out drop; simp [annotate_trace_loop]
  | cons it rest ih =>
    intro out drop
    simp only [annotate_trace_loop, ih, List.any_cons, qd_field_iterator_equal]
    by_cases h : it.all = nid <;> simp [h]

/-- Called with `drop` clear, `router_annotate_message` sets `drop` exactly
when an item of the incoming trace equals the router's id. -/
theorem router_annotate_message_drop (nid : String) (msg : qd_message_t) :
    (router_annotate_message nid msg false).2.1 =
      (incoming_trace msg).any (fun it => decide (it.all = nid)) := by
  unfold router_annotate_message incoming_trace
  simp only
  cases qd_message_delivery_annotations msg with
  | none => simp
  | some da =>
    simp only
    cases qd_parse_value_by_key da QD_DA_TRACE with
    | none => simp
    | some tr =>
      cases tr with
      | scalar raw => simp
      | list items => simp [annotate_trace_loop_drop]
      | other => simp

theorem rx_capture_handler_some (s : qd_router_t) (addr : Nat) (msg : qd_message_t) (h : Nat)
    (hh : (s.address addr).handler = some h) :
    rx_capture_handler s addr msg false =
      { s := incr_to_container s addr, msg := msg, in_process_copy := some msg,
        handler := some h, handler_context := (s.address addr).handler_context, fanout := 0 } := by
  simp [rx_capture_handler, hh, qd_message_copy]

theorem rx_capture_handler_drop (s : qd_router_t) (addr : Nat) (msg : qd_message_t) :
    rx_capture_handler s addr msg true = rx_no_route s msg := by
  simp [rx_capture_handler, rx_no_route]

theorem fwd_frame.to_container {addr : Nat} {s s' : qd_router_t} (h : fwd_frame addr s s')
    (b : Nat) :
    (s'.address b).deliveries_to_container = (s.address b).deliveries_to_container := by
  by_cases hb : b = addr
  · subst hb
    have h1 := congrArg qd_address_t.deliveries_to_container h.address_same
    exact h1
  · rw [h.address_other b hb]

theorem rx_count_ingress_to_container (s : qd_router_t) (rlink addr b : Nat) :
    ((rx_count_ingress s rlink addr).address b).deliveries_to_container
      = (s.address b).deliveries_to_container := by
  unfold rx_count_ingress
  split
  · by_cases hb : b = addr
    · subst hb; simp [incr_ingress, set_address]
    · simp [incr_ingress, set_address, hb]
  · rfl

theorem route_frame.node_id_eq {s s' : qd_router_t} (h : route_frame s s') :
    node_id s' = node_id s := by
  simp [node_id, h.area, h.id]

theorem rx_consume_node_id (s : qd_router_t) (link : Nat) : node_id (rx_consume s link) = node_id s :=
  rfl

/-- The block for a known address when a handler is registered and the
message is not dropped. -/
theorem rx_addr_found_captured (s : qd_router_t) (rlink delivery : Nat) (msg : qd_message_t)
    (addr : Nat) (is_local is_direct : Bool) (h : Nat)
    (hh : (s.address addr).handler = some h)
    (hdrop : (router_annotate_message (node_id s) msg false).2.1 = false) :
    (rx_addr_found s rlink delivery msg addr is_local is_direct).handler = some h ∧
    (rx_addr_found s rlink delivery msg addr is_local is_direct).handler_context
      = (s.address addr).handler_context ∧
    (rx_addr_found s rlink delivery msg addr is_local is_direct).in_process_copy
      = some (router_annotate_message (node_id s) msg false).1 ∧
    ((rx_addr_found s rlink delivery msg addr is_local is_direct).s.address
        addr).deliveries_to_container
      = uint64_wrap ((s.address addr).deliveries_to_container + 1) := by
  have hn : node_id (rx_count_ingress s rlink addr) = node_id s :=
    (rx_count_ingress_frame s rlink addr).node_id_eq
  have hh' : ((rx_count_ingress s rlink addr).address addr).handler = some h := by
    rw [(rx_count_ingress_frame s rlink addr).handler]; exact hh
  have hc : ((rx_count_ingress s rlink addr).address addr).handler_context
      = (s.address addr).handler_context := by
    have h1 := congrArg qd_address_t.handler_context
      ((rx_count_ingress_frame s rlink addr).address_same addr)
    exact h1
  unfold rx_addr_found
  simp only [hn, hdrop, rx_capture_handler_some _ _ _ _ hh']
  refine ⟨?_, ?_, ?_, ?_⟩
  · trivial
  · exact hc
  · trivial
  rw [(rx_fan_out_frame _ _ _ _ _ _ _ (_, _)).to_container]
  simp [incr_to_container, set_address, rx_count_ingress_to_container]

theorem rx_route_found (s : qd_router_t) (rlink delivery : Nat) (msg : qd_message_t)
    (iter : qd_field_iterator_t) (a : Nat)
    (hret : qd_hash_retrieve s.addr_hash iter.address_hash = some a) :
    rx_route s rlink delivery msg iter =
      rx_addr_found s rlink delivery msg a
        ( qd_field_iterator_prefix iter.no_host local_prefix)
        ( qd_field_iterator_prefix iter.no_host ( direct_prefix s)) := by
  simp [rx_route, hret]

/-- C3: for a message-routed ingress whose address record has an in-process
handler and whose incoming trace does not contain this router's id,
`router_rx_handler` frees the ingress delivery with disposition `ACCEPTED`,
executes `deliveries_to_container++` of the address exactly once (the 64-bit
counter holds the old value plus 1 modulo `2^64`, so it is raised by exactly 1
whenever it was below its maximum), and its calls after consuming the delivery
are link activations followed by exactly one handler invocation, with the
handler context, a copy of the annotated message and the mask bit of the
ingress link. -/
theorem C3_handler_accepted (s : qd_router_t) (link delivery : Nat) (msg : qd_message_t)
    (iter : qd_field_iterator_t) (a h : Nat)
    (hconn : (s.link link).connected_link = none)
    (hvalid : qd_message_check msg = true)
    (hto : qd_message_field_iterator_to msg = some iter)
    (hret : qd_hash_retrieve s.addr_hash iter.address_hash = some a)
    (hh : (s.address a).handler = some h)
    (htrace : ∀ it ∈ incoming_trace msg, it.all ≠ node_id s) :
    ((router_rx_handler s link delivery (some msg)).delivery delivery).freed
        = some PN_ACCEPTED ∧
    ((router_rx_handler s link delivery (some msg)).address a).deliveries_to_container
        = uint64_wrap ((s.address a).deliveries_to_container + 1) ∧
    ((s.address a).deliveries_to_container + 1 < 2 ^ 64 →
      ((router_rx_handler s link delivery (some msg)).address a).deliveries_to_container
        = (s.address a).deliveries_to_container + 1) ∧
    ∃ acts : List qd_call, (∀ c ∈ acts, ∃ l, c = qd_call.qd_link_activate l) ∧
      (router_rx_handler s link delivery (some msg)).calls =
        s.calls ++ [.pn_link_advance link, .pn_link_flow link 1] ++ acts ++
          [.handler h (s.address a).handler_context
            (some (qd_message_copy (router_annotate_message (node_id s) msg false).1))
            (s.link link).mask_bit] := by
  have hdrop : (router_annotate_message (node_id (rx_consume s link)) msg false).2.1 = false := by
    rw [router_annotate_message_drop, rx_consume_node_id]
    simpa using htrace
  have hret' : qd_hash_retrieve (rx_consume s link).addr_hash iter.address_hash = some a := hret
  have hh' : ((rx_consume s link).address a).handler = some h := hh
  have hcap := rx_addr_found_captured (rx_consume s link) link delivery msg a
    ( qd_field_iterator_prefix iter.no_host local_prefix)
    ( qd_field_iterator_prefix iter.no_host ( direct_prefix (rx_consume s link))) h hh' hdrop
  have hfr := rx_route_frame (rx_consume s link) link delivery msg iter
  rw [router_rx_handler_routed s link delivery msg iter hconn hvalid hto]
  rw [rx_route_found _ _ _ _ _ _ hret'] at hfr ⊢
  obtain ⟨h1, h2, h3, h4⟩ := hcap
  rw [h1]
  simp only [rx_ingress_outcome, h1, Option.isSome_some, if_true, h2, h3]
  refine ⟨by simp [log_call, qd_delivery_free], ?_, ?_, ?_⟩
  · exact h4
  · intro hroom
    exact h4.trans (uint64_wrap_of_lt _ hroom)
  · obtain ⟨acts, hacts, hall⟩ := hfr.calls_grow
    refine ⟨acts, hall, ?_⟩
    show (rx_addr_found _ _ _ _ _ _ _).s.calls ++ _ = _
    rw [hacts, rx_consume_node_id, (rx_consume_frame s link).2.2.2.2]
    simp [rx_consume, log_call, qd_message_copy]

/-- C3 at the message `msg_svc_via_r2` arriving on link 1 of
`router_with_handler`: delivery 5 is accepted and the counter goes from 0 to 1. -/
theorem C3_handler_accepted_witness :
    (router_with_handler.link 1).connected_link = none ∧
    qd_message_check msg_svc_via_r2 = true ∧
    qd_message_field_iterator_to msg_svc_via_r2 = some iter_svc ∧
    qd_hash_retrieve router_with_handler.addr_hash iter_svc.address_hash = some 1 ∧
    (router_with_handler.address 1).handler = some 9 ∧
    (∀ it ∈ incoming_trace msg_svc_via_r2, it.all ≠ node_id router_with_handler) ∧
    ((router_rx_handler router_with_handler 1 5 (some msg_svc_via_r2)).delivery 5).freed
        = some PN_ACCEPTED ∧
    ((router_rx_handler router_with_handler 1 5
        (some msg_svc_via_r2)).address 1).deliveries_to_container = 0 + 1 :=
  have ht : ∀ it ∈ incoming_trace msg_svc_via_r2, it.all ≠ node_id router_with_handler := by
    decide
  have h := C3_handler_accepted router_with_handler 1 5 msg_svc_via_r2 iter_svc 1 9
    rfl rfl rfl rfl rfl ht
  ⟨rfl, rfl, rfl, rfl, rfl, ht, h.1, h.2.2.1 (by decide)⟩

/-- The block for a known address when the message is dropped: only the
ingress count may change; no handler is captured and nothing is forwarded. -/
theorem rx_addr_found_dropped (s : qd_router_t) (rlink delivery : Nat) (msg : qd_message_t)
    (addr : Nat) (is_local is_direct : Bool)
    (hdrop : (router_annotate_message (node_id s) msg false).2.1 = true) :
    rx_addr_found s rlink delivery msg addr is_local is_direct =
      rx_no_route (rx_count_ingress s rlink addr)
        (router_annotate_message (node_id s) msg false).1 := by
  have hn : node_id (rx_count_ingress s rlink addr) = node_id s :=
    (rx_count_ingress_frame s rlink addr).node_id_eq
  unfold rx_addr_found
  simp only [hn, hdrop, rx_capture_handler_drop]
  simp [rx_fan_out, rx_no_route]

/-- When the incoming trace contains this router's id, routing captures no
handler, forwards nothing, and changes at most `deliveries_ingress`. -/
theorem rx_route_dropped (s : qd_router_t) (rlink delivery : Nat) (msg : qd_message_t)
    (iter : qd_field_iterator_t)
    (hdrop : (router_annotate_message (node_id s) msg false).2.1 = true) :
    (rx_route s rlink delivery msg iter).handler = none ∧
    (rx_route s rlink delivery msg iter).fanout = 0 ∧
    (rx_route s rlink delivery msg iter).s.link = s.link ∧
    (rx_route s rlink delivery msg iter).s.calls = s.calls ∧
    (rx_route s rlink delivery msg iter).s.delivery = s.delivery ∧
    ∀ b, ((rx_route s rlink delivery msg iter).s.address b).deliveries_to_container
      = (s.address b).deliveries_to_container := by
  cases hret : qd_hash_retrieve s.addr_hash iter.address_hash with
  | none =>
    simp [rx_route, hret, rx_no_route]
  | some a =>
    rw [rx_route_found _ _ _ _ _ _ hret, rx_addr_found_dropped _ _ _ _ _ _ _ hdrop]
    refine ⟨rfl, rfl, rx_count_ingress_link _ _ _, rx_count_ingress_calls _ _ _,
      rx_count_ingress_delivery _ _ _, ?_⟩
    intro b
    exact rx_count_ingress_to_container _ _ _ _

/-- C4, as stated, fails: on `router_with_handler` the address `svc` has the
in-process handler 9, and the message `msg_svc_looped` carries the trace
`["A/r2", "A/r1"]`, which contains this router's id `A/r1`; the handler is
not invoked: the only calls are the two that consume the delivery. -/
theorem C4_counterexample :
    (router_with_handler.link 1).connected_link = none ∧
    qd_message_check msg_svc_looped = true ∧
    qd_message_field_iterator_to msg_svc_looped = some iter_svc ∧
    (∃ it ∈ incoming_trace msg_svc_looped, it.all = node_id router_with_handler) ∧
    qd_hash_retrieve router_with_handler.addr_hash iter_svc.address_hash = some 1 ∧
    (router_with_handler.address 1).handler = some 9 ∧
    (router_rx_handler router_with_handler 1 5 (some msg_svc_looped)).calls
      = [.pn_link_advance 1, .pn_link_flow 1 1] := by
  refine ⟨rfl, rfl, rfl, by decide, rfl, rfl, by decide⟩

/-- C4 (amended): for a message-routed ingress whose incoming trace already
contains this router's id, `router_rx_handler` leaves every link record (so
every `msg_fifo`) unchanged, makes no call beyond the two that consume the
delivery (so no in-process handler is invoked, whether or not the address
has one), leaves every `deliveries_to_container` unchanged and frees the
ingress delivery with disposition `RELEASED`. -/
theorem C4_trace_loop_dropped (s : qd_router_t) (link delivery : Nat) (msg : qd_message_t)
    (iter : qd_field_iterator_t)
    (hconn : (s.link link).connected_link = none)
    (hvalid : qd_message_check msg = true)
    (hto : qd_message_field_iterator_to msg = some iter)
    (htrace : ∃ it ∈ incoming_trace msg, it.all = node_id s) :
    (router_rx_handler s link delivery (some msg)).link = s.link ∧
    (router_rx_handler s link delivery (some msg)).calls
        = s.calls ++ [.pn_link_advance link, .pn_link_flow link 1] ∧
    (∀ b, ((router_rx_handler s link delivery (some msg)).address b).deliveries_to_container
        = (s.address b).deliveries_to_container) ∧
    ((router_rx_handler s link delivery (some msg)).delivery delivery).freed
        = some PN_RELEASED := by
  have hdrop : (router_annotate_message (node_id (rx_consume s link)) msg false).2.1 = true := by
    rw [router_annotate_message_drop, rx_consume_node_id]
    simpa using htrace
  obtain ⟨h1, h2, h3, h4, h5, h6⟩ := rx_route_dropped (rx_consume s link) link delivery msg iter hdrop
  rw [router_rx_handler_routed s link delivery msg iter hconn hvalid hto, h1]
  simp only [rx_ingress_outcome, h1, h2, Option.isSome_none, Bool.false_eq_true, if_false, if_true]
  refine ⟨?_, ?_, ?_, ?_⟩
  · show (rx_route _ _ _ _ _).s.link = _
    rw [h3]; rfl
  · show (rx_route _ _ _ _ _).s.calls = _
    rw [h4]; simp [rx_consume, log_call]
  · intro b
    show ((rx_route _ _ _ _ _).s.address b).deliveries_to_container = _
    rw [h6]; rfl
  · simp [qd_delivery_free]

/-- C4 (amended) at `msg_svc_looped` on `router_with_handler`: link 2, the
local consumer of `svc`, receives nothing and delivery 5 is released. -/
theorem C4_trace_loop_dropped_witness :
    (router_with_handler.link 1).connected_link = none ∧
    qd_message_check msg_svc_looped = true ∧
    qd_message_field_iterator_to msg_svc_looped = some iter_svc ∧
    (∃ it ∈ incoming_trace msg_svc_looped, it.all = node_id router_with_handler) ∧
    ((router_rx_handler router_with_handler 1 5 (some msg_svc_looped)).link 2).msg_fifo = [] ∧
    ((router_rx_handler router_with_handler 1 5 (some msg_svc_looped)).delivery 5).freed
        = some PN_RELEASED :=
  have ht : ∃ it ∈ incoming_trace msg_svc_looped, it.all = node_id router_with_handler := by
    decide
  have h := C4_trace_loop_dropped router_with_handler 1 5 msg_svc_looped iter_svc
    rfl rfl rfl ht
  ⟨rfl, rfl, rfl, ht, by rw [h.1]; rfl, h.2.2.2⟩

/-! ### The phases of the fan-out -/

theorem router_rx_handler_routed_link (s : qd_router_t) (link delivery : Nat) (msg : qd_message_t)
    (iter : qd_field_iterator_t)
    (hconn : (s.link link).connected_link = none)
    (hvalid : qd_message_check msg = true)
    (hto : qd_message_field_iterator_to msg = some iter) :
    (router_rx_handler s link delivery (some msg)).link
        = (rx_route (rx_consume s link) link delivery msg iter).s.link ∧
    (router_rx_handler s link delivery (some msg)).address
        = (rx_route (rx_consume s link) link delivery msg iter).s.address := by
  rw [router_rx_handler_routed s link delivery msg iter hconn hvalid hto]
  cases (rx_route (rx_consume s link) link delivery msg iter).handler with
  | none => exact ⟨rx_ingress_outcome_link _ _, rx_ingress_outcome_address _ _⟩
  | some h => exact ⟨rx_ingress_outcome_link _ _, rx_ingress_outcome_address _ _⟩

/-- For a known address, a message that is not dropped, and a `to` field that
is neither local nor direct, the routing ends in the state that the remote
fan-out produces from the state after the local loop. -/
theorem rx_route_forwarded (s : qd_router_t) (link delivery : Nat) (msg : qd_message_t)
    (iter : qd_field_iterator_t) (a : Nat)
    (hret : qd_hash_retrieve s.addr_hash iter.address_hash = some a)
    (hdrop : rx_drop s msg = false)
    (hlocal : qd_field_iterator_prefix iter.no_host local_prefix = false)
    (hdirect : qd_field_iterator_prefix iter.no_host ( direct_prefix s) = false) :
    (rx_route (rx_consume s link) link delivery msg iter).s =
      (rx_fan_out_remote (rx_annotated s msg) delivery a (rx_ingress_iter s msg)
        (rx_after_local s link delivery msg a)).1 ∧
    (rx_route (rx_consume s link) link delivery msg iter).fanout =
      (rx_fan_out_remote (rx_annotated s msg) delivery a (rx_ingress_iter s msg)
        (rx_after_local s link delivery msg a)).2 := by
  have hret' : qd_hash_retrieve (rx_consume s link).addr_hash iter.address_hash = some a := hret
  have hn : node_id (rx_count_ingress (rx_consume s link) link a) = node_id s :=
    (rx_count_ingress_frame _ link a).node_id_eq
  have hdirect' : qd_field_iterator_prefix iter.no_host ( direct_prefix (rx_consume s link))
      = false := hdirect
  unfold rx_drop at hdrop
  rw [rx_route_found _ _ _ _ _ _ hret']
  unfold rx_addr_found rx_after_local rx_before_local rx_annotated rx_ingress_iter rx_drop
  simp only [hn, hdrop, hlocal, hdirect', rx_fan_out, and_self, if_true]

theorem rx_dest_link_frame {s s' : qd_router_t} (h : route_frame s s') (rnode : Nat) :
    rx_dest_link s' rnode = rx_dest_link s rnode := by
  simp [rx_dest_link, h.node]

theorem rx_link_set_frame {s s' : qd_router_t} (h : route_frame s s') (origin : Int)
    (nodes : List Nat) :
    ∀ link_set, rx_link_set s' origin nodes link_set = rx_link_set s origin nodes link_set := by
  induction nodes with
  | nil => intro link_set; rfl
  | cons x rest ih =>
    intro link_set
    simp only [rx_link_set, rx_dest_link_frame h, h.node, h.mask_bit, ih]

theorem rx_origin_frame {s s' : qd_router_t} (h : route_frame s s')
    (ingress_iter : Option qd_field_iterator_t) (addr : Nat) :
    rx_origin s' ingress_iter addr = rx_origin s ingress_iter addr := by
  simp only [rx_origin, h.semantics, h.addr_hash, h.rnodes, h.node]

theorem qd_bitmask_set_bit_idem (ls : qd_bitmask_t) (b : Int) :
    qd_bitmask_set_bit (qd_bitmask_set_bit ls b) b = qd_bitmask_set_bit ls b := by
  unfold qd_bitmask_set_bit
  by_cases h : b ∈ ls.bits <;> simp [h]

/-- When every destination node that passes the `valid_origins` check resolves
to a link with mask bit `b`, the link-set loop sets bit `b` if some node
passes and sets nothing otherwise. -/
theorem rx_link_set_single (s : qd_router_t) (origin : Int) (b : Int) (nodes : List Nat)
    (hall : ∀ X ∈ nodes, qd_bitmask_value (s.node X).valid_origins origin = true →
      ∃ dl, rx_dest_link s X = some dl ∧ (s.link dl).mask_bit = b) :
    ∀ link_set, rx_link_set s origin nodes link_set =
      if nodes.any (fun X => qd_bitmask_value (s.node X).valid_origins origin)
      then qd_bitmask_set_bit link_set b else link_set := by
  induction nodes with
  | nil => intro link_set; simp [rx_link_set]
  | cons x rest ih =>
    intro link_set
    have ih' := ih (fun X hX hv => hall X (List.mem_cons_of_mem _ hX) hv)
    simp only [rx_link_set, List.any_cons]
    by_cases hv : qd_bitmask_value (s.node x).valid_origins origin = true
    · obtain ⟨dl, hdl, hb⟩ := hall x (List.mem_cons_self _ _) hv
      simp only [hdl, hb, hv, if_true, Bool.true_or]
      rw [ih']
      split
      · exact qd_bitmask_set_bit_idem _ _
      · rfl
    · have hv' : qd_bitmask_value (s.node x).valid_origins origin = false := by
        simpa using hv
      have hskip : (match rx_dest_link s x with
          | some dest_link => if qd_bitmask_value (s.node x).valid_origins origin = true then
              qd_bitmask_set_bit link_set (s.link dest_link).mask_bit else link_set
          | none => link_set) = link_set := by
        cases rx_dest_link s x <;> simp [hv']
      rw [hskip]
      simp only [hv', Bool.false_or]
      exact ih' link_set

theorem rx_consume_origin (s : qd_router_t) (link : Nat)
    (ingress_iter : Option qd_field_iterator_t) (addr : Nat) :
    rx_origin (rx_consume s link) ingress_iter addr = rx_origin s ingress_iter addr := rfl

theorem rx_consume_link_set (s : qd_router_t) (link : Nat) (origin : Int) (nodes : List Nat) :
    ∀ link_set, rx_link_set (rx_consume s link) origin nodes link_set
      = rx_link_set s origin nodes link_set := by
  induction nodes with
  | nil => intro link_set; rfl
  | cons x rest ih =>
    intro link_set
    simp only [rx_link_set, ih]
    rfl

theorem rx_before_local_frame (s : qd_router_t) (link : Nat) (msg : qd_message_t) (addr : Nat) :
    route_frame (rx_consume s link) (rx_before_local s link msg addr).1 := by
  unfold rx_before_local
  exact (rx_count_ingress_frame _ _ _).trans_route (rx_capture_handler_frame _ _ _ _)

theorem rx_after_local_frame (s : qd_router_t) (link delivery : Nat) (msg : qd_message_t)
    (addr : Nat) :
    route_frame (rx_consume s link) (rx_after_local s link delivery msg addr).1 := by
  unfold rx_after_local
  exact (rx_before_local_frame s link msg addr).trans_route
    (rx_forward_local_frame _ _ _ _ _).route

/-! ### Counters and FIFOs through the loops -/

theorem rx_local_body_transit (msg : qd_message_t) (delivery addr dest_link : Nat)
    (acc : qd_router_t × Nat) (b : Nat) :
    ((rx_local_body msg delivery addr dest_link acc).1.address b).deliveries_transit
      = (acc.1.address b).deliveries_transit := by
  by_cases hb : b = addr
  · subst hb
    simp [rx_local_body, qd_link_activate, log_call, incr_egress, set_address,
      msg_fifo_insert_tail]
  · simp [rx_local_body, qd_link_activate, log_call, incr_egress, set_address,
      msg_fifo_insert_tail, hb]

theorem rx_forward_local_transit (msg : qd_message_t) (delivery addr : Nat) (ls : List Nat)
    (b : Nat) :
    ∀ acc : qd_router_t × Nat,
      ((rx_forward_local msg delivery addr ls acc).1.address b).deliveries_transit
        = (acc.1.address b).deliveries_transit := by
  induction ls with
  | nil => intro acc; rfl
  | cons l rest ih =>
    intro acc
    simp only [rx_forward_local, ih, rx_local_body_transit]

theorem rx_before_local_transit (s : qd_router_t) (link : Nat) (msg : qd_message_t)
    (addr b : Nat) :
    ((rx_before_local s link msg addr).1.address b).deliveries_transit
      = (s.address b).deliveries_transit := by
  unfold rx_before_local rx_capture_handler rx_count_ingress
  by_cases hb : b = addr
  · subst hb
    simp only
    split <;> split <;> simp [incr_to_container, incr_ingress, set_address, rx_consume, log_call]
  · simp only
    split <;> split <;>
      simp [incr_to_container, incr_ingress, set_address, rx_consume, log_call, hb]

theorem rx_after_local_transit (s : qd_router_t) (link delivery : Nat) (msg : qd_message_t)
    (addr b : Nat) :
    ((rx_after_local s link delivery msg addr).1.address b).deliveries_transit
      = (s.address b).deliveries_transit := by
  unfold rx_after_local
  rw [rx_forward_local_transit, rx_before_local_transit]

/-- What one pass of the remote loop does when the bit indexes a link: one
routed event at the tail of that link's `msg_fifo`, `deliveries_transit` of
the address up by one (modulo `2^64`), `fanout` up by one. -/
theorem rx_remote_body_indexed (msg : qd_message_t) (delivery addr : Nat) (link_bit : Int)
    (acc : qd_router_t × Nat) (dest_link : Nat)
    (hidx : acc.1.out_links_by_mask_bit link_bit = some dest_link) :
    ((rx_remote_body msg delivery addr link_bit acc).1.link dest_link).msg_fifo
      = (acc.1.link dest_link).msg_fifo ++ [rx_routed_event acc.1 msg delivery (acc.2 + 1)] ∧
    (∀ l, l ≠ dest_link →
      (rx_remote_body msg delivery addr link_bit acc).1.link l = acc.1.link l) ∧
    ((rx_remote_body msg delivery addr link_bit acc).1.address addr).deliveries_transit
      = uint64_wrap ((acc.1.address addr).deliveries_transit + 1) ∧
    (rx_remote_body msg delivery addr link_bit acc).2 = acc.2 + 1 := by
  unfold rx_remote_body
  rw [hidx]
  refine ⟨?_, ?_, ?_, rfl⟩
  · simp [qd_link_activate, log_call, incr_transit, set_address, msg_fifo_insert_tail]
  · intro l hl
    simp [qd_link_activate, log_call, incr_transit, set_address, msg_fifo_insert_tail, hl]
  · simp [qd_link_activate, log_call, incr_transit, set_address, msg_fifo_insert_tail]

/-- The remote loop over a link set with the single bit `b` is one pass of its
body for `b`. -/
theorem rx_forward_remote_single (msg : qd_message_t) (delivery addr : Nat) (b : Int)
    (acc : qd_router_t × Nat) :
    rx_forward_remote msg delivery addr (qd_bitmask_t.mk [b]).bits.length (qd_bitmask_t.mk [b]) acc
      = rx_remote_body msg delivery addr b acc := by
  simp [rx_forward_remote, qd_bitmask_first_set]

/-- The remote loop over the empty link set does nothing. -/
theorem rx_forward_remote_empty (msg : qd_message_t) (delivery addr : Nat)
    (acc : qd_router_t × Nat) :
    rx_forward_remote msg delivery addr qd_bitmask_empty.bits.length qd_bitmask_empty acc = acc := by
  simp [rx_forward_remote, qd_bitmask_empty]

theorem rx_routed_event_frame {s s' : qd_router_t} (h : s'.delivery = s.delivery)
    (msg : qd_message_t) (delivery fanout : Nat) :
    rx_routed_event s' msg delivery fanout = rx_routed_event s msg delivery fanout := by
  simp [rx_routed_event, qd_delivery_settled, h]

theorem rx_before_local_fanout (s : qd_router_t) (link : Nat) (msg : qd_message_t) (addr : Nat) :
    (rx_before_local s link msg addr).2 = 0 := by
  unfold rx_before_local
  exact rx_capture_handler_fanout _ _ _ _

theorem rx_after_local_fanout (s : qd_router_t) (link delivery : Nat) (msg : qd_message_t)
    (addr : Nat) :
    (rx_after_local s link delivery msg addr).2 = (s.address addr).rlinks.length := by
  unfold rx_after_local
  rw [rx_forward_local_fanout, rx_before_local_fanout, (rx_before_local_frame s link msg addr).rlinks]
  simp [rx_consume, log_call]

/-- The remote fan-out, seen from the state after the local loop, in terms of
the origin and the link set computed on the state before the handler ran. -/
theorem rx_fan_out_remote_after_local (s : qd_router_t) (link delivery : Nat) (msg : qd_message_t)
    (a : Nat) :
    rx_fan_out_remote (rx_annotated s msg) delivery a (rx_ingress_iter s msg)
        (rx_after_local s link delivery msg a) =
      if rx_origin s (rx_ingress_iter s msg) a ≥ 0 then
        rx_forward_remote (rx_annotated s msg) delivery a
          (rx_link_set s (rx_origin s (rx_ingress_iter s msg) a) (s.address a).rnodes
            qd_bitmask_empty).bits.length
          (rx_link_set s (rx_origin s (rx_ingress_iter s msg) a) (s.address a).rnodes
            qd_bitmask_empty)
          (rx_after_local s link delivery msg a)
      else rx_after_local s link delivery msg a := by
  have hf := rx_after_local_frame s link delivery msg a
  unfold rx_fan_out_remote
  simp only [rx_origin_frame hf, rx_consume_origin, rx_link_set_frame hf, rx_consume_link_set,
    hf.rnodes]
  rfl

/-- C5: for a message-routed ingress that reaches the remote fan-out (address
found, not dropped, not `_local`, not direct, origin at least 0): when at
least one destination node of the address passes the `valid_origins` check
and every node that passes resolves (through `next_hop->peer_link` or
`peer_link`) to a link with mask bit `b`, and `out_links_by_mask_bit[b]` is
the link `dest`, then the link set is exactly the bit `b`, the remote fan-out
appends exactly one message event to the `msg_fifo` of `dest` and touches no
other link, and `deliveries_transit++` of the address is executed exactly once
(the 64-bit counter holds the old value plus 1 modulo `2^64`, so it goes up by
exactly 1 whenever it was below its maximum). -/
theorem C5_next_hop_dedup (s : qd_router_t) (link delivery : Nat) (msg : qd_message_t)
    (iter : qd_field_iterator_t) (a : Nat) (b : Int) (dest : Nat)
    (hconn : (s.link link).connected_link = none)
    (hvalid : qd_message_check msg = true)
    (hto : qd_message_field_iterator_to msg = some iter)
    (hret : qd_hash_retrieve s.addr_hash iter.address_hash = some a)
    (hnodrop : ∀ it ∈ incoming_trace msg, it.all ≠ node_id s)
    (hlocal : qd_field_iterator_prefix iter.no_host local_prefix = false)
    (hdirect : qd_field_iterator_prefix iter.no_host ( direct_prefix s) = false)
    (horigin : 0 ≤ rx_origin s (rx_ingress_iter s msg) a)
    (hsome : ∃ X ∈ (s.address a).rnodes,
      qd_bitmask_value (s.node X).valid_origins (rx_origin s (rx_ingress_iter s msg) a) = true)
    (hall : ∀ X ∈ (s.address a).rnodes,
      qd_bitmask_value (s.node X).valid_origins (rx_origin s (rx_ingress_iter s msg) a) = true →
        ∃ dl, rx_dest_link s X = some dl ∧ (s.link dl).mask_bit = b)
    (hidx : s.out_links_by_mask_bit b = some dest) :
    rx_link_set s (rx_origin s (rx_ingress_iter s msg) a) (s.address a).rnodes qd_bitmask_empty
        = qd_bitmask_t.mk [b] ∧
    ((router_rx_handler s link delivery (some msg)).link dest).msg_fifo
        = ((rx_after_local s link delivery msg a).1.link dest).msg_fifo ++
          [rx_routed_event s (rx_annotated s msg) delivery ((s.address a).rlinks.length + 1)] ∧
    (∀ l, l ≠ dest → (router_rx_handler s link delivery (some msg)).link l
        = (rx_after_local s link delivery msg a).1.link l) ∧
    ((router_rx_handler s link delivery (some msg)).address a).deliveries_transit
        = uint64_wrap ((s.address a).deliveries_transit + 1) ∧
    ((s.address a).deliveries_transit + 1 < 2 ^ 64 →
      ((router_rx_handler s link delivery (some msg)).address a).deliveries_transit
        = (s.address a).deliveries_transit + 1) := by
  have hdrop : rx_drop s msg = false := by
    unfold rx_drop
    rw [router_annotate_message_drop]
    simpa using hnodrop
  have hset : rx_link_set s (rx_origin s (rx_ingress_iter s msg) a) (s.address a).rnodes
      qd_bitmask_empty = qd_bitmask_t.mk [b] := by
    rw [rx_link_set_single s _ b _ hall]
    have hany : ((s.address a).rnodes.any fun X =>
        qd_bitmask_value (s.node X).valid_origins (rx_origin s (rx_ingress_iter s msg) a))
        = true := by
      simpa using hsome
    rw [hany]
    rfl
  have hf := rx_after_local_frame s link delivery msg a
  have hidx' : (rx_after_local s link delivery msg a).1.out_links_by_mask_bit b = some dest := by
    rw [hf.out_links]; exact hidx
  obtain ⟨hl, ha⟩ := router_rx_handler_routed_link s link delivery msg iter hconn hvalid hto
  have hfw := (rx_route_forwarded s link delivery msg iter a hret hdrop hlocal hdirect).1
  rw [rx_fan_out_remote_after_local, if_pos horigin, hset, rx_forward_remote_single] at hfw
  obtain ⟨h1, h2, h3, _⟩ := rx_remote_body_indexed (rx_annotated s msg) delivery a b
    (rx_after_local s link delivery msg a) dest hidx'
  have htr : ((router_rx_handler s link delivery (some msg)).address a).deliveries_transit
      = uint64_wrap ((s.address a).deliveries_transit + 1) := by
    rw [ha, hfw, h3, rx_after_local_transit]
  refine ⟨hset, ?_, ?_, htr, ?_⟩
  · rw [hl, hfw, h1, rx_after_local_fanout]
    rw [rx_routed_event_frame (s := s)]
    rw [hf.delivery]; rfl
  · intro l hne
    rw [hl, hfw, h2 l hne]
  · intro hroom
    exact htr.trans (uint64_wrap_of_lt _ hroom)

/-- C5 at the next-hop scenario: `svc` is at the routers 3 and 4, both behind
neighbour 5 whose peer link 70 has mask bit 7; the message arrived from
`A/r2` (origin 2).  The link set is the bit 7 and transit goes from 0 to 1. -/
theorem C5_next_hop_dedup_witness :
    (router_next_hop.link 1).connected_link = none ∧
    qd_message_check msg_svc_via_r2 = true ∧
    qd_message_field_iterator_to msg_svc_via_r2 = some iter_svc ∧
    qd_hash_retrieve router_next_hop.addr_hash iter_svc.address_hash = some 1 ∧
    (router_next_hop.address 1).rnodes = [3, 4] ∧
    rx_origin router_next_hop (rx_ingress_iter router_next_hop msg_svc_via_r2) 1 = 2 ∧
    router_next_hop.out_links_by_mask_bit 7 = some 70 ∧
    rx_link_set router_next_hop 2 [3, 4] qd_bitmask_empty = qd_bitmask_t.mk [7] ∧
    ((router_rx_handler router_next_hop 1 5 (some msg_svc_via_r2)).link 70).msg_fifo
      = ((rx_after_local router_next_hop 1 5 msg_svc_via_r2 1).1.link 70).msg_fifo ++
        [rx_routed_event router_next_hop (rx_annotated router_next_hop msg_svc_via_r2) 5 (0 + 1)] ∧
    ((router_rx_handler router_next_hop 1 5 (some msg_svc_via_r2)).address 1).deliveries_transit
      = 0 + 1 :=
  have h := C5_next_hop_dedup router_next_hop 1 5 msg_svc_via_r2 iter_svc 1 7 70
    rfl rfl rfl rfl (by decide) rfl (by decide) (by decide) (by decide) (by decide) rfl
  ⟨rfl, rfl, rfl, rfl, rfl, by decide, rfl, h.1, h.2.1, h.2.2.2.2 (by decide)⟩

theorem qd_bitmask_mem_set_bit (ls : qd_bitmask_t) (b x : Int) :
    x ∈ (qd_bitmask_set_bit ls b).bits ↔ x = b ∨ x ∈ ls.bits := by
  unfold qd_bitmask_set_bit
  by_cases h : b ∈ ls.bits
  · simp only [h, if_true]
    constructor
    · intro hx; exact Or.inr hx
    · rintro (hx | hx)
      · rw [hx]; exact h
      · exact hx
  · simp [h]

/-- The bits of the link set: exactly the mask bits of the links towards the
destination nodes that pass the `valid_origins` check for the origin. -/
theorem rx_link_set_mem (s : qd_router_t) (origin : Int) (nodes : List Nat) (x : Int) :
    ∀ link_set, x ∈ (rx_link_set s origin nodes link_set).bits ↔
      x ∈ link_set.bits ∨
      ∃ X ∈ nodes, qd_bitmask_value (s.node X).valid_origins origin = true ∧
        ∃ dl, rx_dest_link s X = some dl ∧ (s.link dl).mask_bit = x := by
  induction nodes with
  | nil => intro link_set; simp [rx_link_set]
  | cons n rest ih =>
    intro link_set
    simp only [rx_link_set, ih, List.mem_cons, exists_eq_or_imp]
    cases hd : rx_dest_link s n with
    | none => simp
    | some dl =>
      by_cases hv : qd_bitmask_value (s.node n).valid_origins origin = true
      · simp only [hv, if_true, qd_bitmask_mem_set_bit, Option.some.injEq, exists_eq_left',
          true_and]
        constructor
        · rintro ((h | h) | h)
          · exact Or.inr (Or.inl h.symm)
          · exact Or.inl h
          · exact Or.inr (Or.inr h)
        · rintro (h | h | h)
          · exact Or.inl (Or.inr h)
          · exact Or.inl (Or.inl h.symm)
          · exact Or.inr h
      · simp [hv]

/-- When no destination node passes the `valid_origins` check, the link set
stays empty. -/
theorem rx_link_set_filtered (s : qd_router_t) (origin : Int) (nodes : List Nat)
    (hnone : ∀ X ∈ nodes, qd_bitmask_value (s.node X).valid_origins origin = false) :
    rx_link_set s origin nodes qd_bitmask_empty = qd_bitmask_empty := by
  rw [rx_link_set_single s origin 0 nodes (fun X hX hv => by rw [hnone X hX] at hv; cases hv)]
  have hany : (nodes.any fun X => qd_bitmask_value (s.node X).valid_origins origin) = false := by
    simpa using hnone
  rw [hany]
  rfl

theorem rx_local_body_fifo (msg : qd_message_t) (delivery addr dest_link : Nat)
    (acc : qd_router_t × Nat) (l : Nat) :
    ((rx_local_body msg delivery addr dest_link acc).1.link l).msg_fifo
      = (acc.1.link l).msg_fifo ++
        (if dest_link = l then [rx_routed_event acc.1 msg delivery (acc.2 + 1)] else []) := by
  by_cases h : dest_link = l
  · subst h
    simp [rx_local_body, qd_link_activate, log_call, incr_egress, set_address,
      msg_fifo_insert_tail]
  · have h' : l ≠ dest_link := fun e => h e.symm
    simp [rx_local_body, qd_link_activate, log_call, incr_egress, set_address,
      msg_fifo_insert_tail, h, h']

theorem rx_routed_event_message (s : qd_router_t) (msg : qd_message_t) (delivery fanout : Nat) :
    (rx_routed_event s msg delivery fanout).message = some msg := rfl

/-- The local loop appends to the `msg_fifo` of a link one copy of the message
per reference to that link in the list it walks. -/
theorem rx_forward_local_fifo (msg : qd_message_t) (delivery addr : Nat) (ls : List Nat)
    (l : Nat) :
    ∀ acc : qd_router_t × Nat, ∃ evs : List qd_routed_event_t,
      ((rx_forward_local msg delivery addr ls acc).1.link l).msg_fifo
        = (acc.1.link l).msg_fifo ++ evs ∧
      evs.length = ls.count l ∧ ∀ e ∈ evs, e.message = some msg := by
  induction ls with
  | nil => intro acc; exact ⟨[], by simp [rx_forward_local]⟩
  | cons x rest ih =>
    intro acc
    obtain ⟨evs, h1, h2, h3⟩ := ih (rx_local_body msg delivery addr x acc)
    refine ⟨(if x = l then [rx_routed_event acc.1 msg delivery (acc.2 + 1)] else []) ++ evs,
      ?_, ?_, ?_⟩
    · simp only [rx_forward_local]
      rw [h1, rx_local_body_fifo, List.append_assoc]
    · by_cases hx : x = l
      · subst hx
        simp [h2]
      · have hx' : l ≠ x := fun e => hx e.symm
        simp [h2, hx, List.count_cons_of_ne hx']
    · intro e he
      rcases List.mem_append.mp he with h | h
      · by_cases hx : x = l
        · simp only [hx, if_true, List.mem_singleton] at h
          rw [h]; rfl
        · simp [hx] at h
      · exact h3 e h

theorem rx_before_local_link (s : qd_router_t) (link : Nat) (msg : qd_message_t) (addr : Nat) :
    (rx_before_local s link msg addr).1.link = s.link := by
  unfold rx_before_local
  simp only
  rw [rx_capture_handler_link, rx_count_ingress_link]
  rfl

/-- The `msg_fifo` of a link after the local loop of `router_rx_handler`: one
copy of the annotated message per reference to the link in `addr->rlinks`. -/
theorem rx_after_local_fifo (s : qd_router_t) (link delivery : Nat) (msg : qd_message_t)
    (addr l : Nat) :
    ∃ evs : List qd_routed_event_t,
      ((rx_after_local s link delivery msg addr).1.link l).msg_fifo = (s.link l).msg_fifo ++ evs ∧
      evs.length = (s.address addr).rlinks.count l ∧
      ∀ e ∈ evs, e.message = some (rx_annotated s msg) := by
  obtain ⟨evs, h1, h2, h3⟩ := rx_forward_local_fifo (rx_annotated s msg) delivery addr
    ((rx_before_local s link msg addr).1.address addr).rlinks l (rx_before_local s link msg addr)
  refine ⟨evs, ?_, ?_, h3⟩
  · unfold rx_after_local
    rw [h1, rx_before_local_link]
  · rw [h2, (rx_before_local_frame s link msg addr).rlinks]
    rfl

/-- C6: for a message-routed ingress that is not dropped, not `_local` and not
direct, with origin mask bit `o`: the bits of the link set are exactly the
mask bits of the links towards destination nodes whose `valid_origins[o]` is
set, so a node with `valid_origins[o]` clear contributes no bit; and when
every destination node of the address is filtered this way, the link set is
empty, the handler ends with the link records of the state after the local
loop (no transit copy is enqueued), no `deliveries_transit` counter changes,
and each link receives exactly one copy of the annotated message per
reference to it in `addr->rlinks`. -/
theorem C6_origin_filtering (s : qd_router_t) (link delivery : Nat) (msg : qd_message_t)
    (iter : qd_field_iterator_t) (a : Nat)
    (hconn : (s.link link).connected_link = none)
    (hvalid : qd_message_check msg = true)
    (hto : qd_message_field_iterator_to msg = some iter)
    (hret : qd_hash_retrieve s.addr_hash iter.address_hash = some a)
    (hnodrop : ∀ it ∈ incoming_trace msg, it.all ≠ node_id s)
    (hlocal : qd_field_iterator_prefix iter.no_host local_prefix = false)
    (hdirect : qd_field_iterator_prefix iter.no_host ( direct_prefix s) = false) :
    (∀ x : Int,
      x ∈ (rx_link_set s (rx_origin s (rx_ingress_iter s msg) a) (s.address a).rnodes
            qd_bitmask_empty).bits ↔
        ∃ X ∈ (s.address a).rnodes,
          qd_bitmask_value (s.node X).valid_origins (rx_origin s (rx_ingress_iter s msg) a)
            = true ∧
          ∃ dl, rx_dest_link s X = some dl ∧ (s.link dl).mask_bit = x) ∧
    ((∀ X ∈ (s.address a).rnodes,
        qd_bitmask_value (s.node X).valid_origins (rx_origin s (rx_ingress_iter s msg) a)
          = false) →
      rx_link_set s (rx_origin s (rx_ingress_iter s msg) a) (s.address a).rnodes
          qd_bitmask_empty = qd_bitmask_empty ∧
      (router_rx_handler s link delivery (some msg)).link
          = (rx_after_local s link delivery msg a).1.link ∧
      (∀ b, ((router_rx_handler s link delivery (some msg)).address b).deliveries_transit
          = (s.address b).deliveries_transit) ∧
      ∀ l, ∃ evs : List qd_routed_event_t,
        ((router_rx_handler s link delivery (some msg)).link l).msg_fifo
            = (s.link l).msg_fifo ++ evs ∧
        evs.length = (s.address a).rlinks.count l ∧
        ∀ e ∈ evs, e.message = some (rx_annotated s msg)) := by
  refine ⟨fun x => ?_, fun hnone => ?_⟩
  · rw [rx_link_set_mem]
    simp [qd_bitmask_empty]
  · have hdrop : rx_drop s msg = false := by
      unfold rx_drop
      rw [router_annotate_message_drop]
      simpa using hnodrop
    have hset := rx_link_set_filtered s _ _ hnone
    obtain ⟨hl, ha⟩ := router_rx_handler_routed_link s link delivery msg iter hconn hvalid hto
    have hfw := (rx_route_forwarded s link delivery msg iter a hret hdrop hlocal hdirect).1
    have hrem : rx_fan_out_remote (rx_annotated s msg) delivery a (rx_ingress_iter s msg)
        (rx_after_local s link delivery msg a) = rx_after_local s link delivery msg a := by
      rw [rx_fan_out_remote_after_local, hset, rx_forward_remote_empty]
      simp
    rw [hrem] at hfw
    refine ⟨hset, by rw [hl, hfw], ?_, ?_⟩
    · intro b
      rw [ha, hfw, rx_after_local_transit]
    · intro l
      rw [hl, hfw]
      exact rx_after_local_fifo s link delivery msg a l

/-- C6 at the origin-filtering scenario: `svc` has the one remote destination
3 whose `valid_origins[5]` is clear, and the message arrived from `A/r2`,
whose mask bit is 5.  The link set is empty, transit stays 0, and the local
consumer link 2 receives one copy. -/
theorem C6_origin_filtering_witness :
    (router_origin_filter.link 1).connected_link = none ∧
    qd_message_check msg_svc_via_r2 = true ∧
    qd_message_field_iterator_to msg_svc_via_r2 = some iter_svc ∧
    qd_hash_retrieve router_origin_filter.addr_hash iter_svc.address_hash = some 1 ∧
    rx_origin router_origin_filter (rx_ingress_iter router_origin_filter msg_svc_via_r2) 1 = 5 ∧
    (router_origin_filter.address 1).rnodes = [3] ∧
    qd_bitmask_value (router_origin_filter.node 3).valid_origins 5 = false ∧
    rx_link_set router_origin_filter
        (rx_origin router_origin_filter (rx_ingress_iter router_origin_filter msg_svc_via_r2) 1)
        (router_origin_filter.address 1).rnodes qd_bitmask_empty = qd_bitmask_empty ∧
    ((router_rx_handler router_origin_filter 1 5
        (some msg_svc_via_r2)).address 1).deliveries_transit
      = (router_origin_filter.address 1).deliveries_transit ∧
    (∃ evs : List qd_routed_event_t,
      ((router_rx_handler router_origin_filter 1 5 (some msg_svc_via_r2)).link 2).msg_fifo
          = (router_origin_filter.link 2).msg_fifo ++ evs ∧
      evs.length = (router_origin_filter.address 1).rlinks.count 2 ∧
      ∀ e ∈ evs, e.message = some (rx_annotated router_origin_filter msg_svc_via_r2)) :=
  have h := (C6_origin_filtering router_origin_filter 1 5 msg_svc_via_r2 iter_svc 1
    rfl rfl rfl rfl (by decide) rfl (by decide)).2 (by decide)
  ⟨rfl, rfl, rfl, rfl, by decide, rfl, by decide, h.1, h.2.2.1 1, h.2.2.2 2⟩

/-! ### One copy per link -/

theorem foldl_min_mem (xs : List Int) : ∀ x : Int, xs.foldl min x ∈ x :: xs := by
  induction xs with
  | nil => intro x; simp
  | cons y rest ih =>
    intro x
    simp only [List.foldl_cons]
    have h := ih (min x y)
    rcases List.mem_cons.mp h with h | h
    · rcases min_choice x y with hm | hm
      · rw [h, hm]; simp
      · rw [h, hm]; simp
    · exact List.mem_cons_of_mem _ (List.mem_cons_of_mem _ h)

theorem qd_bitmask_first_set_mem (ls : qd_bitmask_t) (b : Int)
    (h : qd_bitmask_first_set ls = some b) : b ∈ ls.bits := by
  unfold qd_bitmask_first_set at h
  cases hb : ls.bits with
  | nil => rw [hb] at h; cases h
  | cons x xs =>
    rw [hb] at h
    simp only [Option.some.injEq] at h
    rw [← h]
    exact foldl_min_mem xs x

theorem qd_bitmask_mem_clear_bit (ls : qd_bitmask_t) (b x : Int) :
    x ∈ (qd_bitmask_clear_bit ls b).bits ↔ x ∈ ls.bits ∧ x ≠ b := by
  simp [qd_bitmask_clear_bit]

/-- Clearing a set bit shortens the list of set bits: the bound given to the
`link_set` loops always suffices. -/
theorem qd_bitmask_clear_bit_length (ls : qd_bitmask_t) (b : Int) (h : b ∈ ls.bits) :
    (qd_bitmask_clear_bit ls b).bits.length < ls.bits.length := by
  unfold qd_bitmask_clear_bit
  simp only
  rw [List.length_filter_lt_length_iff_exists]
  exact ⟨b, h, by simp⟩

theorem rx_remote_body_fifo_other (msg : qd_message_t) (delivery addr : Nat) (link_bit : Int)
    (acc : qd_router_t × Nat) (l : Nat)
    (hne : acc.1.out_links_by_mask_bit link_bit ≠ some l) :
    (rx_remote_body msg delivery addr link_bit acc).1.link l = acc.1.link l := by
  cases hidx : acc.1.out_links_by_mask_bit link_bit with
  | none => simp [rx_remote_body, hidx]
  | some dest =>
    have hd : l ≠ dest := by
      intro e; apply hne; rw [hidx, e]
    exact (rx_remote_body_indexed msg delivery addr link_bit acc dest hidx).2.1 l hd

/-- The remote loop leaves a link alone when no bit of the link set indexes it. -/
theorem rx_forward_remote_fifo_none (msg : qd_message_t) (delivery addr : Nat) (l : Nat)
    (n : Nat) :
    ∀ (link_set : qd_bitmask_t) (acc : qd_router_t × Nat),
      (∀ b ∈ link_set.bits, acc.1.out_links_by_mask_bit b ≠ some l) →
      (rx_forward_remote msg delivery addr n link_set acc).1.link l = acc.1.link l := by
  induction n with
  | zero => intro link_set acc _; rfl
  | succ n ih =>
    intro link_set acc hnone
    unfold rx_forward_remote
    cases hfs : qd_bitmask_first_set link_set with
    | none => rfl
    | some b =>
      simp only
      have hb := qd_bitmask_first_set_mem link_set b hfs
      have hout := (rx_remote_body_frame msg delivery addr b acc).out_links
      rw [ih (qd_bitmask_clear_bit link_set b) (rx_remote_body msg delivery addr b acc)]
      · exact rx_remote_body_fifo_other msg delivery addr b acc l (hnone b hb)
      · intro b' hb'
        rw [hout]
        exact hnone b' ((qd_bitmask_mem_clear_bit link_set b b').mp hb').1

/-- The remote loop appends at most one routed event to a link that is indexed
under at most one bit of the link set. -/
theorem rx_forward_remote_fifo_le_one (msg : qd_message_t) (delivery addr : Nat) (l : Nat)
    (n : Nat) :
    ∀ (link_set : qd_bitmask_t) (acc : qd_router_t × Nat),
      (∀ b1 ∈ link_set.bits, ∀ b2 ∈ link_set.bits,
        acc.1.out_links_by_mask_bit b1 = some l → acc.1.out_links_by_mask_bit b2 = some l →
          b1 = b2) →
      ∃ evs : List qd_routed_event_t,
        ((rx_forward_remote msg delivery addr n link_set acc).1.link l).msg_fifo
          = (acc.1.link l).msg_fifo ++ evs ∧ evs.length ≤ 1 := by
  induction n with
  | zero => intro link_set acc _; exact ⟨[], by simp [rx_forward_remote]⟩
  | succ n ih =>
    intro link_set acc hinj
    unfold rx_forward_remote
    cases hfs : qd_bitmask_first_set link_set with
    | none => exact ⟨[], by simp⟩
    | some b =>
      simp only
      have hb := qd_bitmask_first_set_mem link_set b hfs
      have hout := (rx_remote_body_frame msg delivery addr b acc).out_links
      by_cases hidx : acc.1.out_links_by_mask_bit b = some l
      · refine ⟨[rx_routed_event acc.1 msg delivery (acc.2 + 1)], ?_, by simp⟩
        rw [rx_forward_remote_fifo_none msg delivery addr l n]
        · exact (rx_remote_body_indexed msg delivery addr b acc l hidx).1
        · intro b' hb' hb'l
          rw [hout] at hb'l
          have hmem := (qd_bitmask_mem_clear_bit link_set b b').mp hb'
          exact hmem.2 (hinj b' hmem.1 b hb hb'l hidx)
      · obtain ⟨evs, h1, h2⟩ := ih (qd_bitmask_clear_bit link_set b)
          (rx_remote_body msg delivery addr b acc) (by
            intro b1 hb1 b2 hb2 h1 h2
            rw [hout] at h1 h2
            exact hinj b1 ((qd_bitmask_mem_clear_bit link_set b b1).mp hb1).1 b2
              ((qd_bitmask_mem_clear_bit link_set b b2).mp hb2).1 h1 h2)
        refine ⟨evs, ?_, h2⟩
        rw [h1, rx_remote_body_fifo_other msg delivery addr b acc l hidx]

/-- The bound passed to the remote loop suffices: with any bound of at least
the number of set bits the loop ends because the link set is empty. -/
theorem rx_forward_remote_bound (msg : qd_message_t) (delivery addr : Nat) (n : Nat) :
    ∀ (link_set : qd_bitmask_t) (acc : qd_router_t × Nat), link_set.bits.length ≤ n →
      rx_forward_remote msg delivery addr (n + 1) link_set acc
        = rx_forward_remote msg delivery addr n link_set acc := by
  induction n with
  | zero =>
    intro link_set acc hlen
    have hnil : link_set.bits = [] := List.length_eq_zero.mp (Nat.le_zero.mp hlen)
    simp [rx_forward_remote, qd_bitmask_first_set, hnil]
  | succ n ih =>
    intro link_set acc hlen
    rw [rx_forward_remote]
    conv => rhs; rw [rx_forward_remote]
    cases hfs : qd_bitmask_first_set link_set with
    | none => rfl
    | some b =>
      simp only
      have hb := qd_bitmask_first_set_mem link_set b hfs
      have hlt := qd_bitmask_clear_bit_length link_set b hb
      exact ih _ _ (by omega)

/-- The link records at the end of the block for a known address are those of
the state before the handler, of the state after the local loop, or of the
state after the remote fan-out from there. -/
theorem rx_addr_found_link_cases (s : qd_router_t) (link delivery : Nat) (msg : qd_message_t)
    (a : Nat) (is_local is_direct : Bool) :
    (rx_addr_found (rx_consume s link) link delivery msg a is_local is_direct).s.link = s.link ∨
    (rx_addr_found (rx_consume s link) link delivery msg a is_local is_direct).s.link
      = (rx_after_local s link delivery msg a).1.link ∨
    (rx_addr_found (rx_consume s link) link delivery msg a is_local is_direct).s.link
      = (rx_fan_out_remote (rx_annotated s msg) delivery a (rx_ingress_iter s msg)
          (rx_after_local s link delivery msg a)).1.link := by
  have hn : node_id (rx_count_ingress (rx_consume s link) link a) = node_id s :=
    (rx_count_ingress_frame _ link a).node_id_eq
  have hb := rx_before_local_link s link msg a
  unfold rx_addr_found rx_fan_out
  unfold rx_after_local rx_before_local rx_annotated rx_ingress_iter rx_drop at *
  simp only [hn] at hb ⊢
  by_cases h1 : (router_annotate_message (node_id s) msg false).2.1 = false ∧ is_local = false
  · rw [if_pos h1]
    by_cases h2 : is_direct = false
    · rw [if_pos h2]
      exact Or.inr (Or.inr rfl)
    · rw [if_neg h2]
      exact Or.inr (Or.inl rfl)
  · rw [if_neg h1]
    exact Or.inl hb

theorem router_rx_handler_link (s : qd_router_t) (link delivery : Nat) (msg : qd_message_t)
    (hconn : (s.link link).connected_link = none) :
    (router_rx_handler s link delivery (some msg)).link
      = (rx_message_routing (rx_consume s link) link delivery msg).s.link := by
  have hconn' : ((rx_consume s link).link link).connected_link = none := hconn
  simp only [router_rx_handler, hconn']
  cases (rx_message_routing (rx_consume s link) link delivery msg).handler <;> rfl

/-- C7, as stated, fails: on `router_link_both` the link 70 is a local link of
the addressed record and also the indexed outbound link towards its remote
destination; one message-routed invocation of `router_rx_handler` appends two
message events to the `msg_fifo` of link 70, one in each loop. -/
theorem C7_counterexample :
    (router_link_both.link 1).connected_link = none ∧
    qd_message_check msg_hello_all = true ∧
    rx_resolved router_link_both msg_hello_all = some 9 ∧
    (router_link_both.address 9).rlinks = [70] ∧
    (rx_link_set_of router_link_both msg_hello_all 9).bits = [7] ∧
    router_link_both.out_links_by_mask_bit 7 = some 70 ∧
    (router_link_both.link 70).msg_fifo = [] ∧
    ((router_rx_handler router_link_both 1 5 (some msg_hello_all)).link 70).msg_fifo.length
      = 2 := by
  refine ⟨rfl, rfl, rfl, rfl, by decide, rfl, rfl, by decide⟩

/-- C7 (amended): in one message-routed invocation of `router_rx_handler`, a
link `l` that is referenced at most once in the `rlinks` of the resolved
address, that is indexed in `out_links_by_mask_bit` under at most one bit of
the link set, and that is not both a member of `rlinks` and indexed under a
bit of the link set, has at most one message event appended to its
`msg_fifo`. -/
theorem C7_at_most_one_copy (s : qd_router_t) (link delivery : Nat) (msg : qd_message_t)
    (l : Nat)
    (hconn : (s.link link).connected_link = none)
    (hrl : ∀ a, rx_resolved s msg = some a → (s.address a).rlinks.count l ≤ 1)
    (hinj : ∀ a, rx_resolved s msg = some a →
      ∀ b1 ∈ (rx_link_set_of s msg a).bits, ∀ b2 ∈ (rx_link_set_of s msg a).bits,
        s.out_links_by_mask_bit b1 = some l → s.out_links_by_mask_bit b2 = some l → b1 = b2)
    (hdisj : ∀ a, rx_resolved s msg = some a → l ∈ (s.address a).rlinks →
      ∀ b ∈ (rx_link_set_of s msg a).bits, s.out_links_by_mask_bit b ≠ some l) :
    ∃ evs : List qd_routed_event_t,
      ((router_rx_handler s link delivery (some msg)).link l).msg_fifo
        = (s.link l).msg_fifo ++ evs ∧ evs.length ≤ 1 := by
  rw [router_rx_handler_link s link delivery msg hconn]
  unfold rx_message_routing
  by_cases hvalid : qd_message_check msg = true
  · rw [if_pos hvalid]
    cases hto : qd_message_field_iterator_to msg with
    | none => exact ⟨[], by simp [rx_no_route, rx_consume, log_call]⟩
    | some iter =>
      simp only
      rw [rx_ingress_outcome_link]
      cases hret : qd_hash_retrieve s.addr_hash iter.address_hash with
      | none =>
        have hret' : qd_hash_retrieve (rx_consume s link).addr_hash iter.address_hash = none :=
          hret
        refine ⟨[], ?_, by simp⟩
        simp only [rx_route, hret', rx_no_route, List.append_nil]
        rfl
      | some a =>
        have hret' : qd_hash_retrieve (rx_consume s link).addr_hash iter.address_hash = some a :=
          hret
        have hres : rx_resolved s msg = some a := by
          simp [rx_resolved, hto, hret]
        rw [rx_route_found _ _ _ _ _ _ hret']
        obtain ⟨evs, hloc, hlen, _⟩ := rx_after_local_fifo s link delivery msg a l
        have hf := rx_after_local_frame s link delivery msg a
        have hout : (rx_after_local s link delivery msg a).1.out_links_by_mask_bit
            = s.out_links_by_mask_bit := hf.out_links
        rcases rx_addr_found_link_cases s link delivery msg a
            ( qd_field_iterator_prefix iter.no_host local_prefix)
            ( qd_field_iterator_prefix iter.no_host ( direct_prefix (rx_consume s link)))
          with h | h | h
        · rw [h]; exact ⟨[], by simp⟩
        · rw [h]; exact ⟨evs, hloc, by rw [hlen]; exact hrl a hres⟩
        · rw [h, rx_fan_out_remote_after_local]
          by_cases ho : rx_origin s (rx_ingress_iter s msg) a ≥ 0
          · rw [if_pos ho]
            by_cases hmem : l ∈ (s.address a).rlinks
            · rw [rx_forward_remote_fifo_none]
              · exact ⟨evs, hloc, by rw [hlen]; exact hrl a hres⟩
              · intro b hb
                rw [hout]
                exact hdisj a hres hmem b hb
            · have hzero : evs = [] := by
                apply List.length_eq_zero.mp
                rw [hlen]
                exact List.count_eq_zero_of_not_mem hmem
              obtain ⟨evr, hr1, hr2⟩ := rx_forward_remote_fifo_le_one (rx_annotated s msg)
                delivery a l
                (rx_link_set s (rx_origin s (rx_ingress_iter s msg) a) (s.address a).rnodes
                  qd_bitmask_empty).bits.length
                (rx_link_set s (rx_origin s (rx_ingress_iter s msg) a) (s.address a).rnodes
                  qd_bitmask_empty)
                (rx_after_local s link delivery msg a)
                (by
                  intro b1 hb1 b2 hb2 h1 h2
                  rw [hout] at h1 h2
                  exact hinj a hres b1 hb1 b2 hb2 h1 h2)
              refine ⟨evr, ?_, hr2⟩
              rw [hr1, hloc, hzero, List.append_nil]
          · rw [if_neg ho]
            exact ⟨evs, hloc, by rw [hlen]; exact hrl a hres⟩
  · rw [if_neg hvalid]
    exact ⟨[], by simp [rx_no_route, qd_delivery_free, rx_consume, log_call]⟩

/-- C7 (amended) at the next-hop scenario: link 70 is indexed under the bit 7
only and is no local link of `svc`; it receives at most one copy although two
destination routers lie behind it. -/
theorem C7_at_most_one_copy_witness :
    (router_next_hop.link 1).connected_link = none ∧
    rx_resolved router_next_hop msg_svc_via_r2 = some 1 ∧
    (router_next_hop.address 1).rlinks.count 70 ≤ 1 ∧
    (rx_link_set_of router_next_hop msg_svc_via_r2 1).bits = [7] ∧
    (∃ evs : List qd_routed_event_t,
      ((router_rx_handler router_next_hop 1 5 (some msg_svc_via_r2)).link 70).msg_fifo
        = (router_next_hop.link 70).msg_fifo ++ evs ∧ evs.length ≤ 1) :=
  have hres : rx_resolved router_next_hop msg_svc_via_r2 = some 1 := rfl
  have hbits : (rx_link_set_of router_next_hop msg_svc_via_r2 1).bits = [7] := by decide
  ⟨rfl, hres, by decide, hbits,
    C7_at_most_one_copy router_next_hop 1 5 msg_svc_via_r2 70 rfl
      (fun a ha => by
        have h1 : a = 1 := by rw [hres] at ha; exact (Option.some.inj ha).symm
        subst h1; decide)
      (fun a ha b1 hb1 b2 hb2 _ _ => by
        have h1 : a = 1 := by rw [hres] at ha; exact (Option.some.inj ha).symm
        subst h1
        rw [hbits] at hb1 hb2
        simp only [List.mem_singleton] at hb1 hb2
        rw [hb1, hb2])
      (fun a ha hmem => by
        have h1 : a = 1 := by rw [hres] at ha; exact (Option.some.inj ha).symm
        subst h1
        exact absurd hmem (by decide))⟩

/-! ## `router_writable_link_handler` -/

/-- The move loop takes events from the head of `msg_fifo` until `to_send`
holds `link_credit` of them or `msg_fifo` is empty. -/
theorem writable_move_spec (link_credit : Int) (fifo : List qd_routed_event_t) :
    ∀ to_send : List qd_routed_event_t, (to_send.length : Int) < link_credit →
      writable_move link_credit fifo to_send =
        (fifo.drop (link_credit.toNat - to_send.length),
         to_send ++ fifo.take (link_credit.toNat - to_send.length)) := by
  induction fifo with
  | nil => intro to_send _; simp [writable_move]
  | cons re rest ih =>
    intro to_send hlt
    have hpos : 0 < link_credit.toNat - to_send.length := by omega
    obtain ⟨k, hk⟩ : ∃ k, link_credit.toNat - to_send.length = k + 1 :=
      ⟨link_credit.toNat - to_send.length - 1, by omega⟩
    simp only [writable_move]
    by_cases hfull : ((to_send ++ [re]).length : Int) = link_credit
    · rw [if_pos hfull]
      have hk0 : k = 0 := by
        simp only [List.length_append, List.length_singleton] at hfull
        omega
      rw [hk, hk0]
      simp
    · rw [if_neg hfull]
      have hlt' : ((to_send ++ [re]).length : Int) < link_credit := by
        simp only [List.length_append, List.length_singleton] at hfull ⊢
        omega
      rw [ih (to_send ++ [re]) hlt', hk]
      have hk' : link_credit.toNat - (to_send ++ [re]).length = k := by
        simp only [List.length_append, List.length_singleton]
        omega
      rw [hk']
      simp

/-- With positive credit, the move loop splits `msg_fifo` after the first
`min n credit` events. -/
theorem writable_move_init (link_credit : Int) (fifo : List qd_routed_event_t)
    (hpos : 0 < link_credit) :
    writable_move link_credit fifo [] =
      (fifo.drop (min fifo.length link_credit.toNat),
       fifo.take (min fifo.length link_credit.toNat)) := by
  rw [writable_move_spec link_credit fifo [] (by simpa using hpos)]
  simp only [List.length_nil, Nat.sub_zero, List.nil_append]
  rcases Nat.le_total fifo.length link_credit.toNat with h | h
  · rw [Nat.min_eq_left h, List.drop_of_length_le h, List.take_of_length_le h]
    simp
  · rw [Nat.min_eq_right h]

theorem sent_on_append (l : Nat) (xs ys : List qd_call) :
    sent_on l (xs ++ ys) = sent_on l xs ++ sent_on l ys := by
  induction xs with
  | nil => rfl
  | cons c rest ih =>
    cases c with
    | qd_message_send m l' =>
      simp only [List.cons_append, sent_on]
      split <;> simp [ih]
    | pn_link_advance _ => simpa [sent_on] using ih
    | pn_link_flow _ _ => simpa [sent_on] using ih
    | qd_link_activate _ => simpa [sent_on] using ih
    | handler _ _ _ _ => simpa [sent_on] using ih
    | pn_delivery_update _ _ => simpa [sent_on] using ih
    | pn_link_offered _ _ => simpa [sent_on] using ih
    | pn_link_drained _ => simpa [sent_on] using ih
    | pn_link_open _ => simpa [sent_on] using ih
    | pn_link_close _ => simpa [sent_on] using ih
    | qd_router_mobile_added _ => simpa [sent_on] using ih
    | qd_router_mobile_removed _ => simpa [sent_on] using ih

theorem writable_send_body_sent (link l : Nat) (re : qd_routed_event_t) (acc : writable_locals) :
    sent_on l (writable_send_body link re acc).s.calls
      = sent_on l acc.s.calls ++ (if link = l then [re.message] else []) := by
  unfold writable_send_body
  cases re.delivery <;>
    simp [log_call, qd_delivery, qd_delivery_set_peer, qd_delivery_free, sent_on_append, sent_on]

theorem writable_send_body_link (link : Nat) (re : qd_routed_event_t) (acc : writable_locals) :
    (writable_send_body link re acc).s.link = acc.s.link := by
  unfold writable_send_body
  cases re.delivery <;>
    simp [log_call, qd_delivery, qd_delivery_set_peer, qd_delivery_free]

/-- The send loop hands the messages of `to_send` to `qd_message_send` on the
link, in order, and touches no link record. -/
theorem writable_send_sent (link l : Nat) (to_send : List qd_routed_event_t) :
    ∀ acc : writable_locals,
      sent_on l (writable_send link to_send acc).s.calls
        = sent_on l acc.s.calls ++
          (if link = l then to_send.map (fun re => re.message) else []) ∧
      (writable_send link to_send acc).s.link = acc.s.link ∧
      (writable_send link to_send acc).event_count = acc.event_count + to_send.length := by
  induction to_send with
  | nil => intro acc; simp [writable_send]
  | cons re rest ih =>
    intro acc
    obtain ⟨h1, h2, h3⟩ := ih (writable_send_body link re acc)
    simp only [writable_send]
    refine ⟨?_, ?_, ?_⟩
    · rw [h1, writable_send_body_sent]
      by_cases h : link = l <;> simp [h]
    · rw [h2, writable_send_body_link]
    · rw [h3]
      simp only [writable_send_body, List.length_cons]
      omega

theorem writable_event_body_frame (l : Nat) (re : qd_routed_event_t) (acc : qd_router_t × Nat) :
    sent_on l (writable_event_body re acc).1.calls = sent_on l acc.1.calls ∧
    (writable_event_body re acc).1.link = acc.1.link := by
  unfold writable_event_body
  cases re.delivery with
  | none => simp
  | some d =>
    simp only
    by_cases h1 : re.disposition ≠ 0 <;> by_cases h2 : re.settle = true <;>
      simp [h1, h2, log_call, qd_delivery_free, sent_on_append, sent_on]

/-- The status-event loop sends no message and touches no link record. -/
theorem writable_events_frame (l : Nat) (events : List qd_routed_event_t) :
    ∀ acc : qd_router_t × Nat,
      sent_on l (writable_events events acc).1.calls = sent_on l acc.1.calls ∧
      (writable_events events acc).1.link = acc.1.link := by
  induction events with
  | nil => intro acc; simp [writable_events]
  | cons re rest ih =>
    intro acc
    obtain ⟨h1, h2⟩ := ih (writable_event_body re acc)
    obtain ⟨h3, h4⟩ := writable_event_body_frame l re acc
    simp only [writable_events]
    exact ⟨h1.trans h3, h2.trans h4⟩

theorem writable_take_spec (link_credit : Int) (fifo : List qd_routed_event_t) :
    writable_take link_credit fifo =
      (fifo.drop (min fifo.length link_credit.toNat),
       fifo.take (min fifo.length link_credit.toNat)) := by
  unfold writable_take
  by_cases hpos : link_credit > 0
  · rw [if_pos hpos, writable_move_init link_credit fifo hpos]
  · rw [if_neg hpos]
    have h0 : link_credit.toNat = 0 := by omega
    simp [h0]

theorem writable_locked_link (s : qd_router_t) (link : Nat) (link_credit : Int) (l : Nat) :
    ((writable_locked s link link_credit).link l).msg_fifo =
      if l = link then (writable_take link_credit (s.link link).msg_fifo).1
      else (s.link l).msg_fifo := by
  unfold writable_locked
  by_cases h : l = link
  · subst h
    simp only
    split <;> simp
  · simp only
    split <;> simp [h]

theorem writable_locked_calls (s : qd_router_t) (link : Nat) (link_credit : Int) :
    (writable_locked s link link_credit).calls = s.calls := by
  unfold writable_locked
  simp only
  split <;> rfl

theorem writable_report_frame (s : qd_router_t) (link : Nat) (offer : Nat)
    (drain_changed drain_mode : Bool) (event_count : Nat) (l : Nat) :
    sent_on l (writable_report s link offer drain_changed drain_mode event_count).1.calls
      = sent_on l s.calls ∧
    (writable_report s link offer drain_changed drain_mode event_count).1.link = s.link := by
  unfold writable_report
  split
  · simp [log_call, sent_on_append, sent_on]
  · simp only
    split <;> simp [log_call, sent_on_append, sent_on]

/-- The `msg_fifo` of every link and the messages sent on every link after one
invocation of `router_writable_link_handler`. -/
theorem router_writable_link_handler_wire (s : qd_router_t) (link : Nat) (link_credit : Int)
    (drain_changed drain_mode : Bool) (l : Nat) :
    ((router_writable_link_handler s link link_credit drain_changed drain_mode).1.link l).msg_fifo
      = (if l = link then (writable_take link_credit (s.link link).msg_fifo).1
         else (s.link l).msg_fifo) ∧
    sent_on l (router_writable_link_handler s link link_credit drain_changed drain_mode).1.calls
      = sent_on l s.calls ++
        (if link = l then
          (writable_take link_credit (s.link link).msg_fifo).2.map (fun re => re.message)
         else []) := by
  obtain ⟨hs1, hs2, _⟩ := writable_send_sent link l
    (writable_take link_credit (s.link link).msg_fifo).2
    { s := writable_locked s link link_credit, tag := s.dtag, event_count := 0 }
  obtain ⟨he1, he2⟩ := writable_events_frame l (s.link link).event_fifo
    ((writable_send link (writable_take link_credit (s.link link).msg_fifo).2
        { s := writable_locked s link link_credit, tag := s.dtag, event_count := 0 }).s,
     (writable_send link (writable_take link_credit (s.link link).msg_fifo).2
        { s := writable_locked s link link_credit, tag := s.dtag, event_count := 0 }).event_count)
  simp only at hs1 hs2 he1 he2
  rw [writable_locked_calls] at hs1
  obtain ⟨hr1, hr2⟩ := writable_report_frame
    (writable_events (s.link link).event_fifo
      ((writable_send link (writable_take link_credit (s.link link).msg_fifo).2
          { s := writable_locked s link link_credit, tag := s.dtag, event_count := 0 }).s,
       (writable_send link (writable_take link_credit (s.link link).msg_fifo).2
          { s := writable_locked s link link_credit, tag := s.dtag,
            event_count := 0 }).event_count)).1
    link ((writable_locked s link link_credit).link link).msg_fifo.length drain_changed drain_mode
    (writable_events (s.link link).event_fifo
      ((writable_send link (writable_take link_credit (s.link link).msg_fifo).2
          { s := writable_locked s link link_credit, tag := s.dtag, event_count := 0 }).s,
       (writable_send link (writable_take link_credit (s.link link).msg_fifo).2
          { s := writable_locked s link link_credit, tag := s.dtag,
            event_count := 0 }).event_count)).2
    l
  unfold router_writable_link_handler
  simp only
  refine ⟨?_, ?_⟩
  · rw [hr2, he2, hs2, writable_locked_link]
  · rw [hr1, he1, hs1]

/-- C8: for a link with `n` queued message events and credit `c`, one
invocation of `router_writable_link_handler` hands to `qd_message_send`
exactly the first `min n (max c 0)` events of `msg_fifo`, in order (so never
more than `c` when `c` is positive), and leaves in `msg_fifo` exactly the
remaining events in their original order; with `c ≤ 0` the `msg_fifo` is
unchanged and nothing is sent. -/
theorem C8_drain_at_most_credit (s : qd_router_t) (link : Nat) (link_credit : Int)
    (drain_changed drain_mode : Bool) :
    sent_on link (router_writable_link_handler s link link_credit drain_changed drain_mode).1.calls
      = sent_on link s.calls ++
        ((s.link link).msg_fifo.take (min (s.link link).msg_fifo.length link_credit.toNat)).map
          (fun re => re.message) ∧
    ((router_writable_link_handler s link link_credit drain_changed drain_mode).1.link
        link).msg_fifo
      = (s.link link).msg_fifo.drop (min (s.link link).msg_fifo.length link_credit.toNat) ∧
    ((min (s.link link).msg_fifo.length link_credit.toNat : Nat) : Int)
      = min ((s.link link).msg_fifo.length : Int) (max link_credit 0) ∧
    (link_credit ≤ 0 →
      ((router_writable_link_handler s link link_credit drain_changed drain_mode).1.link
          link).msg_fifo = (s.link link).msg_fifo ∧
      sent_on link
          (router_writable_link_handler s link link_credit drain_changed drain_mode).1.calls
        = sent_on link s.calls) := by
  obtain ⟨h1, h2⟩ := router_writable_link_handler_wire s link link_credit drain_changed
    drain_mode link
  rw [writable_take_spec] at h1 h2
  simp only [if_true] at h1 h2
  refine ⟨h2, h1, ?_, ?_⟩
  · rcases le_total link_credit 0 with hc | hc
    · have h0 : link_credit.toNat = 0 := by omega
      rw [h0, max_eq_right hc]
      simp
    · rw [max_eq_left hc]
      omega
  · intro hc
    have h0 : link_credit.toNat = 0 := by omega
    rw [h1, h2, h0]
    simp

/-- C8 on `router_backlog`: link 2 holds three events and has credit 2; the
first two are sent and the third stays queued. -/
theorem C8_drain_at_most_credit_witness :
    sent_on 2 (router_writable_link_handler router_backlog 2 2 false false).1.calls
      = [(queued_event "m1").message, (queued_event "m2").message] ∧
    ((router_writable_link_handler router_backlog 2 2 false false).1.link 2).msg_fifo
      = [queued_event "m3"] :=
  ⟨(C8_drain_at_most_credit router_backlog 2 2 false false).1,
   (C8_drain_at_most_credit router_backlog 2 2 false false).2.1⟩

/-! ## Order on the wire -/

theorem sent_on_activates (l : Nat) (cs : List qd_call)
    (h : ∀ c ∈ cs, ∃ l', c = qd_call.qd_link_activate l') : sent_on l cs = [] := by
  induction cs with
  | nil => rfl
  | cons c rest ih =>
    obtain ⟨l', hl'⟩ := h c (List.mem_cons_self _ _)
    subst hl'
    simp only [sent_on]
    exact ih (fun c hc => h c (List.mem_cons_of_mem _ hc))

theorem route_frame.sent_on_eq {s s' : qd_router_t} (h : route_frame s s') (l : Nat) :
    sent_on l s'.calls = sent_on l s.calls := by
  obtain ⟨cs, hcs, hall⟩ := h.calls_grow
  rw [hcs, sent_on_append, sent_on_activates l cs hall, List.append_nil]

theorem rx_ingress_outcome_frame (r : rx_locals) (delivery : Nat) :
    (rx_ingress_outcome r delivery).link = r.s.link ∧
      (rx_ingress_outcome r delivery).calls = r.s.calls :=
  ⟨rx_ingress_outcome_link r delivery, rx_ingress_outcome_calls r delivery⟩

/-- Message routing only appends to message FIFOs and sends nothing. -/
theorem rx_message_routing_wire (s : qd_router_t) (rlink delivery : Nat) (msg : qd_message_t)
    (l : Nat) :
    (s.link l).msg_fifo <+: ((rx_message_routing s rlink delivery msg).s.link l).msg_fifo ∧
    sent_on l (rx_message_routing s rlink delivery msg).s.calls = sent_on l s.calls := by
  unfold rx_message_routing
  split
  · split
    · rename_i iter _
      simp only
      rw [rx_ingress_outcome_link, rx_ingress_outcome_calls]
      have hf := rx_route_frame s rlink delivery msg iter
      exact ⟨hf.fifo_grows l, hf.sent_on_eq l⟩
    · exact ⟨List.prefix_refl _, rfl⟩
  · exact ⟨List.prefix_refl _, rfl⟩

/-- An invocation of `router_rx_handler` only appends to message FIFOs and
sends nothing. -/
theorem router_rx_handler_wire (s : qd_router_t) (link delivery : Nat)
    (received : Option qd_message_t) (l : Nat) :
    (s.link l).msg_fifo <+: ((router_rx_handler s link delivery received).link l).msg_fifo ∧
    sent_on l (router_rx_handler s link delivery received).calls = sent_on l s.calls := by
  cases received with
  | none => exact ⟨List.prefix_refl _, rfl⟩
  | some msg =>
    have hc : sent_on l (rx_consume s link).calls = sent_on l s.calls := by
      simp [rx_consume, log_call, sent_on_append, sent_on]
    simp only [router_rx_handler]
    cases hconn : ((rx_consume s link).link link).connected_link with
    | some clink =>
      simp only
      unfold rx_link_routing
      simp only
      constructor
      · by_cases h : l = clink
        · subst h
          split <;> simp [qd_link_activate, log_call, qd_delivery_free, msg_fifo_insert_tail,
            rx_consume]
        · split <;> simp [qd_link_activate, log_call, qd_delivery_free, msg_fifo_insert_tail,
            rx_consume, h]
      · split <;> simp [qd_link_activate, log_call, qd_delivery_free, msg_fifo_insert_tail,
          rx_consume, sent_on_append, sent_on]
    | none =>
      simp only
      obtain ⟨h1, h2⟩ := rx_message_routing_wire (rx_consume s link) link delivery msg l
      cases (rx_message_routing (rx_consume s link) link delivery msg).handler with
      | none => exact ⟨h1, h2.trans hc⟩
      | some h =>
        simp only
        refine ⟨h1, ?_⟩
        simp only [log_call, sent_on_append, sent_on, List.append_nil]
        exact h2.trans hc

theorem send_local_body_frame (msg : qd_message_t) (addr dest_link : Nat) (s : qd_router_t) :
    fwd_frame addr s (send_local_body msg addr dest_link s) :=
  ((fwd_frame_enqueue addr _ _ _).trans_fwd (fwd_frame_activate addr _ _)).trans_fwd
    (fwd_frame_incr_egress addr _)

theorem send_remote_body_frame (msg : qd_message_t) (addr : Nat) (link_bit : Int)
    (s : qd_router_t) : fwd_frame addr s (send_remote_body msg addr link_bit s) := by
  unfold send_remote_body
  cases s.out_links_by_mask_bit link_bit with
  | none => exact fwd_frame.refl_fwd _ _
  | some dest_link =>
    exact ((fwd_frame_enqueue addr _ _ _).trans_fwd (fwd_frame_activate addr _ _)).trans_fwd
      (fwd_frame_incr_transit addr _)

theorem send_forward_local_frame (msg : qd_message_t) (addr : Nat) (ls : List Nat) :
    ∀ s : qd_router_t, fwd_frame addr s (send_forward_local msg addr ls s) := by
  induction ls with
  | nil => intro s; exact fwd_frame.refl_fwd _ _
  | cons l rest ih =>
    intro s
    exact (send_local_body_frame msg addr l s).trans_fwd (ih _)

theorem send_forward_remote_frame (msg : qd_message_t) (addr : Nat) (n : Nat) :
    ∀ (link_set : qd_bitmask_t) (s : qd_router_t),
      fwd_frame addr s (send_forward_remote msg addr n link_set s) := by
  induction n with
  | zero => intro link_set s; exact fwd_frame.refl_fwd _ _
  | succ n ih =>
    intro link_set s
    unfold send_forward_remote
    cases qd_bitmask_first_set link_set with
    | none => exact fwd_frame.refl_fwd _ _
    | some link_bit => exact (send_remote_body_frame msg addr link_bit s).trans_fwd (ih _ _)

/-- An invocation of `qd_router_send` only appends to message FIFOs and sends
nothing. -/
theorem qd_router_send_wire (s : qd_router_t) (address : qd_field_iterator_t)
    (msg : qd_message_t) (l : Nat) :
    (s.link l).msg_fifo <+: ((qd_router_send s address msg).link l).msg_fifo ∧
    sent_on l (qd_router_send s address msg).calls = sent_on l s.calls := by
  unfold qd_router_send
  cases qd_hash_retrieve s.addr_hash address.address_hash with
  | none => exact ⟨List.prefix_refl _, rfl⟩
  | some addr =>
    simp only
    have h1 := send_forward_local_frame msg addr ((incr_from_container s addr).address addr).rlinks
      (incr_from_container s addr)
    have h2 := send_forward_remote_frame msg addr
      (send_link_set
        (send_forward_local msg addr ((incr_from_container s addr).address addr).rlinks
          (incr_from_container s addr))
        ((send_forward_local msg addr ((incr_from_container s addr).address addr).rlinks
          (incr_from_container s addr)).address addr).rnodes qd_bitmask_empty).bits.length
      (send_link_set
        (send_forward_local msg addr ((incr_from_container s addr).address addr).rlinks
          (incr_from_container s addr))
        ((send_forward_local msg addr ((incr_from_container s addr).address addr).rlinks
          (incr_from_container s addr)).address addr).rnodes qd_bitmask_empty)
      (send_forward_local msg addr ((incr_from_container s addr).address addr).rlinks
        (incr_from_container s addr))
    have h := (h1.trans_fwd h2).route
    exact ⟨h.fifo_grows l, h.sent_on_eq l⟩

/-- What one invocation does to the history of link `l`, the sequence of the
messages sent on it followed by the messages still queued on it: a producer
appends what it enqueues, the egress scheduler changes nothing. -/
theorem router_op_history (s : qd_router_t) (l : Nat) (op : router_op) :
    sent_on l (op.apply s).calls ++ queued_on (op.apply s) l
      = sent_on l s.calls ++ queued_on s l ++ enqueued_by s l op := by
  have hprod : ∀ s' : qd_router_t, (s.link l).msg_fifo <+: (s'.link l).msg_fifo →
      sent_on l s'.calls = sent_on l s.calls →
      sent_on l s'.calls ++ queued_on s' l
        = sent_on l s.calls ++ queued_on s l ++
          ((s'.link l).msg_fifo.drop (s.link l).msg_fifo.length).map (fun re => re.message) := by
    intro s' hpre hsent
    obtain ⟨evs, hevs⟩ := hpre
    rw [hsent]
    simp only [queued_on]
    rw [← hevs]
    simp
  cases op with
  | rx link delivery received =>
    obtain ⟨h1, h2⟩ := router_rx_handler_wire s link delivery received l
    exact hprod _ h1 h2
  | send address msg =>
    obtain ⟨h1, h2⟩ := qd_router_send_wire s address msg l
    exact hprod _ h1 h2
  | writable link link_credit drain_changed drain_mode =>
    obtain ⟨h1, h2⟩ := router_writable_link_handler_wire s link link_credit drain_changed
      drain_mode l
    simp only [router_op.apply, enqueued_by, List.append_nil, queued_on]
    rw [h1, h2, writable_take_spec]
    by_cases h : l = link
    · subst h
      simp only [if_true]
      rw [List.append_assoc, ← List.map_append, List.take_append_drop]
    · have h' : ¬ link = l := fun e => h e.symm
      simp [h, h']

/-- C9: for any link `l` and any interleaving of producer invocations
(`router_rx_handler`, `qd_router_send`) with invocations of
`router_writable_link_handler`, the messages sent on `l` followed by the
messages still queued on `l` are exactly the messages sent and queued at the
start followed by the messages enqueued on `l`, in enqueue order; so the
sequence sent is, in order, a prefix of the sequence enqueued: nothing is
reordered, duplicated or skipped. -/
theorem C9_fifo_order_on_wire (l : Nat) (ops : List router_op) :
    ∀ s : qd_router_t,
      sent_on l (run_ops ops s).calls ++ queued_on (run_ops ops s) l
        = sent_on l s.calls ++ queued_on s l ++ enqueued_on l ops s ∧
      sent_on l (run_ops ops s).calls
        <+: sent_on l s.calls ++ queued_on s l ++ enqueued_on l ops s := by
  induction ops with
  | nil =>
    intro s
    simp [run_ops, enqueued_on]
  | cons op rest ih =>
    intro s
    obtain ⟨h1, _⟩ := ih (op.apply s)
    have heq : sent_on l (run_ops (op :: rest) s).calls ++ queued_on (run_ops (op :: rest) s) l
        = sent_on l s.calls ++ queued_on s l ++ enqueued_on l (op :: rest) s := by
      simp only [run_ops, enqueued_on]
      rw [h1, router_op_history s l op]
      simp only [List.append_assoc]
    exact ⟨heq, ⟨_, heq⟩⟩

/-! ## Delivery peering on the egress side -/

theorem writable_send_body_next (link : Nat) (re : qd_routed_event_t) (acc : writable_locals) :
    (writable_send_body link re acc).s.delivery_next = acc.s.delivery_next + 1 := by
  unfold writable_send_body
  cases re.delivery <;>
    simp [log_call, qd_delivery, qd_delivery_set_peer, qd_delivery_free]

/-- One pass of the send loop leaves alone every existing delivery other than
the one carried by the event. -/
theorem writable_send_body_other (link : Nat) (re : qd_routed_event_t) (acc : writable_locals)
    (x : Nat) (hx : x < acc.s.delivery_next) (hne : re.delivery ≠ some x) :
    (writable_send_body link re acc).s.delivery x = acc.s.delivery x := by
  have hx' : x ≠ acc.s.delivery_next := by omega
  unfold writable_send_body
  cases hd : re.delivery with
  | none =>
    simp [log_call, qd_delivery, qd_delivery_free, upd_apply, hx']
  | some d =>
    have hxd : x ≠ d := by
      intro e; apply hne; rw [hd, e]
    simp [log_call, qd_delivery, qd_delivery_set_peer, upd_apply, hx', hxd]

/-- What one pass of the send loop does to the new delivery and to the
delivery carried by the event, when the latter exists already. -/
theorem writable_send_body_new (link : Nat) (re : qd_routed_event_t) (acc : writable_locals) :
    ((writable_send_body link re acc).s.delivery acc.s.delivery_next).link = link ∧
    (∀ d, re.delivery = some d → d < acc.s.delivery_next →
      ((writable_send_body link re acc).s.delivery d).peer = some acc.s.delivery_next ∧
      ((writable_send_body link re acc).s.delivery acc.s.delivery_next).peer = some d ∧
      ((writable_send_body link re acc).s.delivery acc.s.delivery_next).freed = none) ∧
    (re.delivery = none →
      ((writable_send_body link re acc).s.delivery acc.s.delivery_next).freed = some 0 ∧
      ((writable_send_body link re acc).s.delivery acc.s.delivery_next).peer = none) := by
  unfold writable_send_body
  refine ⟨?_, ?_, ?_⟩
  · cases hd : re.delivery with
    | none => simp [log_call, qd_delivery, qd_delivery_free]
    | some d =>
      by_cases h : acc.s.delivery_next = d <;>
        simp [log_call, qd_delivery, qd_delivery_set_peer, upd_apply, h]
  · intro d hd hlt
    have hne : d ≠ acc.s.delivery_next := by omega
    have hne' : acc.s.delivery_next ≠ d := fun e => hne e.symm
    simp [hd, log_call, qd_delivery, qd_delivery_set_peer, upd_apply, hne, hne']
  · intro hd
    simp [hd, log_call, qd_delivery, qd_delivery_free]

theorem writable_send_next (link : Nat) (to_send : List qd_routed_event_t) :
    ∀ acc : writable_locals,
      (writable_send link to_send acc).s.delivery_next = acc.s.delivery_next + to_send.length := by
  induction to_send with
  | nil => intro acc; rfl
  | cons re rest ih =>
    intro acc
    simp only [writable_send, ih, writable_send_body_next, List.length_cons]
    omega

/-- The send loop leaves alone every existing delivery that none of the events
carries. -/
theorem writable_send_other (link : Nat) (to_send : List qd_routed_event_t) (x : Nat) :
    ∀ acc : writable_locals, x < acc.s.delivery_next →
      (∀ re ∈ to_send, re.delivery ≠ some x) →
      (writable_send link to_send acc).s.delivery x = acc.s.delivery x := by
  induction to_send with
  | nil => intro acc _ _; rfl
  | cons re rest ih =>
    intro acc hx hne
    simp only [writable_send]
    rw [ih (writable_send_body link re acc)
      (by rw [writable_send_body_next]; omega)
      (fun e he => hne e (List.mem_cons_of_mem _ he))]
    exact writable_send_body_other link re acc x hx (hne re (List.mem_cons_self _ _))

/-- The send loop on the `i`-th event of `to_send`: the new delivery is the
`i`-th allocated; it is peered both ways with the delivery the event carries,
or freed pre-settled when the event carries none. -/
theorem writable_send_peered (link : Nat) (to_send : List qd_routed_event_t) :
    ∀ (acc : writable_locals) (i : Nat) (re : qd_routed_event_t),
      to_send[i]? = some re →
      (∀ e ∈ to_send, ∀ d, e.delivery = some d → d < acc.s.delivery_next) →
      (to_send.filterMap (fun e => e.delivery)).Nodup →
      ((writable_send link to_send acc).s.delivery (acc.s.delivery_next + i)).link = link ∧
      (∀ d, re.delivery = some d →
        ((writable_send link to_send acc).s.delivery d).peer = some (acc.s.delivery_next + i) ∧
        ((writable_send link to_send acc).s.delivery (acc.s.delivery_next + i)).peer = some d ∧
        ((writable_send link to_send acc).s.delivery (acc.s.delivery_next + i)).freed = none) ∧
      (re.delivery = none →
        ((writable_send link to_send acc).s.delivery (acc.s.delivery_next + i)).freed = some 0 ∧
        ((writable_send link to_send acc).s.delivery (acc.s.delivery_next + i)).peer = none) := by
  induction to_send with
  | nil => intro acc i re hi; simp at hi
  | cons re0 rest ih =>
    intro acc i re hi hfresh hnodup
    have hnext := writable_send_body_next link re0 acc
    have hfresh_rest : ∀ e ∈ rest, ∀ d, e.delivery = some d →
        d < (writable_send_body link re0 acc).s.delivery_next := by
      intro e he d hd
      rw [hnext]
      exact Nat.lt_succ_of_lt (hfresh e (List.mem_cons_of_mem _ he) d hd)
    cases i with
    | zero =>
      simp only [List.getElem?_cons_zero, Option.some.injEq] at hi
      subst hi
      simp only [writable_send, Nat.add_zero]
      have hnew : ∀ e ∈ rest, e.delivery ≠ some acc.s.delivery_next := by
        intro e he hd
        exact Nat.lt_irrefl _ (hfresh e (List.mem_cons_of_mem _ he) _ hd)
      have hkeep := writable_send_other link rest acc.s.delivery_next
        (writable_send_body link re0 acc) (by rw [hnext]; omega) hnew
      obtain ⟨b1, b2, b3⟩ := writable_send_body_new link re0 acc
      rw [hkeep]
      refine ⟨b1, ?_, b3⟩
      intro d hd
      have hlt : d < acc.s.delivery_next := hfresh re0 (List.mem_cons_self _ _) d hd
      have hd_rest : ∀ e ∈ rest, e.delivery ≠ some d := by
        intro e he hed
        have hmem : d ∈ rest.filterMap (fun e => e.delivery) :=
          List.mem_filterMap.mpr ⟨e, he, hed⟩
        simp only [List.filterMap_cons, hd] at hnodup
        exact (List.nodup_cons.mp hnodup).1 hmem
      rw [writable_send_other link rest d (writable_send_body link re0 acc)
        (by rw [hnext]; omega) hd_rest]
      exact b2 d hd hlt
    | succ j =>
      simp only [List.getElem?_cons_succ] at hi
      have hnodup_rest : (rest.filterMap (fun e => e.delivery)).Nodup := by
        cases hd0 : re0.delivery with
        | none => simpa [List.filterMap_cons, hd0] using hnodup
        | some d0 =>
          simp only [List.filterMap_cons, hd0] at hnodup
          exact (List.nodup_cons.mp hnodup).2
      have h := ih (writable_send_body link re0 acc) j re hi hfresh_rest hnodup_rest
      rw [hnext] at h
      have hidx : acc.s.delivery_next + 1 + j = acc.s.delivery_next + (j + 1) := by omega
      rw [hidx] at h
      simpa only [writable_send] using h

theorem writable_event_body_delivery (re : qd_routed_event_t) (acc : qd_router_t × Nat)
    (x : Nat) :
    ((writable_event_body re acc).1.delivery x).peer = (acc.1.delivery x).peer ∧
    ((writable_event_body re acc).1.delivery x).link = (acc.1.delivery x).link ∧
    (re.delivery ≠ some x →
      (writable_event_body re acc).1.delivery x = acc.1.delivery x) := by
  unfold writable_event_body
  cases hd : re.delivery with
  | none => simp
  | some d =>
    simp only
    by_cases h1 : re.disposition ≠ 0 <;> by_cases h2 : re.settle = true <;>
      by_cases hx : x = d <;>
      simp [h1, h2, hx, log_call, qd_delivery_free, upd_apply]

/-- The status-event loop never changes a peer pointer, and leaves alone every
delivery that no status event carries. -/
theorem writable_events_delivery (events : List qd_routed_event_t) (x : Nat) :
    ∀ acc : qd_router_t × Nat,
      ((writable_events events acc).1.delivery x).peer = (acc.1.delivery x).peer ∧
      ((writable_events events acc).1.delivery x).link = (acc.1.delivery x).link ∧
      ((∀ re ∈ events, re.delivery ≠ some x) →
        (writable_events events acc).1.delivery x = acc.1.delivery x) := by
  induction events with
  | nil => intro acc; simp [writable_events]
  | cons re rest ih =>
    intro acc
    obtain ⟨h1, h2, h3⟩ := ih (writable_event_body re acc)
    obtain ⟨b1, b2, b3⟩ := writable_event_body_delivery re acc x
    simp only [writable_events]
    refine ⟨h1.trans b1, h2.trans b2, ?_⟩
    intro hne
    rw [h3 (fun e he => hne e (List.mem_cons_of_mem _ he)), b3 (hne re (List.mem_cons_self _ _))]

theorem writable_locked_delivery (s : qd_router_t) (link : Nat) (link_credit : Int) :
    (writable_locked s link link_credit).delivery = s.delivery ∧
    (writable_locked s link link_credit).delivery_next = s.delivery_next := by
  unfold writable_locked
  simp only
  split <;> exact ⟨rfl, rfl⟩

theorem writable_report_delivery (s : qd_router_t) (link : Nat) (offer : Nat)
    (drain_changed drain_mode : Bool) (event_count : Nat) :
    (writable_report s link offer drain_changed drain_mode event_count).1.delivery
      = s.delivery := by
  unfold writable_report
  split
  · rfl
  · simp only
    split <;> rfl

/-- C10: for the `i`-th message event sent by one invocation of
`router_writable_link_handler`, whose new outgoing delivery `o` is the `i`-th
delivery allocated by the call: when the event carries an ingress delivery
`d`, afterwards `peer(d) = o`, `peer(o) = d` and `o` is not freed; when it
carries none, `o` is freed with disposition 0 and has no peer.  The events
are assumed to carry deliveries that exist already, each carried by one sent
event only, as `router_rx_handler` enqueues them. -/
theorem C10_peering (s : qd_router_t) (link : Nat) (link_credit : Int)
    (drain_changed drain_mode : Bool) (i : Nat) (re : qd_routed_event_t)
    (hi : (writable_take link_credit (s.link link).msg_fifo).2[i]? = some re)
    (hfresh : ∀ e ∈ (writable_take link_credit (s.link link).msg_fifo).2,
      ∀ d, e.delivery = some d → d < s.delivery_next)
    (hnodup : ((writable_take link_credit (s.link link).msg_fifo).2.filterMap
      (fun e => e.delivery)).Nodup)
    (hfresh_ev : ∀ e ∈ (s.link link).event_fifo, ∀ d, e.delivery = some d → d < s.delivery_next) :
    (((router_writable_link_handler s link link_credit drain_changed drain_mode).1.delivery
        (s.delivery_next + i)).link = link) ∧
    (∀ d, re.delivery = some d →
      (((router_writable_link_handler s link link_credit drain_changed drain_mode).1.delivery
          d).peer = some (s.delivery_next + i)) ∧
      (((router_writable_link_handler s link link_credit drain_changed drain_mode).1.delivery
          (s.delivery_next + i)).peer = some d) ∧
      (((router_writable_link_handler s link link_credit drain_changed drain_mode).1.delivery
          (s.delivery_next + i)).freed = none)) ∧
    (re.delivery = none →
      (((router_writable_link_handler s link link_credit drain_changed drain_mode).1.delivery
          (s.delivery_next + i)).freed = some 0) ∧
      (((router_writable_link_handler s link link_credit drain_changed drain_mode).1.delivery
          (s.delivery_next + i)).peer = none)) := by
  obtain ⟨hld, hln⟩ := writable_locked_delivery s link link_credit
  have hsend := writable_send_peered link (writable_take link_credit (s.link link).msg_fifo).2
    { s := writable_locked s link link_credit, tag := s.dtag, event_count := 0 } i re hi
    (by simpa only [hln] using hfresh) hnodup
  simp only [hln] at hsend
  have hnew : ∀ e ∈ (s.link link).event_fifo, e.delivery ≠ some (s.delivery_next + i) := by
    intro e he hd
    have := hfresh_ev e he _ hd
    omega
  have hfin : ∀ x, (router_writable_link_handler s link link_credit drain_changed
      drain_mode).1.delivery x =
      (writable_events (s.link link).event_fifo
        ((writable_send link (writable_take link_credit (s.link link).msg_fifo).2
            { s := writable_locked s link link_credit, tag := s.dtag, event_count := 0 }).s,
         (writable_send link (writable_take link_credit (s.link link).msg_fifo).2
            { s := writable_locked s link link_credit, tag := s.dtag,
              event_count := 0 }).event_count)).1.delivery x := by
    intro x
    unfold router_writable_link_handler
    simp only
    rw [writable_report_delivery]
  obtain ⟨e1, e2, e3⟩ := writable_events_delivery (s.link link).event_fifo (s.delivery_next + i)
    ((writable_send link (writable_take link_credit (s.link link).msg_fifo).2
        { s := writable_locked s link link_credit, tag := s.dtag, event_count := 0 }).s,
     (writable_send link (writable_take link_credit (s.link link).msg_fifo).2
        { s := writable_locked s link link_credit, tag := s.dtag, event_count := 0 }).event_count)
  have e3' := e3 hnew
  obtain ⟨s1, s2, s3⟩ := hsend
  refine ⟨?_, ?_, ?_⟩
  · rw [hfin, e3']; exact s1
  · intro d hd
    obtain ⟨p1, p2, p3⟩ := s2 d hd
    refine ⟨?_, ?_, ?_⟩
    · rw [hfin, (writable_events_delivery (s.link link).event_fifo d _).1]
      exact p1
    · rw [hfin, e3']; exact p2
    · rw [hfin, e3']; exact p3
  · intro hd
    obtain ⟨p1, p2⟩ := s3 hd
    exact ⟨by rw [hfin, e3']; exact p1, by rw [hfin, e3']; exact p2⟩

/-- C10 on `router_peering` with credit 2: the first event carries delivery 5,
which gets peered with the new delivery 100; the second carries none, and the
new delivery 101 is freed with disposition 0. -/
theorem C10_peering_witness :
    ((router_writable_link_handler router_peering 2 2 false false).1.delivery 5).peer
      = some (100 + 0) ∧
    ((router_writable_link_handler router_peering 2 2 false false).1.delivery (100 + 0)).peer
      = some 5 ∧
    ((router_writable_link_handler router_peering 2 2 false false).1.delivery (100 + 0)).freed
      = none ∧
    ((router_writable_link_handler router_peering 2 2 false false).1.delivery (100 + 1)).freed
      = some 0 ∧
    ((router_writable_link_handler router_peering 2 2 false false).1.delivery (100 + 1)).peer
      = none :=
  have h0 := C10_peering router_peering 2 2 false false 0
    { queued_event "m1" with delivery := some 5 } (by decide) (by decide) (by decide) (by decide)
  have h1 := C10_peering router_peering 2 2 false false 1 (queued_event "m2")
    (by decide) (by decide) (by decide) (by decide)
  ⟨(h0.2.1 5 rfl).1, (h0.2.1 5 rfl).2.1, (h0.2.1 5 rfl).2.2, (h1.2.2 rfl).1, (h1.2.2 rfl).2⟩

/-! ## `router_disp_handler` -/

/-- C11: `router_disp_handler` appends one status event to the tail of the
`event_fifo` of the peer delivery's link exactly when the delivery has a peer
and its disposition changed or it is settled; the event carries the peer, no
message, the settled flag, and the disposition when it changed, else 0; every
other link record, and the `msg_fifo` of that link, stay as they are; without
peer, or with nothing changed and not settled, no link record changes; and
the reporting delivery is freed (with disposition 0) exactly when it is
settled, with or without peer. -/
theorem C11_disposition_bridge (s : qd_router_t) (link delivery : Nat) :
    (∀ p, (s.delivery delivery).peer = some p →
      ((s.delivery delivery).disp_changed = true ∨ (s.delivery delivery).settled = true) →
      ((router_disp_handler s link delivery).link (s.delivery p).link).event_fifo
        = (s.link (s.delivery p).link).event_fifo ++
          [{ delivery := some p, message := none, settle := (s.delivery delivery).settled,
             disposition := if (s.delivery delivery).disp_changed
               then (s.delivery delivery).disp else 0 }] ∧
      ((router_disp_handler s link delivery).link (s.delivery p).link).msg_fifo
        = (s.link (s.delivery p).link).msg_fifo ∧
      ∀ l, l ≠ (s.delivery p).link → (router_disp_handler s link delivery).link l = s.link l) ∧
    (((s.delivery delivery).peer = none ∨
        ((s.delivery delivery).disp_changed = false ∧ (s.delivery delivery).settled = false)) →
      (router_disp_handler s link delivery).link = s.link) ∧
    ((s.delivery delivery).settled = true →
      ((router_disp_handler s link delivery).delivery delivery).freed = some 0) ∧
    ((s.delivery delivery).settled = false →
      (router_disp_handler s link delivery).delivery = s.delivery) := by
  refine ⟨?_, ?_, ?_, ?_⟩
  · intro p hp hcs
    have hcs' : (s.delivery delivery).disp_changed = true ∨ (s.delivery delivery).settled = true :=
      hcs
    unfold router_disp_handler
    simp only [hp, hcs', if_true]
    refine ⟨?_, ?_, ?_⟩
    · split <;> simp [qd_delivery_free, qd_link_activate, log_call, event_fifo_insert_tail]
    · split <;> simp [qd_delivery_free, qd_link_activate, log_call, event_fifo_insert_tail]
    · intro l hl
      split <;> simp [qd_delivery_free, qd_link_activate, log_call, event_fifo_insert_tail, hl]
  · intro h
    unfold router_disp_handler
    rcases h with h | ⟨h1, h2⟩
    · simp only [h]
      split <;> rfl
    · cases hp : (s.delivery delivery).peer <;> simp [hp, h1, h2]
  · intro hs
    unfold router_disp_handler
    simp only [hs, if_true]
    simp [qd_delivery_free]
  · intro hs
    unfold router_disp_handler
    simp only [hs]
    cases hp : (s.delivery delivery).peer with
    | none => simp
    | some p =>
      by_cases hc : (s.delivery delivery).disp_changed = true
      · simp [hc, qd_link_activate, log_call, event_fifo_insert_tail]
      · simp [hc]

/-- C11 on `router_settling`: delivery 5 reports `ACCEPTED` and settled; its
peer 6 is on link 2, whose `event_fifo` receives the status event, and
delivery 5 is freed. -/
theorem C11_disposition_bridge_witness :
    (router_settling.delivery 5).peer = some 6 ∧
    ((router_disp_handler router_settling 1 5).link 2).event_fifo
      = [{ delivery := some 6, message := none, settle := true, disposition := PN_ACCEPTED }] ∧
    ((router_disp_handler router_settling 1 5).delivery 5).freed = some 0 :=
  ⟨rfl, ((C11_disposition_bridge router_settling 1 5).1 6 rfl (Or.inl rfl)).1,
    (C11_disposition_bridge router_settling 1 5).2.2.1 rfl⟩

/-! ## `qd_router_check_addr` -/

theorem qd_hash_remove_by_handle_mem (h : List (String × Nat)) (addr : Nat) (k : String)
    (a : Nat) :
    (k, a) ∈ qd_hash_remove_by_handle h addr ↔ (k, a) ∈ h ∧ a ≠ addr := by
  simp [qd_hash_remove_by_handle]

theorem deq_remove_mem (xs : List Nat) (x y : Nat) :
    y ∈ deq_remove xs x ↔ y ∈ xs ∧ y ≠ x := by
  simp [deq_remove]

/-- The tables after `qd_router_check_addr` on the record `a`. -/
theorem qd_router_check_addr_tables (s : qd_router_t) (a : Nat) (was_local : Bool) :
    (((s.address a).handler = none ∧ (s.address a).rlinks = [] ∧ (s.address a).rnodes = []) →
      (qd_router_check_addr s (some a) was_local).addr_hash
          = qd_hash_remove_by_handle s.addr_hash a ∧
      (qd_router_check_addr s (some a) was_local).addrs = deq_remove s.addrs a) ∧
    (¬ ((s.address a).handler = none ∧ (s.address a).rlinks = [] ∧ (s.address a).rnodes = []) →
      (qd_router_check_addr s (some a) was_local).addr_hash = s.addr_hash ∧
      (qd_router_check_addr s (some a) was_local).addrs = s.addrs) := by
  constructor
  · intro hc
    have hc' : (s.address a).handler = none ∧ (s.address a).rlinks.length = 0 ∧
        (s.address a).rnodes.length = 0 := by
      simpa [List.length_eq_zero] using hc
    unfold qd_router_check_addr
    simp only [hc', and_self, decide_True, if_true]
    split_ifs <;> simp [log_call]
  · intro hc
    have hc' : ¬ ((s.address a).handler = none ∧ (s.address a).rlinks.length = 0 ∧
        (s.address a).rnodes.length = 0) := by
      simpa [List.length_eq_zero] using hc
    unfold qd_router_check_addr
    simp only [hc', decide_False, Bool.false_eq_true, if_false]
    split_ifs <;> simp [log_call]

/-- Apart from the two tables and the call log, `qd_router_check_addr` changes
nothing. -/
theorem qd_router_check_addr_frame (s : qd_router_t) (addr : Option Nat) (was_local : Bool) :
    (qd_router_check_addr s addr was_local).address = s.address ∧
    (qd_router_check_addr s addr was_local).address_next = s.address_next ∧
    (qd_router_check_addr s addr was_local).link = s.link ∧
    (qd_router_check_addr s addr was_local).links = s.links ∧
    (qd_router_check_addr s addr was_local).link_context = s.link_context ∧
    (qd_router_check_addr s addr was_local).link_conn = s.link_conn ∧
    (qd_router_check_addr s addr was_local).conn_context = s.conn_context ∧
    (qd_router_check_addr s addr was_local).out_links_by_mask_bit = s.out_links_by_mask_bit ∧
    (qd_router_check_addr s addr was_local).neighbor_free_mask = s.neighbor_free_mask ∧
    (qd_router_check_addr s addr was_local).hello_addr = s.hello_addr ∧
    (qd_router_check_addr s addr was_local).router_addr = s.router_addr := by
  cases addr with
  | none => simp [qd_router_check_addr]
  | some a =>
    unfold qd_router_check_addr
    simp only
    split_ifs <;> simp [log_call]

/-- C12: for an address record `a`, `qd_router_check_addr` removes the entry
of `a` from the hash table and `a` from the address list when `a` has no
handler, no `rlinks` and no `rnodes`, keeping every other entry; otherwise
both tables are unchanged.  So a record that was in the tables is gone
afterwards if and only if the three conditions hold. -/
theorem C12_check_addr_deletes_iff (s : qd_router_t) (a : Nat) (was_local : Bool) :
    (((s.address a).handler = none ∧ (s.address a).rlinks = [] ∧ (s.address a).rnodes = []) →
      (∀ k, (k, a) ∉ (qd_router_check_addr s (some a) was_local).addr_hash) ∧
      a ∉ (qd_router_check_addr s (some a) was_local).addrs ∧
      (∀ k b, b ≠ a → ((k, b) ∈ (qd_router_check_addr s (some a) was_local).addr_hash ↔
        (k, b) ∈ s.addr_hash)) ∧
      (∀ b, b ≠ a → (b ∈ (qd_router_check_addr s (some a) was_local).addrs ↔ b ∈ s.addrs))) ∧
    (¬ ((s.address a).handler = none ∧ (s.address a).rlinks = [] ∧ (s.address a).rnodes = []) →
      (qd_router_check_addr s (some a) was_local).addr_hash = s.addr_hash ∧
      (qd_router_check_addr s (some a) was_local).addrs = s.addrs) ∧
    (a ∈ s.addrs →
      (a ∉ (qd_router_check_addr s (some a) was_local).addrs ↔
        ((s.address a).handler = none ∧ (s.address a).rlinks = [] ∧
          (s.address a).rnodes = []))) ∧
    (∀ k, (k, a) ∈ s.addr_hash →
      ((∀ k', (k', a) ∉ (qd_router_check_addr s (some a) was_local).addr_hash) ↔
        ((s.address a).handler = none ∧ (s.address a).rlinks = [] ∧
          (s.address a).rnodes = []))) := by
  obtain ⟨hdel, hkeep⟩ := qd_router_check_addr_tables s a was_local
  refine ⟨?_, hkeep, ?_, ?_⟩
  · intro hc
    obtain ⟨h1, h2⟩ := hdel hc
    rw [h1, h2]
    refine ⟨?_, ?_, ?_, ?_⟩
    · intro k hk
      exact ((qd_hash_remove_by_handle_mem _ _ _ _).mp hk).2 rfl
    · intro hm
      exact ((deq_remove_mem _ _ _).mp hm).2 rfl
    · intro k b hb
      rw [qd_hash_remove_by_handle_mem]
      exact ⟨fun h => h.1, fun h => ⟨h, hb⟩⟩
    · intro b hb
      rw [deq_remove_mem]
      exact ⟨fun h => h.1, fun h => ⟨h, hb⟩⟩
  · intro hmem
    constructor
    · intro hgone
      by_contra hc
      rw [(hkeep hc).2] at hgone
      exact hgone hmem
    · intro hc
      rw [(hdel hc).2]
      intro hm
      exact ((deq_remove_mem _ _ _).mp hm).2 rfl
  · intro k hk
    constructor
    · intro hgone
      by_contra hc
      rw [(hkeep hc).1] at hgone
      exact hgone k hk
    · intro hc k' hk'
      rw [(hdel hc).1] at hk'
      exact ((qd_hash_remove_by_handle_mem _ _ _ _).mp hk').2 rfl

/-- C12 on `router_stale_addr`: record 1 has no handler and no destination and
leaves both tables; record 2 has a handler and stays. -/
theorem C12_check_addr_deletes_iff_witness :
    (qd_router_check_addr router_stale_addr (some 1) false).addr_hash = [("Mother", 2)] ∧
    (qd_router_check_addr router_stale_addr (some 1) false).addrs = [2] ∧
    (qd_router_check_addr router_stale_addr (some 2) false).addr_hash
      = router_stale_addr.addr_hash ∧
    (1 ∉ (qd_router_check_addr router_stale_addr (some 1) false).addrs ↔
      ((router_stale_addr.address 1).handler = none ∧ (router_stale_addr.address 1).rlinks = [] ∧
        (router_stale_addr.address 1).rnodes = [])) :=
  ⟨by decide, by decide,
    ((C12_check_addr_deletes_iff router_stale_addr 2 false).2.1 (by decide)).1,
    (C12_check_addr_deletes_iff router_stale_addr 1 false).2.2.1 (by decide)⟩

/-! ## Mask bit exhaustion -/

/-- C17 (evaluation of the code): with no free mask bit and no shared context
on the connection, `router_incoming_link_handler` on a link `lin` that claims
the router capability over an inter-router connection does not refuse the
link: the record gets the mask bit `-1`, joins the link list, and the link is
opened; `router_outgoing_link_handler` on such a link `lout` does the same and
writes the link at index `-1` of `out_links_by_mask_bit`. -/
theorem C17_exhaustion_not_refused (iterator_string : String → qd_field_iterator_t)
    (s : qd_router_t) (lin lout rnd : Nat)
    (hfull : qd_bitmask_first_set s.neighbor_free_mask = none)
    (hin_ctx : s.conn_context (s.link_conn lin) = none)
    (hin_cap : qd_router_terminus_is_router (s.remote_source lin) = true)
    (hin_conn : qd_router_connection_is_inter_router s (s.link_conn lin) = true)
    (hout_ctx : s.conn_context (s.link_conn lout) = none)
    (hout_cap : qd_router_terminus_is_router (s.remote_target lout) = true)
    (hout_conn : qd_router_connection_is_inter_router s (s.link_conn lout) = true) :
    ((router_incoming_link_handler s lin).links = s.links ++ [lin] ∧
      (router_incoming_link_handler s lin).link_context lin = true ∧
      ((router_incoming_link_handler s lin).link lin).mask_bit = -1 ∧
      (router_incoming_link_handler s lin).calls
        = s.calls ++ [.pn_link_flow lin 1000, .pn_link_open lin]) ∧
    ((router_outgoing_link_handler iterator_string s lout rnd).links = s.links ++ [lout] ∧
      (router_outgoing_link_handler iterator_string s lout rnd).link_context lout = true ∧
      ((router_outgoing_link_handler iterator_string s lout rnd).link lout).mask_bit = -1 ∧
      (router_outgoing_link_handler iterator_string s lout rnd).out_links_by_mask_bit (-1)
        = some lout ∧
      (router_outgoing_link_handler iterator_string s lout rnd).calls
        = s.calls ++ [.pn_link_open lout]) := by
  constructor
  · unfold router_incoming_link_handler
    simp only [hin_cap, hin_conn, qd_router_find_mask_bit_LH, hin_ctx, hfull]
    simp [log_call, copy_termini, links_insert_tail, set_link_record, new_router_link, upd]
  · unfold router_outgoing_link_handler
    simp only [hout_cap, hout_conn]
    simp only [outgoing_link_accept, outgoing_router_link, qd_router_find_mask_bit_LH,
      copy_termini, hout_ctx, hfull]
    cases hh : s.hello_addr <;>
      simp [log_call, links_insert_tail, set_link_record, new_router_link, upd,
        qd_router_add_link_ref_LH, set_address, hh]

/-- C17 on `router_exhausted`: link 7 (incoming) and link 8 (outgoing) claim the
router capability on the inter-router connection 1 while no mask bit is free;
both are added to the link list with mask bit `-1` and opened. -/
theorem C17_exhaustion_not_refused_witness :
    qd_bitmask_first_set router_exhausted.neighbor_free_mask = none ∧
    (router_incoming_link_handler router_exhausted 7).links = [7] ∧
    ((router_incoming_link_handler router_exhausted 7).link 7).mask_bit = -1 ∧
    (router_incoming_link_handler router_exhausted 7).calls
      = [.pn_link_flow 7 1000, .pn_link_open 7] ∧
    (router_outgoing_link_handler example_iterator_string router_exhausted 8 0).links = [8] ∧
    (router_outgoing_link_handler example_iterator_string router_exhausted 8 0).out_links_by_mask_bit
      (-1) = some 8 ∧
    (router_outgoing_link_handler example_iterator_string router_exhausted 8 0).calls
      = [.pn_link_open 8] :=
  have h := C17_exhaustion_not_refused example_iterator_string router_exhausted 7 8 0
    (by decide) (by decide) (by decide) (by decide) (by decide) (by decide) (by decide)
  ⟨by decide, h.1.1, h.1.2.2.1, h.1.2.2.2, h.2.1, h.2.2.2.2.1, h.2.2.2.2.2⟩

/-! ## Return of the mask bit -/

theorem foldl_min_le (xs : List Int) : ∀ x : Int, ∀ y ∈ x :: xs, xs.foldl min x ≤ y := by
  induction xs with
  | nil =>
    intro x y hy
    simp at hy
    simp [hy]
  | cons z zs ih =>
    intro x y hy
    simp only [List.foldl_cons]
    have hle : zs.foldl min (min x z) ≤ min x z := ih (min x z) (min x z) (by simp)
    simp only [List.mem_cons] at hy
    rcases hy with hy | hy | hy
    · subst hy
      exact le_trans hle (min_le_left _ _)
    · subst hy
      exact le_trans hle (min_le_right _ _)
    · exact ih (min x z) y (by simp [hy])

/-- The lowest set bit is what `qd_bitmask_first_set` yields. -/
theorem qd_bitmask_first_set_lowest (ls : qd_bitmask_t) (b : Int) (hb : b ∈ ls.bits)
    (hlow : ∀ x ∈ ls.bits, b ≤ x) : qd_bitmask_first_set ls = some b := by
  unfold qd_bitmask_first_set
  cases hbits : ls.bits with
  | nil => simp [hbits] at hb
  | cons x xs =>
    simp only [Option.some.injEq]
    have hmem : xs.foldl min x ∈ ls.bits := by
      rw [hbits]
      exact foldl_min_mem xs x
    have hle : xs.foldl min x ≤ b := foldl_min_le xs x b (by rw [← hbits]; exact hb)
    exact le_antisymm hle (hlow _ hmem)

/-- C18: when `router_link_detach_handler` runs on an incoming router link that
was opened with mask bit `b`, bit `b` is set in `neighbor_free_mask`
afterwards and no other bit changes; a later `qd_router_find_mask_bit_LH` on a
connection without shared context yields `b` again when no lower bit is free. -/
theorem C18_detach_returns_bit (s : qd_router_t) (link : Nat) (closed : Bool) (b : Int)
    (hctx : s.link_context link = true)
    (htype : (s.link link).link_type = .QD_LINK_ROUTER)
    (hdir : (s.link link).link_direction = .QD_INCOMING)
    (hbit : (s.link link).mask_bit = b) :
    qd_bitmask_value (router_link_detach_handler s link closed).neighbor_free_mask b = true ∧
    (∀ x, x ≠ b →
      qd_bitmask_value (router_link_detach_handler s link closed).neighbor_free_mask x
        = qd_bitmask_value s.neighbor_free_mask x) ∧
    (∀ other,
      (router_link_detach_handler s link closed).conn_context
        ((router_link_detach_handler s link closed).link_conn other) = none →
      (∀ x, qd_bitmask_value (router_link_detach_handler s link closed).neighbor_free_mask x = true →
        b ≤ x) →
      (qd_router_find_mask_bit_LH (router_link_detach_handler s link closed) other).2 = b) := by
  have hmask : (router_link_detach_handler s link closed).neighbor_free_mask
      = qd_bitmask_set_bit s.neighbor_free_mask b := by
    have hk : ∀ x : qd_router_t, x.link_context = s.link_context → x.link = s.link →
        x.neighbor_free_mask = s.neighbor_free_mask →
        (if x.link_context link = false then x
          else
            { qd_router_check_addr (detach_unlink x link) (detach_oaddr (x.link link)) true with
              link_context := upd (qd_router_check_addr (detach_unlink x link)
                (detach_oaddr (x.link link)) true).link_context link false }).neighbor_free_mask
          = qd_bitmask_set_bit s.neighbor_free_mask b := by
      intro x h1 h2 h3
      simp [h1, h2, h3, hctx, htype, hdir, hbit, detach_oaddr, detach_unlink,
        qd_router_check_addr]
    unfold router_link_detach_handler
    apply hk
    · unfold detach_conn_context
      split <;> rfl
    · unfold detach_conn_context
      split <;> rfl
    · unfold detach_conn_context
      split <;> rfl
  have hval : ∀ x, qd_bitmask_value (qd_bitmask_set_bit s.neighbor_free_mask b) x
      = decide (x = b ∨ x ∈ s.neighbor_free_mask.bits) := by
    intro x
    unfold qd_bitmask_value
    simp only [qd_bitmask_mem_set_bit]
  refine ⟨?_, ?_, ?_⟩
  · rw [hmask, hval]
    simp
  · intro x hx
    rw [hmask, hval]
    simp [qd_bitmask_value, hx]
  · intro other hnone hlow
    have hfirst : qd_bitmask_first_set (router_link_detach_handler s link closed).neighbor_free_mask
        = some b := by
      apply qd_bitmask_first_set_lowest
      · rw [hmask]
        exact (qd_bitmask_mem_set_bit _ _ _).mpr (Or.inl rfl)
      · intro x hx
        apply hlow
        simp [qd_bitmask_value, hx]
    unfold qd_router_find_mask_bit_LH
    simp only [hnone, hfirst]

/-- C18 on the interior router: the outbound connection 1 opens the pair of
links 10 and 11 with mask bit 0; after the detach of the incoming link 10 bit 0
is free again and the next allocation (for link 9 on connection 2) yields 0. -/
theorem C18_detach_returns_bit_witness :
    ((router_outbound_open_handler router_interior 1 10 11).link 10).mask_bit = 0 ∧
    qd_bitmask_value (router_outbound_open_handler router_interior 1 10 11).neighbor_free_mask 0
      = false ∧
    qd_bitmask_value (router_link_detach_handler
      (router_outbound_open_handler router_interior 1 10 11) 10 true).neighbor_free_mask 0
      = true ∧
    (qd_router_find_mask_bit_LH (router_link_detach_handler
      (router_outbound_open_handler router_interior 1 10 11) 10 true) 9).2 = 0 :=
  have h := C18_detach_returns_bit (router_outbound_open_handler router_interior 1 10 11) 10 true 0
    (by decide) (by decide) (by decide) (by decide)
  ⟨by decide, by decide, h.1, h.2.2 9 (by decide) (by
    intro x hx
    have hx' : x ∈ ([0, 1] : List Int) := by
      have : (router_link_detach_handler
          (router_outbound_open_handler router_interior 1 10 11) 10 true).neighbor_free_mask.bits
          = [0, 1] := by decide
      simpa [qd_bitmask_value, this] using hx
    simp at hx'
    omega)⟩

/-! ## `router_outgoing_link_handler` -/

theorem qd_field_iterator_octet_mobile (view : String) :
    qd_field_iterator_octet view ≠ 'M' ↔ view.data.head? ≠ some 'M' := by
  unfold qd_field_iterator_octet
  cases view.data with
  | nil => simp
  | cons c cs => simp

/-- A refused outgoing link: the handler closes it and does nothing else. -/
theorem router_outgoing_link_handler_rejected (iterator_string : String → qd_field_iterator_t)
    (s : qd_router_t) (link rnd : Nat)
    (h : outgoing_link_rejected iterator_string s link = true) :
    router_outgoing_link_handler iterator_string s link rnd = log_call s (.pn_link_close link) := by
  unfold outgoing_link_rejected at h
  unfold router_outgoing_link_handler
  cases hr : qd_router_terminus_is_router (s.remote_target link) <;>
    cases hd : (s.remote_source link).dynamic <;>
    cases hi : qd_router_connection_is_inter_router s (s.link_conn link) <;>
    cases ha : (s.remote_source link).address <;>
    simp [hr, hd, hi, ha] at h ⊢
  all_goals
    intro hm
    exact absurd hm ((qd_field_iterator_octet_mobile _).mpr h)

/-- An outgoing link that is not refused goes through `outgoing_link_accept`
with the iterator over its source address. -/
theorem router_outgoing_link_handler_accepted (iterator_string : String → qd_field_iterator_t)
    (s : qd_router_t) (link rnd : Nat)
    (h : outgoing_link_rejected iterator_string s link = false) :
    router_outgoing_link_handler iterator_string s link rnd
      = outgoing_link_accept iterator_string s link rnd
          (if qd_router_terminus_is_router (s.remote_target link) = false ∧
              (s.remote_source link).dynamic = false
            then (s.remote_source link).address.map iterator_string else none)
          (qd_router_terminus_is_router (s.remote_target link))
          (s.remote_source link).dynamic := by
  unfold outgoing_link_rejected at h
  unfold router_outgoing_link_handler
  cases hr : qd_router_terminus_is_router (s.remote_target link) <;>
    cases hd : (s.remote_source link).dynamic <;>
    cases hi : qd_router_connection_is_inter_router s (s.link_conn link) <;>
    cases ha : (s.remote_source link).address <;>
    simp [hr, hd, hi, ha] at h ⊢
  all_goals
    intro hne
    exact absurd h ((qd_field_iterator_octet_mobile _).mp hne)

/-- What `find_or_create_address` leaves untouched. -/
theorem find_or_create_address_frame (s : qd_router_t) (key : String)
    (semantics : qd_address_semantics_t) :
    (find_or_create_address s key semantics).1.links = s.links ∧
    (find_or_create_address s key semantics).1.link = s.link ∧
    (find_or_create_address s key semantics).1.link_context = s.link_context ∧
    (find_or_create_address s key semantics).1.link_conn = s.link_conn ∧
    (find_or_create_address s key semantics).1.conn_context = s.conn_context ∧
    (find_or_create_address s key semantics).1.conn_role = s.conn_role ∧
    (find_or_create_address s key semantics).1.out_links_by_mask_bit = s.out_links_by_mask_bit ∧
    (find_or_create_address s key semantics).1.neighbor_free_mask = s.neighbor_free_mask ∧
    (find_or_create_address s key semantics).1.hello_addr = s.hello_addr ∧
    (find_or_create_address s key semantics).1.router_addr = s.router_addr ∧
    (find_or_create_address s key semantics).1.calls = s.calls := by
  unfold find_or_create_address
  split <;> simp

/-- What `qd_router_find_mask_bit_LH` leaves untouched. -/
theorem qd_router_find_mask_bit_LH_frame (s : qd_router_t) (link : Nat) :
    (qd_router_find_mask_bit_LH s link).1.links = s.links ∧
    (qd_router_find_mask_bit_LH s link).1.link = s.link ∧
    (qd_router_find_mask_bit_LH s link).1.link_context = s.link_context ∧
    (qd_router_find_mask_bit_LH s link).1.link_conn = s.link_conn ∧
    (qd_router_find_mask_bit_LH s link).1.conn_role = s.conn_role ∧
    (qd_router_find_mask_bit_LH s link).1.address = s.address ∧
    (qd_router_find_mask_bit_LH s link).1.address_next = s.address_next ∧
    (qd_router_find_mask_bit_LH s link).1.addr_hash = s.addr_hash ∧
    (qd_router_find_mask_bit_LH s link).1.addrs = s.addrs ∧
    (qd_router_find_mask_bit_LH s link).1.out_links_by_mask_bit = s.out_links_by_mask_bit ∧
    (qd_router_find_mask_bit_LH s link).1.hello_addr = s.hello_addr ∧
    (qd_router_find_mask_bit_LH s link).1.router_addr = s.router_addr ∧
    (qd_router_find_mask_bit_LH s link).1.calls = s.calls := by
  unfold qd_router_find_mask_bit_LH
  split
  · simp
  · split <;> simp

/-- The link list, the link record and the calls of an accepted outgoing link. -/
theorem outgoing_link_accept_opened (iterator_string : String → qd_field_iterator_t)
    (s : qd_router_t) (link rnd : Nat) (iter : Option qd_field_iterator_t)
    (is_router is_dynamic : Bool) :
    (outgoing_link_accept iterator_string s link rnd iter is_router is_dynamic).links
      = s.links ++ [link] ∧
    (outgoing_link_accept iterator_string s link rnd iter is_router is_dynamic).link_context link
      = true ∧
    (∃ cs, (outgoing_link_accept iterator_string s link rnd iter is_router is_dynamic).calls
        = s.calls ++ cs ++ [.pn_link_open link] ∧
      ∀ c ∈ cs, ∃ it, c = .qd_router_mobile_added it) := by
  unfold outgoing_link_accept
  cases is_router with
  | true =>
    simp only [if_true]
    have hh : (copy_termini s link).hello_addr = s.hello_addr := rfl
    refine ⟨?_, ?_, [], ?_, by simp⟩
    · cases hhello : s.hello_addr <;>
        simp [outgoing_router_link, log_call, links_insert_tail, set_link_record,
          qd_router_add_link_ref_LH, set_address, qd_router_find_mask_bit_LH_frame, hh, hhello,
          copy_termini]
    · cases hhello : s.hello_addr <;>
        simp [outgoing_router_link, log_call, links_insert_tail, set_link_record,
          qd_router_add_link_ref_LH, set_address, qd_router_find_mask_bit_LH_frame, hh, hhello,
          copy_termini, upd]
    · cases hhello : s.hello_addr <;>
        simp [outgoing_router_link, log_call, links_insert_tail, set_link_record,
          qd_router_add_link_ref_LH, set_address, qd_router_find_mask_bit_LH_frame, hh, hhello,
          copy_termini]
  | false =>
    simp only [Bool.false_eq_true, if_false]
    refine ⟨?_, ?_, ?_⟩
    · split_ifs <;>
        simp [log_call, links_insert_tail, outgoing_endpoint_link, qd_router_add_link_ref_LH,
          set_address, set_link_record, copy_termini, find_or_create_address_frame]
    · split_ifs <;>
        simp [log_call, links_insert_tail, outgoing_endpoint_link, qd_router_add_link_ref_LH,
          set_address, set_link_record, copy_termini, find_or_create_address_frame, upd]
    · split_ifs with h1 h2 h2
      · refine ⟨[.qd_router_mobile_added (iterator_string
          (qd_router_generate_temp_addr (copy_termini s link) rnd 1000))], ?_, by simp⟩
        simp [log_call, links_insert_tail, outgoing_endpoint_link, qd_router_add_link_ref_LH,
          set_address, set_link_record, copy_termini, find_or_create_address_frame]
      · refine ⟨[], ?_, by simp⟩
        simp [log_call, links_insert_tail, outgoing_endpoint_link, qd_router_add_link_ref_LH,
          set_address, set_link_record, copy_termini, find_or_create_address_frame]
      · refine ⟨[.qd_router_mobile_added (iter.getD null_iterator)], ?_, by simp⟩
        simp [log_call, links_insert_tail, outgoing_endpoint_link, qd_router_add_link_ref_LH,
          set_address, set_link_record, copy_termini, find_or_create_address_frame]
      · refine ⟨[], ?_, by simp⟩
        simp [log_call, links_insert_tail, outgoing_endpoint_link, qd_router_add_link_ref_LH,
          set_address, set_link_record, copy_termini, find_or_create_address_frame]

/-- C19: `router_outgoing_link_handler` refuses the link exactly on the three
grounds of `outgoing_link_rejected`.  When one of them holds the handler only
calls `pn_link_close`: no link record is created, and the address table, every
`rlinks`, the link list, `out_links_by_mask_bit` and `neighbor_free_mask` are
as before.  When none holds the link gets a record, joins the link list and
is opened with `pn_link_open`, and `pn_link_close` is not called. -/
theorem C19_outgoing_rejection (iterator_string : String → qd_field_iterator_t)
    (s : qd_router_t) (link rnd : Nat) :
    (outgoing_link_rejected iterator_string s link = true →
      router_outgoing_link_handler iterator_string s link rnd
        = { s with calls := s.calls ++ [.pn_link_close link] }) ∧
    (outgoing_link_rejected iterator_string s link = false →
      (router_outgoing_link_handler iterator_string s link rnd).link_context link = true ∧
      (router_outgoing_link_handler iterator_string s link rnd).links = s.links ++ [link] ∧
      ∃ cs, (router_outgoing_link_handler iterator_string s link rnd).calls
          = s.calls ++ cs ++ [.pn_link_open link] ∧
        qd_call.pn_link_close link ∉ cs) := by
  constructor
  · intro h
    rw [router_outgoing_link_handler_rejected iterator_string s link rnd h]
    rfl
  · intro h
    rw [router_outgoing_link_handler_accepted iterator_string s link rnd h]
    obtain ⟨h1, h2, cs, h3, h4⟩ := outgoing_link_accept_opened iterator_string s link rnd
      (if qd_router_terminus_is_router (s.remote_target link) = false ∧
          (s.remote_source link).dynamic = false
        then (s.remote_source link).address.map iterator_string else none)
      (qd_router_terminus_is_router (s.remote_target link)) (s.remote_source link).dynamic
    refine ⟨h2, h1, cs, h3, ?_⟩
    intro hmem
    obtain ⟨it, hit⟩ := h4 _ hmem
    cases hit

/-- C19 on the interior router: link 22 (endpoint, not dynamic, no source
address) and link 21 (source `_local/qdhello`, whose key begins with `L`) are
refused; link 20 (source `svc`) is accepted. -/
theorem C19_outgoing_rejection_witness :
    outgoing_link_rejected example_iterator_string router_interior 22 = true ∧
    (router_outgoing_link_handler example_iterator_string router_interior 22 0).calls
      = [.pn_link_close 22] ∧
    (router_outgoing_link_handler example_iterator_string router_interior 21 0).links = [] ∧
    outgoing_link_rejected example_iterator_string router_interior 20 = false ∧
    (router_outgoing_link_handler example_iterator_string router_interior 20 0).links = [20] :=
  ⟨by decide,
    congrArg qd_router_t.calls
      ((C19_outgoing_rejection example_iterator_string router_interior 22 0).1 (by decide)),
    congrArg qd_router_t.links
      ((C19_outgoing_rejection example_iterator_string router_interior 21 0).1 (by decide)),
    by decide,
    ((C19_outgoing_rejection example_iterator_string router_interior 20 0).2 (by decide)).2.1⟩

/-- The address an endpoint link is bound to, its `rlinks` afterwards, and the
flag `propagate`. -/
theorem outgoing_endpoint_link_bound (s : qd_router_t) (link : Nat) (iter : qd_field_iterator_t)
    (is_dynamic : Bool) :
    ∃ a, ((outgoing_endpoint_link s link iter is_dynamic).1.link link).owning_addr = some a ∧
      ((outgoing_endpoint_link s link iter is_dynamic).1.address a).rlinks
        = (match qd_hash_retrieve s.addr_hash iter.address_hash with
            | some _ => (s.address a).rlinks
            | none => []) ++ [link] ∧
      (outgoing_endpoint_link s link iter is_dynamic).2
        = (!is_dynamic &&
            decide (((outgoing_endpoint_link s link iter is_dynamic).1.address a).rlinks = [link])) ∧
      (outgoing_endpoint_link s link iter is_dynamic).1.calls = s.calls := by
  unfold outgoing_endpoint_link find_or_create_address
  have hset : (set_link_record s link
      (new_router_link .QD_LINK_ENDPOINT .QD_OUTGOING 0)).addr_hash = s.addr_hash := rfl
  simp only [hset]
  cases hr : qd_hash_retrieve s.addr_hash iter.address_hash with
  | some a =>
    refine ⟨a, ?_, ?_, ?_, ?_⟩
    · simp [qd_router_add_link_ref_LH, set_address, set_link_record, upd]
    · simp [qd_router_add_link_ref_LH, set_address, set_link_record, upd]
    · simp only [qd_router_add_link_ref_LH, set_address, set_link_record, upd, if_true]
      cases hl : (s.address a).rlinks <;> simp
    · simp [qd_router_add_link_ref_LH, set_address, set_link_record]
  | none =>
    refine ⟨s.address_next, ?_, ?_, ?_, ?_⟩
    · simp [qd_router_add_link_ref_LH, set_address, set_link_record, upd]
    · simp [qd_router_add_link_ref_LH, set_address, set_link_record, upd, new_address]
    · simp [qd_router_add_link_ref_LH, set_address, set_link_record, upd, new_address]
    · simp [qd_router_add_link_ref_LH, set_address, set_link_record]

/-- C20: for an accepted endpoint outgoing link, bound to the address `a`, the
handler notifies `qd_router_mobile_added` (with the iterator over the source
address, right before `pn_link_open`) exactly when the source is not dynamic
and the link is the only member of the `rlinks` of `a` after registration;
for a dynamic source, or an address that had a subscriber, it only opens the
link.  The `rlinks` of `a` afterwards are those before, empty for a new
address, followed by the link. -/
theorem C20_mobile_added_first_subscriber (iterator_string : String → qd_field_iterator_t)
    (s : qd_router_t) (link rnd : Nat)
    (hep : qd_router_terminus_is_router (s.remote_target link) = false)
    (hacc : outgoing_link_rejected iterator_string s link = false) :
    ∃ a, ((router_outgoing_link_handler iterator_string s link rnd).link link).owning_addr
        = some a ∧
      ((router_outgoing_link_handler iterator_string s link rnd).address a).rlinks
        = (match qd_hash_retrieve s.addr_hash
              (outgoing_source_iterator iterator_string s link rnd).address_hash with
            | some _ => (s.address a).rlinks
            | none => []) ++ [link] ∧
      (router_outgoing_link_handler iterator_string s link rnd).calls
        = s.calls ++
          (if (s.remote_source link).dynamic = false ∧
              ((router_outgoing_link_handler iterator_string s link rnd).address a).rlinks
                = [link]
            then [.qd_router_mobile_added (outgoing_source_iterator iterator_string s link rnd)]
            else []) ++ [.pn_link_open link] := by
  rw [router_outgoing_link_handler_accepted iterator_string s link rnd hacc]
  unfold outgoing_link_accept
  simp only [hep, Bool.false_eq_true, if_false, true_and]
  cases hd : (s.remote_source link).dynamic with
  | true =>
    simp only [if_true, Bool.true_eq_false, if_false, false_and]
    obtain ⟨a, h1, h2, h3, h4⟩ := outgoing_endpoint_link_bound
      { copy_termini s link with
        link_source := upd (copy_termini s link).link_source link
          { (copy_termini s link).link_source link with
            address := some (qd_router_generate_temp_addr (copy_termini s link) rnd 1000) } }
      link (iterator_string (qd_router_generate_temp_addr (copy_termini s link) rnd 1000)) true
    refine ⟨a, ?_, ?_, ?_⟩
    · simpa [log_call, links_insert_tail, h3] using h1
    · simpa [log_call, links_insert_tail, h3, outgoing_source_iterator, hd] using h2
    · simp only [h3, Bool.not_true, Bool.false_and, Bool.false_eq_true, if_false]
      simpa [log_call, links_insert_tail, copy_termini] using h4
  | false =>
    simp only [Bool.false_eq_true, if_false, if_true, true_and]
    obtain ⟨a, h1, h2, h3, h4⟩ := outgoing_endpoint_link_bound (copy_termini s link) link
      (((s.remote_source link).address.map iterator_string).getD null_iterator) false
    have hs : (copy_termini s link).calls = s.calls := rfl
    have hh : (copy_termini s link).addr_hash = s.addr_hash := rfl
    have ha : (copy_termini s link).address = s.address := rfl
    rw [hs] at h4
    rw [hh, ha] at h2
    have hit : outgoing_source_iterator iterator_string s link rnd
        = ((s.remote_source link).address.map iterator_string).getD null_iterator := by
      simp [outgoing_source_iterator, hd]
    rw [hit]
    generalize outgoing_endpoint_link (copy_termini s link) link
      (((s.remote_source link).address.map iterator_string).getD null_iterator) false = ep
      at h1 h2 h3 h4 ⊢
    obtain ⟨x, b⟩ := ep
    simp only [Bool.not_false, Bool.true_and] at h3
    refine ⟨a, ?_, ?_, ?_⟩
    · cases b <;> simpa [log_call, links_insert_tail] using h1
    · cases b <;> simpa [log_call, links_insert_tail] using h2
    · cases b with
      | true =>
        have hl : (x.address a).rlinks = [link] := by simpa using h3.symm
        simp only [if_true] at h4 ⊢
        simp [log_call, links_insert_tail, hl, h4]
      | false =>
        have hl : ¬ (x.address a).rlinks = [link] := by simpa using h3.symm
        simp only [Bool.false_eq_true, if_false] at h4 ⊢
        simp [log_call, links_insert_tail, hl, h4]

/-- C20 on the interior router: link 20 is the first subscriber of `svc`, so
`qd_router_mobile_added` is notified before the link is opened; link 23 has a
dynamic source and is only opened. -/
theorem C20_mobile_added_first_subscriber_witness :
    (router_outgoing_link_handler example_iterator_string router_interior 20 0).calls
      = [.qd_router_mobile_added (example_iterator_string "svc"), .pn_link_open 20] ∧
    (router_outgoing_link_handler example_iterator_string router_interior 23 0).calls
      = [.pn_link_open 23] ∧
    ∃ a, ((router_outgoing_link_handler example_iterator_string router_interior 20 0).link
        20).owning_addr = some a ∧
      ((router_outgoing_link_handler example_iterator_string router_interior 20 0).address
        a).rlinks
        = (match qd_hash_retrieve router_interior.addr_hash
              (outgoing_source_iterator example_iterator_string router_interior 20 0).address_hash
              with
            | some _ => (router_interior.address a).rlinks
            | none => []) ++ [20] ∧
      (router_outgoing_link_handler example_iterator_string router_interior 20 0).calls
        = router_interior.calls ++
          (if (router_interior.remote_source 20).dynamic = false ∧
              ((router_outgoing_link_handler example_iterator_string router_interior 20 0).address
                a).rlinks = [20]
            then [.qd_router_mobile_added
              (outgoing_source_iterator example_iterator_string router_interior 20 0)]
            else []) ++ [.pn_link_open 20] :=
  ⟨by decide, by decide,
    C20_mobile_added_first_subscriber example_iterator_string router_interior 20 0
      (by decide) (by decide)⟩

/-! ## Effects of the handlers on the routing tables -/

theorem qd_hash_retrieve_mem (h : List (String × Nat)) (key : String) (a : Nat)
    (hr : qd_hash_retrieve h key = some a) : (key, a) ∈ h := by
  induction h with
  | nil => simp [qd_hash_retrieve] at hr
  | cons e rest ih =>
    obtain ⟨k, v⟩ := e
    by_cases hk : k = key
    · simp [qd_hash_retrieve, hk] at hr
      simp [hk, hr]
    · simp [qd_hash_retrieve, hk] at hr
      exact List.mem_cons_of_mem _ (ih hr)

/-- `find_or_create_address` either finds the record in the table and changes
nothing, or creates the record `address_next`. -/
theorem find_or_create_address_cases (s : qd_router_t) (key : String)
    (semantics : qd_address_semantics_t) :
    ((find_or_create_address s key semantics).1 = s ∧
      (key, (find_or_create_address s key semantics).2) ∈ s.addr_hash) ∨
    ((find_or_create_address s key semantics).2 = s.address_next ∧
      (find_or_create_address s key semantics).1.address
        = upd s.address s.address_next (new_address semantics) ∧
      (find_or_create_address s key semantics).1.address_next = s.address_next + 1 ∧
      (find_or_create_address s key semantics).1.addr_hash
        = s.addr_hash ++ [(key, s.address_next)] ∧
      (find_or_create_address s key semantics).1.addrs = s.addrs ++ [s.address_next]) := by
  unfold find_or_create_address
  cases hr : qd_hash_retrieve s.addr_hash key with
  | some a => exact Or.inl ⟨rfl, qd_hash_retrieve_mem _ _ _ hr⟩
  | none => exact Or.inr ⟨rfl, rfl, rfl, rfl, rfl⟩

/-- What `qd_router_register_address` leaves untouched. -/
theorem qd_router_register_address_frame (iterator_string : String → qd_field_iterator_t)
    (s : qd_router_t) (address : String) (handler : Option Nat)
    (semantics : qd_address_semantics_t) (context : Nat) :
    (qd_router_register_address iterator_string s address handler semantics context).1.link
      = s.link ∧
    (qd_router_register_address iterator_string s address handler semantics context).1.link_context
      = s.link_context ∧
    (qd_router_register_address iterator_string s address handler semantics context).1.link_conn
      = s.link_conn ∧
    (qd_router_register_address iterator_string s address handler semantics
      context).1.conn_context = s.conn_context ∧
    (qd_router_register_address iterator_string s address handler semantics
      context).1.out_links_by_mask_bit = s.out_links_by_mask_bit ∧
    (qd_router_register_address iterator_string s address handler semantics
      context).1.neighbor_free_mask = s.neighbor_free_mask ∧
    (qd_router_register_address iterator_string s address handler semantics
      context).1.hello_addr = s.hello_addr ∧
    (qd_router_register_address iterator_string s address handler semantics
      context).1.router_addr = s.router_addr := by
  simp [qd_router_register_address, set_address, find_or_create_address_frame]

/-- A refused incoming link: the handler closes it and does nothing else. -/
theorem router_incoming_link_handler_rejected (s : qd_router_t) (link : Nat)
    (hr : qd_router_terminus_is_router (s.remote_source link) = true)
    (hi : qd_router_connection_is_inter_router s (s.link_conn link) = false) :
    router_incoming_link_handler s link = log_call s (.pn_link_close link) := by
  simp [router_incoming_link_handler, hr, hi]

/-- The tables after an incoming endpoint link was opened. -/
theorem router_incoming_link_handler_endpoint (s : qd_router_t) (link : Nat)
    (hr : qd_router_terminus_is_router (s.remote_source link) = false) :
    (router_incoming_link_handler s link).link
      = upd s.link link (new_router_link .QD_LINK_ENDPOINT .QD_INCOMING 0) ∧
    (router_incoming_link_handler s link).link_context = upd s.link_context link true ∧
    (router_incoming_link_handler s link).link_conn = s.link_conn ∧
    (router_incoming_link_handler s link).conn_context = s.conn_context ∧
    (router_incoming_link_handler s link).neighbor_free_mask = s.neighbor_free_mask ∧
    (router_incoming_link_handler s link).out_links_by_mask_bit = s.out_links_by_mask_bit ∧
    (router_incoming_link_handler s link).address = s.address ∧
    (router_incoming_link_handler s link).address_next = s.address_next ∧
    (router_incoming_link_handler s link).addr_hash = s.addr_hash ∧
    (router_incoming_link_handler s link).addrs = s.addrs ∧
    (router_incoming_link_handler s link).hello_addr = s.hello_addr ∧
    (router_incoming_link_handler s link).router_addr = s.router_addr := by
  simp [router_incoming_link_handler, hr, log_call, copy_termini, links_insert_tail,
    set_link_record]

/-- The tables after an incoming router link was opened on an inter-router
connection. -/
theorem router_incoming_link_handler_router (s : qd_router_t) (link : Nat)
    (hr : qd_router_terminus_is_router (s.remote_source link) = true)
    (hi : qd_router_connection_is_inter_router s (s.link_conn link) = true) :
    (router_incoming_link_handler s link).link
      = upd s.link link (new_router_link .QD_LINK_ROUTER .QD_INCOMING
          (qd_router_find_mask_bit_LH s link).2) ∧
    (router_incoming_link_handler s link).link_context = upd s.link_context link true ∧
    (router_incoming_link_handler s link).link_conn = s.link_conn ∧
    (router_incoming_link_handler s link).conn_context
      = (qd_router_find_mask_bit_LH s link).1.conn_context ∧
    (router_incoming_link_handler s link).neighbor_free_mask
      = (qd_router_find_mask_bit_LH s link).1.neighbor_free_mask ∧
    (router_incoming_link_handler s link).out_links_by_mask_bit = s.out_links_by_mask_bit ∧
    (router_incoming_link_handler s link).address = s.address ∧
    (router_incoming_link_handler s link).address_next = s.address_next ∧
    (router_incoming_link_handler s link).addr_hash = s.addr_hash ∧
    (router_incoming_link_handler s link).addrs = s.addrs ∧
    (router_incoming_link_handler s link).hello_addr = s.hello_addr ∧
    (router_incoming_link_handler s link).router_addr = s.router_addr := by
  simp [router_incoming_link_handler, hr, hi, log_call, copy_termini, links_insert_tail,
    set_link_record, qd_router_find_mask_bit_LH_frame]

/-- `find_or_create_address` depends on the address tables only. -/
theorem find_or_create_address_congr (x s : qd_router_t) (key : String)
    (semantics : qd_address_semantics_t) (h1 : x.addr_hash = s.addr_hash)
    (h2 : x.address = s.address) (h3 : x.address_next = s.address_next)
    (h4 : x.addrs = s.addrs) :
    (find_or_create_address x key semantics).2 = (find_or_create_address s key semantics).2 ∧
    (find_or_create_address x key semantics).1.address
      = (find_or_create_address s key semantics).1.address ∧
    (find_or_create_address x key semantics).1.address_next
      = (find_or_create_address s key semantics).1.address_next ∧
    (find_or_create_address x key semantics).1.addr_hash
      = (find_or_create_address s key semantics).1.addr_hash ∧
    (find_or_create_address x key semantics).1.addrs
      = (find_or_create_address s key semantics).1.addrs := by
  unfold find_or_create_address
  rw [h1]
  cases qd_hash_retrieve s.addr_hash key with
  | some a => simp [h1, h2, h3, h4]
  | none => simp [h1, h2, h3, h4]

/-- The tables after an outgoing router link was opened on an inter-router
connection. -/
theorem router_outgoing_link_handler_router (iterator_string : String → qd_field_iterator_t)
    (s : qd_router_t) (link rnd : Nat)
    (hr : qd_router_terminus_is_router (s.remote_target link) = true)
    (hi : qd_router_connection_is_inter_router s (s.link_conn link) = true) :
    (router_outgoing_link_handler iterator_string s link rnd).link
      = upd s.link link
          { new_router_link .QD_LINK_ROUTER .QD_OUTGOING (qd_router_find_mask_bit_LH s link).2 with
            owning_addr := s.hello_addr, ref := s.hello_addr.isSome } ∧
    (router_outgoing_link_handler iterator_string s link rnd).link_context
      = upd s.link_context link true ∧
    (router_outgoing_link_handler iterator_string s link rnd).link_conn = s.link_conn ∧
    (router_outgoing_link_handler iterator_string s link rnd).conn_context
      = (qd_router_find_mask_bit_LH s link).1.conn_context ∧
    (router_outgoing_link_handler iterator_string s link rnd).neighbor_free_mask
      = (qd_router_find_mask_bit_LH s link).1.neighbor_free_mask ∧
    (router_outgoing_link_handler iterator_string s link rnd).out_links_by_mask_bit
      = (fun b => if b = (qd_router_find_mask_bit_LH s link).2 then some link
          else s.out_links_by_mask_bit b) ∧
    (router_outgoing_link_handler iterator_string s link rnd).address
      = (match s.hello_addr with
          | some hello => upd s.address hello
              { s.address hello with rlinks := (s.address hello).rlinks ++ [link] }
          | none => s.address) ∧
    (router_outgoing_link_handler iterator_string s link rnd).address_next = s.address_next ∧
    (router_outgoing_link_handler iterator_string s link rnd).addr_hash = s.addr_hash ∧
    (router_outgoing_link_handler iterator_string s link rnd).addrs = s.addrs ∧
    (router_outgoing_link_handler iterator_string s link rnd).hello_addr = s.hello_addr ∧
    (router_outgoing_link_handler iterator_string s link rnd).router_addr = s.router_addr := by
  have hfind : qd_router_find_mask_bit_LH (copy_termini s link) link
      = ({ (qd_router_find_mask_bit_LH s link).1 with
            link_source := upd s.link_source link (s.remote_source link)
            link_target := upd s.link_target link (s.remote_target link) },
          (qd_router_find_mask_bit_LH s link).2) := by
    unfold qd_router_find_mask_bit_LH copy_termini
    simp only
    split
    · rfl
    · split <;> rfl
  have hacc : router_outgoing_link_handler iterator_string s link rnd
      = outgoing_link_accept iterator_string s link rnd none true
          (s.remote_source link).dynamic := by
    simp [router_outgoing_link_handler, hr, hi]
  rw [hacc]
  unfold outgoing_link_accept outgoing_router_link
  simp only [if_true, hfind]
  cases hh : s.hello_addr with
  | none =>
    simp [log_call, links_insert_tail, set_link_record, qd_router_find_mask_bit_LH_frame, hh,
      new_router_link]
  | some hello =>
    simp [log_call, links_insert_tail, set_link_record, qd_router_find_mask_bit_LH_frame, hh,
      new_router_link, qd_router_add_link_ref_LH, set_address]
    funext j
    by_cases hj : j = link <;> simp [upd, hj]

/-- The tables after an outgoing endpoint link was opened: `a` is the address
record found or created for the source address. -/
theorem router_outgoing_link_handler_endpoint (iterator_string : String → qd_field_iterator_t)
    (s : qd_router_t) (link rnd : Nat)
    (hr : qd_router_terminus_is_router (s.remote_target link) = false)
    (hacc : outgoing_link_rejected iterator_string s link = false) :
    (router_outgoing_link_handler iterator_string s link rnd).link
      = upd s.link link
          { new_router_link .QD_LINK_ENDPOINT .QD_OUTGOING 0 with
            owning_addr := some (find_or_create_address s
              (outgoing_source_iterator iterator_string s link rnd).address_hash
              default_semantics).2,
            ref := true } ∧
    (router_outgoing_link_handler iterator_string s link rnd).link_context
      = upd s.link_context link true ∧
    (router_outgoing_link_handler iterator_string s link rnd).link_conn = s.link_conn ∧
    (router_outgoing_link_handler iterator_string s link rnd).conn_context = s.conn_context ∧
    (router_outgoing_link_handler iterator_string s link rnd).neighbor_free_mask
      = s.neighbor_free_mask ∧
    (router_outgoing_link_handler iterator_string s link rnd).out_links_by_mask_bit
      = s.out_links_by_mask_bit ∧
    (router_outgoing_link_handler iterator_string s link rnd).address
      = upd (find_or_create_address s
            (outgoing_source_iterator iterator_string s link rnd).address_hash
            default_semantics).1.address
          (find_or_create_address s
            (outgoing_source_iterator iterator_string s link rnd).address_hash
            default_semantics).2
          { (find_or_create_address s
              (outgoing_source_iterator iterator_string s link rnd).address_hash
              default_semantics).1.address
              (find_or_create_address s
                (outgoing_source_iterator iterator_string s link rnd).address_hash
                default_semantics).2 with
            rlinks := ((find_or_create_address s
              (outgoing_source_iterator iterator_string s link rnd).address_hash
              default_semantics).1.address
              (find_or_create_address s
                (outgoing_source_iterator iterator_string s link rnd).address_hash
                default_semantics).2).rlinks ++ [link] } ∧
    (router_outgoing_link_handler iterator_string s link rnd).address_next
      = (find_or_create_address s
          (outgoing_source_iterator iterator_string s link rnd).address_hash
          default_semantics).1.address_next ∧
    (router_outgoing_link_handler iterator_string s link rnd).addr_hash
      = (find_or_create_address s
          (outgoing_source_iterator iterator_string s link rnd).address_hash
          default_semantics).1.addr_hash ∧
    (router_outgoing_link_handler iterator_string s link rnd).addrs
      = (find_or_create_address s
          (outgoing_source_iterator iterator_string s link rnd).address_hash
          default_semantics).1.addrs ∧
    (router_outgoing_link_handler iterator_string s link rnd).hello_addr = s.hello_addr ∧
    (router_outgoing_link_handler iterator_string s link rnd).router_addr = s.router_addr := by
  rw [router_outgoing_link_handler_accepted iterator_string s link rnd hacc]
  have key : ∀ (x : qd_router_t) (it : qd_field_iterator_t) (dyn : Bool),
      x.addr_hash = s.addr_hash → x.address = s.address → x.address_next = s.address_next →
      x.addrs = s.addrs → x.link = s.link → x.link_context = s.link_context →
      x.link_conn = s.link_conn → x.conn_context = s.conn_context →
      x.neighbor_free_mask = s.neighbor_free_mask →
      x.out_links_by_mask_bit = s.out_links_by_mask_bit → x.hello_addr = s.hello_addr →
      x.router_addr = s.router_addr →
      ∀ r : qd_router_t,
        log_call
          (if (outgoing_endpoint_link x link it dyn).2 = true then
            log_call (links_insert_tail (outgoing_endpoint_link x link it dyn).1 link)
              (.qd_router_mobile_added it)
          else links_insert_tail (outgoing_endpoint_link x link it dyn).1 link)
          (.pn_link_open link) = r →
      r.link = upd s.link link
          { new_router_link .QD_LINK_ENDPOINT .QD_OUTGOING 0 with
            owning_addr := some (find_or_create_address s it.address_hash default_semantics).2,
            ref := true } ∧
      r.link_context = upd s.link_context link true ∧
      r.link_conn = s.link_conn ∧ r.conn_context = s.conn_context ∧
      r.neighbor_free_mask = s.neighbor_free_mask ∧
      r.out_links_by_mask_bit = s.out_links_by_mask_bit ∧
      r.address = upd (find_or_create_address s it.address_hash default_semantics).1.address
          (find_or_create_address s it.address_hash default_semantics).2
          { (find_or_create_address s it.address_hash default_semantics).1.address
              (find_or_create_address s it.address_hash default_semantics).2 with
            rlinks := ((find_or_create_address s it.address_hash default_semantics).1.address
              (find_or_create_address s it.address_hash default_semantics).2).rlinks ++ [link] } ∧
      r.address_next = (find_or_create_address s it.address_hash default_semantics).1.address_next ∧
      r.addr_hash = (find_or_create_address s it.address_hash default_semantics).1.addr_hash ∧
      r.addrs = (find_or_create_address s it.address_hash default_semantics).1.addrs ∧
      r.hello_addr = s.hello_addr ∧ r.router_addr = s.router_addr := by
    intro x it dyn h1 h2 h3 h4 h5 h6 h7 h8 h9 h10 h11 h12 r hrdef
    obtain ⟨c1, c2, c3, c4, c5⟩ := find_or_create_address_congr
      (set_link_record x link (new_router_link .QD_LINK_ENDPOINT .QD_OUTGOING 0)) s
      it.address_hash default_semantics h1 h2 h3 h4
    have hfr := find_or_create_address_frame
      (set_link_record x link (new_router_link .QD_LINK_ENDPOINT .QD_OUTGOING 0))
      it.address_hash default_semantics
    obtain ⟨f1, f2, f3, f4, f5, f6, f7, f8, f9, f10, f11⟩ := hfr
    have hE1 : ∀ y : qd_router_t, y = (outgoing_endpoint_link x link it dyn).1 →
        y.link = upd s.link link
          { new_router_link .QD_LINK_ENDPOINT .QD_OUTGOING 0 with
            owning_addr := some (find_or_create_address s it.address_hash default_semantics).2,
            ref := true } ∧
        y.link_context = upd s.link_context link true ∧
        y.link_conn = s.link_conn ∧ y.conn_context = s.conn_context ∧
        y.neighbor_free_mask = s.neighbor_free_mask ∧
        y.out_links_by_mask_bit = s.out_links_by_mask_bit ∧
        y.address = upd (find_or_create_address s it.address_hash default_semantics).1.address
          (find_or_create_address s it.address_hash default_semantics).2
          { (find_or_create_address s it.address_hash default_semantics).1.address
              (find_or_create_address s it.address_hash default_semantics).2 with
            rlinks := ((find_or_create_address s it.address_hash default_semantics).1.address
              (find_or_create_address s it.address_hash default_semantics).2).rlinks ++ [link] } ∧
        y.address_next
          = (find_or_create_address s it.address_hash default_semantics).1.address_next ∧
        y.addr_hash = (find_or_create_address s it.address_hash default_semantics).1.addr_hash ∧
        y.addrs = (find_or_create_address s it.address_hash default_semantics).1.addrs ∧
        y.hello_addr = s.hello_addr ∧ y.router_addr = s.router_addr := by
      intro y hy
      subst hy
      unfold outgoing_endpoint_link
      simp only [qd_router_add_link_ref_LH, set_address]
      refine ⟨?_, ?_, ?_, ?_, ?_, ?_, ?_, ?_, ?_, ?_, ?_, ?_⟩
      · simp only [f2, c1]
        funext j
        by_cases hj : j = link <;> simp [upd, hj, set_link_record, new_router_link, h5]
      · simp only [f3]
        simp [set_link_record, h6]
      · simp only [f4]
        simp [set_link_record, h7]
      · simp only [f5]
        simp [set_link_record, h8]
      · simp only [f8]
        simp [set_link_record, h9]
      · simp only [f7]
        simp [set_link_record, h10]
      · simp only [c1, c2]
      · exact c3
      · exact c4
      · exact c5
      · simp only [f9]
        simp [set_link_record, h11]
      · simp only [f10]
        simp [set_link_record, h12]
    have hE := hE1 _ rfl
    subst hrdef
    by_cases hp : (outgoing_endpoint_link x link it dyn).2 = true
    · simpa [hp, log_call, links_insert_tail] using hE
    · simpa [hp, log_call, links_insert_tail] using hE
  unfold outgoing_link_accept
  simp only [hr, Bool.false_eq_true, if_false, true_and]
  cases hd : (s.remote_source link).dynamic with
  | true =>
    have hit : outgoing_source_iterator iterator_string s link rnd
        = iterator_string (qd_router_generate_temp_addr (copy_termini s link) rnd 1000) := by
      simp [outgoing_source_iterator, hd, qd_router_generate_temp_addr, copy_termini]
    rw [hit]
    simp only [if_true]
    refine key
      { copy_termini s link with
        link_source := upd (copy_termini s link).link_source link
          { (copy_termini s link).link_source link with
            address := some (qd_router_generate_temp_addr (copy_termini s link) rnd 1000) } }
      _ true rfl rfl rfl rfl rfl rfl rfl rfl rfl rfl rfl rfl _ rfl
  | false =>
    have hit : outgoing_source_iterator iterator_string s link rnd
        = ((s.remote_source link).address.map iterator_string).getD null_iterator := by
      simp [outgoing_source_iterator, hd]
    rw [hit]
    simp only [Bool.false_eq_true, if_false, if_true]
    exact key (copy_termini s link) _ false rfl rfl rfl rfl rfl rfl rfl rfl rfl rfl rfl rfl _ rfl

/-- The handler `router_outbound_open_handler` does nothing on a connection that
is not inter-router, or when no mask bit is free. -/
theorem router_outbound_open_handler_skipped (s : qd_router_t) (conn receiver sender : Nat)
    (h : qd_router_connection_is_inter_router s conn = false ∨
      qd_bitmask_first_set s.neighbor_free_mask = none) :
    router_outbound_open_handler s conn receiver sender = s := by
  unfold router_outbound_open_handler
  rcases h with h | h
  · simp [h]
  · simp [h]

/-- The tables after `router_outbound_open_handler` took the mask bit `b`. -/
theorem router_outbound_open_handler_opened (s : qd_router_t) (conn receiver sender : Nat)
    (b : Int) (hi : qd_router_connection_is_inter_router s conn = true)
    (hb : qd_bitmask_first_set s.neighbor_free_mask = some b) :
    (router_outbound_open_handler s conn receiver sender).link
      = upd (upd s.link receiver (new_router_link .QD_LINK_ROUTER .QD_INCOMING b)) sender
          { new_router_link .QD_LINK_ROUTER .QD_OUTGOING b with
            owning_addr := s.hello_addr, ref := s.hello_addr.isSome } ∧
    (router_outbound_open_handler s conn receiver sender).link_context
      = upd (upd s.link_context receiver true) sender true ∧
    (router_outbound_open_handler s conn receiver sender).link_conn
      = upd (upd s.link_conn receiver conn) sender conn ∧
    (router_outbound_open_handler s conn receiver sender).conn_context = s.conn_context ∧
    (router_outbound_open_handler s conn receiver sender).neighbor_free_mask
      = qd_bitmask_clear_bit s.neighbor_free_mask b ∧
    (router_outbound_open_handler s conn receiver sender).out_links_by_mask_bit
      = (fun x => if x = b then some sender else s.out_links_by_mask_bit x) ∧
    (router_outbound_open_handler s conn receiver sender).address
      = (match s.hello_addr with
          | some hello => upd s.address hello
              { s.address hello with rlinks := (s.address hello).rlinks ++ [sender] }
          | none => s.address) ∧
    (router_outbound_open_handler s conn receiver sender).address_next = s.address_next ∧
    (router_outbound_open_handler s conn receiver sender).addr_hash = s.addr_hash ∧
    (router_outbound_open_handler s conn receiver sender).addrs = s.addrs ∧
    (router_outbound_open_handler s conn receiver sender).hello_addr = s.hello_addr ∧
    (router_outbound_open_handler s conn receiver sender).router_addr = s.router_addr := by
  unfold router_outbound_open_handler
  simp only [hi, hb, Bool.true_eq_false, if_false]
  cases hh : s.hello_addr with
  | none =>
    simp [log_call, links_insert_tail, set_link_record, hh, new_router_link]
  | some hello =>
    simp [log_call, links_insert_tail, set_link_record, hh, new_router_link,
      qd_router_add_link_ref_LH, set_address]
    funext j
    by_cases hj : j = sender <;> simp [upd, hj]

/-- The first statements of the detach handler change the shared context of
the link's connection only. -/
theorem detach_conn_context_fields (s : qd_router_t) (link : Nat) :
    (detach_conn_context s link).conn_context
      = upd s.conn_context (s.link_conn link) none ∧
    (detach_conn_context s link).link = s.link ∧
    (detach_conn_context s link).link_context = s.link_context ∧
    (detach_conn_context s link).link_conn = s.link_conn ∧
    (detach_conn_context s link).neighbor_free_mask = s.neighbor_free_mask ∧
    (detach_conn_context s link).out_links_by_mask_bit = s.out_links_by_mask_bit ∧
    (detach_conn_context s link).address = s.address ∧
    (detach_conn_context s link).address_next = s.address_next ∧
    (detach_conn_context s link).addr_hash = s.addr_hash ∧
    (detach_conn_context s link).addrs = s.addrs ∧
    (detach_conn_context s link).hello_addr = s.hello_addr ∧
    (detach_conn_context s link).router_addr = s.router_addr := by
  unfold detach_conn_context
  cases hc : s.conn_context (s.link_conn link) with
  | some b => simp
  | none =>
    simp only [true_and, and_self, and_true]
    funext j
    by_cases hj : j = s.link_conn link
    · simp [upd, hj, hc]
    · simp [upd, hj]

/-- The detach of a link without record only resets the shared context. -/
theorem router_link_detach_handler_no_record (s : qd_router_t) (link : Nat) (closed : Bool)
    (h : s.link_context link = false) :
    router_link_detach_handler s link closed = detach_conn_context s link := by
  unfold router_link_detach_handler
  simp [(detach_conn_context_fields s link).2.2.1, h]

/-- What `qd_router_del_link_ref_LH` does to the records. -/
theorem qd_router_del_link_ref_LH_fields (s : qd_router_t) (addr link : Nat) :
    (qd_router_del_link_ref_LH s addr link).address
      = (if (s.link link).ref = true then
          upd s.address addr
            { s.address addr with rlinks := remove_last link (s.address addr).rlinks }
        else s.address) ∧
    (qd_router_del_link_ref_LH s addr link).link
      = (if (s.link link).ref = true then upd s.link link { s.link link with ref := false }
        else s.link) ∧
    (qd_router_del_link_ref_LH s addr link).link_context = s.link_context ∧
    (qd_router_del_link_ref_LH s addr link).link_conn = s.link_conn ∧
    (qd_router_del_link_ref_LH s addr link).conn_context = s.conn_context ∧
    (qd_router_del_link_ref_LH s addr link).neighbor_free_mask = s.neighbor_free_mask ∧
    (qd_router_del_link_ref_LH s addr link).out_links_by_mask_bit = s.out_links_by_mask_bit ∧
    (qd_router_del_link_ref_LH s addr link).address_next = s.address_next ∧
    (qd_router_del_link_ref_LH s addr link).addr_hash = s.addr_hash ∧
    (qd_router_del_link_ref_LH s addr link).addrs = s.addrs ∧
    (qd_router_del_link_ref_LH s addr link).hello_addr = s.hello_addr ∧
    (qd_router_del_link_ref_LH s addr link).router_addr = s.router_addr := by
  unfold qd_router_del_link_ref_LH
  by_cases h : (s.link link).ref = true <;> simp [h, set_address]

/-- The records after the locked part of the detach handler; `rlink` is the
record of the link before. -/
theorem detach_unlink_fields (s : qd_router_t) (link : Nat) :
    (detach_unlink s link).address
      = (match detach_oaddr (s.link link) with
          | some a => (qd_router_del_link_ref_LH s a link).address
          | none => s.address) ∧
    (detach_unlink s link).link
      = (match detach_oaddr (s.link link) with
          | some a => (qd_router_del_link_ref_LH s a link).link
          | none => s.link) ∧
    (detach_unlink s link).link_context = s.link_context ∧
    (detach_unlink s link).link_conn = s.link_conn ∧
    (detach_unlink s link).conn_context = s.conn_context ∧
    (detach_unlink s link).neighbor_free_mask
      = (if (s.link link).link_type = .QD_LINK_ROUTER ∧
            (s.link link).link_direction = .QD_INCOMING
          then qd_bitmask_set_bit s.neighbor_free_mask (s.link link).mask_bit
          else s.neighbor_free_mask) ∧
    (detach_unlink s link).out_links_by_mask_bit
      = (if (s.link link).link_type = .QD_LINK_ROUTER ∧
            (s.link link).link_direction = .QD_OUTGOING ∧
            s.out_links_by_mask_bit (s.link link).mask_bit = some link
          then (fun b => if b = (s.link link).mask_bit then none else s.out_links_by_mask_bit b)
          else s.out_links_by_mask_bit) ∧
    (detach_unlink s link).address_next = s.address_next ∧
    (detach_unlink s link).addr_hash = s.addr_hash ∧
    (detach_unlink s link).addrs = s.addrs ∧
    (detach_unlink s link).hello_addr = s.hello_addr ∧
    (detach_unlink s link).router_addr = s.router_addr := by
  unfold detach_unlink
  cases ho : detach_oaddr (s.link link) with
  | none =>
    simp only
    refine ⟨?_, ?_, ?_, ?_, ?_, ?_, ?_, ?_, ?_, ?_, ?_, ?_⟩ <;>
      split_ifs <;> simp_all
  | some a =>
    obtain ⟨d1, d2, d3, d4, d5, d6, d7, d8, d9, d10, d11, d12⟩ :=
      qd_router_del_link_ref_LH_fields s a link
    simp only
    refine ⟨?_, ?_, ?_, ?_, ?_, ?_, ?_, ?_, ?_, ?_, ?_, ?_⟩ <;>
      split_ifs <;> simp_all

/-- The detach of a link with a record. -/
theorem router_link_detach_handler_record (s : qd_router_t) (link : Nat) (closed : Bool)
    (h : s.link_context link = true) :
    router_link_detach_handler s link closed
      = { qd_router_check_addr (detach_unlink (detach_conn_context s link) link)
            (detach_oaddr (s.link link)) true with
          link_context := upd s.link_context link false } := by
  obtain ⟨c1, c2, c3, c4, c5, c6, c7, c8, c9, c10, c11, c12⟩ := detach_conn_context_fields s link
  unfold router_link_detach_handler
  simp only [c2, c3, h, Bool.true_eq_false, if_false]
  have hctx : (qd_router_check_addr (detach_unlink (detach_conn_context s link) link)
      (detach_oaddr (s.link link)) true).link_context = s.link_context := by
    rw [(qd_router_check_addr_frame _ _ _).2.2.2.2.1, (detach_unlink_fields _ _).2.2.1, c3]
  rw [hctx]

/-- The tables after the detach of a link with a record. -/
theorem router_link_detach_handler_fields (s : qd_router_t) (link : Nat) (closed : Bool)
    (h : s.link_context link = true) :
    (router_link_detach_handler s link closed).link_context = upd s.link_context link false ∧
    (router_link_detach_handler s link closed).link_conn = s.link_conn ∧
    (router_link_detach_handler s link closed).conn_context
      = upd s.conn_context (s.link_conn link) none ∧
    (router_link_detach_handler s link closed).neighbor_free_mask
      = (if (s.link link).link_type = .QD_LINK_ROUTER ∧
            (s.link link).link_direction = .QD_INCOMING
          then qd_bitmask_set_bit s.neighbor_free_mask (s.link link).mask_bit
          else s.neighbor_free_mask) ∧
    (router_link_detach_handler s link closed).out_links_by_mask_bit
      = (if (s.link link).link_type = .QD_LINK_ROUTER ∧
            (s.link link).link_direction = .QD_OUTGOING ∧
            s.out_links_by_mask_bit (s.link link).mask_bit = some link
          then (fun b => if b = (s.link link).mask_bit then none else s.out_links_by_mask_bit b)
          else s.out_links_by_mask_bit) ∧
    (router_link_detach_handler s link closed).address
      = (match detach_oaddr (s.link link) with
          | some a =>
            if (s.link link).ref = true then
              upd s.address a { s.address a with rlinks := remove_last link (s.address a).rlinks }
            else s.address
          | none => s.address) ∧
    (router_link_detach_handler s link closed).link
      = (match detach_oaddr (s.link link) with
          | some _ =>
            if (s.link link).ref = true then upd s.link link { s.link link with ref := false }
            else s.link
          | none => s.link) ∧
    (router_link_detach_handler s link closed).address_next = s.address_next ∧
    (router_link_detach_handler s link closed).hello_addr = s.hello_addr ∧
    (router_link_detach_handler s link closed).router_addr = s.router_addr ∧
    (∀ k a, (k, a) ∈ (router_link_detach_handler s link closed).addr_hash →
      (k, a) ∈ s.addr_hash) ∧
    (∀ a, a ∈ (router_link_detach_handler s link closed).addrs → a ∈ s.addrs) ∧
    (∀ a, detach_oaddr (s.link link) = some a →
      address_unused (router_link_detach_handler s link closed) a →
      ¬ in_address_table (router_link_detach_handler s link closed) a) := by
  rw [router_link_detach_handler_record s link closed h]
  obtain ⟨c1, c2, c3, c4, c5, c6, c7, c8, c9, c10, c11, c12⟩ := detach_conn_context_fields s link
  obtain ⟨u1, u2, u3, u4, u5, u6, u7, u8, u9, u10, u11, u12⟩ :=
    detach_unlink_fields (detach_conn_context s link) link
  obtain ⟨k1, k2, k3, k4, k5, k6, k7, k8, k9, k10, k11⟩ :=
    qd_router_check_addr_frame (detach_unlink (detach_conn_context s link) link)
      (detach_oaddr (s.link link)) true
  simp only [c2, c5, c6, c7] at u1 u2 u6 u7
  have haddr : (qd_router_check_addr (detach_unlink (detach_conn_context s link) link)
      (detach_oaddr (s.link link)) true).address
      = (match detach_oaddr (s.link link) with
          | some a =>
            if (s.link link).ref = true then
              upd s.address a { s.address a with rlinks := remove_last link (s.address a).rlinks }
            else s.address
          | none => s.address) := by
    rw [k1, u1]
    cases ho : detach_oaddr (s.link link) with
    | none => simp only [c7]
    | some a =>
      simp only
      rw [(qd_router_del_link_ref_LH_fields _ _ _).1, c2, c7]
  refine ⟨rfl, ?_, ?_, ?_, ?_, haddr, ?_, ?_, ?_, ?_, ?_, ?_, ?_⟩
  · show (qd_router_check_addr _ _ _).link_conn = _
    rw [k6, u4, c4]
  · show (qd_router_check_addr _ _ _).conn_context = _
    rw [k7, u5, c1]
  · show (qd_router_check_addr _ _ _).neighbor_free_mask = _
    rw [k9, u6]
  · show (qd_router_check_addr _ _ _).out_links_by_mask_bit = _
    rw [k8, u7]
  · show (qd_router_check_addr _ _ _).link = _
    rw [k3, u2]
    cases ho : detach_oaddr (s.link link) with
    | none => simp only [c2]
    | some a =>
      simp only
      rw [(qd_router_del_link_ref_LH_fields _ _ _).2.1, c2]
  · show (qd_router_check_addr _ _ _).address_next = _
    rw [k2, u8, c8]
  · show (qd_router_check_addr _ _ _).hello_addr = _
    rw [k10, u11, c11]
  · show (qd_router_check_addr _ _ _).router_addr = _
    rw [k11, u12, c12]
  · intro k a hm
    have hm' : (k, a) ∈ (qd_router_check_addr (detach_unlink (detach_conn_context s link) link)
        (detach_oaddr (s.link link)) true).addr_hash := hm
    cases ho : detach_oaddr (s.link link) with
    | none =>
      rw [ho] at hm'
      simp only [qd_router_check_addr] at hm'
      rw [u9, c9] at hm'
      exact hm'
    | some x =>
      rw [ho] at hm'
      by_cases hun : ((detach_unlink (detach_conn_context s link) link).address x).handler = none ∧
          ((detach_unlink (detach_conn_context s link) link).address x).rlinks = [] ∧
          ((detach_unlink (detach_conn_context s link) link).address x).rnodes = []
      · rw [((qd_router_check_addr_tables _ x true).1 hun).1] at hm'
        have := ((qd_hash_remove_by_handle_mem _ _ _ _).mp hm').1
        rw [u9, c9] at this
        exact this
      · rw [((qd_router_check_addr_tables _ x true).2 hun).1, u9, c9] at hm'
        exact hm'
  · intro a hm
    have hm' : a ∈ (qd_router_check_addr (detach_unlink (detach_conn_context s link) link)
        (detach_oaddr (s.link link)) true).addrs := hm
    cases ho : detach_oaddr (s.link link) with
    | none =>
      rw [ho] at hm'
      simp only [qd_router_check_addr] at hm'
      rw [u10, c10] at hm'
      exact hm'
    | some x =>
      rw [ho] at hm'
      by_cases hun : ((detach_unlink (detach_conn_context s link) link).address x).handler = none ∧
          ((detach_unlink (detach_conn_context s link) link).address x).rlinks = [] ∧
          ((detach_unlink (detach_conn_context s link) link).address x).rnodes = []
      · rw [((qd_router_check_addr_tables _ x true).1 hun).2] at hm'
        have := ((deq_remove_mem _ _ _).mp hm').1
        rw [u10, c10] at this
        exact this
      · rw [((qd_router_check_addr_tables _ x true).2 hun).2, u10, c10] at hm'
        exact hm'
  · intro a ho hun hin
    have hun' : ((detach_unlink (detach_conn_context s link) link).address a).handler = none ∧
        ((detach_unlink (detach_conn_context s link) link).address a).rlinks = [] ∧
        ((detach_unlink (detach_conn_context s link) link).address a).rnodes = [] := by
      have : (qd_router_check_addr (detach_unlink (detach_conn_context s link) link)
          (detach_oaddr (s.link link)) true).address
          = (detach_unlink (detach_conn_context s link) link).address := k1
      unfold address_unused at hun
      simpa [this] using hun
    obtain ⟨t1, t2⟩ := (qd_router_check_addr_tables
      (detach_unlink (detach_conn_context s link) link) a true).1 hun'
    rw [← ho] at t1 t2
    rcases hin with hin | ⟨k, hin⟩
    · have hin' : a ∈ (qd_router_check_addr (detach_unlink (detach_conn_context s link) link)
          (detach_oaddr (s.link link)) true).addrs := hin
      rw [t2] at hin'
      exact ((deq_remove_mem _ _ _).mp hin').2 rfl
    · have hin' : (k, a) ∈ (qd_router_check_addr (detach_unlink (detach_conn_context s link) link)
          (detach_oaddr (s.link link)) true).addr_hash := hin
      rw [t1] at hin'
      exact ((qd_hash_remove_by_handle_mem _ _ _ _).mp hin').2 rfl

/-! ## The index `out_links_by_mask_bit` -/

theorem outgoing_link_rejected_router (iterator_string : String → qd_field_iterator_t)
    (s : qd_router_t) (link : Nat)
    (hr : qd_router_terminus_is_router (s.remote_target link) = true) :
    outgoing_link_rejected iterator_string s link
      = !qd_router_connection_is_inter_router s (s.link_conn link) := by
  simp [outgoing_link_rejected, hr]

/-- The record of a link other than the detached one is as before. -/
theorem router_link_detach_handler_other_link (s : qd_router_t) (link other : Nat)
    (closed : Bool) (h : s.link_context link = true) (hne : other ≠ link) :
    (router_link_detach_handler s link closed).link other = s.link other := by
  rw [(router_link_detach_handler_fields s link closed h).2.2.2.2.2.2.1]
  cases detach_oaddr (s.link link) with
  | none => rfl
  | some a =>
    simp only
    split_ifs
    · exact upd_other _ _ _ _ hne
    · rfl

theorem out_links_indexed_step (iterator_string : String → qd_field_iterator_t)
    (s : qd_router_t) (e : router_event) (hinv : out_links_indexed s)
    (hg : router_event.fresh s e) : out_links_indexed (e.apply iterator_string s) := by
  intro b l hout
  cases e with
  | register_address address handler semantics context =>
    obtain ⟨f1, f2, f3, f4, f5, f6, f7, f8⟩ := qd_router_register_address_frame
      iterator_string s address handler semantics context
    simp only [router_event.apply] at hout ⊢
    rw [f5] at hout
    rw [f1, f2]
    exact hinv b l hout
  | check_addr addr was_local =>
    obtain ⟨k1, k2, k3, k4, k5, k6, k7, k8, k9, k10, k11⟩ :=
      qd_router_check_addr_frame s addr was_local
    simp only [router_event.apply] at hout ⊢
    rw [k8] at hout
    rw [k3, k5]
    exact hinv b l hout
  | incoming_link link =>
    have hfresh : s.link_context link = false := hg
    simp only [router_event.apply] at hout ⊢
    cases hr : qd_router_terminus_is_router (s.remote_source link) with
    | false =>
      obtain ⟨f1, f2, f3, f4, f5, f6, f7, f8, f9, f10, f11, f12⟩ :=
        router_incoming_link_handler_endpoint s link hr
      rw [f6] at hout
      obtain ⟨i1, i2, i3, i4⟩ := hinv b l hout
      have hne : l ≠ link := by
        intro heq
        rw [heq, hfresh] at i1
        cases i1
      rw [f1, f2, upd_other _ _ _ _ hne, upd_other _ _ _ _ hne]
      exact ⟨i1, i2, i3, i4⟩
    | true =>
      cases hi : qd_router_connection_is_inter_router s (s.link_conn link) with
      | false =>
        rw [router_incoming_link_handler_rejected s link hr hi] at hout ⊢
        exact hinv b l hout
      | true =>
        obtain ⟨f1, f2, f3, f4, f5, f6, f7, f8, f9, f10, f11, f12⟩ :=
          router_incoming_link_handler_router s link hr hi
        rw [f6] at hout
        obtain ⟨i1, i2, i3, i4⟩ := hinv b l hout
        have hne : l ≠ link := by
          intro heq
          rw [heq, hfresh] at i1
          cases i1
        rw [f1, f2, upd_other _ _ _ _ hne, upd_other _ _ _ _ hne]
        exact ⟨i1, i2, i3, i4⟩
  | outgoing_link link rnd =>
    have hfresh : s.link_context link = false := hg
    simp only [router_event.apply] at hout ⊢
    cases hrej : outgoing_link_rejected iterator_string s link with
    | true =>
      rw [router_outgoing_link_handler_rejected iterator_string s link rnd hrej] at hout ⊢
      exact hinv b l hout
    | false =>
      cases hr : qd_router_terminus_is_router (s.remote_target link) with
      | false =>
        obtain ⟨f1, f2, f3, f4, f5, f6, f7, f8, f9, f10, f11, f12⟩ :=
          router_outgoing_link_handler_endpoint iterator_string s link rnd hr hrej
        rw [f6] at hout
        obtain ⟨i1, i2, i3, i4⟩ := hinv b l hout
        have hne : l ≠ link := by
          intro heq
          rw [heq, hfresh] at i1
          cases i1
        rw [f1, f2, upd_other _ _ _ _ hne, upd_other _ _ _ _ hne]
        exact ⟨i1, i2, i3, i4⟩
      | true =>
        have hi : qd_router_connection_is_inter_router s (s.link_conn link) = true := by
          rw [outgoing_link_rejected_router iterator_string s link hr] at hrej
          simpa using hrej
        obtain ⟨f1, f2, f3, f4, f5, f6, f7, f8, f9, f10, f11, f12⟩ :=
          router_outgoing_link_handler_router iterator_string s link rnd hr hi
        rw [f6] at hout
        rw [f1, f2]
        by_cases hb : b = (qd_router_find_mask_bit_LH s link).2
        · simp only [hb, if_true, Option.some.injEq] at hout
          subst hout
          simp [new_router_link, hb]
        · simp only [hb, if_false] at hout
          obtain ⟨i1, i2, i3, i4⟩ := hinv b l hout
          have hne : l ≠ link := by
            intro heq
            rw [heq, hfresh] at i1
            cases i1
          rw [upd_other _ _ _ _ hne, upd_other _ _ _ _ hne]
          exact ⟨i1, i2, i3, i4⟩
  | outbound_open conn receiver sender =>
    obtain ⟨hfr, hfs, hrs⟩ : s.link_context receiver = false ∧ s.link_context sender = false ∧
      receiver ≠ sender := hg
    simp only [router_event.apply] at hout ⊢
    cases hi : qd_router_connection_is_inter_router s conn with
    | false =>
      rw [router_outbound_open_handler_skipped s conn receiver sender (Or.inl hi)] at hout ⊢
      exact hinv b l hout
    | true =>
      cases hb0 : qd_bitmask_first_set s.neighbor_free_mask with
      | none =>
        rw [router_outbound_open_handler_skipped s conn receiver sender (Or.inr hb0)] at hout ⊢
        exact hinv b l hout
      | some b0 =>
        obtain ⟨f1, f2, f3, f4, f5, f6, f7, f8, f9, f10, f11, f12⟩ :=
          router_outbound_open_handler_opened s conn receiver sender b0 hi hb0
        rw [f6] at hout
        rw [f1, f2]
        by_cases hb : b = b0
        · simp only [hb, if_true, Option.some.injEq] at hout
          subst hout
          simp [new_router_link, hb]
        · simp only [hb, if_false] at hout
          obtain ⟨i1, i2, i3, i4⟩ := hinv b l hout
          have hne1 : l ≠ receiver := by
            intro heq
            rw [heq, hfr] at i1
            cases i1
          have hne2 : l ≠ sender := by
            intro heq
            rw [heq, hfs] at i1
            cases i1
          rw [upd_other _ _ _ _ hne2, upd_other _ _ _ _ hne2, upd_other _ _ _ _ hne1,
            upd_other _ _ _ _ hne1]
          exact ⟨i1, i2, i3, i4⟩
  | link_detach link closed =>
    simp only [router_event.apply] at hout ⊢
    cases hlive : s.link_context link with
    | false =>
      obtain ⟨c1, c2, c3, c4, c5, c6, c7, c8, c9, c10, c11, c12⟩ :=
        detach_conn_context_fields s link
      rw [router_link_detach_handler_no_record s link closed hlive] at hout ⊢
      rw [c6] at hout
      rw [c2, c3]
      exact hinv b l hout
    | true =>
      obtain ⟨d1, d2, d3, d4, d5, d6, d7, d8, d9, d10, d11, d12, d13⟩ :=
        router_link_detach_handler_fields s link closed hlive
      rw [d5] at hout
      have hold : s.out_links_by_mask_bit b = some l ∧ l ≠ link := by
        by_cases hc : (s.link link).link_type = .QD_LINK_ROUTER ∧
            (s.link link).link_direction = .QD_OUTGOING ∧
            s.out_links_by_mask_bit (s.link link).mask_bit = some link
        · simp only [hc, and_self, if_true] at hout
          by_cases hb : b = (s.link link).mask_bit
          · simp [hb] at hout
          · simp only [hb, if_false] at hout
            refine ⟨hout, ?_⟩
            intro heq
            subst heq
            exact hb (hinv b l hout).2.1.symm
        · simp only [hc, if_false] at hout
          refine ⟨hout, ?_⟩
          intro heq
          subst heq
          obtain ⟨i1, i2, i3, i4⟩ := hinv b l hout
          apply hc
          refine ⟨i3, i4, ?_⟩
          rw [i2]
          exact hout
      obtain ⟨hold1, hne⟩ := hold
      obtain ⟨i1, i2, i3, i4⟩ := hinv b l hold1
      rw [router_link_detach_handler_other_link s link l closed hlive hne, d1,
        upd_other _ _ _ _ hne]
      exact ⟨i1, i2, i3, i4⟩

/-- The index is empty when `qd_router` returns. -/
theorem out_links_indexed_init (iterator_string : String → qd_field_iterator_t)
    (world : qd_router_t) (width : Nat) (mode : qd_router_mode_t) (area id : String) :
    out_links_indexed (qd_router iterator_string world width mode area id) := by
  intro b l hout
  have hnone : (qd_router iterator_string world width mode area id).out_links_by_mask_bit
      = fun _ => none := by
    unfold qd_router
    simp only
    split
    · simp [qd_router_register_address_frame]
    · rfl
  rw [hnone] at hout
  cases hout

theorem out_links_indexed_reachable (iterator_string : String → qd_field_iterator_t)
    (s0 s : qd_router_t) (h0 : out_links_indexed s0)
    (h : reachable iterator_string router_event.fresh s0 s) : out_links_indexed s := by
  induction h with
  | init => exact h0
  | step s e _ hg ih => exact out_links_indexed_step iterator_string s e ih hg

/-- C15: in every state reached from the state `qd_router` sets up by link open
events (incoming and outgoing, each for a link without record), outbound
connection open events (with two new links), link detach events, and also
address registrations and checks, every link stored at
`out_links_by_mask_bit[b]` has mask bit `b`, type router and direction
outgoing. -/
theorem C15_out_links_by_mask_bit (iterator_string : String → qd_field_iterator_t)
    (world : qd_router_t) (width : Nat) (mode : qd_router_mode_t) (area id : String)
    (s : qd_router_t)
    (h : reachable iterator_string router_event.fresh
      (qd_router iterator_string world width mode area id) s) :
    ∀ b l, s.out_links_by_mask_bit b = some l →
      (s.link l).mask_bit = b ∧ (s.link l).link_type = .QD_LINK_ROUTER ∧
      (s.link l).link_direction = .QD_OUTGOING := by
  intro b l hout
  exact (out_links_indexed_reachable iterator_string _ s
    (out_links_indexed_init iterator_string world width mode area id) h b l hout).2

/-- C15 on the interior router: after the outbound connection 1 opened the
links 10 and 11, index 0 holds link 11, an outgoing router link with mask
bit 0. -/
theorem C15_out_links_by_mask_bit_witness :
    (router_event.apply example_iterator_string router_interior
      (.outbound_open 1 10 11)).out_links_by_mask_bit 0 = some 11 ∧
    ((router_event.apply example_iterator_string router_interior
      (.outbound_open 1 10 11)).link 11).mask_bit = 0 ∧
    ((router_event.apply example_iterator_string router_interior
      (.outbound_open 1 10 11)).link 11).link_type = .QD_LINK_ROUTER ∧
    ((router_event.apply example_iterator_string router_interior
      (.outbound_open 1 10 11)).link 11).link_direction = .QD_OUTGOING :=
  ⟨by decide,
    C15_out_links_by_mask_bit example_iterator_string world_links 2 .QD_ROUTER_MODE_INTERIOR
      "A" "r1" _
      (reachable.step _ (.outbound_open 1 10 11) reachable.init ⟨rfl, rfl, by decide⟩)
      0 11 (by decide)⟩

/-! ## Unused addresses in the address table -/

theorem in_address_table_congr (s x : qd_router_t) (a : Nat) (h1 : x.addrs = s.addrs)
    (h2 : x.addr_hash = s.addr_hash) : in_address_table x a ↔ in_address_table s a := by
  unfold in_address_table
  rw [h1, h2]

theorem address_unused_congr (s x : qd_router_t) (a : Nat) (h : x.address a = s.address a) :
    address_unused x a ↔ address_unused s a := by
  unfold address_unused
  rw [h]

theorem find_or_create_address_other (s : qd_router_t) (key : String)
    (semantics : qd_address_semantics_t) (a : Nat)
    (h : a ≠ (find_or_create_address s key semantics).2) :
    (find_or_create_address s key semantics).1.address a = s.address a := by
  rcases find_or_create_address_cases s key semantics with ⟨h1, _⟩ | ⟨h1, h2, _⟩
  · rw [h1]
  · rw [h2]
    rw [h1] at h
    exact upd_other _ _ _ _ h

theorem find_or_create_address_table (s : qd_router_t) (key : String)
    (semantics : qd_address_semantics_t) (a : Nat)
    (h : in_address_table (find_or_create_address s key semantics).1 a) :
    in_address_table s a ∨ a = (find_or_create_address s key semantics).2 := by
  rcases find_or_create_address_cases s key semantics with ⟨h1, _⟩ | ⟨h1, _, _, h4, h5⟩
  · rw [h1] at h
    exact Or.inl h
  · unfold in_address_table at h
    rw [h4, h5] at h
    rcases h with h | ⟨k, h⟩
    · rcases List.mem_append.mp h with h | h
      · exact Or.inl (Or.inl h)
      · right
        rw [h1]
        simpa using h
    · rcases List.mem_append.mp h with h | h
      · exact Or.inl (Or.inr ⟨k, h⟩)
      · right
        rw [h1]
        simp at h
        exact h.2

/-- The address records after a registration: the registered record has the
handler, the others are as before, and no other record enters the table. -/
theorem qd_router_register_address_records (iterator_string : String → qd_field_iterator_t)
    (s : qd_router_t) (address : String) (handler : Option Nat)
    (semantics : qd_address_semantics_t) (context : Nat) :
    ((qd_router_register_address iterator_string s address handler semantics context).1.address
      (qd_router_register_address iterator_string s address handler semantics
        context).2).handler = handler ∧
    (∀ a, a ≠ (qd_router_register_address iterator_string s address handler semantics
        context).2 →
      (qd_router_register_address iterator_string s address handler semantics
        context).1.address a = s.address a) ∧
    (∀ a, in_address_table
        (qd_router_register_address iterator_string s address handler semantics context).1 a →
      in_address_table s a ∨
        a = (qd_router_register_address iterator_string s address handler semantics
          context).2) := by
  unfold qd_router_register_address
  simp only [set_address]
  refine ⟨?_, ?_, ?_⟩
  · simp
  · intro a ha
    simp only [upd_other _ _ _ _ ha]
    exact find_or_create_address_other s _ semantics a ha
  · intro a ha
    apply find_or_create_address_table s _ semantics a
    exact ha

/-- The tables after `qd_router_check_addr` hold no new record. -/
theorem qd_router_check_addr_subset (s : qd_router_t) (addr : Option Nat) (was_local : Bool)
    (a : Nat) (h : in_address_table (qd_router_check_addr s addr was_local) a) :
    in_address_table s a := by
  cases addr with
  | none => simpa [qd_router_check_addr] using h
  | some x =>
    unfold in_address_table at h ⊢
    by_cases hun : (s.address x).handler = none ∧ (s.address x).rlinks = [] ∧
        (s.address x).rnodes = []
    · obtain ⟨t1, t2⟩ := (qd_router_check_addr_tables s x was_local).1 hun
      rw [t1, t2] at h
      rcases h with h | ⟨k, h⟩
      · exact Or.inl ((deq_remove_mem _ _ _).mp h).1
      · exact Or.inr ⟨k, ((qd_hash_remove_by_handle_mem _ _ _ _).mp h).1⟩
    · obtain ⟨t1, t2⟩ := (qd_router_check_addr_tables s x was_local).2 hun
      rw [t1, t2] at h
      exact h

theorem unused_only_router_addrs_transfer (s x : qd_router_t)
    (hinv : unused_only_router_addrs s) (hr : x.router_addr = s.router_addr)
    (hh : x.hello_addr = s.hello_addr)
    (h : ∀ a, in_address_table x a → address_unused x a →
      in_address_table s a ∧ address_unused s a) :
    unused_only_router_addrs x := by
  intro a h1 h2
  rw [hr, hh]
  exact hinv a (h a h1 h2).1 (h a h1 h2).2

/-- A record that gained a member in `rlinks` is not unused; the other records
are as before. -/
theorem address_unused_of_appended (s x : qd_router_t) (hello : Option Nat) (link a : Nat)
    (haddr : x.address = (match hello with
      | some h => upd s.address h { s.address h with rlinks := (s.address h).rlinks ++ [link] }
      | none => s.address))
    (h : address_unused x a) : address_unused s a := by
  cases hello with
  | none =>
    simp only at haddr
    exact (address_unused_congr s x a (by rw [haddr])).mp h
  | some hl =>
    simp only at haddr
    by_cases ha : a = hl
    · exfalso
      have := h.2.1
      rw [haddr, ha, upd_same] at this
      simp at this
    · exact (address_unused_congr s x a (by rw [haddr, upd_other _ _ _ _ ha])).mp h

theorem unused_only_router_addrs_step (iterator_string : String → qd_field_iterator_t)
    (s : qd_router_t) (e : router_event) (hinv : unused_only_router_addrs s)
    (hg : router_event.registers_handler s e) :
    unused_only_router_addrs (e.apply iterator_string s) := by
  cases e with
  | register_address address handler semantics context =>
    have hh : handler ≠ none := hg
    obtain ⟨f1, f2, f3, f4, f5, f6, f7, f8⟩ := qd_router_register_address_frame
      iterator_string s address handler semantics context
    obtain ⟨r1, r2, r3⟩ := qd_router_register_address_records
      iterator_string s address handler semantics context
    apply unused_only_router_addrs_transfer s _ hinv f8 f7
    intro a h1 h2
    by_cases ha : a = (qd_router_register_address iterator_string s address handler semantics
        context).2
    · exfalso
      have := h2.1
      simp only [router_event.apply] at this
      rw [ha, r1] at this
      exact hh this
    · refine ⟨?_, (address_unused_congr s _ a (r2 a ha)).mp h2⟩
      rcases r3 a h1 with h | h
      · exact h
      · exact absurd h ha
  | check_addr addr was_local =>
    obtain ⟨k1, k2, k3, k4, k5, k6, k7, k8, k9, k10, k11⟩ :=
      qd_router_check_addr_frame s addr was_local
    apply unused_only_router_addrs_transfer s _ hinv k11 k10
    intro a h1 h2
    exact ⟨qd_router_check_addr_subset s addr was_local a h1,
      (address_unused_congr s _ a (congrFun k1 a)).mp h2⟩
  | incoming_link link =>
    simp only [router_event.apply]
    cases hr : qd_router_terminus_is_router (s.remote_source link) with
    | false =>
      obtain ⟨f1, f2, f3, f4, f5, f6, f7, f8, f9, f10, f11, f12⟩ :=
        router_incoming_link_handler_endpoint s link hr
      apply unused_only_router_addrs_transfer s _ hinv f12 f11
      intro a h1 h2
      exact ⟨(in_address_table_congr s _ a f10 f9).mp h1,
        (address_unused_congr s _ a (by rw [f7])).mp h2⟩
    | true =>
      cases hi : qd_router_connection_is_inter_router s (s.link_conn link) with
      | false =>
        rw [router_incoming_link_handler_rejected s link hr hi]
        exact hinv
      | true =>
        obtain ⟨f1, f2, f3, f4, f5, f6, f7, f8, f9, f10, f11, f12⟩ :=
          router_incoming_link_handler_router s link hr hi
        apply unused_only_router_addrs_transfer s _ hinv f12 f11
        intro a h1 h2
        exact ⟨(in_address_table_congr s _ a f10 f9).mp h1,
          (address_unused_congr s _ a (by rw [f7])).mp h2⟩
  | outgoing_link link rnd =>
    simp only [router_event.apply]
    cases hrej : outgoing_link_rejected iterator_string s link with
    | true =>
      rw [router_outgoing_link_handler_rejected iterator_string s link rnd hrej]
      exact hinv
    | false =>
      cases hr : qd_router_terminus_is_router (s.remote_target link) with
      | false =>
        obtain ⟨f1, f2, f3, f4, f5, f6, f7, f8, f9, f10, f11, f12⟩ :=
          router_outgoing_link_handler_endpoint iterator_string s link rnd hr hrej
        apply unused_only_router_addrs_transfer s _ hinv f12 f11
        intro a h1 h2
        by_cases ha : a = (find_or_create_address s
            (outgoing_source_iterator iterator_string s link rnd).address_hash
            default_semantics).2
        · exfalso
          have := h2.2.1
          rw [f7, ha, upd_same] at this
          simp at this
        · refine ⟨?_, ?_⟩
          · have h1' : in_address_table (find_or_create_address s
                (outgoing_source_iterator iterator_string s link rnd).address_hash
                default_semantics).1 a := (in_address_table_congr _ _ a f10 f9).mp h1
            rcases find_or_create_address_table s _ _ a h1' with h | h
            · exact h
            · exact absurd h ha
          · apply (address_unused_congr s _ a _).mp h2
            rw [f7, upd_other _ _ _ _ ha]
            exact find_or_create_address_other s _ _ a ha
      | true =>
        have hi : qd_router_connection_is_inter_router s (s.link_conn link) = true := by
          rw [outgoing_link_rejected_router iterator_string s link hr] at hrej
          simpa using hrej
        obtain ⟨f1, f2, f3, f4, f5, f6, f7, f8, f9, f10, f11, f12⟩ :=
          router_outgoing_link_handler_router iterator_string s link rnd hr hi
        apply unused_only_router_addrs_transfer s _ hinv f12 f11
        intro a h1 h2
        exact ⟨(in_address_table_congr s _ a f10 f9).mp h1,
          address_unused_of_appended s _ s.hello_addr link a f7 h2⟩
  | outbound_open conn receiver sender =>
    simp only [router_event.apply]
    cases hi : qd_router_connection_is_inter_router s conn with
    | false =>
      rw [router_outbound_open_handler_skipped s conn receiver sender (Or.inl hi)]
      exact hinv
    | true =>
      cases hb0 : qd_bitmask_first_set s.neighbor_free_mask with
      | none =>
        rw [router_outbound_open_handler_skipped s conn receiver sender (Or.inr hb0)]
        exact hinv
      | some b0 =>
        obtain ⟨f1, f2, f3, f4, f5, f6, f7, f8, f9, f10, f11, f12⟩ :=
          router_outbound_open_handler_opened s conn receiver sender b0 hi hb0
        apply unused_only_router_addrs_transfer s _ hinv f12 f11
        intro a h1 h2
        exact ⟨(in_address_table_congr s _ a f10 f9).mp h1,
          address_unused_of_appended s _ s.hello_addr sender a f7 h2⟩
  | link_detach link closed =>
    simp only [router_event.apply]
    cases hlive : s.link_context link with
    | false =>
      obtain ⟨c1, c2, c3, c4, c5, c6, c7, c8, c9, c10, c11, c12⟩ :=
        detach_conn_context_fields s link
      rw [router_link_detach_handler_no_record s link closed hlive]
      apply unused_only_router_addrs_transfer s _ hinv c12 c11
      intro a h1 h2
      exact ⟨(in_address_table_congr s _ a c10 c9).mp h1,
        (address_unused_congr s _ a (by rw [c7])).mp h2⟩
    | true =>
      obtain ⟨d1, d2, d3, d4, d5, d6, d7, d8, d9, d10, d11, d12, d13⟩ :=
        router_link_detach_handler_fields s link closed hlive
      apply unused_only_router_addrs_transfer s _ hinv d10 d9
      intro a h1 h2
      have hne : detach_oaddr (s.link link) ≠ some a := fun ho => d13 a ho h2 h1
      refine ⟨?_, ?_⟩
      · rcases h1 with h1 | ⟨k, h1⟩
        · exact Or.inl (d12 a h1)
        · exact Or.inr ⟨k, d11 k a h1⟩
      · apply (address_unused_congr s _ a _).mp h2
        rw [d6]
        cases ho : detach_oaddr (s.link link) with
        | none => rfl
        | some x =>
          have hax : a ≠ x := by
            intro heq
            apply hne
            rw [ho, heq]
          simp only
          split_ifs
          · exact upd_other _ _ _ _ hax
          · rfl

/-- When `qd_router` returns, the table holds at most the router address and
the hello address. -/
theorem unused_only_router_addrs_init (iterator_string : String → qd_field_iterator_t)
    (world : qd_router_t) (width : Nat) (mode : qd_router_mode_t) (area id : String) :
    unused_only_router_addrs (qd_router iterator_string world width mode area id) := by
  intro a hin _
  unfold qd_router at hin ⊢
  simp only at hin ⊢
  split at hin
  · rename_i hmode
    simp only [hmode, if_true]
    have hin' := (in_address_table_congr _ _ a rfl rfl).mp hin
    rcases (qd_router_register_address_records iterator_string _ "qdhello" none
      router_semantics 0).2.2 a hin' with h | h
    · rcases (qd_router_register_address_records iterator_string _ "qdrouter" none
        router_semantics 0).2.2 a h with h | h
      · exfalso
        rcases h with h | ⟨k, h⟩
        · simp at h
        · simp at h
      · left
        rw [h]
    · right
      rw [h]
  · exfalso
    rcases hin with h | ⟨k, h⟩
    · simp at h
    · simp at h

theorem unused_only_router_addrs_reachable (iterator_string : String → qd_field_iterator_t)
    (s0 s : qd_router_t) (h0 : unused_only_router_addrs s0)
    (h : reachable iterator_string router_event.registers_handler s0 s) :
    unused_only_router_addrs s := by
  induction h with
  | init => exact h0
  | step s e _ hg ih => exact unused_only_router_addrs_step iterator_string s e ih hg

/-- C13 as stated fails: right after `qd_router` in interior mode the hello
address (record 101) is in the address table with no handler, no `rlinks` and
no `rnodes`; and in standalone mode a registration without handler leaves
such a record (record 100) in the table. -/
theorem C13_counterexample :
    (reachable example_iterator_string (fun _ _ => True) router_interior router_interior ∧
      in_address_table router_interior 101 ∧ address_unused router_interior 101) ∧
    (reachable example_iterator_string (fun _ _ => True)
        (qd_router example_iterator_string world_links 2 .QD_ROUTER_MODE_STANDALONE "A" "r1")
        (router_event.apply example_iterator_string
          (qd_router example_iterator_string world_links 2 .QD_ROUTER_MODE_STANDALONE "A" "r1")
          (.register_address "x" none default_semantics 0)) ∧
      in_address_table
        (router_event.apply example_iterator_string
          (qd_router example_iterator_string world_links 2 .QD_ROUTER_MODE_STANDALONE "A" "r1")
          (.register_address "x" none default_semantics 0)) 100 ∧
      address_unused
        (router_event.apply example_iterator_string
          (qd_router example_iterator_string world_links 2 .QD_ROUTER_MODE_STANDALONE "A" "r1")
          (.register_address "x" none default_semantics 0)) 100) :=
  ⟨⟨reachable.init, Or.inl (by decide), by decide, by decide, by decide⟩,
    ⟨reachable.step _ _ reachable.init trivial, Or.inl (by decide), by decide, by decide,
      by decide⟩⟩

/-- C13 (amended): in every state reached from the state `qd_router` sets up by
registrations that pass a handler, link open events, outbound connection open
events, link detach events and calls of `qd_router_check_addr`, an address
record with no handler, no `rlinks` and no `rnodes` that is in the address
table is the router address or the hello address that `qd_router` registered
without handler. -/
theorem C13_unused_addresses_leave_table (iterator_string : String → qd_field_iterator_t)
    (world : qd_router_t) (width : Nat) (mode : qd_router_mode_t) (area id : String)
    (s : qd_router_t)
    (h : reachable iterator_string router_event.registers_handler
      (qd_router iterator_string world width mode area id) s) :
    ∀ a, in_address_table s a → address_unused s a →
      s.router_addr = some a ∨ s.hello_addr = some a :=
  unused_only_router_addrs_reachable iterator_string _ s
    (unused_only_router_addrs_init iterator_string world width mode area id) h

/-- C13 (amended) on the interior router: link 20 subscribes to `svc` and
detaches; the record of `svc` (102) has left the table, and the unused records
that remain are the router address 100 and the hello address 101. -/
theorem C13_unused_addresses_leave_table_witness :
    ¬ in_address_table
      (router_event.apply example_iterator_string
        (router_event.apply example_iterator_string router_interior (.outgoing_link 20 0))
        (.link_detach 20 true)) 102 ∧
    in_address_table
      (router_event.apply example_iterator_string router_interior (.outgoing_link 20 0)) 102 ∧
    ∀ a, in_address_table
        (router_event.apply example_iterator_string
          (router_event.apply example_iterator_string router_interior (.outgoing_link 20 0))
          (.link_detach 20 true)) a →
      address_unused
        (router_event.apply example_iterator_string
          (router_event.apply example_iterator_string router_interior (.outgoing_link 20 0))
          (.link_detach 20 true)) a →
      (router_event.apply example_iterator_string
          (router_event.apply example_iterator_string router_interior (.outgoing_link 20 0))
          (.link_detach 20 true)).router_addr = some a ∨
      (router_event.apply example_iterator_string
          (router_event.apply example_iterator_string router_interior (.outgoing_link 20 0))
          (.link_detach 20 true)).hello_addr = some a :=
  ⟨by
      intro h
      rcases h with h | ⟨k, h⟩
      · revert h
        decide
      · have hh : (router_event.apply example_iterator_string
            (router_event.apply example_iterator_string router_interior (.outgoing_link 20 0))
            (.link_detach 20 true)).addr_hash = [("Lqdrouter", 100), ("Lqdhello", 101)] := by
          decide
        rw [hh] at h
        simp at h,
    Or.inl (by decide),
    C13_unused_addresses_leave_table example_iterator_string world_links 2
      .QD_ROUTER_MODE_INTERIOR "A" "r1" _
      (reachable.step _ (.link_detach 20 true)
        (reachable.step _ (.outgoing_link 20 0) reachable.init trivial) trivial)⟩

/-! ## Membership in `rlinks` -/

theorem count_remove_last_of_ne (x y : Nat) (xs : List Nat) (h : y ≠ x) :
    (remove_last x xs).count y = xs.count y := by
  unfold remove_last
  rw [List.count_reverse, List.count_erase_of_ne h, List.count_reverse]

theorem count_remove_last_self (x : Nat) (xs : List Nat) :
    (remove_last x xs).count x = xs.count x - 1 := by
  unfold remove_last
  rw [List.count_reverse, List.count_erase_self, List.count_reverse]

theorem mem_of_mem_remove_last (x y : Nat) (xs : List Nat) (h : y ∈ remove_last x xs) :
    y ∈ xs := by
  unfold remove_last at h
  rw [List.mem_reverse] at h
  exact List.mem_reverse.mp (List.mem_of_mem_erase h)

/-- A record that has not been handed out has no member in its `rlinks`. -/
theorem rlinks_consistent.unallocated_empty (s : qd_router_t) (hinv : rlinks_consistent s)
    (a : Nat) (h : s.address_next ≤ a) : (s.address a).rlinks = [] := by
  apply List.eq_nil_iff_forall_not_mem.mpr
  intro l hl
  obtain ⟨h1, _, h3⟩ := hinv.member_owned a l hl
  have := hinv.owner_allocated l a h1 h3
  omega

/-- The record that `find_or_create_address` yields has been handed out, and
no `rlinks` changes. -/
theorem find_or_create_address_allocated (s : qd_router_t) (hinv : rlinks_consistent s)
    (key : String) (semantics : qd_address_semantics_t) :
    (find_or_create_address s key semantics).2
      < (find_or_create_address s key semantics).1.address_next ∧
    s.address_next ≤ (find_or_create_address s key semantics).1.address_next ∧
    (∀ k a, (k, a) ∈ (find_or_create_address s key semantics).1.addr_hash →
      a < (find_or_create_address s key semantics).1.address_next) ∧
    (∀ a, ((find_or_create_address s key semantics).1.address a).rlinks
      = (s.address a).rlinks) := by
  rcases find_or_create_address_cases s key semantics with ⟨h1, h2⟩ | ⟨h1, h2, h3, h4, h5⟩
  · rw [h1]
    exact ⟨hinv.table_allocated _ _ h2, le_refl _, hinv.table_allocated, fun _ => rfl⟩
  · rw [h1, h2, h3, h4]
    refine ⟨by omega, by omega, ?_, ?_⟩
    · intro k a hm
      rcases List.mem_append.mp hm with hm | hm
      · have := hinv.table_allocated k a hm
        omega
      · simp at hm
        omega
    · intro a
      by_cases ha : a = s.address_next
      · rw [ha, upd_same, rlinks_consistent.unallocated_empty s hinv _ (le_refl _)]
        rfl
      · rw [upd_other _ _ _ _ ha]

/-- The invariant carries over to a state with the same links and `rlinks` and
with more addresses handed out. -/
theorem rlinks_consistent.of_same_links (s x : qd_router_t) (hinv : rlinks_consistent s)
    (hctx : x.link_context = s.link_context) (hlink : x.link = s.link)
    (hrl : ∀ a, (x.address a).rlinks = (s.address a).rlinks)
    (hnext : s.address_next ≤ x.address_next) (hhello : x.hello_addr = s.hello_addr)
    (htable : ∀ k a, (k, a) ∈ x.addr_hash → a < x.address_next) :
    rlinks_consistent x := by
  constructor
  · intro l a h1 h2 h3
    rw [hctx] at h1
    rw [hlink] at h2 h3
    rw [hrl, hlink]
    exact hinv.member_once l a h1 h2 h3
  · intro a l hl
    rw [hrl] at hl
    rw [hctx, hlink]
    exact hinv.member_owned a l hl
  · intro l a h1 h2
    rw [hctx] at h1
    rw [hlink] at h2
    have := hinv.owner_allocated l a h1 h2
    omega
  · intro h hh
    rw [hhello] at hh
    have := hinv.hello_allocated h hh
    omega
  · exact htable

/-- The invariant after a link without record got the record `r`, and joined
the `rlinks` of the address that `r` names. -/
theorem rlinks_consistent.of_opened (s x : qd_router_t) (hinv : rlinks_consistent s)
    (l : Nat) (r : qd_router_link_t) (hfresh : s.link_context l = false)
    (hctx : x.link_context = upd s.link_context l true) (hlink : x.link = upd s.link l r)
    (hown : ∀ a, r.owning_addr = some a →
      r.link_direction = .QD_OUTGOING ∧ r.ref = true ∧ a < x.address_next)
    (hrl : ∀ a, (x.address a).rlinks
      = if r.owning_addr = some a then (s.address a).rlinks ++ [l] else (s.address a).rlinks)
    (hnext : s.address_next ≤ x.address_next) (hhello : x.hello_addr = s.hello_addr)
    (htable : ∀ k a, (k, a) ∈ x.addr_hash → a < x.address_next) :
    rlinks_consistent x := by
  have hnot : ∀ a, l ∉ (s.address a).rlinks := by
    intro a hl
    have := (hinv.member_owned a l hl).1
    rw [hfresh] at this
    cases this
  constructor
  · intro l' a h1 h2 h3
    rw [hrl]
    by_cases hl : l' = l
    · subst hl
      rw [hlink, upd_same] at h2 h3 ⊢
      simp only [h3, if_true]
      refine ⟨?_, (hown a h3).2.1⟩
      rw [List.count_append, List.count_eq_zero_of_not_mem (hnot a)]
      simp
    · rw [hctx, upd_other _ _ _ _ hl] at h1
      rw [hlink, upd_other _ _ _ _ hl] at h2 h3 ⊢
      obtain ⟨c1, c2⟩ := hinv.member_once l' a h1 h2 h3
      refine ⟨?_, c2⟩
      split_ifs
      · rw [List.count_append, c1]
        simp [List.count_cons, hl]
      · exact c1
  · intro a l' hl'
    rw [hrl] at hl'
    have hcase : l' ∈ (s.address a).rlinks ∨ (l' = l ∧ r.owning_addr = some a) := by
      split_ifs at hl' with hc
      · rcases List.mem_append.mp hl' with h | h
        · exact Or.inl h
        · right
          simp at h
          exact ⟨h, hc⟩
      · exact Or.inl hl'
    rcases hcase with h | ⟨h, hc⟩
    · obtain ⟨c1, c2, c3⟩ := hinv.member_owned a l' h
      have hl : l' ≠ l := by
        intro heq
        rw [heq, hfresh] at c1
        cases c1
      rw [hctx, hlink, upd_other _ _ _ _ hl, upd_other _ _ _ _ hl]
      exact ⟨c1, c2, c3⟩
    · subst h
      rw [hctx, hlink, upd_same, upd_same]
      exact ⟨rfl, (hown a hc).1, hc⟩
  · intro l' a h1 h2
    by_cases hl : l' = l
    · subst hl
      rw [hlink, upd_same] at h2
      exact (hown a h2).2.2
    · rw [hctx, upd_other _ _ _ _ hl] at h1
      rw [hlink, upd_other _ _ _ _ hl] at h2
      have := hinv.owner_allocated l' a h1 h2
      omega
  · intro h hh
    rw [hhello] at hh
    have := hinv.hello_allocated h hh
    omega
  · exact htable

theorem qd_router_register_address_allocated (iterator_string : String → qd_field_iterator_t)
    (s : qd_router_t) (hinv : rlinks_consistent s) (address : String) (handler : Option Nat)
    (semantics : qd_address_semantics_t) (context : Nat) :
    (qd_router_register_address iterator_string s address handler semantics context).2
      < (qd_router_register_address iterator_string s address handler semantics
          context).1.address_next ∧
    s.address_next ≤ (qd_router_register_address iterator_string s address handler semantics
      context).1.address_next ∧
    (∀ k a, (k, a) ∈ (qd_router_register_address iterator_string s address handler semantics
        context).1.addr_hash →
      a < (qd_router_register_address iterator_string s address handler semantics
        context).1.address_next) ∧
    (∀ a, ((qd_router_register_address iterator_string s address handler semantics
        context).1.address a).rlinks = (s.address a).rlinks) := by
  obtain ⟨h1, h2, h3, h4⟩ := find_or_create_address_allocated s hinv
    (iterator_string ("L" ++ address)).no_host semantics
  unfold qd_router_register_address
  simp only [set_address]
  refine ⟨h1, h2, h3, ?_⟩
  intro a
  by_cases ha : a = (find_or_create_address s (iterator_string ("L" ++ address)).no_host
      semantics).2
  · rw [ha, upd_same]
    exact h4 _
  · rw [upd_other _ _ _ _ ha]
    exact h4 a

theorem qd_router_check_addr_hash_subset (s : qd_router_t) (addr : Option Nat)
    (was_local : Bool) (k : String) (a : Nat)
    (h : (k, a) ∈ (qd_router_check_addr s addr was_local).addr_hash) : (k, a) ∈ s.addr_hash :=
  by
  cases addr with
  | none => simpa [qd_router_check_addr] using h
  | some x =>
    by_cases hun : (s.address x).handler = none ∧ (s.address x).rlinks = [] ∧
        (s.address x).rnodes = []
    · rw [((qd_router_check_addr_tables s x was_local).1 hun).1] at h
      exact ((qd_hash_remove_by_handle_mem _ _ _ _).mp h).1
    · rw [((qd_router_check_addr_tables s x was_local).2 hun).1] at h
      exact h

/-- The invariant after the detach of a link with a record. -/
theorem rlinks_consistent.of_detached (s : qd_router_t) (hinv : rlinks_consistent s)
    (link : Nat) (closed : Bool) (hlive : s.link_context link = true) :
    rlinks_consistent (router_link_detach_handler s link closed) := by
  obtain ⟨d1, d2, d3, d4, d5, d6, d7, d8, d9, d10, d11, d12, d13⟩ :=
    router_link_detach_handler_fields s link closed hlive
  have hother : ∀ l, l ≠ link → (router_link_detach_handler s link closed).link l = s.link l :=
    fun l hl => router_link_detach_handler_other_link s link l closed hlive hl
  have hrl : ∀ a, ((router_link_detach_handler s link closed).address a).rlinks
      = (s.address a).rlinks ∨
      (((router_link_detach_handler s link closed).address a).rlinks
          = remove_last link (s.address a).rlinks ∧
        detach_oaddr (s.link link) = some a ∧ (s.link link).ref = true) := by
    intro a
    rw [d6]
    cases ho : detach_oaddr (s.link link) with
    | none => exact Or.inl rfl
    | some x =>
      simp only
      by_cases href : (s.link link).ref = true
      · simp only [href, if_true]
        by_cases ha : a = x
        · right
          rw [ha, upd_same]
          exact ⟨rfl, rfl, trivial⟩
        · left
          rw [upd_other _ _ _ _ ha]
      · simp only [href, if_false]
        exact Or.inl rfl
  have hsub : ∀ a l, l ∈ ((router_link_detach_handler s link closed).address a).rlinks →
      l ∈ (s.address a).rlinks := by
    intro a l hl
    rcases hrl a with h | ⟨h, _, _⟩
    · rw [h] at hl
      exact hl
    · rw [h] at hl
      exact mem_of_mem_remove_last _ _ _ hl
  have hgone : ∀ a, link ∉ ((router_link_detach_handler s link closed).address a).rlinks := by
    intro a hl
    obtain ⟨c1, c2, c3⟩ := hinv.member_owned a link (hsub a link hl)
    obtain ⟨m1, m2⟩ := hinv.member_once link a c1 c2 c3
    have ho : detach_oaddr (s.link link) = some a := by
      simp [detach_oaddr, c2, c3]
    have hrem : ((router_link_detach_handler s link closed).address a).rlinks
        = remove_last link (s.address a).rlinks := by
      rw [d6, ho]
      simp only [m2, if_true, upd_same]
    rw [hrem] at hl
    have hcount := count_remove_last_self link (s.address a).rlinks
    rw [m1] at hcount
    exact (List.count_eq_zero.mp (by simpa using hcount)) hl
  constructor
  · intro l a h1 h2 h3
    have hl : l ≠ link := by
      intro heq
      rw [heq, d1, upd_same] at h1
      cases h1
    rw [d1, upd_other _ _ _ _ hl] at h1
    rw [hother l hl] at h2 h3 ⊢
    obtain ⟨c1, c2⟩ := hinv.member_once l a h1 h2 h3
    refine ⟨?_, c2⟩
    rcases hrl a with h | ⟨h, _, _⟩
    · rw [h]
      exact c1
    · rw [h, count_remove_last_of_ne _ _ _ hl]
      exact c1
  · intro a l hl
    have hne : l ≠ link := by
      intro heq
      rw [heq] at hl
      exact hgone a hl
    obtain ⟨c1, c2, c3⟩ := hinv.member_owned a l (hsub a l hl)
    rw [d1, upd_other _ _ _ _ hne, hother l hne]
    exact ⟨c1, c2, c3⟩
  · intro l a h1 h2
    have hl : l ≠ link := by
      intro heq
      rw [heq, d1, upd_same] at h1
      cases h1
    rw [d1, upd_other _ _ _ _ hl] at h1
    rw [hother l hl] at h2
    rw [d8]
    exact hinv.owner_allocated l a h1 h2
  · intro h hh
    rw [d9] at hh
    rw [d8]
    exact hinv.hello_allocated h hh
  · intro k a hm
    rw [d8]
    exact hinv.table_allocated k a (d11 k a hm)

theorem rlinks_consistent_step (iterator_string : String → qd_field_iterator_t)
    (s : qd_router_t) (e : router_event) (hinv : rlinks_consistent s)
    (hg : router_event.fresh s e) : rlinks_consistent (e.apply iterator_string s) := by
  cases e with
  | register_address address handler semantics context =>
    obtain ⟨f1, f2, f3, f4, f5, f6, f7, f8⟩ := qd_router_register_address_frame
      iterator_string s address handler semantics context
    obtain ⟨a1, a2, a3, a4⟩ := qd_router_register_address_allocated iterator_string s hinv
      address handler semantics context
    exact rlinks_consistent.of_same_links s _ hinv f2 f1 a4 a2 f7 a3
  | check_addr addr was_local =>
    obtain ⟨k1, k2, k3, k4, k5, k6, k7, k8, k9, k10, k11⟩ :=
      qd_router_check_addr_frame s addr was_local
    apply rlinks_consistent.of_same_links s _ hinv k5 k3
    · intro a
      exact congrArg qd_address_t.rlinks (congrFun k1 a)
    · exact le_of_eq k2.symm
    · exact k10
    · intro k a hm
      have hlt := hinv.table_allocated k a
        (qd_router_check_addr_hash_subset s addr was_local k a hm)
      have hnext : (router_event.apply iterator_string s
          (.check_addr addr was_local)).address_next = s.address_next := k2
      omega
  | incoming_link link =>
    have hfresh : s.link_context link = false := hg
    simp only [router_event.apply]
    cases hr : qd_router_terminus_is_router (s.remote_source link) with
    | false =>
      obtain ⟨f1, f2, f3, f4, f5, f6, f7, f8, f9, f10, f11, f12⟩ :=
        router_incoming_link_handler_endpoint s link hr
      apply rlinks_consistent.of_opened s _ hinv link _ hfresh f2 f1
      · intro a ha
        simp [new_router_link] at ha
      · intro a
        simp [new_router_link, f7]
      · exact le_of_eq f8.symm
      · exact f11
      · intro k a hm
        rw [f9] at hm
        rw [f8]
        exact hinv.table_allocated k a hm
    | true =>
      cases hi : qd_router_connection_is_inter_router s (s.link_conn link) with
      | false =>
        rw [router_incoming_link_handler_rejected s link hr hi]
        exact rlinks_consistent.of_same_links s _ hinv rfl rfl (fun _ => rfl) (le_refl _) rfl
          hinv.table_allocated
      | true =>
        obtain ⟨f1, f2, f3, f4, f5, f6, f7, f8, f9, f10, f11, f12⟩ :=
          router_incoming_link_handler_router s link hr hi
        apply rlinks_consistent.of_opened s _ hinv link _ hfresh f2 f1
        · intro a ha
          simp [new_router_link] at ha
        · intro a
          simp [new_router_link, f7]
        · exact le_of_eq f8.symm
        · exact f11
        · intro k a hm
          rw [f9] at hm
          rw [f8]
          exact hinv.table_allocated k a hm
  | outgoing_link link rnd =>
    have hfresh : s.link_context link = false := hg
    simp only [router_event.apply]
    cases hrej : outgoing_link_rejected iterator_string s link with
    | true =>
      rw [router_outgoing_link_handler_rejected iterator_string s link rnd hrej]
      exact rlinks_consistent.of_same_links s _ hinv rfl rfl (fun _ => rfl) (le_refl _) rfl
        hinv.table_allocated
    | false =>
      cases hr : qd_router_terminus_is_router (s.remote_target link) with
      | false =>
        obtain ⟨f1, f2, f3, f4, f5, f6, f7, f8, f9, f10, f11, f12⟩ :=
          router_outgoing_link_handler_endpoint iterator_string s link rnd hr hrej
        obtain ⟨a1, a2, a3, a4⟩ := find_or_create_address_allocated s hinv
          (outgoing_source_iterator iterator_string s link rnd).address_hash default_semantics
        apply rlinks_consistent.of_opened s _ hinv link _ hfresh f2 f1
        · intro a ha
          simp only [Option.some.injEq] at ha
          rw [f8, ← ha]
          exact ⟨rfl, rfl, a1⟩
        · intro a
          rw [f7]
          simp only [Option.some.injEq]
          by_cases ha : a = (find_or_create_address s
              (outgoing_source_iterator iterator_string s link rnd).address_hash
              default_semantics).2
          · rw [ha, upd_same]
            simp only [if_true]
            rw [a4]
          · rw [upd_other _ _ _ _ ha, a4]
            have ha' : ¬ (find_or_create_address s
              (outgoing_source_iterator iterator_string s link rnd).address_hash
              default_semantics).2 = a := fun h => ha h.symm
            simp only [ha', if_false]
        · rw [f8]
          exact a2
        · exact f11
        · intro k a hm
          rw [f9] at hm
          rw [f8]
          exact a3 k a hm
      | true =>
        have hi : qd_router_connection_is_inter_router s (s.link_conn link) = true := by
          rw [outgoing_link_rejected_router iterator_string s link hr] at hrej
          simpa using hrej
        obtain ⟨f1, f2, f3, f4, f5, f6, f7, f8, f9, f10, f11, f12⟩ :=
          router_outgoing_link_handler_router iterator_string s link rnd hr hi
        apply rlinks_consistent.of_opened s _ hinv link _ hfresh f2 f1
        · intro a ha
          have ha' : s.hello_addr = some a := ha
          refine ⟨rfl, ?_, ?_⟩
          · simp [ha']
          · rw [f8]
            exact hinv.hello_allocated a ha'
        · intro a
          rw [f7]
          cases hh : s.hello_addr with
          | none => simp
          | some hl =>
            simp only [Option.some.injEq]
            by_cases ha : a = hl
            · rw [ha, upd_same]
              simp
            · rw [upd_other _ _ _ _ ha]
              have ha' : ¬ hl = a := fun h => ha h.symm
              simp only [ha', if_false]
        · exact le_of_eq f8.symm
        · exact f11
        · intro k a hm
          rw [f9] at hm
          rw [f8]
          exact hinv.table_allocated k a hm
  | outbound_open conn receiver sender =>
    obtain ⟨hfr, hfs, hrs⟩ : s.link_context receiver = false ∧ s.link_context sender = false ∧
      receiver ≠ sender := hg
    simp only [router_event.apply]
    cases hi : qd_router_connection_is_inter_router s conn with
    | false =>
      rw [router_outbound_open_handler_skipped s conn receiver sender (Or.inl hi)]
      exact hinv
    | true =>
      cases hb0 : qd_bitmask_first_set s.neighbor_free_mask with
      | none =>
        rw [router_outbound_open_handler_skipped s conn receiver sender (Or.inr hb0)]
        exact hinv
      | some b0 =>
        obtain ⟨f1, f2, f3, f4, f5, f6, f7, f8, f9, f10, f11, f12⟩ :=
          router_outbound_open_handler_opened s conn receiver sender b0 hi hb0
        have hmid : rlinks_consistent
            { s with
              link := upd s.link receiver (new_router_link .QD_LINK_ROUTER .QD_INCOMING b0)
              link_context := upd s.link_context receiver true } := by
          apply rlinks_consistent.of_opened s _ hinv receiver _ hfr rfl rfl
          · intro a ha
            simp [new_router_link] at ha
          · intro a
            simp [new_router_link]
          · exact le_refl _
          · rfl
          · exact hinv.table_allocated
        apply rlinks_consistent.of_opened _ _ hmid sender _ _ f2 f1
        · intro a ha
          have ha' : s.hello_addr = some a := ha
          refine ⟨rfl, ?_, ?_⟩
          · simp [ha']
          · rw [f8]
            exact hinv.hello_allocated a ha'
        · intro a
          rw [f7]
          cases hh : s.hello_addr with
          | none => simp
          | some hl =>
            simp only [Option.some.injEq]
            by_cases ha : a = hl
            · rw [ha, upd_same]
              simp
            · rw [upd_other _ _ _ _ ha]
              have ha' : ¬ hl = a := fun h => ha h.symm
              simp only [ha', if_false]
        · exact le_of_eq f8.symm
        · exact f11
        · intro k a hm
          rw [f9] at hm
          rw [f8]
          exact hinv.table_allocated k a hm
        · show upd s.link_context receiver true sender = false
          rw [upd_other _ _ _ _ (fun h => hrs h.symm)]
          exact hfs
  | link_detach link closed =>
    simp only [router_event.apply]
    cases hlive : s.link_context link with
    | false =>
      obtain ⟨c1, c2, c3, c4, c5, c6, c7, c8, c9, c10, c11, c12⟩ :=
        detach_conn_context_fields s link
      rw [router_link_detach_handler_no_record s link closed hlive]
      apply rlinks_consistent.of_same_links s _ hinv c3 c2
      · intro a
        rw [c7]
      · exact le_of_eq c8.symm
      · exact c11
      · intro k a hm
        rw [c9] at hm
        rw [c8]
        exact hinv.table_allocated k a hm
    | true => exact rlinks_consistent.of_detached s hinv link closed hlive

/-- The invariant holds when `qd_router` returns, over pristine heaps. -/
theorem rlinks_consistent_init (iterator_string : String → qd_field_iterator_t)
    (world : qd_router_t) (hw : pristine world) (width : Nat) (mode : qd_router_mode_t)
    (area id : String) :
    rlinks_consistent (qd_router iterator_string world width mode area id) := by
  obtain ⟨hw1, hw2, hw3⟩ := hw
  have h0 : rlinks_consistent
      { world with
        router_area := area, router_id := id, addrs := [], addr_hash := [], links := [],
        out_links_by_mask_bit := fun _ => none,
        neighbor_free_mask := qd_bitmask_full width, dtag := 1, router_addr := none,
        hello_addr := none } := by
    constructor
    · intro l a h1
      have : world.link_context l = true := h1
      rw [hw1] at this
      cases this
    · intro a l hl
      have : l ∈ (world.address a).rlinks := hl
      rw [hw3] at this
      cases this
    · intro l a h1
      have : world.link_context l = true := h1
      rw [hw1] at this
      cases this
    · intro h hh
      cases hh
    · intro k a hm
      cases hm
  unfold qd_router
  simp only
  split
  · have h1 := rlinks_consistent_step iterator_string _
      (.register_address "qdrouter" none router_semantics 0) h0 trivial
    have h2 := rlinks_consistent_step iterator_string _
      (.register_address "qdhello" none router_semantics 0) h1 trivial
    simp only [router_event.apply] at h1 h2
    obtain ⟨a1, _, _, _⟩ := qd_router_register_address_allocated iterator_string _ h1
      "qdhello" none router_semantics 0
    constructor
    · exact h2.member_once
    · exact h2.member_owned
    · exact h2.owner_allocated
    · intro h hh
      simp only [Option.some.injEq] at hh
      rw [← hh]
      exact a1
    · exact h2.table_allocated
  · exact h0

theorem rlinks_consistent_reachable (iterator_string : String → qd_field_iterator_t)
    (s0 s : qd_router_t) (h0 : rlinks_consistent s0)
    (h : reachable iterator_string router_event.fresh s0 s) : rlinks_consistent s := by
  induction h with
  | init => exact h0
  | step s e _ hg ih => exact rlinks_consistent_step iterator_string s e ih hg

/-- C16: in every state reached from the state `qd_router` sets up over pristine
heaps by link open events (each for a link without record), outbound
connection open events (with two new links), link detach events, and also
registrations and address checks, every link with a record of an outgoing
link and `owning_addr = a` is exactly once in the `rlinks` of `a` and in the
`rlinks` of no other address record, and every member of the `rlinks` of an
address record has that record as its `owning_addr`.  Address records are
handed out afresh and never reused. -/
theorem C16_rlinks_membership (iterator_string : String → qd_field_iterator_t)
    (world : qd_router_t) (width : Nat) (mode : qd_router_mode_t) (area id : String)
    (s : qd_router_t) (hw : pristine world)
    (h : reachable iterator_string router_event.fresh
      (qd_router iterator_string world width mode area id) s) :
    (∀ l a, s.link_context l = true → (s.link l).link_direction = .QD_OUTGOING →
      (s.link l).owning_addr = some a →
      (s.address a).rlinks.count l = 1 ∧ ∀ other, other ≠ a → l ∉ (s.address other).rlinks) ∧
    (∀ a l, l ∈ (s.address a).rlinks → (s.link l).owning_addr = some a) := by
  have hinv := rlinks_consistent_reachable iterator_string _ s
    (rlinks_consistent_init iterator_string world hw width mode area id) h
  refine ⟨?_, fun a l hl => (hinv.member_owned a l hl).2.2⟩
  intro l a h1 h2 h3
  refine ⟨(hinv.member_once l a h1 h2 h3).1, ?_⟩
  intro other hne hl
  have := (hinv.member_owned other l hl).2.2
  rw [h3] at this
  simp only [Option.some.injEq] at this
  exact hne this.symm

theorem pristine_world_links : pristine world_links :=
  ⟨fun _ => rfl, fun _ => rfl, fun _ => rfl⟩

/-- C16 on the interior router: after the outbound connection 1 opened the
links 10 and 11 and link 20 subscribed to `svc`, link 11 is the one member of
the `rlinks` of the hello address 101 and link 20 the one member of the
`rlinks` of the address 102 of `svc`. -/
theorem C16_rlinks_membership_witness :
    ((router_event.apply example_iterator_string
      (router_event.apply example_iterator_string router_interior (.outbound_open 1 10 11))
      (.outgoing_link 20 0)).address 101).rlinks = [11] ∧
    ((router_event.apply example_iterator_string
      (router_event.apply example_iterator_string router_interior (.outbound_open 1 10 11))
      (.outgoing_link 20 0)).address 102).rlinks = [20] ∧
    ((router_event.apply example_iterator_string
      (router_event.apply example_iterator_string router_interior (.outbound_open 1 10 11))
      (.outgoing_link 20 0)).address 102).rlinks.count 20 = 1 ∧
    ((router_event.apply example_iterator_string
      (router_event.apply example_iterator_string router_interior (.outbound_open 1 10 11))
      (.outgoing_link 20 0)).link 11).owning_addr = some 101 :=
  have h := C16_rlinks_membership example_iterator_string world_links 2
    .QD_ROUTER_MODE_INTERIOR "A" "r1" _ pristine_world_links
    (reachable.step _ (.outgoing_link 20 0)
      (reachable.step _ (.outbound_open 1 10 11) reachable.init ⟨rfl, rfl, by decide⟩)
      (by decide : (router_event.apply example_iterator_string router_interior
        (.outbound_open 1 10 11)).link_context 20 = false))
  ⟨by decide, by decide, (h.1 20 102 (by decide) (by decide) (by decide)).1,
    h.2 101 11 (by decide)⟩

/-! ## Accounting of the mask bits -/

theorem mask_inv_restrict (free : qd_bitmask_t) (ctx : Nat → Option Int)
    (live live' : Nat → Prop) (mask mask' : Nat → Int) (conn conn' : Nat → Nat)
    (h : mask_inv free ctx live mask conn)
    (hl : ∀ l, live' l → live l ∧ mask' l = mask l ∧ conn' l = conn l) :
    mask_inv free ctx live' mask' conn' := by
  constructor
  · exact h.held_not_free
  · exact h.held_once
  · intro l h1
    obtain ⟨a, b, _⟩ := hl l h1
    rw [b]
    exact h.incoming_not_free l a
  · intro l c h1 h2
    obtain ⟨a, b, d⟩ := hl l h1
    rw [b]
    rw [d] at h2
    exact h.incoming_not_held_elsewhere l c a h2
  · intro l l' h1 h2 h3
    obtain ⟨a, b, _⟩ := hl l h1
    obtain ⟨a', b', _⟩ := hl l' h2
    rw [b, b'] at h3
    exact h.incoming_distinct l l' a a' h3

theorem mask_inv_context_dropped (free : qd_bitmask_t) (ctx : Nat → Option Int)
    (live : Nat → Prop) (mask : Nat → Int) (conn : Nat → Nat) (c0 : Nat)
    (h : mask_inv free ctx live mask conn) :
    mask_inv free (upd ctx c0 none) live mask conn := by
  have hsub : ∀ c b, upd ctx c0 none c = some b → ctx c = some b := by
    intro c b hc
    by_cases hcc : c = c0
    · rw [hcc, upd_same] at hc
      cases hc
    · rw [upd_other _ _ _ _ hcc] at hc
      exact hc
  constructor
  · intro c b hc
    exact h.held_not_free c b (hsub c b hc)
  · intro c c' b hc hc'
    exact h.held_once c c' b (hsub c b hc) (hsub c' b hc')
  · exact h.incoming_not_free
  · intro l c h1 h2 h3
    exact h.incoming_not_held_elsewhere l c h1 h2 (hsub c _ h3)
  · exact h.incoming_distinct

theorem mask_inv_bit_cleared (free : qd_bitmask_t) (ctx : Nat → Option Int)
    (live : Nat → Prop) (mask : Nat → Int) (conn : Nat → Nat) (b0 : Int)
    (h : mask_inv free ctx live mask conn) :
    mask_inv (qd_bitmask_clear_bit free b0) ctx live mask conn := by
  constructor
  · intro c b hc hm
    exact h.held_not_free c b hc ((qd_bitmask_mem_clear_bit _ _ _).mp hm).1
  · exact h.held_once
  · intro l h1 hm
    exact h.incoming_not_free l h1 ((qd_bitmask_mem_clear_bit _ _ _).mp hm).1
  · exact h.incoming_not_held_elsewhere
  · exact h.incoming_distinct

theorem mask_inv_bit_taken (free : qd_bitmask_t) (ctx : Nat → Option Int)
    (live : Nat → Prop) (mask : Nat → Int) (conn : Nat → Nat) (b0 : Int) (c0 : Nat)
    (h : mask_inv free ctx live mask conn) (hb : b0 ∈ free.bits) :
    mask_inv (qd_bitmask_clear_bit free b0) (upd ctx c0 (some b0)) live mask conn := by
  have hcase : ∀ c b, upd ctx c0 (some b0) c = some b → (c = c0 ∧ b = b0) ∨ ctx c = some b := by
    intro c b hc
    by_cases hcc : c = c0
    · rw [hcc, upd_same] at hc
      simp only [Option.some.injEq] at hc
      exact Or.inl ⟨hcc, hc.symm⟩
    · rw [upd_other _ _ _ _ hcc] at hc
      exact Or.inr hc
  constructor
  · intro c b hc hm
    obtain ⟨hm1, hm2⟩ := (qd_bitmask_mem_clear_bit _ _ _).mp hm
    rcases hcase c b hc with ⟨_, hbb⟩ | hold
    · exact hm2 hbb
    · exact h.held_not_free c b hold hm1
  · intro c c' b hc hc'
    rcases hcase c b hc with ⟨h1, h2⟩ | hold
    · rcases hcase c' b hc' with ⟨h1', _⟩ | hold'
      · rw [h1, h1']
      · exfalso
        rw [h2] at hold'
        exact h.held_not_free c' b0 hold' hb
    · rcases hcase c' b hc' with ⟨_, h2'⟩ | hold'
      · exfalso
        rw [h2'] at hold
        exact h.held_not_free c b0 hold hb
      · exact h.held_once c c' b hold hold'
  · intro l h1 hm
    exact h.incoming_not_free l h1 ((qd_bitmask_mem_clear_bit _ _ _).mp hm).1
  · intro l c h1 h2 h3
    rcases hcase c _ h3 with ⟨_, hbb⟩ | hold
    · apply h.incoming_not_free l h1
      rw [hbb]
      exact hb
    · exact h.incoming_not_held_elsewhere l c h1 h2 hold
  · exact h.incoming_distinct

theorem mask_inv_incoming_added (free : qd_bitmask_t) (ctx : Nat → Option Int)
    (live live' : Nat → Prop) (mask mask' : Nat → Int) (conn conn' : Nat → Nat)
    (l0 : Nat) (h : mask_inv free ctx live mask conn)
    (hfree : mask' l0 ∉ free.bits)
    (hheld : ∀ c, c ≠ conn' l0 → ctx c ≠ some (mask' l0))
    (hdist : ∀ l, live l → mask l ≠ mask' l0)
    (hl : ∀ l, live' l → l ≠ l0 → live l ∧ mask' l = mask l ∧ conn' l = conn l) :
    mask_inv free ctx live' mask' conn' := by
  constructor
  · exact h.held_not_free
  · exact h.held_once
  · intro l h1
    by_cases hll : l = l0
    · rw [hll]
      exact hfree
    · obtain ⟨a, b, _⟩ := hl l h1 hll
      rw [b]
      exact h.incoming_not_free l a
  · intro l c h1 h2
    by_cases hll : l = l0
    · subst hll
      exact hheld c h2
    · obtain ⟨a, b, d⟩ := hl l h1 hll
      rw [b]
      rw [d] at h2
      exact h.incoming_not_held_elsewhere l c a h2
  · intro l l' h1 h2 h3
    by_cases hll : l = l0
    · by_cases hll' : l' = l0
      · rw [hll, hll']
      · exfalso
        obtain ⟨a', b', _⟩ := hl l' h2 hll'
        rw [hll, b'] at h3
        exact hdist l' a' h3.symm
    · obtain ⟨a, b, _⟩ := hl l h1 hll
      by_cases hll' : l' = l0
      · exfalso
        rw [hll', b] at h3
        exact hdist l a h3
      · obtain ⟨a', b', _⟩ := hl l' h2 hll'
        rw [b, b'] at h3
        exact h.incoming_distinct l l' a a' h3

theorem mask_inv_bit_returned (free : qd_bitmask_t) (ctx : Nat → Option Int)
    (live live' : Nat → Prop) (mask mask' : Nat → Int) (conn conn' : Nat → Nat)
    (l0 : Nat) (h : mask_inv free ctx live mask conn) (hlive : live l0)
    (hl : ∀ l, live' l → l ≠ l0 ∧ live l ∧ mask' l = mask l ∧ conn' l = conn l) :
    mask_inv (qd_bitmask_set_bit free (mask l0)) (upd ctx (conn l0) none) live' mask' conn' := by
  have hsub : ∀ c b, upd ctx (conn l0) none c = some b → ctx c = some b ∧ c ≠ conn l0 := by
    intro c b hc
    by_cases hcc : c = conn l0
    · rw [hcc, upd_same] at hc
      cases hc
    · rw [upd_other _ _ _ _ hcc] at hc
      exact ⟨hc, hcc⟩
  constructor
  · intro c b hc hm
    obtain ⟨h1, h2⟩ := hsub c b hc
    rcases (qd_bitmask_mem_set_bit _ _ _).mp hm with hm | hm
    · rw [hm] at h1
      exact h.incoming_not_held_elsewhere l0 c hlive h2 h1
    · exact h.held_not_free c b h1 hm
  · intro c c' b hc hc'
    exact h.held_once c c' b (hsub c b hc).1 (hsub c' b hc').1
  · intro l h1 hm
    obtain ⟨a, b, d, _⟩ := hl l h1
    rw [d] at hm
    rcases (qd_bitmask_mem_set_bit _ _ _).mp hm with hm | hm
    · exact a (h.incoming_distinct l l0 b hlive hm)
    · exact h.incoming_not_free l b hm
  · intro l c h1 h2 h3
    obtain ⟨_, b, d, e⟩ := hl l h1
    rw [d] at h3
    rw [e] at h2
    exact h.incoming_not_held_elsewhere l c b h2 (hsub c _ h3).1
  · intro l l' h1 h2 h3
    obtain ⟨_, b, d, _⟩ := hl l h1
    obtain ⟨_, b', d', _⟩ := hl l' h2
    rw [d, d'] at h3
    exact h.incoming_distinct l l' b b' h3

/-- The three outcomes of `qd_router_find_mask_bit_LH`. -/
theorem qd_router_find_mask_bit_LH_cases (s : qd_router_t) (link : Nat) :
    (∃ b, s.conn_context (s.link_conn link) = some b ∧
      qd_router_find_mask_bit_LH s link = (s, b)) ∨
    (∃ b, s.conn_context (s.link_conn link) = none ∧
      qd_bitmask_first_set s.neighbor_free_mask = some b ∧
      (qd_router_find_mask_bit_LH s link).1.neighbor_free_mask
        = qd_bitmask_clear_bit s.neighbor_free_mask b ∧
      (qd_router_find_mask_bit_LH s link).1.conn_context
        = upd s.conn_context (s.link_conn link) (some b) ∧
      (qd_router_find_mask_bit_LH s link).2 = b) ∨
    (s.conn_context (s.link_conn link) = none ∧
      qd_bitmask_first_set s.neighbor_free_mask = none ∧
      qd_router_find_mask_bit_LH s link = (s, -1)) := by
  unfold qd_router_find_mask_bit_LH
  cases hc : s.conn_context (s.link_conn link) with
  | some b => exact Or.inl ⟨b, rfl, rfl⟩
  | none =>
    cases hf : qd_bitmask_first_set s.neighbor_free_mask with
    | some b => exact Or.inr (Or.inl ⟨b, rfl, rfl, rfl, rfl, rfl⟩)
    | none => exact Or.inr (Or.inr ⟨rfl, rfl, rfl⟩)

/-- The accounting holds on the free mask and the shared contexts that
`qd_router_find_mask_bit_LH` leaves. -/
theorem mask_inv_find_mask_bit (s : qd_router_t) (link : Nat) (live : Nat → Prop)
    (mask : Nat → Int) (conn : Nat → Nat)
    (h : mask_inv s.neighbor_free_mask s.conn_context live mask conn) :
    mask_inv (qd_router_find_mask_bit_LH s link).1.neighbor_free_mask
      (qd_router_find_mask_bit_LH s link).1.conn_context live mask conn := by
  rcases qd_router_find_mask_bit_LH_cases s link with ⟨b, _, h2⟩ | ⟨b, _, h2, h3, h4, _⟩ |
    ⟨_, _, h3⟩
  · rw [h2]
    exact h
  · rw [h3, h4]
    exact mask_inv_bit_taken _ _ _ _ _ b _ h (qd_bitmask_first_set_mem _ _ h2)
  · rw [h3]
    exact h

theorem mask_bits_accounted_of_same (s x : qd_router_t) (hinv : mask_bits_accounted s)
    (hlink : x.link = s.link) (hctx : x.link_context = s.link_context)
    (hconn : x.link_conn = s.link_conn) (hC : x.conn_context = s.conn_context)
    (hF : x.neighbor_free_mask = s.neighbor_free_mask) : mask_bits_accounted x := by
  unfold mask_bits_accounted at hinv ⊢
  rw [hF, hC]
  apply mask_inv_restrict _ _ _ _ _ _ _ _ hinv
  intro l hl
  unfold live_incoming_router at hl ⊢
  rw [hctx, hlink] at hl
  rw [hlink, hconn]
  exact ⟨hl, rfl, rfl⟩

/-- The accounting after a link got a record that is not one of an incoming
router link. -/
theorem mask_bits_accounted_of_other_opened (s x : qd_router_t) (l : Nat)
    (r : qd_router_link_t) (b : Bool)
    (hinv : mask_inv x.neighbor_free_mask x.conn_context (live_incoming_router s)
      (fun l => (s.link l).mask_bit) s.link_conn)
    (hlink : x.link = upd s.link l r) (hctx : x.link_context = upd s.link_context l b)
    (hconn : ∀ other, other ≠ l → x.link_conn other = s.link_conn other)
    (hr : ¬ (r.link_type = .QD_LINK_ROUTER ∧ r.link_direction = .QD_INCOMING)) :
    mask_bits_accounted x := by
  unfold mask_bits_accounted
  apply mask_inv_restrict _ _ _ _ _ _ _ _ hinv
  intro other hl
  unfold live_incoming_router at hl ⊢
  have hne : other ≠ l := by
    intro heq
    rw [heq, hlink, upd_same] at hl
    exact hr hl.2
  rw [hctx, hlink, upd_other _ _ _ _ hne, upd_other _ _ _ _ hne] at hl
  simp only [hlink, upd_other _ _ _ _ hne]
  exact ⟨hl, trivial, hconn other hne⟩

/-- The accounting after a link got the record of an incoming router link
whose mask bit is not free, not held by another connection, and not the bit
of another incoming router link. -/
theorem mask_bits_accounted_of_incoming_opened (s x : qd_router_t) (l : Nat)
    (r : qd_router_link_t)
    (hinv : mask_inv x.neighbor_free_mask x.conn_context (live_incoming_router s)
      (fun l => (s.link l).mask_bit) s.link_conn)
    (hlink : x.link = upd s.link l r) (hctx : x.link_context = upd s.link_context l true)
    (hconn : ∀ other, other ≠ l → x.link_conn other = s.link_conn other)
    (hfree : r.mask_bit ∉ x.neighbor_free_mask.bits)
    (hheld : ∀ c, c ≠ x.link_conn l → x.conn_context c ≠ some r.mask_bit)
    (hdist : ∀ other, live_incoming_router s other → (s.link other).mask_bit ≠ r.mask_bit) :
    mask_bits_accounted x := by
  unfold mask_bits_accounted
  apply mask_inv_incoming_added _ _ _ _ _ _ _ _ l hinv
  · simpa [hlink] using hfree
  · simpa [hlink] using hheld
  · simpa [hlink] using hdist
  · intro other hl hne
    unfold live_incoming_router at hl ⊢
    rw [hctx, hlink, upd_other _ _ _ _ hne, upd_other _ _ _ _ hne] at hl
    simp only [hlink, upd_other _ _ _ _ hne]
    exact ⟨hl, trivial, hconn other hne⟩

/-- The accounting after the detach of a link with a record. -/
theorem mask_bits_accounted_of_detached (s : qd_router_t) (hinv : mask_bits_accounted s)
    (link : Nat) (closed : Bool) (hlive : s.link_context link = true) :
    mask_bits_accounted (router_link_detach_handler s link closed) := by
  obtain ⟨d1, d2, d3, d4, d5, d6, d7, d8, d9, d10, d11, d12, d13⟩ :=
    router_link_detach_handler_fields s link closed hlive
  have hother : ∀ l, l ≠ link → (router_link_detach_handler s link closed).link l = s.link l :=
    fun l hl => router_link_detach_handler_other_link s link l closed hlive hl
  have hl : ∀ l, live_incoming_router (router_link_detach_handler s link closed) l →
      l ≠ link ∧ live_incoming_router s l ∧
      ((router_link_detach_handler s link closed).link l).mask_bit = (s.link l).mask_bit ∧
      (router_link_detach_handler s link closed).link_conn l = s.link_conn l := by
    intro l h
    unfold live_incoming_router at h ⊢
    have hne : l ≠ link := by
      intro heq
      rw [heq, d1, upd_same] at h
      cases h.1
    rw [d1, upd_other _ _ _ _ hne, hother l hne] at h
    rw [hother l hne, d2]
    exact ⟨hne, h, rfl, rfl⟩
  unfold mask_bits_accounted at hinv ⊢
  rw [d3, d4]
  by_cases hc : (s.link link).link_type = .QD_LINK_ROUTER ∧
      (s.link link).link_direction = .QD_INCOMING
  · simp only [hc, and_self, if_true]
    exact mask_inv_bit_returned _ _ _ _ (fun l => (s.link l).mask_bit) _ s.link_conn _ link hinv
      ⟨hlive, hc.1, hc.2⟩ hl
  · simp only [hc, if_false]
    apply mask_inv_restrict _ _ _ _ _ _ _ _
      (mask_inv_context_dropped _ _ _ _ _ (s.link_conn link) hinv)
    intro l h
    exact (hl l h).2

theorem mask_bits_accounted_step (iterator_string : String → qd_field_iterator_t)
    (s : qd_router_t) (e : router_event) (hinv : mask_bits_accounted s)
    (hg : router_event.orderly s e) : mask_bits_accounted (e.apply iterator_string s) := by
  cases e with
  | register_address address handler semantics context =>
    obtain ⟨f1, f2, f3, f4, f5, f6, f7, f8⟩ := qd_router_register_address_frame
      iterator_string s address handler semantics context
    exact mask_bits_accounted_of_same s _ hinv f1 f2 f3 f4 f6
  | check_addr addr was_local =>
    obtain ⟨k1, k2, k3, k4, k5, k6, k7, k8, k9, k10, k11⟩ :=
      qd_router_check_addr_frame s addr was_local
    exact mask_bits_accounted_of_same s _ hinv k3 k5 k6 k7 k9
  | incoming_link link =>
    obtain ⟨hfresh, hord⟩ := (hg : s.link_context link = false ∧
      (qd_router_terminus_is_router (s.remote_source link) = true →
        qd_router_connection_is_inter_router s (s.link_conn link) = true →
        (∀ other, live_incoming_router s other → s.link_conn other ≠ s.link_conn link) ∧
        (s.conn_context (s.link_conn link) ≠ none ∨
          qd_bitmask_first_set s.neighbor_free_mask ≠ none)))
    simp only [router_event.apply]
    cases hr : qd_router_terminus_is_router (s.remote_source link) with
    | false =>
      obtain ⟨f1, f2, f3, f4, f5, f6, f7, f8, f9, f10, f11, f12⟩ :=
        router_incoming_link_handler_endpoint s link hr
      apply mask_bits_accounted_of_other_opened s _ link _ true _ f1 f2
      · intro other _
        rw [f3]
      · simp [new_router_link]
      · rw [f4, f5]
        exact hinv
    | true =>
      cases hi : qd_router_connection_is_inter_router s (s.link_conn link) with
      | false =>
        rw [router_incoming_link_handler_rejected s link hr hi]
        exact mask_bits_accounted_of_same s _ hinv rfl rfl rfl rfl rfl
      | true =>
        obtain ⟨hsingle, havail⟩ := hord hr hi
        obtain ⟨f1, f2, f3, f4, f5, f6, f7, f8, f9, f10, f11, f12⟩ :=
          router_incoming_link_handler_router s link hr hi
        have hfound := mask_inv_find_mask_bit s link _ _ _ hinv
        apply mask_bits_accounted_of_incoming_opened s _ link _ _ f1 f2
        · intro other _
          rw [f3]
        · rw [f5]
          show (qd_router_find_mask_bit_LH s link).2 ∉ _
          rcases qd_router_find_mask_bit_LH_cases s link with ⟨b, h1, h2⟩ |
            ⟨b, h1, h2, h3, h4, h5⟩ | ⟨h1, h2, _⟩
          · rw [h2]
            exact hinv.held_not_free _ b h1
          · rw [h3, h5]
            intro hm
            exact ((qd_bitmask_mem_clear_bit _ _ _).mp hm).2 rfl
          · rcases havail with h | h
            · exact absurd h1 h
            · exact absurd h2 h
        · rw [f4, f3]
          show ∀ c, c ≠ s.link_conn link →
            (qd_router_find_mask_bit_LH s link).1.conn_context c
              ≠ some (qd_router_find_mask_bit_LH s link).2
          intro c hc
          rcases qd_router_find_mask_bit_LH_cases s link with ⟨b, h1, h2⟩ |
            ⟨b, h1, h2, h3, h4, h5⟩ | ⟨h1, h2, _⟩
          · rw [h2]
            intro hcb
            exact hc (hinv.held_once c _ b hcb h1)
          · rw [h4, h5, upd_other _ _ _ _ hc]
            intro hcb
            exact hinv.held_not_free c b hcb (qd_bitmask_first_set_mem _ _ h2)
          · rcases havail with h | h
            · exact absurd h1 h
            · exact absurd h2 h
        · show ∀ other, live_incoming_router s other →
            (s.link other).mask_bit ≠ (qd_router_find_mask_bit_LH s link).2
          intro other hlive
          rcases qd_router_find_mask_bit_LH_cases s link with ⟨b, h1, h2⟩ |
            ⟨b, h1, h2, h3, h4, h5⟩ | ⟨h1, h2, _⟩
          · rw [h2]
            intro hm
            apply hinv.incoming_not_held_elsewhere other (s.link_conn link) hlive
              (fun h => hsingle other hlive h.symm)
            rw [h1]
            exact congrArg some hm.symm
          · rw [h5]
            intro hm
            apply hinv.incoming_not_free other hlive
            show (s.link other).mask_bit ∈ _
            rw [hm]
            exact qd_bitmask_first_set_mem _ _ h2
          · rcases havail with h | h
            · exact absurd h1 h
            · exact absurd h2 h
        · rw [f4, f5]
          exact hfound
  | outgoing_link link rnd =>
    simp only [router_event.apply]
    cases hrej : outgoing_link_rejected iterator_string s link with
    | true =>
      rw [router_outgoing_link_handler_rejected iterator_string s link rnd hrej]
      exact mask_bits_accounted_of_same s _ hinv rfl rfl rfl rfl rfl
    | false =>
      cases hr : qd_router_terminus_is_router (s.remote_target link) with
      | false =>
        obtain ⟨f1, f2, f3, f4, f5, f6, f7, f8, f9, f10, f11, f12⟩ :=
          router_outgoing_link_handler_endpoint iterator_string s link rnd hr hrej
        apply mask_bits_accounted_of_other_opened s _ link _ true _ f1 f2
        · intro other _
          rw [f3]
        · simp [new_router_link]
        · rw [f4, f5]
          exact hinv
      | true =>
        have hi : qd_router_connection_is_inter_router s (s.link_conn link) = true := by
          rw [outgoing_link_rejected_router iterator_string s link hr] at hrej
          simpa using hrej
        obtain ⟨f1, f2, f3, f4, f5, f6, f7, f8, f9, f10, f11, f12⟩ :=
          router_outgoing_link_handler_router iterator_string s link rnd hr hi
        apply mask_bits_accounted_of_other_opened s _ link _ true _ f1 f2
        · intro other _
          rw [f3]
        · simp [new_router_link]
        · rw [f4, f5]
          exact mask_inv_find_mask_bit s link _ _ _ hinv
  | outbound_open conn receiver sender =>
    obtain ⟨hfr, hfs, hrs⟩ : s.link_context receiver = false ∧ s.link_context sender = false ∧
      receiver ≠ sender := hg
    simp only [router_event.apply]
    cases hi : qd_router_connection_is_inter_router s conn with
    | false =>
      rw [router_outbound_open_handler_skipped s conn receiver sender (Or.inl hi)]
      exact hinv
    | true =>
      cases hb0 : qd_bitmask_first_set s.neighbor_free_mask with
      | none =>
        rw [router_outbound_open_handler_skipped s conn receiver sender (Or.inr hb0)]
        exact hinv
      | some b0 =>
        obtain ⟨f1, f2, f3, f4, f5, f6, f7, f8, f9, f10, f11, f12⟩ :=
          router_outbound_open_handler_opened s conn receiver sender b0 hi hb0
        have hb0mem := qd_bitmask_first_set_mem _ _ hb0
        have hmid : mask_bits_accounted
            { s with
              neighbor_free_mask := qd_bitmask_clear_bit s.neighbor_free_mask b0
              link := upd s.link receiver (new_router_link .QD_LINK_ROUTER .QD_INCOMING b0)
              link_context := upd s.link_context receiver true
              link_conn := upd s.link_conn receiver conn } := by
          apply mask_bits_accounted_of_incoming_opened s _ receiver _ _ rfl rfl
          · intro other hne
            exact upd_other _ _ _ _ hne
          · intro hm
            exact ((qd_bitmask_mem_clear_bit _ _ _).mp hm).2 rfl
          · intro c _ hcb
            exact hinv.held_not_free c b0 hcb hb0mem
          · intro other hlive hm
            apply hinv.incoming_not_free other hlive
            show (s.link other).mask_bit ∈ _
            rw [hm]
            exact hb0mem
          · exact mask_inv_bit_cleared _ _ _ _ _ b0 hinv
        apply mask_bits_accounted_of_other_opened
          { s with
            neighbor_free_mask := qd_bitmask_clear_bit s.neighbor_free_mask b0
            link := upd s.link receiver (new_router_link .QD_LINK_ROUTER .QD_INCOMING b0)
            link_context := upd s.link_context receiver true
            link_conn := upd s.link_conn receiver conn } _ sender _ true _ f1 f2
        · intro other hne
          rw [f3, upd_other _ _ _ _ hne]
        · simp [new_router_link]
        · rw [f4, f5]
          exact hmid
  | link_detach link closed =>
    simp only [router_event.apply]
    cases hlive : s.link_context link with
    | false =>
      obtain ⟨c1, c2, c3, c4, c5, c6, c7, c8, c9, c10, c11, c12⟩ :=
        detach_conn_context_fields s link
      rw [router_link_detach_handler_no_record s link closed hlive]
      unfold mask_bits_accounted at hinv ⊢
      rw [c1, c5]
      apply mask_inv_restrict _ _ _ _ _ _ _ _
        (mask_inv_context_dropped _ _ _ _ _ (s.link_conn link) hinv)
      intro l hl
      unfold live_incoming_router at hl ⊢
      rw [c2, c3] at hl
      rw [c2, c4]
      exact ⟨hl, rfl, rfl⟩
    | true => exact mask_bits_accounted_of_detached s hinv link closed hlive

/-- The accounting holds when `qd_router` returns, over pristine heaps. -/
theorem mask_bits_accounted_init (iterator_string : String → qd_field_iterator_t)
    (world : qd_router_t) (hw : pristine world) (width : Nat) (mode : qd_router_mode_t)
    (area id : String) :
    mask_bits_accounted (qd_router iterator_string world width mode area id) := by
  obtain ⟨hw1, hw2, _⟩ := hw
  have hctx : (qd_router iterator_string world width mode area id).link_context
      = world.link_context := by
    unfold qd_router
    simp only
    split
    · simp [qd_router_register_address_frame]
    · rfl
  have hC : (qd_router iterator_string world width mode area id).conn_context
      = world.conn_context := by
    unfold qd_router
    simp only
    split
    · simp [qd_router_register_address_frame]
    · rfl
  have hnolive : ∀ l, ¬ live_incoming_router
      (qd_router iterator_string world width mode area id) l := by
    intro l hl
    have := hl.1
    rw [hctx, hw1] at this
    cases this
  unfold mask_bits_accounted
  rw [hC]
  constructor
  · intro c b hc
    rw [hw2] at hc
    cases hc
  · intro c c' b hc
    rw [hw2] at hc
    cases hc
  · intro l hl
    exact absurd hl (hnolive l)
  · intro l c hl
    exact absurd hl (hnolive l)
  · intro l l' hl
    exact absurd hl (hnolive l)

theorem mask_bits_accounted_reachable (iterator_string : String → qd_field_iterator_t)
    (s0 s : qd_router_t) (h0 : mask_bits_accounted s0)
    (h : reachable iterator_string router_event.orderly s0 s) : mask_bits_accounted s := by
  induction h with
  | init => exact h0
  | step s e _ hg ih => exact mask_bits_accounted_step iterator_string s e ih hg

/-- C14 as stated fails.  After the outbound connection 1 opened its two links
on the interior router, mask bit 0 is not free and no shared context holds it.
And after two incoming router links (7 and 12) opened on connection 1, link 7
detached, the incoming router link 9 opened on connection 2, and link 12
detached, mask bit 0 is both free and held by the shared context of
connection 2. -/
theorem C14_counterexample :
    (reachable example_iterator_string router_event.fresh router_interior
        (router_event.apply example_iterator_string router_interior (.outbound_open 1 10 11)) ∧
      qd_bitmask_value (router_event.apply example_iterator_string router_interior
        (.outbound_open 1 10 11)).neighbor_free_mask 0 = false ∧
      ∀ c, (router_event.apply example_iterator_string router_interior
        (.outbound_open 1 10 11)).conn_context c ≠ some 0) ∧
    (reachable example_iterator_string router_event.fresh router_interior
        (router_event.apply example_iterator_string
          (router_event.apply example_iterator_string
            (router_event.apply example_iterator_string
              (router_event.apply example_iterator_string
                (router_event.apply example_iterator_string router_interior (.incoming_link 7))
                (.incoming_link 12))
              (.link_detach 7 true))
            (.incoming_link 9))
          (.link_detach 12 true)) ∧
      qd_bitmask_value (router_event.apply example_iterator_string
          (router_event.apply example_iterator_string
            (router_event.apply example_iterator_string
              (router_event.apply example_iterator_string
                (router_event.apply example_iterator_string router_interior (.incoming_link 7))
                (.incoming_link 12))
              (.link_detach 7 true))
            (.incoming_link 9))
          (.link_detach 12 true)).neighbor_free_mask 0 = true ∧
      (router_event.apply example_iterator_string
          (router_event.apply example_iterator_string
            (router_event.apply example_iterator_string
              (router_event.apply example_iterator_string
                (router_event.apply example_iterator_string router_interior (.incoming_link 7))
                (.incoming_link 12))
              (.link_detach 7 true))
            (.incoming_link 9))
          (.link_detach 12 true)).conn_context 2 = some 0) :=
  ⟨⟨reachable.step _ (.outbound_open 1 10 11) reachable.init ⟨rfl, rfl, by decide⟩,
      by decide, fun c h => Option.noConfusion h⟩,
    ⟨reachable.step _ (.link_detach 12 true)
        (reachable.step _ (.incoming_link 9)
          (reachable.step _ (.link_detach 7 true)
            (reachable.step _ (.incoming_link 12)
              (reachable.step _ (.incoming_link 7) reachable.init
                (by decide : router_interior.link_context 7 = false))
              (by decide : (router_event.apply example_iterator_string router_interior
                (.incoming_link 7)).link_context 12 = false))
            trivial)
          (by decide : (router_event.apply example_iterator_string
            (router_event.apply example_iterator_string
              (router_event.apply example_iterator_string router_interior (.incoming_link 7))
              (.incoming_link 12))
            (.link_detach 7 true)).link_context 9 = false))
        trivial,
      by decide, by decide⟩⟩

/-- C14 (amended): in every state reached from the state `qd_router` sets up
over pristine heaps by link open events, outbound connection open events and
link detach events (and registrations and address checks), where links are
new when they open, an incoming router link opens on an inter-router
connection only while that connection carries no other incoming router link
and while a mask bit is at hand, no mask bit is both set in
`neighbor_free_mask` and held by a shared context, no mask bit is held by the
shared contexts of two connections, and the mask bit of an incoming router
link is not set in `neighbor_free_mask`.  (A bit may be neither free nor
held by a shared context.) -/
theorem C14_mask_bits_accounted (iterator_string : String → qd_field_iterator_t)
    (world : qd_router_t) (width : Nat) (mode : qd_router_mode_t) (area id : String)
    (s : qd_router_t) (hw : pristine world)
    (h : reachable iterator_string router_event.orderly
      (qd_router iterator_string world width mode area id) s) :
    (∀ c b, s.conn_context c = some b → qd_bitmask_value s.neighbor_free_mask b = false) ∧
    (∀ c c' b, s.conn_context c = some b → s.conn_context c' = some b → c = c') ∧
    (∀ l, live_incoming_router s l →
      qd_bitmask_value s.neighbor_free_mask (s.link l).mask_bit = false) := by
  have hinv := mask_bits_accounted_reachable iterator_string _ s
    (mask_bits_accounted_init iterator_string world hw width mode area id) h
  refine ⟨?_, hinv.held_once, ?_⟩
  · intro c b hc
    have := hinv.held_not_free c b hc
    simpa [qd_bitmask_value] using this
  · intro l hl
    have := hinv.incoming_not_free l hl
    simpa [qd_bitmask_value] using this

/-- C14 (amended) on the interior router: after the incoming router link 7
opened on connection 1, the shared context of connection 1 holds mask bit 0,
and bit 0 is not free. -/
theorem C14_mask_bits_accounted_witness :
    (router_event.apply example_iterator_string router_interior
      (.incoming_link 7)).conn_context 1 = some 0 ∧
    qd_bitmask_value (router_event.apply example_iterator_string router_interior
      (.incoming_link 7)).neighbor_free_mask 0 = false :=
  ⟨by decide,
    (C14_mask_bits_accounted example_iterator_string world_links 2 .QD_ROUTER_MODE_INTERIOR
      "A" "r1" _ pristine_world_links
      (reachable.step _ (.incoming_link 7) reachable.init
        ⟨rfl, fun _ _ =>
          ⟨fun other hlive => (Bool.false_ne_true hlive.1).elim, Or.inr (by decide)⟩⟩)).1
      1 0 (by decide)⟩

/-! ## The notification `qd_router_mobile_removed` -/

/-- C21: for an address record `a` whose hash key is `k`,
`qd_router_check_addr` calls `qd_router_mobile_removed` exactly when
`was_local` is set, `a` has no `rlinks` and `k` begins with `M`, whether or
not the same call deletes `a`; the key passed is `k`, and nothing else is
called. -/
theorem C21_mobile_removed (s : qd_router_t) (a : Nat) (was_local : Bool) (k : String)
    (hk : qd_hash_key_by_handle s.addr_hash a = some k) :
    (qd_router_check_addr s (some a) was_local).calls
      = s.calls ++
        (if was_local = true ∧ (s.address a).rlinks = [] ∧ k.data.head? = some 'M'
          then [qd_call.qd_router_mobile_removed k] else []) := by
  unfold qd_router_check_addr
  simp only [hk]
  by_cases hw : was_local = true
  · by_cases hr : (s.address a).rlinks = []
    · by_cases hm : k.data.head? = some 'M'
      · simp only [hw, hr, hm, key_is_mobile]
        split_ifs <;> simp_all [log_call]
      · simp only [hw, hr, hm, key_is_mobile]
        split_ifs <;> simp_all [log_call]
    · have hr' : ¬ (s.address a).rlinks.length = 0 := by
        simpa [List.length_eq_zero] using hr
      simp only [hw, hr, hr']
      split_ifs <;> simp_all [log_call]
  · simp only [hw]
    split_ifs <;> simp_all [log_call]

/-- C21 on `router_stale_addr`: the record 1 of `Msvc` has no `rlinks`; with
`was_local` the check notifies `qd_router_mobile_removed "Msvc"` (and deletes
the record), without `was_local` it notifies nothing; the record 2 of
`Mother`, which has a handler and stays, is notified as well. -/
theorem C21_mobile_removed_witness :
    (qd_router_check_addr router_stale_addr (some 1) true).calls
      = [qd_call.qd_router_mobile_removed "Msvc"] ∧
    (qd_router_check_addr router_stale_addr (some 1) false).calls = [] ∧
    (qd_router_check_addr router_stale_addr (some 2) true).calls
      = router_stale_addr.calls ++
        (if true = true ∧ (router_stale_addr.address 2).rlinks = [] ∧
            ("Mother" : String).data.head? = some 'M'
          then [qd_call.qd_router_mobile_removed "Mother"] else []) :=
  ⟨by decide, by decide, C21_mobile_removed router_stale_addr 2 true "Mother" (by decide)⟩

/-! ## `qd_router_generate_temp_addr` -/

theorem utf8ByteSize_go_ge_length (cs : List Char) : cs.length ≤ String.utf8ByteSize.go cs := by
  induction cs with
  | nil => simp [String.utf8ByteSize.go]
  | cons c cs ih =>
    have := Char.utf8Size_pos c
    simp only [String.utf8ByteSize.go, List.length_cons]
    omega

theorem string_length_le_utf8ByteSize (s : String) : s.data.length ≤ s.utf8ByteSize := by
  cases s with
  | mk cs => exact utf8ByteSize_go_ge_length cs

/-- The index into the alphabet for the position `idx` of the discriminator. -/
theorem temp_addr_index (rnd idx : Nat) :
    (rnd >>> (idx * 6)) &&& 63 = rnd / 2 ^ (idx * 6) % 64 := by
  rw [Nat.shiftRight_eq_div_pow]
  exact Nat.and_pow_two_sub_one_eq_mod _ 6

theorem temp_addr_low_bits (rnd i : Nat) (hi : i < 6) :
    rnd % 2 ^ 36 / 2 ^ (i * 6) % 64 = rnd / 2 ^ (i * 6) % 64 := by
  interval_cases i <;> norm_num <;> omega

theorem temp_addr_digits (r1 r2 : Nat) (h1 : r1 < 2 ^ 36) (h2 : r2 < 2 ^ 36)
    (hdig : ∀ i, i < 6 → r1 / 2 ^ (i * 6) % 64 = r2 / 2 ^ (i * 6) % 64) : r1 = r2 := by
  have e0 := hdig 0 (by norm_num)
  have e1 := hdig 1 (by norm_num)
  have e2 := hdig 2 (by norm_num)
  have e3 := hdig 3 (by norm_num)
  have e4 := hdig 4 (by norm_num)
  have e5 := hdig 5 (by norm_num)
  norm_num at e0 e1 e2 e3 e4 e5 h1 h2
  omega

theorem temp_addr_table_nodup : temp_addr_table.data.Nodup := by decide

theorem temp_addr_table_length : temp_addr_table.data.length = 64 := by decide

/-- Two indices into the alphabet that select the same character are equal. -/
theorem temp_addr_table_inj (i j : Nat) (hi : i < 64) (hj : j < 64)
    (h : temp_addr_table.data.getD i 'a' = temp_addr_table.data.getD j 'a') : i = j := by
  have hi' : i < temp_addr_table.data.length := by rw [temp_addr_table_length]; exact hi
  have hj' : j < temp_addr_table.data.length := by rw [temp_addr_table_length]; exact hj
  rw [List.getD_eq_getElem _ _ hi', List.getD_eq_getElem _ _ hj'] at h
  exact (List.Nodup.getElem_inj_iff temp_addr_table_nodup).mp h

/-- C22: for every draw `rnd`, when the text fits the buffer of `length`
octets (with its terminator), `qd_router_generate_temp_addr` yields
`"amqp:/_topo/" ++ area ++ "/" ++ id ++ "/temp." ++ d`; the discriminator `d`
has 6 characters, the one at position `i` being the character at index
`(rnd >> 6*i) & 63` of the 64-character alphabet; `d` depends on the low 36
bits of `rnd` only, and distinct values below `2^36` give distinct
discriminators. -/
theorem C22_temp_addr_format (s : qd_router_t) (rnd length : Nat)
    (hfit : ("amqp:/_topo/" ++ s.router_area ++ "/" ++ s.router_id ++ "/temp." ++
      String.mk (temp_addr_discriminator rnd)).utf8ByteSize < length) :
    qd_router_generate_temp_addr s rnd length
      = "amqp:/_topo/" ++ s.router_area ++ "/" ++ s.router_id ++ "/temp." ++
        String.mk (temp_addr_discriminator rnd) ∧
    (temp_addr_discriminator rnd).length = 6 ∧
    temp_addr_table
      = "abcdefghijklmnopqrstuvwxyzABCDEFGHIJKLMNOPQRSTUVWXYZ0123456789+_" ∧
    temp_addr_table.data.length = 64 ∧
    (∀ i, i < 6 →
      (rnd >>> (6 * i)) &&& 63 < temp_addr_table.data.length ∧
      (temp_addr_discriminator rnd)[i]? = temp_addr_table.data[(rnd >>> (6 * i)) &&& 63]?) ∧
    temp_addr_discriminator rnd = temp_addr_discriminator (rnd % 2 ^ 36) ∧
    (∀ r1 r2, r1 < 2 ^ 36 → r2 < 2 ^ 36 →
      temp_addr_discriminator r1 = temp_addr_discriminator r2 → r1 = r2) := by
  have hidx : ∀ r i : Nat, (r >>> (i * 6)) &&& 63 < 64 := by
    intro r i
    rw [temp_addr_index]
    exact Nat.mod_lt _ (by norm_num)
  refine ⟨?_, ?_, rfl, temp_addr_table_length, ?_, ?_, ?_⟩
  · unfold qd_router_generate_temp_addr
    have hpre : "amqp:/" ++ topo_prefix = "amqp:/_topo/" := by decide
    simp only [hpre]
    generalize "amqp:/_topo/" ++ s.router_area ++ "/" ++ s.router_id ++ "/temp." ++
      String.mk (temp_addr_discriminator rnd) = full at hfit ⊢
    have hlen := string_length_le_utf8ByteSize full
    have hle : full.data.length ≤ length - 1 := by omega
    rw [List.take_of_length_le hle]
  · simp [temp_addr_discriminator]
  · intro i hi
    have h6 : 6 * i = i * 6 := Nat.mul_comm 6 i
    rw [h6]
    have hlt := hidx rnd i
    refine ⟨by rw [temp_addr_table_length]; exact hlt, ?_⟩
    have hlt' : (rnd >>> (i * 6)) &&& 63 < temp_addr_table.data.length := by
      rw [temp_addr_table_length]; exact hlt
    unfold temp_addr_discriminator
    rw [List.getElem?_map, List.getElem?_range hi, List.getElem?_eq_getElem hlt']
    simp only [Option.map_some', Option.some.injEq]
    exact List.getD_eq_getElem _ _ hlt'
  · unfold temp_addr_discriminator
    apply List.map_congr_left
    intro i hi
    have hi' : i < 6 := List.mem_range.mp hi
    rw [temp_addr_index, temp_addr_index]
    rw [temp_addr_low_bits rnd i hi']
  · intro r1 r2 h1 h2 heq
    have hdig : ∀ i, i < 6 → r1 / 2 ^ (i * 6) % 64 = r2 / 2 ^ (i * 6) % 64 := by
      intro i hi
      have h := congrArg (fun l => l[i]?) heq
      simp only [temp_addr_discriminator, List.getElem?_map, List.getElem?_range hi,
        Option.map_some', Option.some.injEq] at h
      have := temp_addr_table_inj _ _ (hidx r1 i) (hidx r2 i) h
      rw [temp_addr_index, temp_addr_index] at this
      exact this
    exact temp_addr_digits r1 r2 h1 h2 hdig

/-- C22 on router `A/r1` with the draw 0: every position of the discriminator
selects index 0 of the alphabet. -/
theorem C22_temp_addr_format_witness :
    qd_router_generate_temp_addr blank_router 0 1000 = "amqp:/_topo/A/r1/temp.aaaaaa" ∧
    qd_router_generate_temp_addr blank_router 0 1000
      = "amqp:/_topo/" ++ blank_router.router_area ++ "/" ++ blank_router.router_id ++ "/temp." ++
        String.mk (temp_addr_discriminator 0) :=
  ⟨by decide, (C22_temp_addr_format blank_router 0 1000 (by decide)).1⟩

/-! ## `router_annotate_message` -/

theorem annotate_trace_loop_out (nid : String) (items : List qd_field_iterator_t) :
    ∀ (out : List String) (drop : Bool),
      (annotate_trace_loop nid items (out, drop)).1 = out ++ items.map (fun it => it.all) := by
  induction items with
  | nil => intro out drop; simp [annotate_trace_loop]
  | cons it rest ih =>
    intro out drop
    simp only [annotate_trace_loop]
    rw [ih]
    simp

/-- C23: `router_annotate_message` installs as delivery annotations the map of
exactly two keys `trace` and `ingress`, leaving the rest of the message as it
is: `trace` is the list of the incoming trace entries in their order (none
when the incoming trace is absent or not a list) followed by this router's
id; `ingress` is the incoming ingress value when it is present and scalar,
else this router's id.  Called with `drop` clear, it sets `drop` exactly when
some incoming trace entry equals this router's id; and the ingress iterator
returned is the one of the preserved ingress value, none when the router's
own id was written. -/
theorem C23_annotate_message (nid : String) (msg : qd_message_t) :
    (router_annotate_message nid msg false).1
      = { msg with
          composed_annotations := some
            [(QD_DA_TRACE,
               .list ((incoming_trace msg).map (fun it => it.all) ++ [nid])),
             (QD_DA_INGRESS,
               .string (match incoming_ingress msg with
                 | some raw => raw.all
                 | none => nid))] } ∧
    ((router_annotate_message nid msg false).2.1 = true ↔
      ∃ it ∈ incoming_trace msg, it.all = nid) ∧
    (router_annotate_message nid msg false).2.2 = incoming_ingress msg ∧
    ((router_annotate_message nid msg false).2.2.isSome = true ↔
      ∃ da raw, qd_message_delivery_annotations msg = some da ∧
        qd_parse_value_by_key da QD_DA_INGRESS = some (.scalar raw)) := by
  have hdrop := router_annotate_message_drop nid msg
  have hing : (router_annotate_message nid msg false).2.2 = incoming_ingress msg := by
    unfold router_annotate_message incoming_ingress
    cases hda : qd_message_delivery_annotations msg with
    | none => rfl
    | some da => simp only
  refine ⟨?_, ?_, hing, ?_⟩
  · unfold router_annotate_message incoming_trace incoming_ingress
      qd_message_set_delivery_annotations
    cases hda : qd_message_delivery_annotations msg with
    | none => simp
    | some da =>
      simp only
      cases ht : qd_parse_value_by_key da QD_DA_TRACE with
      | none =>
        cases hi : qd_parse_value_by_key da QD_DA_INGRESS with
        | none => simp
        | some v => cases v <;> simp
      | some tv =>
        cases tv with
        | list items =>
          cases hi : qd_parse_value_by_key da QD_DA_INGRESS with
          | none => simp [annotate_trace_loop_out]
          | some v => cases v <;> simp [annotate_trace_loop_out]
        | scalar raw =>
          cases hi : qd_parse_value_by_key da QD_DA_INGRESS with
          | none => simp
          | some v => cases v <;> simp
        | other =>
          cases hi : qd_parse_value_by_key da QD_DA_INGRESS with
          | none => simp
          | some v => cases v <;> simp
  · rw [hdrop]
    simp [List.any_eq_true]
  · rw [hing]
    unfold incoming_ingress
    cases hda : qd_message_delivery_annotations msg with
    | none => simp
    | some da =>
      simp only
      cases hi : qd_parse_value_by_key da QD_DA_INGRESS with
      | none => simp [hi]
      | some v => cases v <;> simp [hi]

/-- C23 on a message to `svc` whose trace is `["A/r2", "A/r1"]`, annotated by
router `A/r1`: the trace becomes `["A/r2", "A/r1", "A/r1"]`, the ingress
`A/r2` is kept and returned, and `drop` is set. -/
theorem C23_annotate_message_witness :
    (router_annotate_message "A/r1" msg_svc_looped false).1.composed_annotations
      = some [("trace", .list ["A/r2", "A/r1", "A/r1"]), ("ingress", .string "A/r2")] ∧
    (router_annotate_message "A/r1" msg_svc_looped false).2.1 = true ∧
    (router_annotate_message "A/r1" msg_svc_looped false).2.2 = incoming_ingress msg_svc_looped :=
  ⟨by decide, by decide, (C23_annotate_message "A/r1" msg_svc_looped).2.2.1⟩

/-! ## The origin mask bit -/

theorem rx_ingress_iter_eq (s : qd_router_t) (msg : qd_message_t) :
    rx_ingress_iter s msg = incoming_ingress msg := by
  unfold rx_ingress_iter router_annotate_message incoming_ingress
  cases hda : qd_message_delivery_annotations msg with
  | none => rfl
  | some da => simp only

/-- With a negative origin the remote fan-out does nothing. -/
theorem rx_fan_out_remote_no_origin (msg : qd_message_t) (delivery addr : Nat)
    (ingress_iter : Option qd_field_iterator_t) (acc : qd_router_t × Nat)
    (h : rx_origin acc.1 ingress_iter addr = -1) :
    rx_fan_out_remote msg delivery addr ingress_iter acc = acc := by
  unfold rx_fan_out_remote
  simp [h]

/-- C29: in the remote fan-out of `router_rx_handler` for the address `a`, the
origin is 0 when the semantics of `a` have `bypass_valid_origins` or the
message carried no (scalar) ingress annotation; otherwise it is the mask bit
of the single router in the `rnodes` of the address found under the node-hash
key of the ingress value, and `-1` when that address is missing or has not
exactly one `rnodes` entry.  With origin `-1` the remote fan-out changes
nothing: the handler ends with the link records of the state after the local
loop, every link has received just its copies as a local link, and no
`deliveries_transit` changes. -/
theorem C29_origin_mask_bit (s : qd_router_t) (link delivery : Nat) (msg : qd_message_t)
    (iter : qd_field_iterator_t) (a : Nat)
    (hconn : (s.link link).connected_link = none)
    (hvalid : qd_message_check msg = true)
    (hto : qd_message_field_iterator_to msg = some iter)
    (hret : qd_hash_retrieve s.addr_hash iter.address_hash = some a)
    (hnodrop : ∀ it ∈ incoming_trace msg, it.all ≠ node_id s)
    (hlocal : qd_field_iterator_prefix iter.no_host local_prefix = false)
    (hdirect : qd_field_iterator_prefix iter.no_host ( direct_prefix s) = false) :
    (((s.address a).semantics.bypass_valid_origins = true ∨ incoming_ingress msg = none) →
      rx_origin s (rx_ingress_iter s msg) a = 0) ∧
    (∀ it, incoming_ingress msg = some it →
      (s.address a).semantics.bypass_valid_origins = false →
      (∀ oa X, qd_hash_retrieve s.addr_hash it.node_hash = some oa →
        (s.address oa).rnodes = [X] →
        rx_origin s (rx_ingress_iter s msg) a = (s.node X).mask_bit) ∧
      (qd_hash_retrieve s.addr_hash it.node_hash = none →
        rx_origin s (rx_ingress_iter s msg) a = -1) ∧
      (∀ oa, qd_hash_retrieve s.addr_hash it.node_hash = some oa →
        (s.address oa).rnodes.length ≠ 1 →
        rx_origin s (rx_ingress_iter s msg) a = -1)) ∧
    (rx_origin s (rx_ingress_iter s msg) a = -1 →
      (router_rx_handler s link delivery (some msg)).link
          = (rx_after_local s link delivery msg a).1.link ∧
      (∀ b, ((router_rx_handler s link delivery (some msg)).address b).deliveries_transit
          = (s.address b).deliveries_transit) ∧
      ∀ l, ∃ evs : List qd_routed_event_t,
        ((router_rx_handler s link delivery (some msg)).link l).msg_fifo
            = (s.link l).msg_fifo ++ evs ∧
        evs.length = (s.address a).rlinks.count l ∧
        ∀ e ∈ evs, e.message = some (rx_annotated s msg)) := by
  have hiter := rx_ingress_iter_eq s msg
  refine ⟨?_, ?_, ?_⟩
  · intro h
    rw [hiter]
    unfold rx_origin
    rcases h with h | h
    · cases incoming_ingress msg <;> simp [h]
    · simp [h]
  · intro it hit hby
    rw [hiter, hit]
    unfold rx_origin
    simp only [hby, if_true]
    refine ⟨?_, ?_, ?_⟩
    · intro oa X h1 h2
      simp [h1, h2]
    · intro h1
      simp [h1]
    · intro oa h1 h2
      simp only [h1]
      cases hr : (s.address oa).rnodes with
      | nil => rfl
      | cons x xs =>
        cases xs with
        | nil => simp [hr] at h2
        | cons y ys => rfl
  · intro horigin
    have hdrop : rx_drop s msg = false := by
      unfold rx_drop
      rw [router_annotate_message_drop]
      simpa using hnodrop
    obtain ⟨hl, ha⟩ := router_rx_handler_routed_link s link delivery msg iter hconn hvalid hto
    have hfw := (rx_route_forwarded s link delivery msg iter a hret hdrop hlocal hdirect).1
    have hrem : rx_fan_out_remote (rx_annotated s msg) delivery a (rx_ingress_iter s msg)
        (rx_after_local s link delivery msg a) = rx_after_local s link delivery msg a := by
      rw [rx_fan_out_remote_after_local, horigin]
      simp
    rw [hrem] at hfw
    refine ⟨by rw [hl, hfw], ?_, ?_⟩
    · intro b
      rw [ha, hfw, rx_after_local_transit]
    · intro l
      rw [hl, hfw]
      exact rx_after_local_fifo s link delivery msg a l

/-- C29 on `router_origin_filter`: a message to `svc` whose ingress annotation
names the unknown router `A/r9` has origin `-1`; the handler enqueues the one
local copy on link 2 and nothing on the inter-router link 70. -/
theorem C29_origin_mask_bit_witness :
    rx_origin router_origin_filter (rx_ingress_iter router_origin_filter msg_svc_from_unknown) 1
      = -1 ∧
    ((router_rx_handler router_origin_filter 1 5 (some msg_svc_from_unknown)).link 70).msg_fifo
      = [] ∧
    ((router_rx_handler router_origin_filter 1 5 (some msg_svc_from_unknown)).link 2).msg_fifo.length
      = 1 ∧
    (router_rx_handler router_origin_filter 1 5 (some msg_svc_from_unknown)).link
      = (rx_after_local router_origin_filter 1 5 msg_svc_from_unknown 1).1.link :=
  ⟨by decide, by decide, by decide,
    ((C29_origin_mask_bit router_origin_filter 1 5 msg_svc_from_unknown iter_svc 1
      (by decide) (by decide) (by decide) (by decide)
      (by
        intro it hit
        have : incoming_trace msg_svc_from_unknown = [] := by decide
        rw [this] at hit
        cases hit)
      (by decide) (by decide)).2.2 (by decide)).1⟩

/-! ## One mask bit per connection -/

/-- The handler `router_incoming_link_handler` leaves the connection roles and
the remote termini as they are. -/
theorem router_incoming_link_handler_protocol (s : qd_router_t) (link : Nat) :
    (router_incoming_link_handler s link).conn_role = s.conn_role ∧
    (router_incoming_link_handler s link).remote_source = s.remote_source ∧
    (router_incoming_link_handler s link).remote_target = s.remote_target := by
  have hfind : (qd_router_find_mask_bit_LH s link).1.conn_role = s.conn_role ∧
      (qd_router_find_mask_bit_LH s link).1.remote_source = s.remote_source ∧
      (qd_router_find_mask_bit_LH s link).1.remote_target = s.remote_target := by
    unfold qd_router_find_mask_bit_LH
    split
    · exact ⟨rfl, rfl, rfl⟩
    · split <;> exact ⟨rfl, rfl, rfl⟩
  unfold router_incoming_link_handler
  simp only
  split_ifs <;>
    simp [log_call, copy_termini, links_insert_tail, set_link_record, hfind]

theorem qd_router_find_mask_bit_LH_held (s : qd_router_t) (link : Nat) (b : Int)
    (h : s.conn_context (s.link_conn link) = some b) :
    qd_router_find_mask_bit_LH s link = (s, b) := by
  simp [qd_router_find_mask_bit_LH, h]

/-- C30: for a connection without shared context and a `neighbor_free_mask`
with a bit set, `qd_router_find_mask_bit_LH` yields the lowest set bit `b`,
clears exactly that bit and records it in the shared context of the
connection; for a connection with a shared context it yields the recorded bit
and changes nothing.  So when the incoming router link `lin` and then the
outgoing router link `lout` of one inter-router connection open, both records
get the same mask bit and the second opening leaves `neighbor_free_mask` as
it is: one bit is consumed in total.  The two links that
`router_outbound_open_handler` creates share the one bit it takes. -/
theorem C30_one_bit_per_connection (iterator_string : String → qd_field_iterator_t)
    (s : qd_router_t) (lin lout rnd : Nat)
    (hin_cap : qd_router_terminus_is_router (s.remote_source lin) = true)
    (hout_cap : qd_router_terminus_is_router (s.remote_target lout) = true)
    (hinter : qd_router_connection_is_inter_router s (s.link_conn lin) = true)
    (hsame : s.link_conn lout = s.link_conn lin)
    (hne : lin ≠ lout)
    (havail : s.conn_context (s.link_conn lin) ≠ none ∨ s.neighbor_free_mask.bits ≠ []) :
    (s.conn_context (s.link_conn lin) = none →
      ∃ b, b ∈ s.neighbor_free_mask.bits ∧ (∀ x ∈ s.neighbor_free_mask.bits, b ≤ x) ∧
        (qd_router_find_mask_bit_LH s lin).2 = b ∧
        (qd_router_find_mask_bit_LH s lin).1.conn_context
          = upd s.conn_context (s.link_conn lin) (some b) ∧
        (∀ x, x ∈ (qd_router_find_mask_bit_LH s lin).1.neighbor_free_mask.bits ↔
          x ∈ s.neighbor_free_mask.bits ∧ x ≠ b)) ∧
    (∀ b, s.conn_context (s.link_conn lin) = some b →
      qd_router_find_mask_bit_LH s lin = (s, b)) ∧
    (((router_outgoing_link_handler iterator_string (router_incoming_link_handler s lin)
          lout rnd).link lin).mask_bit
        = (qd_router_find_mask_bit_LH s lin).2 ∧
      ((router_outgoing_link_handler iterator_string (router_incoming_link_handler s lin)
          lout rnd).link lout).mask_bit
        = (qd_router_find_mask_bit_LH s lin).2 ∧
      (router_outgoing_link_handler iterator_string (router_incoming_link_handler s lin)
          lout rnd).neighbor_free_mask
        = (qd_router_find_mask_bit_LH s lin).1.neighbor_free_mask ∧
      (router_outgoing_link_handler iterator_string (router_incoming_link_handler s lin)
          lout rnd).conn_context (s.link_conn lin)
        = some (qd_router_find_mask_bit_LH s lin).2) ∧
    (∀ conn receiver sender b, qd_router_connection_is_inter_router s conn = true →
      qd_bitmask_first_set s.neighbor_free_mask = some b →
      ((router_outbound_open_handler s conn receiver sender).link receiver).mask_bit = b ∧
      ((router_outbound_open_handler s conn receiver sender).link sender).mask_bit = b ∧
      (router_outbound_open_handler s conn receiver sender).neighbor_free_mask
        = qd_bitmask_clear_bit s.neighbor_free_mask b) := by
  have hfirst : s.neighbor_free_mask.bits ≠ [] →
      ∃ b, qd_bitmask_first_set s.neighbor_free_mask = some b ∧
        b ∈ s.neighbor_free_mask.bits ∧ ∀ x ∈ s.neighbor_free_mask.bits, b ≤ x := by
    intro hbits
    unfold qd_bitmask_first_set
    cases hb : s.neighbor_free_mask.bits with
    | nil => exact absurd hb hbits
    | cons x xs =>
      refine ⟨xs.foldl min x, rfl, foldl_min_mem xs x, ?_⟩
      intro y hy
      exact foldl_min_le xs x y hy
  -- the state that the incoming handler leaves
  obtain ⟨f1, f2, f3, f4, f5, f6, f7, f8, f9, f10, f11, f12⟩ :=
    router_incoming_link_handler_router s lin hin_cap hinter
  obtain ⟨p1, p2, p3⟩ := router_incoming_link_handler_protocol s lin
  have hheld : (qd_router_find_mask_bit_LH s lin).1.conn_context (s.link_conn lin)
      = some (qd_router_find_mask_bit_LH s lin).2 := by
    rcases qd_router_find_mask_bit_LH_cases s lin with ⟨b, h1, h2⟩ | ⟨b, h1, h2, h3, h4, h5⟩ |
      ⟨h1, h2, _⟩
    · rw [h2]
      exact h1
    · rw [h4, h5, upd_same]
    · exfalso
      rcases havail with h | h
      · exact h h1
      · obtain ⟨b, hb, _⟩ := hfirst h
        rw [h2] at hb
        cases hb
  have hout_cap' : qd_router_terminus_is_router
      ((router_incoming_link_handler s lin).remote_target lout) = true := by
    rw [p3]
    exact hout_cap
  have hinter' : qd_router_connection_is_inter_router (router_incoming_link_handler s lin)
      ((router_incoming_link_handler s lin).link_conn lout) = true := by
    unfold qd_router_connection_is_inter_router
    rw [p1, f3, hsame]
    exact hinter
  obtain ⟨g1, g2, g3, g4, g5, g6, g7, g8, g9, g10, g11, g12⟩ :=
    router_outgoing_link_handler_router iterator_string (router_incoming_link_handler s lin)
      lout rnd hout_cap' hinter'
  have hfind2 : qd_router_find_mask_bit_LH (router_incoming_link_handler s lin) lout
      = (router_incoming_link_handler s lin, (qd_router_find_mask_bit_LH s lin).2) := by
    apply qd_router_find_mask_bit_LH_held
    rw [f3, hsame, f4]
    exact hheld
  refine ⟨?_, ?_, ⟨?_, ?_, ?_, ?_⟩, ?_⟩
  · intro hnone
    have hbits : s.neighbor_free_mask.bits ≠ [] := by
      rcases havail with h | h
      · exact absurd hnone h
      · exact h
    obtain ⟨b, hb1, hb2, hb3⟩ := hfirst hbits
    refine ⟨b, hb2, hb3, ?_, ?_, ?_⟩
    · simp [qd_router_find_mask_bit_LH, hnone, hb1]
    · simp [qd_router_find_mask_bit_LH, hnone, hb1]
    · intro x
      simp [qd_router_find_mask_bit_LH, hnone, hb1, qd_bitmask_mem_clear_bit]
  · intro b hb
    simp [qd_router_find_mask_bit_LH, hb]
  · rw [g1, upd_other _ _ _ _ hne, f1, upd_same]
    rfl
  · rw [g1, upd_same, hfind2]
    rfl
  · rw [g5, hfind2, f5]
  · rw [g4, hfind2, f4]
    exact hheld
  · intro conn receiver sender b hi hb
    obtain ⟨o1, o2, o3, o4, o5, _⟩ :=
      router_outbound_open_handler_opened s conn receiver sender b hi hb
    refine ⟨?_, ?_, o5⟩
    · rw [o1]
      by_cases hrs : receiver = sender
      · rw [hrs, upd_same]
        rfl
      · rw [upd_other _ _ _ _ hrs, upd_same]
        rfl
    · rw [o1, upd_same]
      rfl

/-- C30 on the interior router: the incoming router link 7 and then the
outgoing router link 8 open on the inter-router connection 1; both get mask
bit 0 and only bit 0 leaves the free mask. -/
theorem C30_one_bit_per_connection_witness :
    ((router_outgoing_link_handler example_iterator_string
      (router_incoming_link_handler router_interior 7) 8 0).link 7).mask_bit = 0 ∧
    ((router_outgoing_link_handler example_iterator_string
      (router_incoming_link_handler router_interior 7) 8 0).link 8).mask_bit = 0 ∧
    (router_outgoing_link_handler example_iterator_string
      (router_incoming_link_handler router_interior 7) 8 0).neighbor_free_mask.bits = [1] ∧
    ((router_outgoing_link_handler example_iterator_string
      (router_incoming_link_handler router_interior 7) 8 0).link 7).mask_bit
      = (qd_router_find_mask_bit_LH router_interior 7).2 :=
  ⟨by decide, by decide, by decide,
    (C30_one_bit_per_connection example_iterator_string router_interior 7 8 0
      (by decide) (by decide) (by decide) (by decide) (by decide)
      (Or.inr (by decide))).2.2.1.1⟩

/-! ## The event count of `router_writable_link_handler` -/

theorem writable_send_body_calls (link : Nat) (re : qd_routed_event_t) (acc : writable_locals) :
    ∃ cs, (writable_send_body link re acc).s.calls = acc.s.calls ++ cs ∧
      ∀ c ∈ cs, is_link_report c = false := by
  refine ⟨[.qd_message_send re.message link, .pn_link_advance link], ?_, ?_⟩
  · unfold writable_send_body
    cases re.delivery <;>
      simp [log_call, qd_delivery, qd_delivery_free, qd_delivery_set_peer]
  · intro c hc
    simp only [List.mem_cons, List.mem_singleton, List.not_mem_nil, or_false] at hc
    rcases hc with hc | hc <;> rw [hc] <;> rfl

theorem writable_send_calls (link : Nat) (to_send : List qd_routed_event_t) :
    ∀ acc : writable_locals,
      ∃ cs, (writable_send link to_send acc).s.calls = acc.s.calls ++ cs ∧
        ∀ c ∈ cs, is_link_report c = false := by
  induction to_send with
  | nil => intro acc; exact ⟨[], by simp [writable_send], by simp⟩
  | cons re rest ih =>
    intro acc
    obtain ⟨cs1, h1, h2⟩ := writable_send_body_calls link re acc
    obtain ⟨cs2, h3, h4⟩ := ih (writable_send_body link re acc)
    refine ⟨cs1 ++ cs2, ?_, ?_⟩
    · simp only [writable_send]
      rw [h3, h1, List.append_assoc]
    · intro c hc
      rcases List.mem_append.mp hc with hc | hc
      · exact h2 c hc
      · exact h4 c hc

theorem writable_event_body_count (re : qd_routed_event_t) (acc : qd_router_t × Nat) :
    (writable_event_body re acc).2
      = acc.2 + (if updates_disposition re then 1 else 0) + (if settles_delivery re then 1 else 0) ∧
    ∃ cs, (writable_event_body re acc).1.calls = acc.1.calls ++ cs ∧
      ∀ c ∈ cs, is_link_report c = false := by
  unfold writable_event_body updates_disposition settles_delivery
  cases hd : re.delivery with
  | none => exact ⟨by simp, [], by simp, by simp⟩
  | some d =>
    by_cases hdisp : re.disposition = 0
    · cases hs : re.settle
      · exact ⟨by simp [hdisp, hs], [], by simp [hdisp, hs], by simp⟩
      · exact ⟨by simp [hdisp, hs], [], by simp [hdisp, hs, qd_delivery_free], by simp⟩
    · cases hs : re.settle
      · refine ⟨by simp [hdisp, hs], [.pn_delivery_update d re.disposition],
          by simp [hdisp, hs, log_call], ?_⟩
        intro c hc
        simp only [List.mem_singleton] at hc
        rw [hc]
        rfl
      · refine ⟨by simp [hdisp, hs], [.pn_delivery_update d re.disposition],
          by simp [hdisp, hs, log_call, qd_delivery_free], ?_⟩
        intro c hc
        simp only [List.mem_singleton] at hc
        rw [hc]
        rfl

theorem writable_events_count (events : List qd_routed_event_t) :
    ∀ acc : qd_router_t × Nat,
      (writable_events events acc).2
        = acc.2 + (events.filter updates_disposition).length
          + (events.filter settles_delivery).length ∧
      ∃ cs, (writable_events events acc).1.calls = acc.1.calls ++ cs ∧
        ∀ c ∈ cs, is_link_report c = false := by
  induction events with
  | nil => intro acc; exact ⟨by simp [writable_events], [], by simp [writable_events], by simp⟩
  | cons re rest ih =>
    intro acc
    obtain ⟨h1, cs1, h2, h3⟩ := writable_event_body_count re acc
    obtain ⟨h4, cs2, h5, h6⟩ := ih (writable_event_body re acc)
    refine ⟨?_, cs1 ++ cs2, ?_, ?_⟩
    · simp only [writable_events]
      rw [h4, h1]
      simp only [List.filter_cons]
      by_cases hu : updates_disposition re = true <;>
        by_cases hst : settles_delivery re = true <;>
        simp [hu, hst] <;> omega
    · simp only [writable_events]
      rw [h5, h2, List.append_assoc]
    · intro c hc
      rcases List.mem_append.mp hc with hc | hc
      · exact h3 c hc
      · exact h6 c hc

/-- C25: the value returned by `router_writable_link_handler` is the number of
messages sent, plus the number of drained status events with a delivery and a
non-zero disposition, plus the number of drained status events with a
delivery and `settle` set, plus 1 when no message remains queued and the
drain mode has just changed to true.  The last call of the handler is
`pn_link_offered(offer)` when the number `offer` of messages left in
`msg_fifo` is positive and `pn_link_drained` otherwise, and it makes neither
call before. -/
theorem C25_event_count (s : qd_router_t) (link : Nat) (link_credit : Int)
    (drain_changed drain_mode : Bool) :
    (router_writable_link_handler s link link_credit drain_changed drain_mode).2
      = (writable_take link_credit (s.link link).msg_fifo).2.length
        + ((s.link link).event_fifo.filter updates_disposition).length
        + ((s.link link).event_fifo.filter settles_delivery).length
        + (if (writable_take link_credit (s.link link).msg_fifo).1.length = 0 ∧
              drain_changed = true ∧ drain_mode = true then 1 else 0) ∧
    (writable_take link_credit (s.link link).msg_fifo).2.length
      = min (s.link link).msg_fifo.length link_credit.toNat ∧
    ((router_writable_link_handler s link link_credit drain_changed drain_mode).1.link
        link).msg_fifo.length
      = (writable_take link_credit (s.link link).msg_fifo).1.length ∧
    ∃ cs, (router_writable_link_handler s link link_credit drain_changed drain_mode).1.calls
        = s.calls ++ cs ++
          [if 0 < (writable_take link_credit (s.link link).msg_fifo).1.length
            then qd_call.pn_link_offered link
              (writable_take link_credit (s.link link).msg_fifo).1.length
            else qd_call.pn_link_drained link] ∧
      ∀ c ∈ cs, is_link_report c = false := by
  have hoffer : ((writable_locked s link link_credit).link link).msg_fifo.length
      = (writable_take link_credit (s.link link).msg_fifo).1.length := by
    rw [writable_locked_link]
    simp
  obtain ⟨_, _, hcount⟩ := writable_send_sent link link
    (writable_take link_credit (s.link link).msg_fifo).2
    { s := writable_locked s link link_credit, tag := s.dtag, event_count := 0 }
  obtain ⟨cs1, hc1, hr1⟩ := writable_send_calls link
    (writable_take link_credit (s.link link).msg_fifo).2
    { s := writable_locked s link link_credit, tag := s.dtag, event_count := 0 }
  obtain ⟨hev, cs2, hc2, hr2⟩ := writable_events_count (s.link link).event_fifo
    ((writable_send link (writable_take link_credit (s.link link).msg_fifo).2
        { s := writable_locked s link link_credit, tag := s.dtag, event_count := 0 }).s,
      (writable_send link (writable_take link_credit (s.link link).msg_fifo).2
        { s := writable_locked s link link_credit, tag := s.dtag, event_count := 0 }).event_count)
  simp only at hev hc2 hcount hc1
  replace hev := hev.trans (by rw [hcount]; omega :
    (writable_send link (writable_take link_credit (s.link link).msg_fifo).2
        { s := writable_locked s link link_credit, tag := s.dtag, event_count := 0 }).event_count
      + ((s.link link).event_fifo.filter updates_disposition).length
      + ((s.link link).event_fifo.filter settles_delivery).length
    = (writable_take link_credit (s.link link).msg_fifo).2.length
      + ((s.link link).event_fifo.filter updates_disposition).length
      + ((s.link link).event_fifo.filter settles_delivery).length)
  rw [hc1, writable_locked_calls] at hc2
  refine ⟨?_, ?_, ?_, cs1 ++ cs2, ?_, ?_⟩
  · unfold router_writable_link_handler
    simp only [hoffer]
    generalize (writable_take link_credit (s.link link).msg_fifo).1.length = offer
    unfold writable_report
    by_cases hpos : offer > 0
    · have hne : ¬ offer = 0 := by omega
      simp only [hpos, if_true, hne, false_and, if_false, hev]
      omega
    · have hz : offer = 0 := by omega
      subst hz
      simp only [gt_iff_lt, Nat.lt_irrefl, if_false, true_and]
      by_cases hd : drain_changed = true ∧ drain_mode = true
      · simp only [hd, and_self, if_true, hev]
      · simp only [hd, if_false, hev]
        omega
  · rw [writable_take_spec]
    simp
  · rw [(router_writable_link_handler_wire s link link_credit drain_changed drain_mode link).1]
    simp
  · unfold router_writable_link_handler
    simp only [hoffer]
    unfold writable_report
    by_cases hpos : (writable_take link_credit (s.link link).msg_fifo).1.length > 0
    · have hpos' : 0 < (writable_take link_credit (s.link link).msg_fifo).1.length := hpos
      simp only [hpos, hpos', if_true, log_call, hc2]
      simp
    · have hpos' : ¬ 0 < (writable_take link_credit (s.link link).msg_fifo).1.length := hpos
      simp only [hpos, hpos', if_false, log_call]
      split_ifs <;> simp [hc2]
  · intro c hc
    rcases List.mem_append.mp hc with hc | hc
    · exact hr1 c hc
    · exact hr2 c hc

/-- C25 on `router_backlog`: link 2 has three queued messages; with credit 2
the handler sends two, returns 2 and reports `pn_link_offered(1)`; with
credit 5 and a drain mode that has just changed to true it sends three,
returns 4 and reports `pn_link_drained`. -/
theorem C25_event_count_witness :
    (router_writable_link_handler router_backlog 2 2 false false).2 = 2 ∧
    (router_writable_link_handler router_backlog 2 2 false false).1.calls.getLast?
      = some (.pn_link_offered 2 1) ∧
    (router_writable_link_handler router_backlog 2 5 true true).2 = 4 ∧
    (router_writable_link_handler router_backlog 2 5 true true).1.calls.getLast?
      = some (.pn_link_drained 2) ∧
    (router_writable_link_handler router_backlog 2 5 true true).2
      = (writable_take 5 (router_backlog.link 2).msg_fifo).2.length
        + ((router_backlog.link 2).event_fifo.filter updates_disposition).length
        + ((router_backlog.link 2).event_fifo.filter settles_delivery).length
        + (if (writable_take 5 (router_backlog.link 2).msg_fifo).1.length = 0 ∧
              true = true ∧ true = true then 1 else 0) :=
  ⟨by decide, by decide, by decide, by decide,
    (C25_event_count router_backlog 2 5 true true).1⟩

/-! ## Delivery tags -/

theorem qd_delivery_set_peer_tag (s : qd_router_t) (d peer x : Nat) :
    ((qd_delivery_set_peer s d peer).delivery x).tag = (s.delivery x).tag := by
  unfold qd_delivery_set_peer upd
  by_cases h : x = d
  · subst h
    simp
  · simp [h]

theorem qd_delivery_free_tag (s : qd_router_t) (d disp x : Nat) :
    ((qd_delivery_free s d disp).delivery x).tag = (s.delivery x).tag := by
  unfold qd_delivery_free upd
  by_cases h : x = d
  · subst h
    simp
  · simp [h]

/-- One pass of the send loop: the new delivery gets the next tag, and no
other tag changes. -/
theorem writable_send_body_tag (link : Nat) (re : qd_routed_event_t) (acc : writable_locals) :
    (writable_send_body link re acc).tag = uint64_wrap (acc.tag + 1) ∧
    ((writable_send_body link re acc).s.delivery acc.s.delivery_next).tag
      = uint64_wrap (acc.tag + 1) ∧
    (∀ x, x ≠ acc.s.delivery_next →
      ((writable_send_body link re acc).s.delivery x).tag = (acc.s.delivery x).tag) ∧
    (writable_send_body link re acc).s.dtag = acc.s.dtag := by
  have halloc : ∀ x, ((qd_delivery acc.s link (uint64_wrap (acc.tag + 1))).1.delivery x).tag
      = if x = acc.s.delivery_next then uint64_wrap (acc.tag + 1) else (acc.s.delivery x).tag := by
    intro x
    unfold qd_delivery upd
    by_cases h : x = acc.s.delivery_next <;> simp [h]
  have key : ∀ x, ((writable_send_body link re acc).s.delivery x).tag
      = if x = acc.s.delivery_next then uint64_wrap (acc.tag + 1) else (acc.s.delivery x).tag := by
    intro x
    rw [← halloc x]
    unfold writable_send_body
    cases hd : re.delivery with
    | none =>
      simp only [log_call]
      exact qd_delivery_free_tag _ _ _ x
    | some d =>
      simp only [log_call]
      rw [qd_delivery_set_peer_tag, qd_delivery_set_peer_tag]
  refine ⟨rfl, ?_, ?_, ?_⟩
  · rw [key, if_pos rfl]
  · intro x hx
    rw [key, if_neg hx]
  · unfold writable_send_body
    cases hd : re.delivery <;>
      simp [log_call, qd_delivery, qd_delivery_set_peer, qd_delivery_free]

theorem writable_send_tags (link : Nat) (to_send : List qd_routed_event_t) :
    ∀ acc : writable_locals,
      (∀ i, i < to_send.length →
        ((writable_send link to_send acc).s.delivery (acc.s.delivery_next + i)).tag
          = uint64_wrap (acc.tag + i + 1)) ∧
      (∀ x, x < acc.s.delivery_next →
        ((writable_send link to_send acc).s.delivery x).tag = (acc.s.delivery x).tag) ∧
      (writable_send link to_send acc).s.dtag = acc.s.dtag := by
  induction to_send with
  | nil =>
    intro acc
    refine ⟨?_, ?_, rfl⟩
    · intro i hi
      simp at hi
    · intro x _
      rfl
  | cons re rest ih =>
    intro acc
    obtain ⟨b1, b2, b3, b4⟩ := writable_send_body_tag link re acc
    obtain ⟨i1, i2, i3⟩ := ih (writable_send_body link re acc)
    have hnext := writable_send_body_next link re acc
    simp only [writable_send]
    refine ⟨?_, ?_, ?_⟩
    · intro i hi
      cases i with
      | zero =>
        rw [Nat.add_zero, i2 _ (by omega), b2]
      | succ j =>
        have hj : j < rest.length := by
          simp only [List.length_cons] at hi
          omega
        have := i1 j hj
        rw [hnext, b1] at this
        have hidx : acc.s.delivery_next + (j + 1) = acc.s.delivery_next + 1 + j := by omega
        rw [hidx, this]
        have harith : uint64_wrap (acc.tag + 1) + j + 1 = uint64_wrap (acc.tag + 1) + (j + 1) := by
          omega
        rw [harith, uint64_wrap_add]
        congr 1
        omega
    · intro x hx
      rw [i2 x (by omega), b3 x (by omega)]
    · rw [i3, b4]

theorem writable_event_body_tag (re : qd_routed_event_t) (acc : qd_router_t × Nat) :
    (∀ x, ((writable_event_body re acc).1.delivery x).tag = (acc.1.delivery x).tag) ∧
    (writable_event_body re acc).1.dtag = acc.1.dtag ∧
    (writable_event_body re acc).1.delivery_next = acc.1.delivery_next := by
  unfold writable_event_body
  cases hd : re.delivery with
  | none => exact ⟨fun _ => rfl, rfl, rfl⟩
  | some d =>
    simp only
    refine ⟨?_, ?_, ?_⟩
    · intro x
      split_ifs <;> by_cases hx : x = d <;> simp [qd_delivery_free, log_call, upd, hx]
    · split_ifs <;> simp [qd_delivery_free, log_call]
    · split_ifs <;> simp [qd_delivery_free, log_call]

theorem writable_events_tag (events : List qd_routed_event_t) :
    ∀ acc : qd_router_t × Nat,
      (∀ x, ((writable_events events acc).1.delivery x).tag = (acc.1.delivery x).tag) ∧
      (writable_events events acc).1.dtag = acc.1.dtag ∧
      (writable_events events acc).1.delivery_next = acc.1.delivery_next := by
  induction events with
  | nil => intro acc; exact ⟨fun _ => rfl, rfl, rfl⟩
  | cons re rest ih =>
    intro acc
    obtain ⟨b1, b2, b3⟩ := writable_event_body_tag re acc
    obtain ⟨i1, i2, i3⟩ := ih (writable_event_body re acc)
    simp only [writable_events]
    exact ⟨fun x => by rw [i1, b1], by rw [i2, b2], by rw [i3, b3]⟩

theorem writable_report_tag (s : qd_router_t) (link : Nat) (offer : Nat)
    (drain_changed drain_mode : Bool) (event_count : Nat) :
    (writable_report s link offer drain_changed drain_mode event_count).1.delivery = s.delivery ∧
    (writable_report s link offer drain_changed drain_mode event_count).1.dtag = s.dtag ∧
    (writable_report s link offer drain_changed drain_mode event_count).1.delivery_next
      = s.delivery_next := by
  unfold writable_report
  split_ifs <;> simp [log_call]

/-- The tags, the counter and the allocator after one invocation of
`router_writable_link_handler`. -/
theorem router_writable_link_handler_tags (s : qd_router_t) (link : Nat) (link_credit : Int)
    (drain_changed drain_mode : Bool) :
    (router_writable_link_handler s link link_credit drain_changed drain_mode).1.delivery_next
      = s.delivery_next + (writable_take link_credit (s.link link).msg_fifo).2.length ∧
    (router_writable_link_handler s link link_credit drain_changed drain_mode).1.dtag
      = (if link_credit > 0
          then uint64_wrap (s.dtag + (writable_take link_credit (s.link link).msg_fifo).2.length)
          else s.dtag) ∧
    (∀ i, i < (writable_take link_credit (s.link link).msg_fifo).2.length →
      ((router_writable_link_handler s link link_credit drain_changed drain_mode).1.delivery
        (s.delivery_next + i)).tag = uint64_wrap (s.dtag + i + 1)) ∧
    (∀ x, x < s.delivery_next →
      ((router_writable_link_handler s link link_credit drain_changed drain_mode).1.delivery
        x).tag = (s.delivery x).tag) := by
  obtain ⟨l1, l2⟩ := writable_locked_delivery s link link_credit
  obtain ⟨t1, t2, t3⟩ := writable_send_tags link
    (writable_take link_credit (s.link link).msg_fifo).2
    { s := writable_locked s link link_credit, tag := s.dtag, event_count := 0 }
  have hn := writable_send_next link (writable_take link_credit (s.link link).msg_fifo).2
    { s := writable_locked s link link_credit, tag := s.dtag, event_count := 0 }
  obtain ⟨e1, e2, e3⟩ := writable_events_tag (s.link link).event_fifo
    ((writable_send link (writable_take link_credit (s.link link).msg_fifo).2
        { s := writable_locked s link link_credit, tag := s.dtag, event_count := 0 }).s,
      (writable_send link (writable_take link_credit (s.link link).msg_fifo).2
        { s := writable_locked s link link_credit, tag := s.dtag, event_count := 0 }).event_count)
  simp only at t1 t2 t3 hn e1 e2 e3
  have hdtag : (writable_locked s link link_credit).dtag
      = (if link_credit > 0
          then uint64_wrap (s.dtag + (writable_take link_credit (s.link link).msg_fifo).2.length)
          else s.dtag) := by
    unfold writable_locked
    simp only
    split_ifs <;> rfl
  unfold router_writable_link_handler
  simp only
  refine ⟨?_, ?_, ?_, ?_⟩
  · rw [(writable_report_tag _ _ _ _ _ _).2.2, e3, hn, l2]
  · rw [(writable_report_tag _ _ _ _ _ _).2.1, e2, t3, hdtag]
  · intro i hi
    rw [(writable_report_tag _ _ _ _ _ _).1, e1]
    have := t1 i hi
    rw [l2] at this
    exact this
  · intro x hx
    rw [(writable_report_tag _ _ _ _ _ _).1, e1, t2 x (by rw [l2]; exact hx), l1]

theorem router_writable_link_handler_dtag (s : qd_router_t) (link : Nat) (link_credit : Int)
    (drain_changed drain_mode : Bool) (hdt : s.dtag < 2 ^ 64) :
    (router_writable_link_handler s link link_credit drain_changed drain_mode).1.dtag
      = uint64_wrap (s.dtag + (writable_take link_credit (s.link link).msg_fifo).2.length) := by
  rw [(router_writable_link_handler_tags s link link_credit drain_changed drain_mode).2.1]
  split_ifs with h
  · rfl
  · unfold writable_take
    rw [if_neg h]
    simp only [List.length_nil, Nat.add_zero]
    exact (uint64_wrap_of_lt _ hdt).symm

/-- A sequence of writable invocations: the deliveries it allocates are
numbered from `delivery_next` on and carry the tags that follow `dtag`,
modulo `2^64`. -/
theorem run_writable_tags : ∀ (ops : List router_op) (s : qd_router_t),
    (∀ op ∈ ops, op.is_writable = true) → s.dtag < 2 ^ 64 →
    s.delivery_next ≤ (run_ops ops s).delivery_next ∧
    (run_ops ops s).dtag
      = uint64_wrap (s.dtag + ((run_ops ops s).delivery_next - s.delivery_next)) ∧
    (∀ i, i < (run_ops ops s).delivery_next - s.delivery_next →
      ((run_ops ops s).delivery (s.delivery_next + i)).tag = uint64_wrap (s.dtag + i + 1)) ∧
    (∀ x, x < s.delivery_next → ((run_ops ops s).delivery x).tag = (s.delivery x).tag) := by
  intro ops
  induction ops with
  | nil =>
    intro s _ hdt
    refine ⟨Nat.le_refl _, ?_, ?_, fun _ _ => rfl⟩
    · show s.dtag = uint64_wrap (s.dtag + (s.delivery_next - s.delivery_next))
      rw [Nat.sub_self, Nat.add_zero]
      exact (uint64_wrap_of_lt _ hdt).symm
    · intro i hi
      have hi' : i < s.delivery_next - s.delivery_next := hi
      omega
  | cons op rest ih =>
    intro s hw hdt
    have hrest : ∀ o ∈ rest, o.is_writable = true :=
      fun o ho => hw o (List.mem_cons_of_mem _ ho)
    have hop := hw op (List.mem_cons_self _ _)
    cases op with
    | rx link delivery received => simp [router_op.is_writable] at hop
    | send address msg => simp [router_op.is_writable] at hop
    | writable link link_credit drain_changed drain_mode =>
      obtain ⟨h1, -, h3, h4⟩ :=
        router_writable_link_handler_tags s link link_credit drain_changed drain_mode
      have h2 := router_writable_link_handler_dtag s link link_credit drain_changed drain_mode hdt
      generalize (writable_take link_credit (s.link link).msg_fifo).2.length = k at h1 h2 h3
      have hlt : (router_writable_link_handler s link link_credit drain_changed
          drain_mode).1.dtag < 2 ^ 64 := by
        rw [h2]
        exact uint64_wrap_lt _
      obtain ⟨i1, i2, i3, i4⟩ :=
        ih (router_writable_link_handler s link link_credit drain_changed drain_mode).1 hrest hlt
      simp only [run_ops, router_op.apply]
      generalize run_ops rest
        (router_writable_link_handler s link link_credit drain_changed drain_mode).1 = f
        at i1 i2 i3 i4
      generalize (router_writable_link_handler s link link_credit drain_changed drain_mode).1 = s1
        at h1 h2 h3 h4 i1 i2 i3 i4
      refine ⟨by omega, ?_, ?_, ?_⟩
      · rw [i2, h2, uint64_wrap_add]
        congr 1
        omega
      · intro i hi
        by_cases hik : i < k
        · rw [i4 _ (by omega), h3 i hik]
        · have hidx : s.delivery_next + i = s1.delivery_next + (i - k) := by omega
          rw [hidx, i3 (i - k) (by omega), h2]
          have harith : uint64_wrap (s.dtag + k) + (i - k) + 1
              = uint64_wrap (s.dtag + k) + ((i - k) + 1) := by omega
          rw [harith, uint64_wrap_add]
          congr 1
          omega
      · intro x hx
        rw [i4 x (by omega), h4 x hx]

/-- Claim C27 as written does not hold: with `dtag` at `2^64 - 1`, an
invocation of `router_writable_link_handler` that sends one message leaves
`dtag` at 0, which is below its value before and is not `dtag + 1`, and the
delivery it creates carries the tag 0, not `dtag + 1`. -/
theorem C27_counterexample :
    router_backlog_wrap.dtag = 18446744073709551615 ∧
    (writable_take 1 (router_backlog_wrap.link 2).msg_fifo).2.length = 1 ∧
    (router_writable_link_handler router_backlog_wrap 2 1 false false).1.dtag = 0 ∧
    ((router_writable_link_handler router_backlog_wrap 2 1 false false).1.delivery
      router_backlog_wrap.delivery_next).tag = 0 ∧
    (router_writable_link_handler router_backlog_wrap 2 1 false false).1.dtag
      < router_backlog_wrap.dtag ∧
    (router_writable_link_handler router_backlog_wrap 2 1 false false).1.dtag
      ≠ router_backlog_wrap.dtag + 1 := by
  have hk : (writable_take 1 (router_backlog_wrap.link 2).msg_fifo).2.length = 1 := by decide
  have hd : router_backlog_wrap.dtag = 18446744073709551615 := rfl
  have hw : uint64_wrap (18446744073709551615 + 1) = 0 := by
    unfold uint64_wrap
    norm_num
  obtain ⟨-, h2, h3, -⟩ := router_writable_link_handler_tags router_backlog_wrap 2 1 false false
  rw [hk, hd] at h2
  have h3 := h3 0 (by rw [hk]; exact Nat.zero_lt_one)
  rw [hd] at h3
  simp only [Nat.add_zero] at h3
  rw [if_pos (by decide), hw] at h2
  rw [hw] at h3
  refine ⟨hd, hk, h2, h3, ?_, ?_⟩
  · rw [h2, hd]
    norm_num
  · rw [h2, hd]
    norm_num

/-- Claim C27, amended: delivery tags are assigned by a counter that wraps
modulo `2^64`.  An invocation of `router_writable_link_handler` that sends
`k` messages creates the `k` deliveries numbered from `delivery_next` on,
leaves `dtag` at `(dtag + k) mod 2^64` and gives the `i`-th of them
(counting from 0) the tag `(dtag + i + 1) mod 2^64`; while `dtag + k` stays
below `2^64` these are exactly `dtag + k` and `dtag + 1 .. dtag + k`, and
`dtag` does not decrease.  Over any sequence of writable invocations that
creates `K` deliveries in total, one per message sent, with `K` below `2^64`,
the `i`-th delivery carries the tag `(dtag + i + 1) mod 2^64` and all the
tags assigned are pairwise distinct. -/
theorem C27_delivery_tags (ops : List router_op) (s : qd_router_t)
    (hw : ∀ op ∈ ops, op.is_writable = true) (hdt : s.dtag < 2 ^ 64)
    (hK : (run_ops ops s).delivery_next - s.delivery_next < 2 ^ 64) :
    (∀ (link : Nat) (link_credit : Int) (drain_changed drain_mode : Bool),
      (router_writable_link_handler s link link_credit drain_changed drain_mode).1.delivery_next
        = s.delivery_next + (writable_take link_credit (s.link link).msg_fifo).2.length ∧
      (router_writable_link_handler s link link_credit drain_changed drain_mode).1.dtag
        = uint64_wrap (s.dtag + (writable_take link_credit (s.link link).msg_fifo).2.length) ∧
      (∀ i, i < (writable_take link_credit (s.link link).msg_fifo).2.length →
        ((router_writable_link_handler s link link_credit drain_changed drain_mode).1.delivery
          (s.delivery_next + i)).tag = uint64_wrap (s.dtag + i + 1)) ∧
      (s.dtag + (writable_take link_credit (s.link link).msg_fifo).2.length < 2 ^ 64 →
        s.dtag ≤ (router_writable_link_handler s link link_credit drain_changed
          drain_mode).1.dtag ∧
        (router_writable_link_handler s link link_credit drain_changed drain_mode).1.dtag
          = s.dtag + (writable_take link_credit (s.link link).msg_fifo).2.length ∧
        ∀ i, i < (writable_take link_credit (s.link link).msg_fifo).2.length →
          ((router_writable_link_handler s link link_credit drain_changed drain_mode).1.delivery
            (s.delivery_next + i)).tag = s.dtag + i + 1)) ∧
    s.delivery_next ≤ (run_ops ops s).delivery_next ∧
    (run_ops ops s).dtag
      = uint64_wrap (s.dtag + ((run_ops ops s).delivery_next - s.delivery_next)) ∧
    (∀ i, i < (run_ops ops s).delivery_next - s.delivery_next →
      ((run_ops ops s).delivery (s.delivery_next + i)).tag = uint64_wrap (s.dtag + i + 1)) ∧
    (∀ i j, i < (run_ops ops s).delivery_next - s.delivery_next →
      j < (run_ops ops s).delivery_next - s.delivery_next → i ≠ j →
      ((run_ops ops s).delivery (s.delivery_next + i)).tag
        ≠ ((run_ops ops s).delivery (s.delivery_next + j)).tag) := by
  obtain ⟨r1, r2, r3, -⟩ := run_writable_tags ops s hw hdt
  refine ⟨?_, r1, r2, r3, ?_⟩
  · intro link link_credit drain_changed drain_mode
    obtain ⟨h1, -, h3, -⟩ :=
      router_writable_link_handler_tags s link link_credit drain_changed drain_mode
    have h2 := router_writable_link_handler_dtag s link link_credit drain_changed drain_mode hdt
    refine ⟨h1, h2, h3, ?_⟩
    intro hsmall
    refine ⟨?_, ?_, ?_⟩
    · rw [h2, uint64_wrap_of_lt _ hsmall]
      exact Nat.le_add_right _ _
    · rw [h2, uint64_wrap_of_lt _ hsmall]
    · intro i hi
      rw [h3 i hi, uint64_wrap_of_lt _ (by omega)]
  · intro i j hi hj hij heq
    rw [r3 i hi, r3 j hj] at heq
    exact hij (uint64_wrap_inj s.dtag i j (by omega) (by omega) heq)

theorem C27_delivery_tags_witness :
    (∀ op ∈ [router_op.writable 2 1 false false, router_op.writable 2 2 false false],
      op.is_writable = true) ∧
    router_backlog_wrap.dtag < 2 ^ 64 ∧
    (run_ops [router_op.writable 2 1 false false, router_op.writable 2 2 false false]
      router_backlog_wrap).delivery_next - router_backlog_wrap.delivery_next = 3 ∧
    (run_ops [router_op.writable 2 1 false false, router_op.writable 2 2 false false]
      router_backlog_wrap).dtag
      = uint64_wrap (router_backlog_wrap.dtag
          + ((run_ops [router_op.writable 2 1 false false, router_op.writable 2 2 false false]
              router_backlog_wrap).delivery_next - router_backlog_wrap.delivery_next)) :=
  ⟨by decide, by decide, by decide,
    (C27_delivery_tags [router_op.writable 2 1 false false, router_op.writable 2 2 false false]
      router_backlog_wrap (by decide) (by decide) (by decide)).2.2.1⟩

/-! ## Pre-settled ingress deliveries -/

theorem appends_unpeered.refl_unpeered (s : qd_router_t) : appends_unpeered s s :=
  ⟨fun _ => ⟨[], by simp, by simp, rfl⟩, rfl⟩

theorem appends_unpeered.trans_unpeered {s1 s2 s3 : qd_router_t}
    (h12 : appends_unpeered s1 s2) (h23 : appends_unpeered s2 s3) : appends_unpeered s1 s3 := by
  refine ⟨fun l => ?_, h23.2.trans h12.2⟩
  obtain ⟨e1, a1, b1, c1⟩ := h12.1 l
  obtain ⟨e2, a2, b2, c2⟩ := h23.1 l
  refine ⟨e1 ++ e2, by rw [a2, a1, List.append_assoc], ?_, c2.trans c1⟩
  intro e he
  rcases List.mem_append.mp he with h | h
  · exact b1 e h
  · exact b2 e h

theorem appends_unpeered.of_link_eq {s s' : qd_router_t} (hl : s'.link = s.link)
    (hd : s'.delivery = s.delivery) : appends_unpeered s s' :=
  ⟨fun l => ⟨[], by rw [hl]; simp, by simp, by rw [hl]⟩, hd⟩

/-- Appending one event without delivery, then bumping a counter and
activating a link. -/
theorem appends_unpeered_enqueue (s : qd_router_t) (l : Nat) (re : qd_routed_event_t)
    (hre : re.delivery = none) : appends_unpeered s (msg_fifo_insert_tail s l re) := by
  refine ⟨fun x => ?_, rfl⟩
  unfold msg_fifo_insert_tail
  by_cases hx : x = l
  · subst hx
    refine ⟨[re], by simp, ?_, by simp⟩
    intro e he
    rw [List.mem_singleton.mp he]
    exact hre
  · exact ⟨[], by simp [hx], by simp, by simp [hx]⟩

theorem rx_routed_event_settled (s : qd_router_t) (msg : qd_message_t) (delivery fanout : Nat)
    (hset : qd_delivery_settled s delivery = true) :
    (rx_routed_event s msg delivery fanout).delivery = none := by
  unfold rx_routed_event
  simp [hset]

theorem rx_local_body_unpeered (msg : qd_message_t) (delivery addr dest_link : Nat)
    (acc : qd_router_t × Nat) (hset : qd_delivery_settled acc.1 delivery = true) :
    appends_unpeered acc.1 (rx_local_body msg delivery addr dest_link acc).1 := by
  have h1 := appends_unpeered_enqueue acc.1 dest_link
    (rx_routed_event acc.1 msg delivery (acc.2 + 1)) (rx_routed_event_settled _ _ _ _ hset)
  refine h1.trans_unpeered (appends_unpeered.of_link_eq ?_ ?_)
  · simp [rx_local_body, incr_egress, set_address, qd_link_activate, log_call]
  · simp [rx_local_body, incr_egress, set_address, qd_link_activate, log_call]

theorem rx_remote_body_unpeered (msg : qd_message_t) (delivery addr : Nat) (link_bit : Int)
    (acc : qd_router_t × Nat) (hset : qd_delivery_settled acc.1 delivery = true) :
    appends_unpeered acc.1 (rx_remote_body msg delivery addr link_bit acc).1 := by
  unfold rx_remote_body
  cases hidx : acc.1.out_links_by_mask_bit link_bit with
  | none => exact appends_unpeered.refl_unpeered _
  | some dest_link =>
    have h1 := appends_unpeered_enqueue acc.1 dest_link
      (rx_routed_event acc.1 msg delivery (acc.2 + 1)) (rx_routed_event_settled _ _ _ _ hset)
    refine h1.trans_unpeered (appends_unpeered.of_link_eq ?_ ?_)
    · simp [incr_transit, set_address, qd_link_activate, log_call]
    · simp [incr_transit, set_address, qd_link_activate, log_call]

theorem appends_unpeered.settled {s s' : qd_router_t} (h : appends_unpeered s s') (d : Nat) :
    qd_delivery_settled s' d = qd_delivery_settled s d := by
  unfold qd_delivery_settled
  rw [h.2]

theorem rx_forward_local_unpeered (msg : qd_message_t) (delivery addr : Nat) (ls : List Nat) :
    ∀ acc : qd_router_t × Nat, qd_delivery_settled acc.1 delivery = true →
      appends_unpeered acc.1 (rx_forward_local msg delivery addr ls acc).1 := by
  induction ls with
  | nil => intro acc _; exact appends_unpeered.refl_unpeered _
  | cons dest_link rest ih =>
    intro acc hset
    have h1 := rx_local_body_unpeered msg delivery addr dest_link acc hset
    simp only [rx_forward_local]
    exact h1.trans_unpeered (ih _ ((h1.settled delivery).trans hset))

theorem rx_forward_remote_unpeered (msg : qd_message_t) (delivery addr : Nat) (n : Nat) :
    ∀ (link_set : qd_bitmask_t) (acc : qd_router_t × Nat),
      qd_delivery_settled acc.1 delivery = true →
      appends_unpeered acc.1 (rx_forward_remote msg delivery addr n link_set acc).1 := by
  induction n with
  | zero => intro link_set acc _; exact appends_unpeered.refl_unpeered _
  | succ n ih =>
    intro link_set acc hset
    simp only [rx_forward_remote]
    cases hfirst : qd_bitmask_first_set link_set with
    | none => exact appends_unpeered.refl_unpeered _
    | some link_bit =>
      have h1 := rx_remote_body_unpeered msg delivery addr link_bit acc hset
      exact h1.trans_unpeered (ih _ _ ((h1.settled delivery).trans hset))

theorem rx_fan_out_unpeered (msg : qd_message_t) (delivery addr : Nat)
    (ingress_iter : Option qd_field_iterator_t) (drop is_local is_direct : Bool)
    (acc : qd_router_t × Nat) (hset : qd_delivery_settled acc.1 delivery = true) :
    appends_unpeered acc.1
      (rx_fan_out msg delivery addr ingress_iter drop is_local is_direct acc).1 := by
  have hloc := rx_forward_local_unpeered msg delivery addr (acc.1.address addr).rlinks acc hset
  unfold rx_fan_out
  split_ifs with h1 h2
  · unfold rx_fan_out_remote
    simp only
    split_ifs
    · exact hloc.trans_unpeered
        (rx_forward_remote_unpeered msg delivery addr _ _ _ ((hloc.settled delivery).trans hset))
    · exact hloc
  · exact hloc
  · exact appends_unpeered.refl_unpeered _

theorem rx_route_unpeered (s : qd_router_t) (rlink delivery : Nat) (msg : qd_message_t)
    (iter : qd_field_iterator_t) (hset : qd_delivery_settled s delivery = true) :
    appends_unpeered s (rx_route s rlink delivery msg iter).s := by
  unfold rx_route
  cases hret : qd_hash_retrieve s.addr_hash iter.address_hash with
  | none => exact appends_unpeered.refl_unpeered _
  | some a =>
    simp only
    unfold rx_addr_found
    simp only
    have hcap : appends_unpeered s
        (rx_capture_handler (rx_count_ingress s rlink a) a
          (router_annotate_message (node_id (rx_count_ingress s rlink a)) msg false).1
          (router_annotate_message (node_id (rx_count_ingress s rlink a)) msg false).2.1).s :=
      appends_unpeered.of_link_eq
        ((rx_capture_handler_link _ _ _ _).trans (rx_count_ingress_link _ _ _))
        ((rx_capture_handler_delivery _ _ _ _).trans (rx_count_ingress_delivery _ _ _))
    exact hcap.trans_unpeered
      (rx_fan_out_unpeered _ _ _ _ _ _ _ (_, _) ((hcap.settled delivery).trans hset))

theorem qd_delivery_free_freed (s : qd_router_t) (d disp : Nat) :
    ((qd_delivery_free s d disp).delivery d).freed = some disp ∧
    (qd_delivery_free s d disp).link = s.link ∧
    ∀ x, ((qd_delivery_free s d disp).delivery x).peer = (s.delivery x).peer := by
  refine ⟨by simp [qd_delivery_free], rfl, fun x => ?_⟩
  unfold qd_delivery_free upd
  by_cases h : x = d
  · subst h
    simp
  · simp [h]

/-- The message-routing part of `router_rx_handler` on a settled delivery. -/
theorem rx_message_routing_settled (s : qd_router_t) (rlink delivery : Nat) (msg : qd_message_t)
    (hset : qd_delivery_settled s delivery = true) :
    (∀ l, ∃ evs : List qd_routed_event_t,
      ((rx_message_routing s rlink delivery msg).s.link l).msg_fifo
        = (s.link l).msg_fifo ++ evs ∧ (∀ e ∈ evs, e.delivery = none) ∧
      ((rx_message_routing s rlink delivery msg).s.link l).event_fifo
        = (s.link l).event_fifo) ∧
    (∀ x, ((rx_message_routing s rlink delivery msg).s.delivery x).peer
      = (s.delivery x).peer) ∧
    ((rx_message_routing s rlink delivery msg).s.link = s.link ∨
      ((rx_message_routing s rlink delivery msg).s.delivery delivery).freed = some PN_ACCEPTED ∨
      ((rx_message_routing s rlink delivery msg).s.delivery delivery).freed = some 0) := by
  have hsame : ∀ s' : qd_router_t, s'.link = s.link →
      (∀ x, (s'.delivery x).peer = (s.delivery x).peer) →
      (∀ l, ∃ evs : List qd_routed_event_t,
        (s'.link l).msg_fifo = (s.link l).msg_fifo ++ evs ∧ (∀ e ∈ evs, e.delivery = none) ∧
        (s'.link l).event_fifo = (s.link l).event_fifo) ∧
      (∀ x, (s'.delivery x).peer = (s.delivery x).peer) ∧
      (s'.link = s.link ∨ (s'.delivery delivery).freed = some PN_ACCEPTED ∨
        (s'.delivery delivery).freed = some 0) := by
    intro s' hl hp
    exact ⟨fun l => ⟨[], by rw [hl]; simp, by simp, by rw [hl]⟩, hp, Or.inl hl⟩
  unfold rx_message_routing
  split_ifs with hcheck
  · cases hto : qd_message_field_iterator_to msg with
    | none => exact hsame _ rfl (fun _ => rfl)
    | some iter =>
      simp only
      have hr := rx_route_unpeered s rlink delivery msg iter hset
      have hrs := (hr.settled delivery).trans hset
      have hz := rx_route_fanout_zero s rlink delivery msg iter
      generalize rx_route s rlink delivery msg iter = r at hr hrs hz
      have hlink : (rx_ingress_outcome r delivery).link = r.s.link :=
        rx_ingress_outcome_link r delivery
      refine ⟨fun l => ?_, fun x => ?_, ?_⟩
      · rw [hlink]
        exact hr.1 l
      · rw [← hr.2]
        unfold rx_ingress_outcome
        split_ifs
        · exact (qd_delivery_free_freed _ _ _).2.2 x
        · exact (qd_delivery_free_freed _ _ _).2.2 x
        · exact (qd_delivery_free_freed _ _ _).2.2 x
      · unfold rx_ingress_outcome
        split_ifs with h1 h2
        · exact Or.inr (Or.inl (qd_delivery_free_freed _ _ _).1)
        · exact Or.inl (hz h2)
        · exact Or.inr (Or.inr (qd_delivery_free_freed _ _ _).1)
  · exact hsame _ rfl (fun x => (qd_delivery_free_freed _ _ _).2.2 x)

/-- Claim C24: when the ingress delivery is already settled, every routed
event that `router_rx_handler` appends to the `msg_fifo` of any link carries no
delivery, the status FIFOs are untouched and no delivery gets a peer; whenever
the `msg_fifo` of at least one link has changed, the ingress delivery is
freed in the state that the invocation leaves (with `PN_ACCEPTED` or with
disposition 0).  An event without delivery makes `router_writable_link_handler`
peer nothing: the send step leaves the peer of every existing delivery as it
was, and the delivery it creates has no peer. -/
theorem C24_settled_never_peered (s : qd_router_t) (link delivery : Nat) (msg : qd_message_t)
    (hset : qd_delivery_settled s delivery = true) :
    (∀ l, ∃ evs : List qd_routed_event_t,
      ((router_rx_handler s link delivery (some msg)).link l).msg_fifo
        = (s.link l).msg_fifo ++ evs ∧ (∀ e ∈ evs, e.delivery = none) ∧
      ((router_rx_handler s link delivery (some msg)).link l).event_fifo
        = (s.link l).event_fifo) ∧
    (∀ x, ((router_rx_handler s link delivery (some msg)).delivery x).peer
      = (s.delivery x).peer) ∧
    ((∃ l, ((router_rx_handler s link delivery (some msg)).link l).msg_fifo
        ≠ (s.link l).msg_fifo) →
      ((router_rx_handler s link delivery (some msg)).delivery delivery).freed
          = some PN_ACCEPTED ∨
        ((router_rx_handler s link delivery (some msg)).delivery delivery).freed = some 0) ∧
    (∀ (out : Nat) (re : qd_routed_event_t) (acc : writable_locals), re.delivery = none →
      ((writable_send_body out re acc).s.delivery acc.s.delivery_next).peer = none ∧
      ∀ x, x < acc.s.delivery_next →
        ((writable_send_body out re acc).s.delivery x).peer = (acc.s.delivery x).peer) := by
  obtain ⟨c1, -, c3, -, -⟩ := rx_consume_frame s link
  have hset' : qd_delivery_settled (rx_consume s link) delivery = true := by
    unfold qd_delivery_settled
    rw [c3]
    exact hset
  have key : (∀ l, ∃ evs : List qd_routed_event_t,
      ((router_rx_handler s link delivery (some msg)).link l).msg_fifo
        = (s.link l).msg_fifo ++ evs ∧ (∀ e ∈ evs, e.delivery = none) ∧
      ((router_rx_handler s link delivery (some msg)).link l).event_fifo
        = (s.link l).event_fifo) ∧
    (∀ x, ((router_rx_handler s link delivery (some msg)).delivery x).peer
      = (s.delivery x).peer) ∧
    ((router_rx_handler s link delivery (some msg)).link = s.link ∨
      ((router_rx_handler s link delivery (some msg)).delivery delivery).freed
          = some PN_ACCEPTED ∨
        ((router_rx_handler s link delivery (some msg)).delivery delivery).freed = some 0) := by
    unfold router_rx_handler
    simp only
    cases hconn : ((rx_consume s link).link link).connected_link with
    | some clink =>
      simp only
      unfold rx_link_routing
      simp only [hset', if_true]
      have henq := appends_unpeered_enqueue (rx_consume s link) clink
        { delivery := none, message := some msg, settle := false, disposition := 0 } rfl
      refine ⟨fun l => ?_, fun x => ?_, Or.inr (Or.inr ?_)⟩
      · have := henq.1 l
        rw [c1] at this
        exact this
      · have := (qd_delivery_free_freed (msg_fifo_insert_tail (rx_consume s link) clink
          { delivery := none, message := some msg, settle := false, disposition := 0 })
          delivery 0).2.2 x
        rw [henq.2, c3] at this
        exact this
      · exact (qd_delivery_free_freed _ _ _).1
    | none =>
      simp only
      obtain ⟨r1, r2, r3⟩ := rx_message_routing_settled (rx_consume s link) link delivery msg hset'
      rw [c1] at r1 r3
      rw [c3] at r2
      cases (rx_message_routing (rx_consume s link) link delivery msg).handler with
      | none => exact ⟨r1, r2, r3⟩
      | some h => exact ⟨r1, r2, r3⟩
  refine ⟨key.1, key.2.1, ?_, ?_⟩
  · rintro ⟨l, hl⟩
    rcases key.2.2 with h | h
    · exact absurd (by rw [h]) hl
    · exact h
  · intro out re acc hre
    refine ⟨((writable_send_body_new out re acc).2.2 hre).2, fun x hx => ?_⟩
    rw [writable_send_body_other out re acc x hx (by rw [hre]; simp)]

theorem C24_settled_never_peered_witness :
    qd_delivery_settled router_presettled 5 = true ∧
    ((router_rx_handler router_presettled 1 5 (some msg_svc)).link 2).msg_fifo.map
      (fun e => e.delivery) = [none] ∧
    ((router_rx_handler router_presettled 1 5 (some msg_svc)).delivery 5).freed = some 0 ∧
    (∀ x, ((router_rx_handler router_presettled 1 5 (some msg_svc)).delivery x).peer
      = (router_presettled.delivery x).peer) :=
  ⟨by decide, by decide, by decide,
    (C24_settled_never_peered router_presettled 1 5 msg_svc (by decide)).2.1⟩

/-! ## Exact fan-out of `qd_router_send` -/

theorem countP_first (bits : List Int) (P : Int → Bool) (b : Int) :
    bits.Nodup → b ∈ bits →
    bits.countP P = (if P b = true then 1 else 0)
      + (bits.filter (fun x => decide (x ≠ b))).countP P := by
  induction bits with
  | nil => intro _ hb; cases hb
  | cons x xs ih =>
    intro hnd hb
    obtain ⟨hx, hxs⟩ := List.nodup_cons.mp hnd
    by_cases hxb : x = b
    · subst hxb
      have hfilter : xs.filter (fun y => decide (y ≠ x)) = xs := by
        rw [List.filter_eq_self]
        intro y hy
        simp only [ne_eq, decide_not, Bool.not_eq_true', decide_eq_false_iff_not]
        intro e
        exact hx (e ▸ hy)
      rw [List.countP_cons, List.filter_cons]
      simp only [ne_eq, not_true_eq_false, decide_False, Bool.false_eq_true, if_false]
      have hfilter' : xs.filter (fun y => !decide (y = x)) = xs := by
        simpa using hfilter
      simp only [decide_not, hfilter']
      omega
    · have hbxs : b ∈ xs := by
        rcases List.mem_cons.mp hb with h | h
        · exact absurd h.symm hxb
        · exact h
      rw [List.countP_cons, List.filter_cons, ih hxs hbxs]
      simp only [ne_eq, hxb, not_false_eq_true, decide_True, if_true, List.countP_cons]
      omega

theorem countP_unique (bits : List Int) (P : Int → Bool) (m : Int)
    (hP : ∀ b, P b = true → b = m) :
    bits.Nodup → bits.countP P = if m ∈ bits ∧ P m = true then 1 else 0 := by
  induction bits with
  | nil => intro _; simp
  | cons x xs ih =>
    intro hnd
    obtain ⟨hx, hxs⟩ := List.nodup_cons.mp hnd
    rw [List.countP_cons, ih hxs]
    by_cases hpx : P x = true
    · have hxm := hP x hpx
      subst hxm
      simp [hx, hpx]
    · by_cases hmx : m = x
      · subst hmx
        simp [hpx]
      · simp [hpx, hmx]

theorem qd_bitmask_set_bit_nodup (ls : qd_bitmask_t) (b : Int) (h : ls.bits.Nodup) :
    (qd_bitmask_set_bit ls b).bits.Nodup := by
  unfold qd_bitmask_set_bit
  split_ifs with hb
  · exact h
  · exact List.nodup_cons.mpr ⟨hb, h⟩

theorem qd_bitmask_clear_bit_nodup (ls : qd_bitmask_t) (b : Int) (h : ls.bits.Nodup) :
    (qd_bitmask_clear_bit ls b).bits.Nodup :=
  h.filter _

theorem qd_bitmask_first_set_none (ls : qd_bitmask_t) (h : qd_bitmask_first_set ls = none) :
    ls.bits = [] := by
  unfold qd_bitmask_first_set at h
  cases hb : ls.bits with
  | nil => rfl
  | cons x xs => rw [hb] at h; cases h

theorem send_link_set_nodup (s : qd_router_t) (nodes : List Nat) :
    ∀ link_set : qd_bitmask_t, link_set.bits.Nodup →
      (send_link_set s nodes link_set).bits.Nodup := by
  induction nodes with
  | nil => intro link_set h; exact h
  | cons n rest ih =>
    intro link_set h
    simp only [send_link_set]
    cases rx_dest_link s n with
    | none => exact ih _ h
    | some dl => exact ih _ (qd_bitmask_set_bit_nodup _ _ h)

/-- The bits of the link set of `qd_router_send`: the mask bits of the links
towards the destination nodes, whatever their `valid_origins`. -/
theorem send_link_set_mem (s : qd_router_t) (nodes : List Nat) (x : Int) :
    ∀ link_set, x ∈ (send_link_set s nodes link_set).bits ↔
      x ∈ link_set.bits ∨
      ∃ X ∈ nodes, ∃ dl, rx_dest_link s X = some dl ∧ (s.link dl).mask_bit = x := by
  induction nodes with
  | nil => intro link_set; simp [send_link_set]
  | cons n rest ih =>
    intro link_set
    simp only [send_link_set, ih, List.mem_cons, exists_eq_or_imp]
    cases hd : rx_dest_link s n with
    | none => simp
    | some dl =>
      simp only [qd_bitmask_mem_set_bit, Option.some.injEq, exists_eq_left']
      constructor
      · rintro ((h | h) | h)
        · exact Or.inr (Or.inl h.symm)
        · exact Or.inl h
        · exact Or.inr (Or.inr h)
      · rintro (h | h | h)
        · exact Or.inl (Or.inr h)
        · exact Or.inl (Or.inl h.symm)
        · exact Or.inr h

theorem send_link_set_frame {s s' : qd_router_t} (hnode : s'.node = s.node)
    (hbit : ∀ l, (s'.link l).mask_bit = (s.link l).mask_bit) (nodes : List Nat) :
    ∀ link_set, send_link_set s' nodes link_set = send_link_set s nodes link_set := by
  have hdest : ∀ n, rx_dest_link s' n = rx_dest_link s n := by
    intro n
    simp [rx_dest_link, hnode]
  induction nodes with
  | nil => intro link_set; rfl
  | cons x rest ih =>
    intro link_set
    simp only [send_link_set, hdest, hbit, ih]

/-- One pass of the local loop of `qd_router_send`, exactly. -/
theorem send_local_body_exact (msg : qd_message_t) (addr dest_link : Nat) (s : qd_router_t)
    (l : Nat) :
    ((send_local_body msg addr dest_link s).link l).msg_fifo
      = (s.link l).msg_fifo ++ (if dest_link = l then [send_routed_event msg] else []) ∧
    ((send_local_body msg addr dest_link s).address addr).deliveries_egress
      = uint64_wrap ((s.address addr).deliveries_egress + 1) ∧
    ((send_local_body msg addr dest_link s).address addr).deliveries_transit
      = (s.address addr).deliveries_transit ∧
    ((send_local_body msg addr dest_link s).address addr).deliveries_from_container
      = (s.address addr).deliveries_from_container ∧
    (send_local_body msg addr dest_link s).calls = s.calls ++ [.qd_link_activate dest_link] := by
  refine ⟨?_, ?_, ?_, ?_, ?_⟩
  · by_cases h : dest_link = l
    · subst h
      simp [send_local_body, msg_fifo_insert_tail, qd_link_activate, log_call, incr_egress,
        set_address]
    · have h' : l ≠ dest_link := fun e => h e.symm
      simp [send_local_body, msg_fifo_insert_tail, qd_link_activate, log_call, incr_egress,
        set_address, h, h']
  · simp [send_local_body, msg_fifo_insert_tail, qd_link_activate, log_call, incr_egress,
      set_address]
  · simp [send_local_body, msg_fifo_insert_tail, qd_link_activate, log_call, incr_egress,
      set_address]
  · simp [send_local_body, msg_fifo_insert_tail, qd_link_activate, log_call, incr_egress,
      set_address]
  · simp [send_local_body, msg_fifo_insert_tail, qd_link_activate, log_call, incr_egress,
      set_address]

/-- The local loop of `qd_router_send`, exactly: one event per occurrence in
`rlinks`, activations in `rlinks` order. -/
theorem send_forward_local_exact (msg : qd_message_t) (addr : Nat) (ls : List Nat) (l : Nat) :
    ∀ s : qd_router_t,
      ((send_forward_local msg addr ls s).link l).msg_fifo
        = (s.link l).msg_fifo ++ List.replicate (ls.count l) (send_routed_event msg) ∧
      ((send_forward_local msg addr ls s).address addr).deliveries_egress
        = uint64_incr (s.address addr).deliveries_egress ls.length ∧
      ((send_forward_local msg addr ls s).address addr).deliveries_transit
        = (s.address addr).deliveries_transit ∧
      ((send_forward_local msg addr ls s).address addr).deliveries_from_container
        = (s.address addr).deliveries_from_container ∧
      (send_forward_local msg addr ls s).calls
        = s.calls ++ ls.map (fun x => qd_call.qd_link_activate x) := by
  induction ls with
  | nil => intro s; simp [send_forward_local, uint64_incr_zero]
  | cons d rest ih =>
    intro s
    obtain ⟨b1, b2, b3, b4, b5⟩ := send_local_body_exact msg addr d s l
    obtain ⟨i1, i2, i3, i4, i5⟩ := ih (send_local_body msg addr d s)
    simp only [send_forward_local]
    refine ⟨?_, ?_, ?_, ?_, ?_⟩
    · rw [i1, b1, List.append_assoc]
      congr 1
      by_cases h : d = l
      · subst h
        simp [List.replicate_succ]
      · have h' : (d == l) = false := by simpa using h
        simp [h, List.count_cons, h']
    · rw [i2, b2, List.length_cons, uint64_incr_first]
    · rw [i3, b3]
    · rw [i4, b4]
    · rw [i5, b5]
      simp

/-- One pass of the remote loop of `qd_router_send`, exactly. -/
theorem send_remote_body_exact (msg : qd_message_t) (addr : Nat) (link_bit : Int)
    (s : qd_router_t) (l : Nat) :
    ((send_remote_body msg addr link_bit s).link l).msg_fifo
      = (s.link l).msg_fifo ++
        (if s.out_links_by_mask_bit link_bit = some l then [send_routed_event msg] else []) ∧
    ((send_remote_body msg addr link_bit s).address addr).deliveries_transit
      = uint64_incr (s.address addr).deliveries_transit
          (if (s.out_links_by_mask_bit link_bit).isSome = true then 1 else 0) ∧
    ((send_remote_body msg addr link_bit s).address addr).deliveries_egress
      = (s.address addr).deliveries_egress ∧
    ((send_remote_body msg addr link_bit s).address addr).deliveries_from_container
      = (s.address addr).deliveries_from_container := by
  unfold send_remote_body
  cases hidx : s.out_links_by_mask_bit link_bit with
  | none => simp [uint64_incr_zero]
  | some dest =>
    refine ⟨?_, ?_, ?_, ?_⟩
    · by_cases h : dest = l
      · subst h
        simp [msg_fifo_insert_tail, qd_link_activate, log_call, incr_transit, set_address]
      · have h' : l ≠ dest := fun e => h e.symm
        simp [msg_fifo_insert_tail, qd_link_activate, log_call, incr_transit, set_address, h, h']
    · simp [msg_fifo_insert_tail, qd_link_activate, log_call, incr_transit, set_address,
        uint64_incr_one]
    · simp [msg_fifo_insert_tail, qd_link_activate, log_call, incr_transit, set_address]
    · simp [msg_fifo_insert_tail, qd_link_activate, log_call, incr_transit, set_address]

/-- The remote loop of `qd_router_send`, exactly: every bit of the link set
is visited once, and each bit with an entry in `out_links_by_mask_bit` puts
one event on the link stored there. -/
theorem send_forward_remote_exact (msg : qd_message_t) (addr : Nat) (l : Nat) (n : Nat) :
    ∀ (link_set : qd_bitmask_t) (s : qd_router_t),
      link_set.bits.Nodup → link_set.bits.length ≤ n →
      ((send_forward_remote msg addr n link_set s).link l).msg_fifo
        = (s.link l).msg_fifo ++ List.replicate
            (link_set.bits.countP (fun b => decide (s.out_links_by_mask_bit b = some l)))
            (send_routed_event msg) ∧
      ((send_forward_remote msg addr n link_set s).address addr).deliveries_transit
        = uint64_incr (s.address addr).deliveries_transit
            (link_set.bits.countP (fun b => (s.out_links_by_mask_bit b).isSome)) ∧
      ((send_forward_remote msg addr n link_set s).address addr).deliveries_egress
        = (s.address addr).deliveries_egress ∧
      ((send_forward_remote msg addr n link_set s).address addr).deliveries_from_container
        = (s.address addr).deliveries_from_container := by
  induction n with
  | zero =>
    intro link_set s _ hlen
    have hnil : link_set.bits = [] := List.length_eq_zero.mp (Nat.le_zero.mp hlen)
    simp [send_forward_remote, hnil, uint64_incr_zero]
  | succ n ih =>
    intro link_set s hnd hlen
    simp only [send_forward_remote]
    cases hfirst : qd_bitmask_first_set link_set with
    | none =>
      have hnil := qd_bitmask_first_set_none link_set hfirst
      simp [hnil, uint64_incr_zero]
    | some b =>
      have hb := qd_bitmask_first_set_mem link_set b hfirst
      have hlt := qd_bitmask_clear_bit_length link_set b hb
      obtain ⟨b1, b2, b3, b4⟩ := send_remote_body_exact msg addr b s l
      have hout := (send_remote_body_frame msg addr b s).out_links
      obtain ⟨i1, i2, i3, i4⟩ := ih (qd_bitmask_clear_bit link_set b)
        (send_remote_body msg addr b s) (qd_bitmask_clear_bit_nodup link_set b hnd) (by omega)
      simp only
      rw [hout] at i1 i2
      have hc1 := countP_first link_set.bits
        (fun x => decide (s.out_links_by_mask_bit x = some l)) b hnd hb
      have hc2 := countP_first link_set.bits
        (fun x => (s.out_links_by_mask_bit x).isSome) b hnd hb
      have hclear : (qd_bitmask_clear_bit link_set b).bits
          = link_set.bits.filter (fun x => decide (x ≠ b)) := rfl
      rw [hclear] at i1 i2
      beta_reduce at hc1 hc2
      refine ⟨?_, ?_, ?_, ?_⟩
      · rw [i1, b1, hc1, List.append_assoc]
        congr 1
        by_cases h : s.out_links_by_mask_bit b = some l
        · simp only [h, decide_True, if_true]
          rw [Nat.add_comm, List.replicate_succ]
          rfl
        · simp only [h, decide_False, if_false, Bool.false_eq_true, Nat.zero_add,
            List.nil_append]
      · rw [i2, b2, hc2, uint64_incr_add]
      · rw [i3, b3]
      · rw [i4, b4]

theorem incr_from_container_fields (s : qd_router_t) (a : Nat) :
    (incr_from_container s a).link = s.link ∧
    (incr_from_container s a).node = s.node ∧
    (incr_from_container s a).out_links_by_mask_bit = s.out_links_by_mask_bit ∧
    (incr_from_container s a).calls = s.calls ∧
    ((incr_from_container s a).address a).rlinks = (s.address a).rlinks ∧
    ((incr_from_container s a).address a).rnodes = (s.address a).rnodes ∧
    ((incr_from_container s a).address a).deliveries_from_container
      = uint64_wrap ((s.address a).deliveries_from_container + 1) ∧
    ((incr_from_container s a).address a).deliveries_egress
      = (s.address a).deliveries_egress ∧
    ((incr_from_container s a).address a).deliveries_transit
      = (s.address a).deliveries_transit := by
  simp [incr_from_container, set_address]

/-- Claim C28: when `qd_router_send` finds the address record `a`, it appends
to the `msg_fifo` of every link `l` as many copies of one message event
without delivery as `l` occurs in `a.rlinks` plus the number of bits of
the link set whose entry in `out_links_by_mask_bit` is `l`; the link set holds
exactly the mask bits of the links towards the nodes of `a.rnodes`, whatever
their `valid_origins`, each once.  The local links are activated in `rlinks`
order, `deliveries_from_container++` is executed once, `deliveries_egress++`
once per link of `rlinks` and `deliveries_transit++` once per bit with an
entry, that is, once per remote copy; the counters are 64 bits wide, so each
holds its old value after that many increments modulo `2^64`
(`uint64_incr`), and whenever the sum stays below `2^64` it grows by exactly
1, by the length of `rlinks` and by the number of remote copies.  When every
entry of
`out_links_by_mask_bit` is indexed by the mask bit of its link, a link gets at
most one remote copy, and gets one exactly when it is the entry for the link
of some node of `a.rnodes`.  When the address is not found the state is
unchanged. -/
theorem C28_router_send_fan_out (s : qd_router_t) (address : qd_field_iterator_t)
    (msg : qd_message_t) :
    (∀ a, qd_hash_retrieve s.addr_hash address.address_hash = some a →
      (send_routed_event msg).delivery = none ∧
      (send_routed_event msg).message = some (qd_message_copy msg) ∧
      (∀ x, x ∈ (send_link_set s (s.address a).rnodes qd_bitmask_empty).bits ↔
        ∃ X ∈ (s.address a).rnodes, ∃ dl,
          rx_dest_link s X = some dl ∧ (s.link dl).mask_bit = x) ∧
      (send_link_set s (s.address a).rnodes qd_bitmask_empty).bits.Nodup ∧
      (∀ l, ((qd_router_send s address msg).link l).msg_fifo
        = (s.link l).msg_fifo ++ List.replicate
            ((s.address a).rlinks.count l
              + (send_link_set s (s.address a).rnodes qd_bitmask_empty).bits.countP
                  (fun b => decide (s.out_links_by_mask_bit b = some l)))
            (send_routed_event msg)) ∧
      ((qd_router_send s address msg).address a).deliveries_from_container
        = uint64_wrap ((s.address a).deliveries_from_container + 1) ∧
      ((qd_router_send s address msg).address a).deliveries_egress
        = uint64_incr (s.address a).deliveries_egress (s.address a).rlinks.length ∧
      ((qd_router_send s address msg).address a).deliveries_transit
        = uint64_incr (s.address a).deliveries_transit
            ((send_link_set s (s.address a).rnodes qd_bitmask_empty).bits.countP
              (fun b => (s.out_links_by_mask_bit b).isSome)) ∧
      ((s.address a).deliveries_from_container + 1 < 2 ^ 64 →
        ((qd_router_send s address msg).address a).deliveries_from_container
          = (s.address a).deliveries_from_container + 1) ∧
      ((s.address a).deliveries_egress + (s.address a).rlinks.length < 2 ^ 64 →
        ((qd_router_send s address msg).address a).deliveries_egress
          = (s.address a).deliveries_egress + (s.address a).rlinks.length) ∧
      ((s.address a).deliveries_transit
          + (send_link_set s (s.address a).rnodes qd_bitmask_empty).bits.countP
              (fun b => (s.out_links_by_mask_bit b).isSome) < 2 ^ 64 →
        ((qd_router_send s address msg).address a).deliveries_transit
          = (s.address a).deliveries_transit
            + (send_link_set s (s.address a).rnodes qd_bitmask_empty).bits.countP
                (fun b => (s.out_links_by_mask_bit b).isSome)) ∧
      (∃ cs, (qd_router_send s address msg).calls
          = s.calls ++ (s.address a).rlinks.map (fun x => qd_call.qd_link_activate x) ++ cs ∧
        ∀ c ∈ cs, ∃ l, c = qd_call.qd_link_activate l) ∧
      (out_links_indexed s → ∀ l,
        (send_link_set s (s.address a).rnodes qd_bitmask_empty).bits.countP
            (fun b => decide (s.out_links_by_mask_bit b = some l)) ≤ 1 ∧
        ((send_link_set s (s.address a).rnodes qd_bitmask_empty).bits.countP
            (fun b => decide (s.out_links_by_mask_bit b = some l)) = 1 ↔
          ∃ X ∈ (s.address a).rnodes, ∃ dl, rx_dest_link s X = some dl ∧
            s.out_links_by_mask_bit (s.link dl).mask_bit = some l))) ∧
    (qd_hash_retrieve s.addr_hash address.address_hash = none →
      qd_router_send s address msg = s) := by
  refine ⟨?_, ?_⟩
  · intro a hret
    obtain ⟨f1, f2, f3, f4, f5, f6, f7, f8, f9⟩ := incr_from_container_fields s a
    have hmem : ∀ x, x ∈ (send_link_set s (s.address a).rnodes qd_bitmask_empty).bits ↔
        ∃ X ∈ (s.address a).rnodes, ∃ dl,
          rx_dest_link s X = some dl ∧ (s.link dl).mask_bit = x := by
      intro x
      rw [send_link_set_mem]
      simp [qd_bitmask_empty]
    have hnd : (send_link_set s (s.address a).rnodes qd_bitmask_empty).bits.Nodup :=
      send_link_set_nodup s _ _ (by simp [qd_bitmask_empty])
    have hfl := send_forward_local_frame msg a (s.address a).rlinks (incr_from_container s a)
    have hset : send_link_set
        (send_forward_local msg a (s.address a).rlinks (incr_from_container s a))
        ((send_forward_local msg a (s.address a).rlinks (incr_from_container s a)).address
          a).rnodes qd_bitmask_empty
        = send_link_set s (s.address a).rnodes qd_bitmask_empty := by
      rw [hfl.route.rnodes a, f6]
      exact send_link_set_frame (hfl.node.trans f2)
        (fun l => (hfl.route.mask_bit l).trans (by rw [f1])) _ _
    have hsend : qd_router_send s address msg
        = send_forward_remote msg a
            (send_link_set s (s.address a).rnodes qd_bitmask_empty).bits.length
            (send_link_set s (s.address a).rnodes qd_bitmask_empty)
            (send_forward_local msg a (s.address a).rlinks (incr_from_container s a)) := by
      unfold qd_router_send
      simp only [hret, f5]
      rw [hset]
    have hout : (send_forward_local msg a (s.address a).rlinks
        (incr_from_container s a)).out_links_by_mask_bit = s.out_links_by_mask_bit :=
      hfl.out_links.trans f3
    have hfr := send_forward_remote_frame msg a
      (send_link_set s (s.address a).rnodes qd_bitmask_empty).bits.length
      (send_link_set s (s.address a).rnodes qd_bitmask_empty)
      (send_forward_local msg a (s.address a).rlinks (incr_from_container s a))
    have hfc : ((qd_router_send s address msg).address a).deliveries_from_container
        = uint64_wrap ((s.address a).deliveries_from_container + 1) := by
      obtain ⟨-, -, -, r4⟩ := send_forward_remote_exact msg a 0 _
        (send_link_set s (s.address a).rnodes qd_bitmask_empty)
        (send_forward_local msg a (s.address a).rlinks (incr_from_container s a)) hnd
        (Nat.le_refl _)
      obtain ⟨-, -, -, l4, -⟩ := send_forward_local_exact msg a (s.address a).rlinks 0
        (incr_from_container s a)
      rw [hsend, r4, l4, f7]
    have heg : ((qd_router_send s address msg).address a).deliveries_egress
        = uint64_incr (s.address a).deliveries_egress (s.address a).rlinks.length := by
      obtain ⟨-, -, r3, -⟩ := send_forward_remote_exact msg a 0 _
        (send_link_set s (s.address a).rnodes qd_bitmask_empty)
        (send_forward_local msg a (s.address a).rlinks (incr_from_container s a)) hnd
        (Nat.le_refl _)
      obtain ⟨-, l2, -, -, -⟩ := send_forward_local_exact msg a (s.address a).rlinks 0
        (incr_from_container s a)
      rw [hsend, r3, l2, f8]
    have htr : ((qd_router_send s address msg).address a).deliveries_transit
        = uint64_incr (s.address a).deliveries_transit
            ((send_link_set s (s.address a).rnodes qd_bitmask_empty).bits.countP
              (fun b => (s.out_links_by_mask_bit b).isSome)) := by
      obtain ⟨-, r2, -, -⟩ := send_forward_remote_exact msg a 0 _
        (send_link_set s (s.address a).rnodes qd_bitmask_empty)
        (send_forward_local msg a (s.address a).rlinks (incr_from_container s a)) hnd
        (Nat.le_refl _)
      obtain ⟨-, -, l3, -, -⟩ := send_forward_local_exact msg a (s.address a).rlinks 0
        (incr_from_container s a)
      rw [hsend, r2, l3, f9, hout]
    refine ⟨rfl, rfl, hmem, hnd, ?_, hfc, heg, htr,
      fun hroom => hfc.trans (uint64_wrap_of_lt _ hroom),
      fun hroom => heg.trans (uint64_incr_of_lt _ _ hroom),
      fun hroom => htr.trans (uint64_incr_of_lt _ _ hroom), ?_, ?_⟩
    · intro l
      obtain ⟨r1, -, -, -⟩ := send_forward_remote_exact msg a l _
        (send_link_set s (s.address a).rnodes qd_bitmask_empty)
        (send_forward_local msg a (s.address a).rlinks (incr_from_container s a)) hnd
        (Nat.le_refl _)
      obtain ⟨l1, -, -, -, -⟩ := send_forward_local_exact msg a (s.address a).rlinks l
        (incr_from_container s a)
      rw [hsend, r1, l1, hout, f1, List.append_assoc, ← List.replicate_add]
    · obtain ⟨-, -, -, -, l5⟩ := send_forward_local_exact msg a (s.address a).rlinks 0
        (incr_from_container s a)
      obtain ⟨cs, hcs, hall⟩ := hfr.calls_grow
      refine ⟨cs, ?_, hall⟩
      rw [hsend, hcs, l5, f4]
    · intro hidx l
      have hP : ∀ b, (fun b => decide (s.out_links_by_mask_bit b = some l)) b = true →
          b = (s.link l).mask_bit := by
        intro b hb
        exact ((hidx b l (of_decide_eq_true hb)).2.1).symm
      have hc := countP_unique (send_link_set s (s.address a).rnodes qd_bitmask_empty).bits
        (fun b => decide (s.out_links_by_mask_bit b = some l)) (s.link l).mask_bit hP hnd
      beta_reduce at hc
      rw [hc]
      refine ⟨by split_ifs <;> omega, ?_⟩
      constructor
      · intro h1
        have hcond : (s.link l).mask_bit
              ∈ (send_link_set s (s.address a).rnodes qd_bitmask_empty).bits ∧
            decide (s.out_links_by_mask_bit (s.link l).mask_bit = some l) = true := by
          by_contra hn
          rw [if_neg hn] at h1
          omega
        obtain ⟨X, hX, dl, hdl, hbit⟩ := (hmem _).mp hcond.1
        exact ⟨X, hX, dl, hdl, by rw [hbit]; exact of_decide_eq_true hcond.2⟩
      · rintro ⟨X, hX, dl, hdl, hentry⟩
        have hbit : (s.link l).mask_bit = (s.link dl).mask_bit := (hidx _ l hentry).2.1
        rw [if_pos]
        refine ⟨(hmem _).mpr ⟨X, hX, dl, hdl, hbit.symm⟩, ?_⟩
        rw [hbit]
        exact decide_eq_true hentry
  · intro hret
    unfold qd_router_send
    rw [hret]

theorem C28_router_send_fan_out_witness :
    qd_hash_retrieve router_origin_filter.addr_hash iter_svc.address_hash = some 1 ∧
    (router_origin_filter.address 1).rlinks = [2] ∧
    (send_link_set router_origin_filter (router_origin_filter.address 1).rnodes
      qd_bitmask_empty).bits = [7] ∧
    ((qd_router_send router_origin_filter iter_svc msg_svc).link 2).msg_fifo
      = [send_routed_event msg_svc] ∧
    ((qd_router_send router_origin_filter iter_svc msg_svc).link 70).msg_fifo
      = [send_routed_event msg_svc] ∧
    ((qd_router_send router_origin_filter iter_svc msg_svc).address 1).deliveries_transit = 1 ∧
    ((qd_router_send router_origin_filter iter_svc msg_svc).address 1).deliveries_from_container
      = (router_origin_filter.address 1).deliveries_from_container + 1 ∧
    qd_hash_retrieve blank_router.addr_hash iter_svc.address_hash = none ∧
    qd_router_send blank_router iter_svc msg_svc = blank_router :=
  ⟨rfl, rfl, by decide, by decide, by decide, by decide,
    ((C28_router_send_fan_out router_origin_filter iter_svc msg_svc).1 1 rfl).2.2.2.2.2.2.2.2.1
      (by decide),
    rfl, (C28_router_send_fan_out blank_router iter_svc msg_svc).2 rfl⟩

/-! ## The link that receives a transit copy -/

theorem rx_link_set_nodup (s : qd_router_t) (origin : Int) (nodes : List Nat) :
    ∀ link_set : qd_bitmask_t, link_set.bits.Nodup →
      (rx_link_set s origin nodes link_set).bits.Nodup := by
  induction nodes with
  | nil => intro link_set h; exact h
  | cons n rest ih =>
    intro link_set h
    simp only [rx_link_set]
    cases rx_dest_link s n with
    | none => exact ih _ h
    | some dl =>
      simp only
      split_ifs
      · exact ih _ (qd_bitmask_set_bit_nodup _ _ h)
      · exact ih _ h

/-- One pass of the remote loop of `router_rx_handler`, link by link. -/
theorem rx_remote_body_count (msg : qd_message_t) (delivery addr : Nat) (link_bit : Int)
    (acc : qd_router_t × Nat) (l : Nat) :
    (∃ evs : List qd_routed_event_t,
      ((rx_remote_body msg delivery addr link_bit acc).1.link l).msg_fifo
        = (acc.1.link l).msg_fifo ++ evs ∧
      evs.length = (if acc.1.out_links_by_mask_bit link_bit = some l then 1 else 0) ∧
      ∀ e ∈ evs, e.message = some msg) ∧
    ((rx_remote_body msg delivery addr link_bit acc).1.address addr).deliveries_transit
      = uint64_incr (acc.1.address addr).deliveries_transit
          (if (acc.1.out_links_by_mask_bit link_bit).isSome = true then 1 else 0) := by
  cases hidx : acc.1.out_links_by_mask_bit link_bit with
  | none =>
    have hbody : rx_remote_body msg delivery addr link_bit acc = acc := by
      simp [rx_remote_body, hidx]
    rw [hbody]
    exact ⟨⟨[], by simp, by simp, by simp⟩, by simp [uint64_incr_zero]⟩
  | some dest =>
    obtain ⟨h1, h2, h3, -⟩ := rx_remote_body_indexed msg delivery addr link_bit acc dest hidx
    refine ⟨?_, by rw [h3]; simp [uint64_incr_one]⟩
    by_cases hl : dest = l
    · subst hl
      refine ⟨[rx_routed_event acc.1 msg delivery (acc.2 + 1)], h1, by simp, ?_⟩
      intro e he
      rw [List.mem_singleton.mp he]
      rfl
    · have hl' : l ≠ dest := fun e => hl e.symm
      refine ⟨[], by rw [h2 l hl']; simp, ?_, by simp⟩
      have hne : ¬ (some dest = some l) := fun e => hl (Option.some.inj e)
      simp [hne]

/-- The remote loop of `router_rx_handler`, exactly: every bit of the link
set is visited once, and each bit with an entry in `out_links_by_mask_bit`
puts one copy on the link stored there. -/
theorem rx_forward_remote_count (msg : qd_message_t) (delivery addr : Nat) (l : Nat) (n : Nat) :
    ∀ (link_set : qd_bitmask_t) (acc : qd_router_t × Nat),
      link_set.bits.Nodup → link_set.bits.length ≤ n →
      (∃ evs : List qd_routed_event_t,
        ((rx_forward_remote msg delivery addr n link_set acc).1.link l).msg_fifo
          = (acc.1.link l).msg_fifo ++ evs ∧
        evs.length
          = link_set.bits.countP (fun b => decide (acc.1.out_links_by_mask_bit b = some l)) ∧
        ∀ e ∈ evs, e.message = some msg) ∧
      ((rx_forward_remote msg delivery addr n link_set acc).1.address addr).deliveries_transit
        = uint64_incr (acc.1.address addr).deliveries_transit
            (link_set.bits.countP (fun b => (acc.1.out_links_by_mask_bit b).isSome)) := by
  induction n with
  | zero =>
    intro link_set acc _ hlen
    have hnil : link_set.bits = [] := List.length_eq_zero.mp (Nat.le_zero.mp hlen)
    simp only [rx_forward_remote, hnil, List.countP_nil, uint64_incr_zero, and_true]
    exact ⟨[], by simp, rfl, by simp⟩
  | succ n ih =>
    intro link_set acc hnd hlen
    simp only [rx_forward_remote]
    cases hfirst : qd_bitmask_first_set link_set with
    | none =>
      have hnil := qd_bitmask_first_set_none link_set hfirst
      simp only [hnil, List.countP_nil, uint64_incr_zero, and_true]
      exact ⟨[], by simp, rfl, by simp⟩
    | some b =>
      have hb := qd_bitmask_first_set_mem link_set b hfirst
      have hlt := qd_bitmask_clear_bit_length link_set b hb
      obtain ⟨⟨e1, b1, b2, b3⟩, b4⟩ := rx_remote_body_count msg delivery addr b acc l
      have hout := (rx_remote_body_frame msg delivery addr b acc).out_links
      obtain ⟨⟨e2, i1, i2, i3⟩, i4⟩ := ih (qd_bitmask_clear_bit link_set b)
        (rx_remote_body msg delivery addr b acc) (qd_bitmask_clear_bit_nodup link_set b hnd)
        (by omega)
      simp only
      rw [hout] at i2 i4
      have hc1 := countP_first link_set.bits
        (fun x => decide (acc.1.out_links_by_mask_bit x = some l)) b hnd hb
      have hc2 := countP_first link_set.bits
        (fun x => (acc.1.out_links_by_mask_bit x).isSome) b hnd hb
      have hclear : (qd_bitmask_clear_bit link_set b).bits
          = link_set.bits.filter (fun x => decide (x ≠ b)) := rfl
      rw [hclear] at i2 i4
      beta_reduce at hc1 hc2
      refine ⟨⟨e1 ++ e2, by rw [i1, b1, List.append_assoc], ?_, ?_⟩, ?_⟩
      · rw [List.length_append, b2, i2, hc1]
        by_cases h : acc.1.out_links_by_mask_bit b = some l
        · simp [h]
        · simp [h]
      · intro e he
        rcases List.mem_append.mp he with h | h
        · exact b3 e h
        · exact i3 e h
      · rw [i4, b4, hc2, uint64_incr_add]

/-- Claim C26 as written does not hold: on `router_peer_not_indexed` the
destination node 3 of `svc` has no next hop, its `peer_link` is link 50 and it
passes the `valid_origins` check for origin 0, yet one invocation of
`router_rx_handler` leaves the `msg_fifo` of link 50 empty and enqueues the
transit copy on link 70, the entry of `out_links_by_mask_bit` for the mask bit
7 of link 50. -/
theorem C26_counterexample :
    (router_peer_not_indexed.link 1).connected_link = none ∧
    qd_message_check msg_svc = true ∧
    rx_resolved router_peer_not_indexed msg_svc = some 1 ∧
    (router_peer_not_indexed.address 1).rnodes = [3] ∧
    (router_peer_not_indexed.node 3).next_hop = none ∧
    (router_peer_not_indexed.node 3).peer_link = some 50 ∧
    rx_origin router_peer_not_indexed (rx_ingress_iter router_peer_not_indexed msg_svc) 1 = 0 ∧
    qd_bitmask_value (router_peer_not_indexed.node 3).valid_origins 0 = true ∧
    (router_peer_not_indexed.link 50).mask_bit = 7 ∧
    router_peer_not_indexed.out_links_by_mask_bit 7 = some 70 ∧
    ((router_rx_handler router_peer_not_indexed 1 5 (some msg_svc)).link 50).msg_fifo = [] ∧
    ((router_rx_handler router_peer_not_indexed 1 5 (some msg_svc)).link 70).msg_fifo.map
      (fun e => e.message) = [some (rx_annotated router_peer_not_indexed msg_svc)] ∧
    ((router_rx_handler router_peer_not_indexed 1 5 (some msg_svc)).address
      1).deliveries_transit = 1 := by
  refine ⟨rfl, rfl, rfl, rfl, rfl, rfl, by decide, by decide, rfl, rfl, by decide, by decide,
    by decide⟩

/-- Claim C26, amended: in the remote fan-out of `router_rx_handler` the link
`L` towards a destination node `X` is `X.next_hop.peer_link` when `X.next_hop`
is set and `X.peer_link` otherwise, and for every `X` of `addr.rnodes` that
passes the `valid_origins` check the transit copy is enqueued onto the
`msg_fifo` of the link stored in `out_links_by_mask_bit[L.mask_bit]`: that is
`L` itself when `L` is indexed under its own mask bit, and no copy is enqueued
on account of `X` when the entry is empty.  Exactly: every link `l` receives,
after its copies as a local link, one transit copy for each bit of the link
set whose entry is `l`, the link set holding once each the mask bits of the
links towards the passing nodes; `deliveries_transit++` is executed once per
bit with an entry (the 64-bit counter holds its old value after that many
increments modulo `2^64`, so it grows by that number whenever the sum stays
below `2^64`); and when every entry of `out_links_by_mask_bit` is indexed
by the mask bit of its link, a link gets at most one transit copy, and gets
one exactly when it is the entry for the link towards some passing node. -/
theorem C26_transit_copy_link (s : qd_router_t) (link delivery : Nat) (msg : qd_message_t)
    (iter : qd_field_iterator_t) (a : Nat)
    (hconn : (s.link link).connected_link = none)
    (hvalid : qd_message_check msg = true)
    (hto : qd_message_field_iterator_to msg = some iter)
    (hret : qd_hash_retrieve s.addr_hash iter.address_hash = some a)
    (hnodrop : ∀ it ∈ incoming_trace msg, it.all ≠ node_id s)
    (hlocal : qd_field_iterator_prefix iter.no_host local_prefix = false)
    (hdirect : qd_field_iterator_prefix iter.no_host ( direct_prefix s) = false)
    (horigin : 0 ≤ rx_origin s (rx_ingress_iter s msg) a) :
    (∀ X, (∀ nh, (s.node X).next_hop = some nh → rx_dest_link s X = (s.node nh).peer_link) ∧
      ((s.node X).next_hop = none → rx_dest_link s X = (s.node X).peer_link)) ∧
    (∀ x : Int, x ∈ (rx_link_set_of s msg a).bits ↔
      ∃ X ∈ (s.address a).rnodes,
        qd_bitmask_value (s.node X).valid_origins (rx_origin s (rx_ingress_iter s msg) a)
          = true ∧
        ∃ dl, rx_dest_link s X = some dl ∧ (s.link dl).mask_bit = x) ∧
    (rx_link_set_of s msg a).bits.Nodup ∧
    (∀ l, ∃ loc rem : List qd_routed_event_t,
      ((router_rx_handler s link delivery (some msg)).link l).msg_fifo
        = (s.link l).msg_fifo ++ loc ++ rem ∧
      loc.length = (s.address a).rlinks.count l ∧
      rem.length = (rx_link_set_of s msg a).bits.countP
        (fun b => decide (s.out_links_by_mask_bit b = some l)) ∧
      ∀ e ∈ loc ++ rem, e.message = some (rx_annotated s msg)) ∧
    ((router_rx_handler s link delivery (some msg)).address a).deliveries_transit
      = uint64_incr (s.address a).deliveries_transit
          ((rx_link_set_of s msg a).bits.countP
            (fun b => (s.out_links_by_mask_bit b).isSome)) ∧
    ((s.address a).deliveries_transit
        + (rx_link_set_of s msg a).bits.countP
            (fun b => (s.out_links_by_mask_bit b).isSome) < 2 ^ 64 →
      ((router_rx_handler s link delivery (some msg)).address a).deliveries_transit
        = (s.address a).deliveries_transit
          + (rx_link_set_of s msg a).bits.countP
              (fun b => (s.out_links_by_mask_bit b).isSome)) ∧
    (∀ X ∈ (s.address a).rnodes,
      qd_bitmask_value (s.node X).valid_origins (rx_origin s (rx_ingress_iter s msg) a)
        = true →
      ∀ L, rx_dest_link s X = some L →
        (∀ dest, s.out_links_by_mask_bit (s.link L).mask_bit = some dest →
          1 ≤ (rx_link_set_of s msg a).bits.countP
            (fun b => decide (s.out_links_by_mask_bit b = some dest))) ∧
        (s.out_links_by_mask_bit (s.link L).mask_bit = some L →
          1 ≤ (rx_link_set_of s msg a).bits.countP
            (fun b => decide (s.out_links_by_mask_bit b = some L)))) ∧
    (out_links_indexed s → ∀ l,
      (rx_link_set_of s msg a).bits.countP
          (fun b => decide (s.out_links_by_mask_bit b = some l)) ≤ 1 ∧
      ((rx_link_set_of s msg a).bits.countP
          (fun b => decide (s.out_links_by_mask_bit b = some l)) = 1 ↔
        ∃ X ∈ (s.address a).rnodes,
          qd_bitmask_value (s.node X).valid_origins (rx_origin s (rx_ingress_iter s msg) a)
            = true ∧
          ∃ dl, rx_dest_link s X = some dl ∧
            s.out_links_by_mask_bit (s.link dl).mask_bit = some l)) := by
  have hdrop : rx_drop s msg = false := by
    unfold rx_drop
    rw [router_annotate_message_drop]
    simpa using hnodrop
  have hmem : ∀ x : Int, x ∈ (rx_link_set_of s msg a).bits ↔
      ∃ X ∈ (s.address a).rnodes,
        qd_bitmask_value (s.node X).valid_origins (rx_origin s (rx_ingress_iter s msg) a)
          = true ∧
        ∃ dl, rx_dest_link s X = some dl ∧ (s.link dl).mask_bit = x := by
    intro x
    unfold rx_link_set_of
    rw [rx_link_set_mem]
    simp [qd_bitmask_empty]
  have hnd : (rx_link_set_of s msg a).bits.Nodup :=
    rx_link_set_nodup s _ _ _ (by simp [qd_bitmask_empty])
  have hf := rx_after_local_frame s link delivery msg a
  have hout : (rx_after_local s link delivery msg a).1.out_links_by_mask_bit
      = s.out_links_by_mask_bit := hf.out_links
  obtain ⟨hl, ha⟩ := router_rx_handler_routed_link s link delivery msg iter hconn hvalid hto
  have hfw := (rx_route_forwarded s link delivery msg iter a hret hdrop hlocal hdirect).1
  rw [rx_fan_out_remote_after_local, if_pos horigin] at hfw
  have hfw' : (rx_route (rx_consume s link) link delivery msg iter).s
      = (rx_forward_remote (rx_annotated s msg) delivery a (rx_link_set_of s msg a).bits.length
          (rx_link_set_of s msg a) (rx_after_local s link delivery msg a)).1 := hfw
  have htr : ((router_rx_handler s link delivery (some msg)).address a).deliveries_transit
      = uint64_incr (s.address a).deliveries_transit
          ((rx_link_set_of s msg a).bits.countP
            (fun b => (s.out_links_by_mask_bit b).isSome)) := by
    obtain ⟨-, r4⟩ := rx_forward_remote_count (rx_annotated s msg) delivery a 0 _
      (rx_link_set_of s msg a) (rx_after_local s link delivery msg a) hnd (Nat.le_refl _)
    rw [ha, hfw', r4, rx_after_local_transit, hout]
  refine ⟨?_, hmem, hnd, ?_, htr, fun hroom => htr.trans (uint64_incr_of_lt _ _ hroom), ?_, ?_⟩
  · intro X
    refine ⟨fun nh h => ?_, fun h => ?_⟩
    · simp [rx_dest_link, h]
    · simp [rx_dest_link, h]
  · intro l
    obtain ⟨⟨rem, r1, r2, r3⟩, -⟩ := rx_forward_remote_count (rx_annotated s msg) delivery a l _
      (rx_link_set_of s msg a) (rx_after_local s link delivery msg a) hnd (Nat.le_refl _)
    obtain ⟨loc, l1, l2, l3⟩ := rx_after_local_fifo s link delivery msg a l
    refine ⟨loc, rem, ?_, l2, ?_, ?_⟩
    · rw [hl, hfw', r1, l1]
    · rw [r2, hout]
    · intro e he
      rcases List.mem_append.mp he with h | h
      · exact l3 e h
      · exact r3 e h
  · intro X hX hv L hL
    have hbit : (s.link L).mask_bit ∈ (rx_link_set_of s msg a).bits :=
      (hmem _).mpr ⟨X, hX, hv, L, hL, rfl⟩
    have key : ∀ dest, s.out_links_by_mask_bit (s.link L).mask_bit = some dest →
        1 ≤ (rx_link_set_of s msg a).bits.countP
          (fun b => decide (s.out_links_by_mask_bit b = some dest)) := by
      intro dest hdest
      exact List.countP_pos_iff.mpr ⟨_, hbit, decide_eq_true hdest⟩
    exact ⟨key, key L⟩
  · intro hidx l
    have hP : ∀ b, (fun b => decide (s.out_links_by_mask_bit b = some l)) b = true →
        b = (s.link l).mask_bit := by
      intro b hb
      exact ((hidx b l (of_decide_eq_true hb)).2.1).symm
    have hc := countP_unique (rx_link_set_of s msg a).bits
      (fun b => decide (s.out_links_by_mask_bit b = some l)) (s.link l).mask_bit hP hnd
    beta_reduce at hc
    rw [hc]
    refine ⟨by split_ifs <;> omega, ?_⟩
    constructor
    · intro h1
      have hcond : (s.link l).mask_bit ∈ (rx_link_set_of s msg a).bits ∧
          decide (s.out_links_by_mask_bit (s.link l).mask_bit = some l) = true := by
        by_contra hn
        rw [if_neg hn] at h1
        omega
      obtain ⟨X, hX, hv, dl, hdl, hbit⟩ := (hmem _).mp hcond.1
      exact ⟨X, hX, hv, dl, hdl, by rw [hbit]; exact of_decide_eq_true hcond.2⟩
    · rintro ⟨X, hX, hv, dl, hdl, hentry⟩
      have hbit : (s.link l).mask_bit = (s.link dl).mask_bit := (hidx _ l hentry).2.1
      rw [if_pos]
      refine ⟨(hmem _).mpr ⟨X, hX, hv, dl, hdl, hbit.symm⟩, ?_⟩
      rw [hbit]
      exact decide_eq_true hentry

theorem C26_transit_copy_link_witness :
    (router_next_hop.link 1).connected_link = none ∧
    qd_message_check msg_svc_via_r2 = true ∧
    qd_message_field_iterator_to msg_svc_via_r2 = some iter_svc ∧
    qd_hash_retrieve router_next_hop.addr_hash iter_svc.address_hash = some 1 ∧
    (∀ it ∈ incoming_trace msg_svc_via_r2, it.all ≠ node_id router_next_hop) ∧
    qd_field_iterator_prefix iter_svc.no_host local_prefix = false ∧
    qd_field_iterator_prefix iter_svc.no_host ( direct_prefix router_next_hop) = false ∧
    0 ≤ rx_origin router_next_hop (rx_ingress_iter router_next_hop msg_svc_via_r2) 1 ∧
    rx_dest_link router_next_hop 3 = some 70 ∧
    rx_dest_link router_next_hop 4 = some 70 ∧
    router_next_hop.out_links_by_mask_bit (router_next_hop.link 70).mask_bit = some 70 ∧
    ((router_rx_handler router_next_hop 1 5 (some msg_svc_via_r2)).link 70).msg_fifo.length
      = 1 ∧
    ((router_rx_handler router_next_hop 1 5 (some msg_svc_via_r2)).address
        1).deliveries_transit
      = (router_next_hop.address 1).deliveries_transit
        + (rx_link_set_of router_next_hop msg_svc_via_r2 1).bits.countP
            (fun b => (router_next_hop.out_links_by_mask_bit b).isSome) :=
  ⟨rfl, rfl, rfl, rfl, by decide, rfl, by decide, by decide, rfl, rfl, rfl, by decide,
    (C26_transit_copy_link router_next_hop 1 5 msg_svc_via_r2 iter_svc 1
      rfl rfl rfl rfl (by decide) rfl (by decide) (by decide)).2.2.2.2.2.1 (by decide)⟩

/-! ## The retained log entries -/

theorem qd_log_impl_masked (s : qd_log_t) (a : qd_log_args) (h : Int.land a.cls s.mask = 0) :
    qd_log_impl s a = s := by
  unfold qd_log_impl
  rw [if_pos h]

theorem qd_log_impl_entries (s : qd_log_t) (a : qd_log_args) (h : Int.land a.cls s.mask ≠ 0) :
    (qd_log_impl s a).entries
      = (if s.entries.length < LIST_MAX then s.entries ++ [qd_log_entry a]
          else s.entries.drop 1 ++ [qd_log_entry a]) ∧
    (qd_log_impl s a).mask = s.mask ∧
    (qd_log_impl s a).stderr = s.stderr ++ [qd_log_entry a] := by
  unfold qd_log_impl
  rw [if_neg h]
  refine ⟨?_, rfl, rfl⟩
  simp only [List.length_append, List.length_singleton]
  by_cases hl : s.entries.length < LIST_MAX
  · rw [if_pos hl, if_neg (by omega)]
  · rw [if_neg hl, if_pos (by omega)]
    cases he : s.entries with
    | nil =>
      rw [he] at hl
      simp [LIST_MAX] at hl
    | cons x xs => simp

theorem qd_log_impl_bounded (s : qd_log_t) (a : qd_log_args)
    (hb : s.entries.length ≤ LIST_MAX) : (qd_log_impl s a).entries.length ≤ LIST_MAX := by
  by_cases h : Int.land a.cls s.mask = 0
  · rw [qd_log_impl_masked s a h]
    exact hb
  · rw [(qd_log_impl_entries s a h).1]
    split_ifs with hl
    · simp only [List.length_append, List.length_singleton]
      omega
    · simp only [List.length_append, List.length_singleton, List.length_drop]
      have : 0 < LIST_MAX := by decide
      omega

theorem qd_log_run_bounded : ∀ (ops : List qd_log_op) (s : qd_log_t),
    s.entries.length ≤ LIST_MAX → (qd_log_run ops s).entries.length ≤ LIST_MAX := by
  intro ops
  induction ops with
  | nil => intro s hb; exact hb
  | cons op rest ih =>
    intro s hb
    simp only [qd_log_run]
    apply ih
    cases op with
    | log a => exact qd_log_impl_bounded s a hb
    | set_mask mask => exact hb

/-- Claim C36: a call of `qd_log_impl` whose class shares no bit with the mask
changes nothing.  Otherwise the new entry goes to the tail of the list; while
the list held fewer than `LIST_MAX = 1000` entries nothing is removed, and when
it held 1000 the oldest entry, and only that one, is removed, the others
keeping their order, so that a list of at most 1000 entries is again a list
of at most 1000 entries.  Hence after every call in any sequence of calls of
`qd_log_impl` and `qd_log_set_mask` that follows `qd_log_initialize` the list
holds at most 1000 entries. -/
theorem C36_log_entries_bounded (s : qd_log_t) (a : qd_log_args) :
    LIST_MAX = 1000 ∧
    (Int.land a.cls s.mask = 0 → qd_log_impl s a = s) ∧
    (Int.land a.cls s.mask ≠ 0 →
      (s.entries.length < LIST_MAX →
        (qd_log_impl s a).entries = s.entries ++ [qd_log_entry a]) ∧
      (s.entries.length = LIST_MAX →
        (qd_log_impl s a).entries = s.entries.drop 1 ++ [qd_log_entry a] ∧
        (qd_log_impl s a).entries.length = LIST_MAX)) ∧
    (s.entries.length ≤ LIST_MAX → (qd_log_impl s a).entries.length ≤ LIST_MAX) ∧
    (∀ ops : List qd_log_op,
      (qd_log_run ops ( qd_log_initialize s)).entries.length ≤ LIST_MAX) := by
  refine ⟨rfl, qd_log_impl_masked s a, ?_, qd_log_impl_bounded s a, ?_⟩
  · intro h
    obtain ⟨h1, -, -⟩ := qd_log_impl_entries s a h
    refine ⟨fun hl => ?_, fun hl => ?_⟩
    · rw [h1, if_pos hl]
    · have hnl : ¬ s.entries.length < LIST_MAX := by omega
      rw [h1, if_neg hnl]
      refine ⟨rfl, ?_⟩
      simp only [List.length_append, List.length_singleton, List.length_drop]
      have : 0 < LIST_MAX := by decide
      omega
  · intro ops
    exact qd_log_run_bounded ops _ (by simp [ qd_log_initialize])

theorem C36_log_entries_bounded_witness :
    Int.land (log_info_call "up").cls log_start.mask ≠ 0 ∧
    log_start.entries.length < LIST_MAX ∧
    (qd_log_impl log_start (log_info_call "up")).entries = [qd_log_entry (log_info_call "up")] ∧
    Int.land 1 log_start.mask = 0 ∧
    qd_log_impl log_start { log_info_call "trace" with cls := 1 } = log_start ∧
    log_full.entries.length = LIST_MAX ∧
    (qd_log_impl log_full (log_info_call "new")).entries
      = log_full.entries.drop 1 ++ [qd_log_entry (log_info_call "new")] ∧
    (qd_log_impl log_full (log_info_call "new")).entries.length = LIST_MAX :=
  ⟨by decide, by decide,
    ((C36_log_entries_bounded log_start (log_info_call "up")).2.2.1 (by decide)).1 (by decide),
    by decide,
    (C36_log_entries_bounded log_start { log_info_call "trace" with cls := 1 }).2.1
      (by decide),
    List.length_replicate _ _,
    (((C36_log_entries_bounded log_full (log_info_call "new")).2.2.1 (by decide)).2
      (List.length_replicate _ _)).1,
    (((C36_log_entries_bounded log_full (log_info_call "new")).2.2.1 (by decide)).2
      (List.length_replicate _ _)).2⟩

/-! ## The ingress delivery: attached, freed, or neither -/

theorem rx_tagged_start (d : Nat) (s0 s : qd_router_t) (hl : s.link = s0.link)
    (hd : s.delivery = s0.delivery) : rx_tagged d s0 (s, 0) := by
  refine ⟨hd, fun l => ⟨[], by rw [hl]; simp, by simp⟩, ?_⟩
  intro h
  simp at h

/-- One copy enqueued by a fan-out loop of `router_rx_handler`. -/
theorem rx_tagged_enqueue (msg : qd_message_t) (d : Nat) (s0 : qd_router_t)
    (acc : qd_router_t × Nat) (h : rx_tagged d s0 acc) (s' : qd_router_t) (dest : Nat)
    (hfifo : ∀ l, (s'.link l).msg_fifo = (acc.1.link l).msg_fifo ++
      (if dest = l then [rx_routed_event acc.1 msg d (acc.2 + 1)] else []))
    (hdel : s'.delivery = acc.1.delivery) : rx_tagged d s0 (s', acc.2 + 1) := by
  obtain ⟨h1, h2, h3⟩ := h
  have hsettled : qd_delivery_settled acc.1 d = qd_delivery_settled s0 d := by
    unfold qd_delivery_settled
    rw [h1]
  refine ⟨hdel.trans h1, fun l => ?_, fun _ hun => ?_⟩
  · obtain ⟨evs, hevs, hall⟩ := h2 l
    refine ⟨evs ++ (if dest = l then [rx_routed_event acc.1 msg d (acc.2 + 1)] else []), ?_, ?_⟩
    · rw [hfifo l, hevs, List.append_assoc]
    · intro e he
      rcases List.mem_append.mp he with he | he
      · exact hall e he
      · by_cases hdl : dest = l
        · rw [if_pos hdl] at he
          rw [List.mem_singleton.mp he]
          unfold rx_routed_event
          simp only
          by_cases hc : acc.2 + 1 = 1 ∧ qd_delivery_settled acc.1 d = false
          · rw [if_pos hc]
            exact Or.inr ⟨rfl, hsettled ▸ hc.2⟩
          · rw [if_neg hc]
            exact Or.inl rfl
        · rw [if_neg hdl] at he
          simp at he
  · show ∃ l, ∃ evs : List qd_routed_event_t,
      (s'.link l).msg_fifo = (s0.link l).msg_fifo ++ evs ∧ ∃ e ∈ evs, e.delivery = some d
    by_cases hz : acc.2 = 0
    · obtain ⟨evs, hevs, -⟩ := h2 dest
      refine ⟨dest, evs ++ [rx_routed_event acc.1 msg d (acc.2 + 1)], ?_,
        rx_routed_event acc.1 msg d (acc.2 + 1), by simp, ?_⟩
      · rw [hfifo dest, if_pos rfl, hevs, List.append_assoc]
      · unfold rx_routed_event
        simp only
        rw [if_pos ⟨by omega, hsettled.trans hun⟩]
    · obtain ⟨l, evs, hevs, e, he, hed⟩ := h3 (by omega) hun
      refine ⟨l, evs ++ (if dest = l then [rx_routed_event acc.1 msg d (acc.2 + 1)] else []),
        ?_, e, List.mem_append_left _ he, hed⟩
      rw [hfifo l, hevs, List.append_assoc]

theorem rx_local_body_tagged (msg : qd_message_t) (d addr dest_link : Nat) (s0 : qd_router_t)
    (acc : qd_router_t × Nat) (h : rx_tagged d s0 acc) :
    rx_tagged d s0 (rx_local_body msg d addr dest_link acc) :=
  rx_tagged_enqueue msg d s0 acc h (rx_local_body msg d addr dest_link acc).1 dest_link
    (fun l => rx_local_body_fifo msg d addr dest_link acc l)
    (rx_local_body_frame msg d addr dest_link acc).delivery

theorem rx_remote_body_tagged (msg : qd_message_t) (d addr : Nat) (link_bit : Int)
    (s0 : qd_router_t) (acc : qd_router_t × Nat) (h : rx_tagged d s0 acc) :
    rx_tagged d s0 (rx_remote_body msg d addr link_bit acc) := by
  cases hidx : acc.1.out_links_by_mask_bit link_bit with
  | none =>
    have hbody : rx_remote_body msg d addr link_bit acc = acc := by
      simp [rx_remote_body, hidx]
    rw [hbody]
    exact h
  | some dest =>
    obtain ⟨b1, b2, -, b4⟩ := rx_remote_body_indexed msg d addr link_bit acc dest hidx
    have hres : rx_remote_body msg d addr link_bit acc
        = ((rx_remote_body msg d addr link_bit acc).1, acc.2 + 1) := by
      rw [← b4]
    rw [hres]
    refine rx_tagged_enqueue msg d s0 acc h _ dest (fun l => ?_)
      (rx_remote_body_frame msg d addr link_bit acc).delivery
    by_cases hl : dest = l
    · subst hl
      rw [if_pos rfl, b1]
    · rw [if_neg hl, b2 l (fun e => hl e.symm)]
      simp

theorem rx_forward_local_tagged (msg : qd_message_t) (d addr : Nat) (s0 : qd_router_t)
    (ls : List Nat) :
    ∀ acc : qd_router_t × Nat, rx_tagged d s0 acc →
      rx_tagged d s0 (rx_forward_local msg d addr ls acc) := by
  induction ls with
  | nil => intro acc h; exact h
  | cons dest rest ih =>
    intro acc h
    simp only [rx_forward_local]
    exact ih _ (rx_local_body_tagged msg d addr dest s0 acc h)

theorem rx_forward_remote_tagged (msg : qd_message_t) (d addr : Nat) (s0 : qd_router_t)
    (n : Nat) :
    ∀ (link_set : qd_bitmask_t) (acc : qd_router_t × Nat), rx_tagged d s0 acc →
      rx_tagged d s0 (rx_forward_remote msg d addr n link_set acc) := by
  induction n with
  | zero => intro link_set acc h; exact h
  | succ n ih =>
    intro link_set acc h
    simp only [rx_forward_remote]
    cases qd_bitmask_first_set link_set with
    | none => exact h
    | some b => exact ih _ _ (rx_remote_body_tagged msg d addr b s0 acc h)

theorem rx_fan_out_tagged (msg : qd_message_t) (d addr : Nat)
    (ingress_iter : Option qd_field_iterator_t) (drop is_local is_direct : Bool)
    (s0 : qd_router_t) (acc : qd_router_t × Nat) (h : rx_tagged d s0 acc) :
    rx_tagged d s0 (rx_fan_out msg d addr ingress_iter drop is_local is_direct acc) := by
  have hloc := rx_forward_local_tagged msg d addr s0 (acc.1.address addr).rlinks acc h
  unfold rx_fan_out
  split_ifs with h1 h2
  · unfold rx_fan_out_remote
    simp only
    split_ifs
    · exact rx_forward_remote_tagged msg d addr s0 _ _ _ hloc
    · exact hloc
  · exact hloc
  · exact h

theorem rx_route_tagged (s : qd_router_t) (rlink d : Nat) (msg : qd_message_t)
    (iter : qd_field_iterator_t) :
    rx_tagged d s ((rx_route s rlink d msg iter).s, (rx_route s rlink d msg iter).fanout) := by
  unfold rx_route
  cases hret : qd_hash_retrieve s.addr_hash iter.address_hash with
  | none => exact rx_tagged_start d s s rfl rfl
  | some a =>
    simp only
    unfold rx_addr_found
    simp only
    have hstart : rx_tagged d s
        ((rx_capture_handler (rx_count_ingress s rlink a) a
          (router_annotate_message (node_id (rx_count_ingress s rlink a)) msg false).1
          (router_annotate_message (node_id (rx_count_ingress s rlink a)) msg false).2.1).s,
         (rx_capture_handler (rx_count_ingress s rlink a) a
          (router_annotate_message (node_id (rx_count_ingress s rlink a)) msg false).1
          (router_annotate_message (node_id (rx_count_ingress s rlink a)) msg
            false).2.1).fanout) := by
      rw [rx_capture_handler_fanout]
      exact rx_tagged_start d s _
        ((rx_capture_handler_link _ _ _ _).trans (rx_count_ingress_link _ _ _))
        ((rx_capture_handler_delivery _ _ _ _).trans (rx_count_ingress_delivery _ _ _))
    exact rx_fan_out_tagged _ d a _ _ _ _ s _ hstart

/-- A handler is captured only for an address record that has one. -/
theorem rx_route_handler_some (s : qd_router_t) (rlink d : Nat) (msg : qd_message_t)
    (iter : qd_field_iterator_t) (h : Nat)
    (hh : (rx_route s rlink d msg iter).handler = some h) :
    ∃ a, qd_hash_retrieve s.addr_hash iter.address_hash = some a ∧
      (s.address a).handler = some h := by
  unfold rx_route at hh
  cases hret : qd_hash_retrieve s.addr_hash iter.address_hash with
  | none =>
    rw [hret] at hh
    simp [rx_no_route] at hh
  | some a =>
    rw [hret] at hh
    refine ⟨a, rfl, ?_⟩
    have hhandler := (rx_count_ingress_frame s rlink a).handler a
    unfold rx_addr_found rx_capture_handler at hh
    simp only at hh
    split_ifs at hh with hc
    simp only at hh
    rw [← hhandler]
    exact hh

theorem enqueued_events_eq (s s' : qd_router_t) (l : Nat) (evs : List qd_routed_event_t)
    (h : (s'.link l).msg_fifo = (s.link l).msg_fifo ++ evs) : enqueued_events s s' l = evs := by
  unfold enqueued_events
  rw [h, List.drop_left]

theorem enqueued_events_same (s s' : qd_router_t) (l : Nat) (h : s'.link = s.link) :
    enqueued_events s s' l = [] := by
  unfold enqueued_events
  rw [h]
  simp

theorem router_rx_handler_heaps (s : qd_router_t) (link delivery : Nat) (msg : qd_message_t)
    (hconn : (s.link link).connected_link = none) :
    (router_rx_handler s link delivery (some msg)).link
      = (rx_message_routing (rx_consume s link) link delivery msg).s.link ∧
    (router_rx_handler s link delivery (some msg)).delivery
      = (rx_message_routing (rx_consume s link) link delivery msg).s.delivery := by
  have hconn' : ((rx_consume s link).link link).connected_link = none := hconn
  simp only [router_rx_handler, hconn']
  cases (rx_message_routing (rx_consume s link) link delivery msg).handler <;> exact ⟨rfl, rfl⟩

/-- The link-routing short cut on the heaps: one event on the connected link,
carrying the delivery when it is not settled; a settled delivery is freed. -/
theorem rx_link_routing_heaps (s : qd_router_t) (clink delivery : Nat) (msg : qd_message_t) :
    (∀ l, ((rx_link_routing s clink delivery msg).link l).msg_fifo
      = (s.link l).msg_fifo ++
        (if clink = l then
          [{ delivery := if qd_delivery_settled s delivery then none else some delivery,
             message := some msg, settle := false, disposition := 0 }]
        else [])) ∧
    (qd_delivery_settled s delivery = false →
      (rx_link_routing s clink delivery msg).delivery = s.delivery) ∧
    (qd_delivery_settled s delivery = true →
      ((rx_link_routing s clink delivery msg).delivery delivery).freed = some 0) := by
  refine ⟨fun l => ?_, fun hs => ?_, fun hs => ?_⟩
  · unfold rx_link_routing
    by_cases hl : clink = l
    · subst hl
      by_cases hs : qd_delivery_settled s delivery = true <;>
        simp [hs, msg_fifo_insert_tail, qd_delivery_free, qd_link_activate, log_call]
    · have hl' : l ≠ clink := fun e => hl e.symm
      by_cases hs : qd_delivery_settled s delivery = true <;>
        simp [hs, hl, hl', msg_fifo_insert_tail, qd_delivery_free, qd_link_activate, log_call]
  · unfold rx_link_routing
    simp [hs, msg_fifo_insert_tail, qd_link_activate, log_call]
  · unfold rx_link_routing
    simp [hs, msg_fifo_insert_tail, qd_delivery_free, qd_link_activate, log_call]

/-- The message-routing part of `router_rx_handler`, seen from the ingress
delivery. -/
theorem rx_message_routing_delivery (s : qd_router_t) (rlink d : Nat) (msg : qd_message_t) :
    (∀ l, ∃ evs : List qd_routed_event_t,
      ((rx_message_routing s rlink d msg).s.link l).msg_fifo = (s.link l).msg_fifo ++ evs ∧
      ∀ e ∈ evs, ∀ d', e.delivery = some d' →
        d' = d ∧ qd_delivery_settled s d = false ∧
        ((rx_message_routing s rlink d msg).s.delivery = s.delivery ∨
          (((rx_message_routing s rlink d msg).s.delivery d).freed = some PN_ACCEPTED ∧
            ∃ iter a h, qd_message_field_iterator_to msg = some iter ∧
              qd_hash_retrieve s.addr_hash iter.address_hash = some a ∧
              (s.address a).handler = some h))) ∧
    ((qd_message_check msg = false ∨ qd_message_field_iterator_to msg ≠ none) →
      (∃ disp, ((rx_message_routing s rlink d msg).s.delivery d).freed = some disp ∧
        (disp = 0 ∨ disp = PN_ACCEPTED ∨ disp = PN_RELEASED ∨ disp = PN_REJECTED)) ∨
      ∃ l, ∃ evs : List qd_routed_event_t,
        ((rx_message_routing s rlink d msg).s.link l).msg_fifo = (s.link l).msg_fifo ++ evs ∧
        ∃ e ∈ evs, e.delivery = some d) ∧
    (qd_message_check msg = true → qd_message_field_iterator_to msg = none →
      (rx_message_routing s rlink d msg).s = s) := by
  unfold rx_message_routing
  by_cases hcheck : qd_message_check msg = true
  · rw [if_pos hcheck]
    cases hto : qd_message_field_iterator_to msg with
    | none =>
      refine ⟨fun l => ⟨[], by simp [rx_no_route], fun e he => by cases he⟩, fun h => ?_,
        fun _ _ => rfl⟩
      rcases h with h | h
      · rw [hcheck] at h
        cases h
      · exact absurd rfl h
    | some iter =>
      simp only
      obtain ⟨t1, t2, t3⟩ := rx_route_tagged s rlink d msg iter
      have hz := rx_route_fanout_zero s rlink d msg iter
      have hh := rx_route_handler_some s rlink d msg iter
      generalize rx_route s rlink d msg iter = r at t1 t2 t3 hz hh
      simp only at t1 t2 t3
      have hsettled : qd_delivery_settled r.s d = qd_delivery_settled s d := by
        unfold qd_delivery_settled
        rw [t1]
      have hlink : (rx_ingress_outcome r d).link = r.s.link := rx_ingress_outcome_link r d
      refine ⟨fun l => ?_, fun _ => ?_, fun _ h => by cases h⟩
      · obtain ⟨evs, hevs, hall⟩ := t2 l
        refine ⟨evs, by rw [hlink]; exact hevs, ?_⟩
        intro e he d' hd'
        rcases hall e he with hn | ⟨hs, hun⟩
        · rw [hn] at hd'
          cases hd'
        · rw [hs] at hd'
          refine ⟨(Option.some.inj hd').symm, hun, ?_⟩
          unfold rx_ingress_outcome
          cases hhandler : r.handler with
          | some h =>
            simp only [Option.isSome_some, if_true]
            obtain ⟨a, ha1, ha2⟩ := hh h hhandler
            exact Or.inr ⟨(qd_delivery_free_freed _ _ _).1, iter, a, h, rfl, ha1, ha2⟩
          | none =>
            simp only [Option.isSome_none, Bool.false_eq_true, if_false]
            by_cases hf : r.fanout = 0
            · have hsame := hz hf
              rw [hsame] at hevs
              have hnil : evs = [] := by
                have := congrArg List.length hevs
                simp only [List.length_append] at this
                exact List.length_eq_zero.mp (by omega)
              rw [hnil] at he
              cases he
            · rw [if_neg hf, hsettled, hun]
              simp only [Bool.false_eq_true, if_false]
              exact Or.inl t1
      · unfold rx_ingress_outcome
        by_cases hhandler : r.handler.isSome = true
        · rw [if_pos hhandler]
          exact Or.inl ⟨PN_ACCEPTED, (qd_delivery_free_freed _ _ _).1, Or.inr (Or.inl rfl)⟩
        · rw [if_neg hhandler]
          by_cases hf : r.fanout = 0
          · rw [if_pos hf]
            exact Or.inl ⟨PN_RELEASED, (qd_delivery_free_freed _ _ _).1,
              Or.inr (Or.inr (Or.inl rfl))⟩
          · rw [if_neg hf]
            by_cases hs : qd_delivery_settled r.s d = true
            · rw [if_pos hs]
              exact Or.inl ⟨0, (qd_delivery_free_freed _ _ _).1, Or.inl rfl⟩
            · rw [if_neg hs]
              have hun : qd_delivery_settled s d = false := by
                rw [← hsettled]
                simpa using hs
              exact Or.inr (t3 (by omega) hun)
  · rw [if_neg hcheck]
    refine ⟨fun l => ⟨[], by simp [rx_no_route, qd_delivery_free], fun e he => by cases he⟩,
      fun _ => ?_, fun h => absurd h hcheck⟩
    exact Or.inl ⟨PN_REJECTED, (qd_delivery_free_freed _ _ _).1, Or.inr (Or.inr (Or.inr rfl))⟩

theorem router_rx_handler_link_routed (s : qd_router_t) (link delivery : Nat)
    (msg : qd_message_t) (clink : Nat) (hconn : (s.link link).connected_link = some clink) :
    router_rx_handler s link delivery (some msg)
      = rx_link_routing (rx_consume s link) clink delivery msg := by
  have hconn' : ((rx_consume s link).link link).connected_link = some clink := hconn
  simp only [router_rx_handler, hconn']

/-- With a known address that has local links, a message that is neither
dropped nor `_local` is copied at least once. -/
theorem rx_route_fanout_pos (s : qd_router_t) (rlink d : Nat) (msg : qd_message_t)
    (iter : qd_field_iterator_t) (a : Nat)
    (hret : qd_hash_retrieve s.addr_hash iter.address_hash = some a)
    (hdrop : (router_annotate_message (node_id s) msg false).2.1 = false)
    (hlocal : qd_field_iterator_prefix iter.no_host local_prefix = false)
    (hrl : (s.address a).rlinks ≠ []) :
    1 ≤ (rx_route s rlink d msg iter).fanout := by
  rw [rx_route_found s rlink d msg iter a hret]
  unfold rx_addr_found
  simp only
  have hid : node_id (rx_count_ingress s rlink a) = node_id s :=
    (rx_count_ingress_frame s rlink a).node_id_eq
  rw [hid, hdrop]
  unfold rx_fan_out
  simp only [hlocal, and_self, if_true]
  have hrlinks : ((rx_capture_handler (rx_count_ingress s rlink a) a
      (router_annotate_message (node_id s) msg false).1 false).s.address a).rlinks
      = (s.address a).rlinks :=
    ((rx_count_ingress_frame s rlink a).trans_route
      (rx_capture_handler_frame _ a _ false)).rlinks a
  have hpos : 1 ≤ (s.address a).rlinks.length := by
    cases hr : (s.address a).rlinks with
    | nil => exact absurd hr hrl
    | cons x xs => simp
  have hloc := rx_forward_local_fanout (router_annotate_message (node_id s) msg false).1 d a
    ((rx_capture_handler (rx_count_ingress s rlink a) a
      (router_annotate_message (node_id s) msg false).1 false).s.address a).rlinks
    ((rx_capture_handler (rx_count_ingress s rlink a) a
      (router_annotate_message (node_id s) msg false).1 false).s,
     (rx_capture_handler (rx_count_ingress s rlink a) a
      (router_annotate_message (node_id s) msg false).1 false).fanout)
  rw [hrlinks] at hloc ⊢
  simp only at hloc
  split_ifs
  · have hrem := (rx_fan_out_remote_fanout (router_annotate_message (node_id s) msg false).1
      d a (router_annotate_message (node_id s) msg false).2.2
      (rx_forward_local (router_annotate_message (node_id s) msg false).1 d a
        (s.address a).rlinks
        ((rx_capture_handler (rx_count_ingress s rlink a) a
          (router_annotate_message (node_id s) msg false).1 false).s,
         (rx_capture_handler (rx_count_ingress s rlink a) a
          (router_annotate_message (node_id s) msg false).1 false).fanout))).1
    omega
  · omega

/-- Claim C31 does not hold on the code.  What holds for every invocation:
an event that `router_rx_handler` enqueues carries no delivery or the ingress
delivery, and the ingress delivery only when it is not settled; the state of
that delivery is then as before the invocation, unless the message went to an
address record with an in-process handler, in which case the delivery has been
freed with `PN_ACCEPTED`.  And that case occurs: when the address found for
the message has a handler and at least one local link, and the message is
neither dropped nor `_local`, a delivery that is not settled is attached to an
enqueued event and freed with `PN_ACCEPTED` by the same invocation. -/
theorem C31_attached_delivery_freed (s : qd_router_t) (link delivery : Nat)
    (msg : qd_message_t) :
    (∀ l, ∀ e ∈ enqueued_events s (router_rx_handler s link delivery (some msg)) l,
      ∀ d, e.delivery = some d →
        d = delivery ∧ qd_delivery_settled s delivery = false ∧
        (((router_rx_handler s link delivery (some msg)).delivery delivery).freed
            = (s.delivery delivery).freed ∨
          (((router_rx_handler s link delivery (some msg)).delivery delivery).freed
              = some PN_ACCEPTED ∧
            ∃ iter a h, qd_message_field_iterator_to msg = some iter ∧
              qd_hash_retrieve s.addr_hash iter.address_hash = some a ∧
              (s.address a).handler = some h))) ∧
    (∀ (iter : qd_field_iterator_t) (a h : Nat),
      (s.link link).connected_link = none →
      qd_message_check msg = true →
      qd_message_field_iterator_to msg = some iter →
      qd_hash_retrieve s.addr_hash iter.address_hash = some a →
      (∀ it ∈ incoming_trace msg, it.all ≠ node_id s) →
      qd_field_iterator_prefix iter.no_host local_prefix = false →
      (s.address a).handler = some h →
      (s.address a).rlinks ≠ [] →
      qd_delivery_settled s delivery = false →
      (∃ l, ∃ e ∈ enqueued_events s (router_rx_handler s link delivery (some msg)) l,
        e.delivery = some delivery) ∧
      ((router_rx_handler s link delivery (some msg)).delivery delivery).freed
        = some PN_ACCEPTED) := by
  obtain ⟨c1, -, c3, c4, -⟩ := rx_consume_frame s link
  have hsettled : qd_delivery_settled (rx_consume s link) delivery
      = qd_delivery_settled s delivery := by
    unfold qd_delivery_settled
    rw [c3]
  refine ⟨?_, ?_⟩
  · intro l e he d hd
    cases hconn : (s.link link).connected_link with
    | some clink =>
      rw [router_rx_handler_link_routed s link delivery msg clink hconn] at he ⊢
      obtain ⟨r1, r2, -⟩ := rx_link_routing_heaps (rx_consume s link) clink delivery msg
      have hfifo := r1 l
      rw [c1] at hfifo
      rw [enqueued_events_eq _ _ l _ hfifo] at he
      by_cases hl : clink = l
      · rw [if_pos hl] at he
        rw [List.mem_singleton.mp he] at hd
        simp only at hd
        by_cases hs : qd_delivery_settled (rx_consume s link) delivery = true
        · rw [if_pos hs] at hd
          cases hd
        · rw [if_neg hs] at hd
          have hun : qd_delivery_settled (rx_consume s link) delivery = false := by
            simpa using hs
          refine ⟨(Option.some.inj hd).symm, hsettled ▸ hun, Or.inl ?_⟩
          rw [r2 hun, c3]
      · rw [if_neg hl] at he
        cases he
    | none =>
      obtain ⟨k1, k2⟩ := router_rx_handler_heaps s link delivery msg hconn
      obtain ⟨m1, -, -⟩ := rx_message_routing_delivery (rx_consume s link) link delivery msg
      obtain ⟨evs, hevs, hall⟩ := m1 l
      have hfifo : ((router_rx_handler s link delivery (some msg)).link l).msg_fifo
          = (s.link l).msg_fifo ++ evs := by
        rw [k1, hevs, c1]
      rw [enqueued_events_eq _ _ l _ hfifo] at he
      obtain ⟨h1, h2, h3⟩ := hall e he d hd
      refine ⟨h1, hsettled ▸ h2, ?_⟩
      rcases h3 with h3 | ⟨h3, iter, a, h, ha1, ha2, ha3⟩
      · left
        rw [k2, h3, c3]
      · right
        exact ⟨by rw [k2]; exact h3, iter, a, h, ha1, by rw [← c4]; exact ha2, ha3⟩
  · intro iter a h hconn hvalid hto hret hnodrop hlocal hh hrl hun
    obtain ⟨k1, k2⟩ := router_rx_handler_heaps s link delivery msg hconn
    have hdrop : (router_annotate_message (node_id (rx_consume s link)) msg false).2.1
        = false := by
      rw [router_annotate_message_drop, rx_consume_node_id]
      simpa using hnodrop
    have hret' : qd_hash_retrieve (rx_consume s link).addr_hash iter.address_hash = some a :=
      hret
    have hh' : ((rx_consume s link).address a).handler = some h := hh
    have hrl' : ((rx_consume s link).address a).rlinks ≠ [] := hrl
    have hpos := rx_route_fanout_pos (rx_consume s link) link delivery msg iter a hret' hdrop
      hlocal hrl'
    have hcap := (rx_addr_found_captured (rx_consume s link) link delivery msg a
      ( qd_field_iterator_prefix iter.no_host local_prefix)
      ( qd_field_iterator_prefix iter.no_host ( direct_prefix (rx_consume s link))) h hh'
      hdrop).1
    rw [← rx_route_found _ _ _ _ _ _ hret'] at hcap
    obtain ⟨-, -, t3⟩ := rx_route_tagged (rx_consume s link) link delivery msg iter
    have hR : (rx_message_routing (rx_consume s link) link delivery msg).s
        = rx_ingress_outcome (rx_route (rx_consume s link) link delivery msg iter) delivery := by
      simp [rx_message_routing, hvalid, hto]
    generalize rx_route (rx_consume s link) link delivery msg iter = r at hpos hcap t3 hR
    simp only at t3
    obtain ⟨l, evs, hevs, e, he, hed⟩ := t3 hpos (hsettled.trans hun)
    refine ⟨⟨l, e, ?_, hed⟩, ?_⟩
    · have hfifo : ((router_rx_handler s link delivery (some msg)).link l).msg_fifo
          = (s.link l).msg_fifo ++ evs := by
        rw [k1, hR, rx_ingress_outcome_link, hevs, c1]
      rw [enqueued_events_eq _ _ l _ hfifo]
      exact he
    · rw [k2, hR]
      unfold rx_ingress_outcome
      rw [hcap]
      simp only [Option.isSome_some, if_true]
      exact (qd_delivery_free_freed _ _ _).1

/-- The failing input of C31: on `router_with_handler` the address `svc` has
the handler 9 and the local link 2; delivery 5 arrives not settled on link
1.  It ends attached to the event queued on link 2 and freed. -/
theorem C31_attached_delivery_freed_witness :
    (router_with_handler.link 1).connected_link = none ∧
    (router_with_handler.address 1).handler = some 9 ∧
    (router_with_handler.address 1).rlinks = [2] ∧
    qd_delivery_settled router_with_handler 5 = false ∧
    (router_with_handler.delivery 5).freed = none ∧
    ((router_rx_handler router_with_handler 1 5 (some msg_svc)).link 2).msg_fifo.map
      (fun e => e.delivery) = [some 5] ∧
    ((router_rx_handler router_with_handler 1 5 (some msg_svc)).delivery 5).freed
      = some PN_ACCEPTED :=
  ⟨rfl, rfl, rfl, rfl, rfl, by decide,
    ((C31_attached_delivery_freed router_with_handler 1 5 msg_svc).2 iter_svc 1 9
      rfl rfl rfl rfl (by decide) rfl rfl (by decide) rfl).2⟩

/-- Claim C32 does not hold on the code.  What holds: when the message is
link-routed, or is invalid, or has a `to` field, the ingress delivery ends
freed (with disposition 0, `PN_ACCEPTED`, `PN_RELEASED` or `PN_REJECTED`) or
attached to an event that the invocation enqueued.  But for a valid message
without `to` field on a link without connected link the handler only consumes
the delivery and issues a credit: the deliveries and the links are left as
they were, so a delivery that was not freed is neither freed nor referenced. -/
theorem C32_freed_or_attached (s : qd_router_t) (link delivery : Nat) (msg : qd_message_t) :
    (((s.link link).connected_link ≠ none ∨ qd_message_check msg = false ∨
        qd_message_field_iterator_to msg ≠ none) →
      (∃ disp, ((router_rx_handler s link delivery (some msg)).delivery delivery).freed
          = some disp ∧
        (disp = 0 ∨ disp = PN_ACCEPTED ∨ disp = PN_RELEASED ∨ disp = PN_REJECTED)) ∨
      ∃ l, ∃ e ∈ enqueued_events s (router_rx_handler s link delivery (some msg)) l,
        e.delivery = some delivery) ∧
    ((s.link link).connected_link = none → qd_message_check msg = true →
      qd_message_field_iterator_to msg = none →
      (router_rx_handler s link delivery (some msg)).delivery = s.delivery ∧
      (router_rx_handler s link delivery (some msg)).link = s.link ∧
      (∀ l, enqueued_events s (router_rx_handler s link delivery (some msg)) l = []) ∧
      (router_rx_handler s link delivery (some msg)).calls
        = s.calls ++ [.pn_link_advance link, .pn_link_flow link 1]) := by
  obtain ⟨c1, -, c3, -, c5⟩ := rx_consume_frame s link
  refine ⟨?_, ?_⟩
  · intro hcase
    cases hconn : (s.link link).connected_link with
    | some clink =>
      rw [router_rx_handler_link_routed s link delivery msg clink hconn]
      obtain ⟨r1, -, r3⟩ := rx_link_routing_heaps (rx_consume s link) clink delivery msg
      by_cases hs : qd_delivery_settled (rx_consume s link) delivery = true
      · exact Or.inl ⟨0, r3 hs, Or.inl rfl⟩
      · right
        have hfifo := r1 clink
        rw [c1, if_pos rfl, if_neg hs] at hfifo
        refine ⟨clink,
          { delivery := some delivery, message := some msg, settle := false, disposition := 0 },
          ?_, rfl⟩
        rw [enqueued_events_eq _ _ clink _ hfifo]
        simp
    | none =>
      obtain ⟨k1, k2⟩ := router_rx_handler_heaps s link delivery msg hconn
      obtain ⟨-, m2, -⟩ := rx_message_routing_delivery (rx_consume s link) link delivery msg
      have hcase' : qd_message_check msg = false ∨ qd_message_field_iterator_to msg ≠ none := by
        rcases hcase with h | h | h
        · exact absurd hconn h
        · exact Or.inl h
        · exact Or.inr h
      rcases m2 hcase' with ⟨disp, hd, hv⟩ | ⟨l, evs, hevs, e, he, hed⟩
      · exact Or.inl ⟨disp, by rw [k2]; exact hd, hv⟩
      · right
        have hfifo : ((router_rx_handler s link delivery (some msg)).link l).msg_fifo
            = (s.link l).msg_fifo ++ evs := by
          rw [k1, hevs, c1]
        refine ⟨l, e, ?_, hed⟩
        rw [enqueued_events_eq _ _ l _ hfifo]
        exact he
  · intro hconn hvalid hto
    obtain ⟨k1, k2⟩ := router_rx_handler_heaps s link delivery msg hconn
    obtain ⟨-, -, m3⟩ := rx_message_routing_delivery (rx_consume s link) link delivery msg
    have hR := m3 hvalid hto
    have hlink : (router_rx_handler s link delivery (some msg)).link = s.link := by
      rw [k1, hR, c1]
    refine ⟨by rw [k2, hR, c3], hlink, fun l => enqueued_events_same _ _ l hlink, ?_⟩
    have hconn' : ((rx_consume s link).link link).connected_link = none := hconn
    simp only [router_rx_handler, hconn']
    have hhandler : (rx_message_routing (rx_consume s link) link delivery msg).handler
        = none := by
      simp [rx_message_routing, hvalid, hto, rx_no_route]
    rw [hhandler]
    simp only
    rw [hR, c5]

/-- The failing input of C32: the valid message `msg_no_to`, which has no
`to` field, arrives as delivery 5 on link 1 of `router_with_handler`. -/
theorem C32_freed_or_attached_witness :
    (router_with_handler.link 1).connected_link = none ∧
    qd_message_check msg_no_to = true ∧
    qd_message_field_iterator_to msg_no_to = none ∧
    (router_with_handler.delivery 5).freed = none ∧
    ((router_rx_handler router_with_handler 1 5 (some msg_no_to)).delivery 5).freed = none ∧
    (∀ l, enqueued_events router_with_handler
      (router_rx_handler router_with_handler 1 5 (some msg_no_to)) l = []) :=
  ⟨rfl, rfl, rfl, rfl, by decide,
    ((C32_freed_or_attached router_with_handler 1 5 msg_no_to).2 rfl rfl rfl).2.2.1⟩

/-! ## The hello address after the last router link has gone -/

/-- Claim C34 does not hold on the code: when the only member of the `rlinks`
of the hello address record is an outgoing link, and the record has no handler
and no remote destination, as `qd_router` leaves it, the detach of that link
makes `qd_router_check_addr` take the record out of the hash table and out of
the address list, while `hello_addr` still names it. -/
theorem C34_hello_address_removed (s : qd_router_t) (link : Nat) (closed : Bool) (hello : Nat)
    (hctx : s.link_context link = true)
    (hdir : (s.link link).link_direction = .QD_OUTGOING)
    (hown : (s.link link).owning_addr = some hello)
    (href : (s.link link).ref = true)
    (hhello : s.hello_addr = some hello)
    (hhandler : (s.address hello).handler = none)
    (hrnodes : (s.address hello).rnodes = [])
    (hrlinks : (s.address hello).rlinks = [link]) :
    (router_link_detach_handler s link closed).hello_addr = some hello ∧
    hello ∉ (router_link_detach_handler s link closed).addrs ∧
    (∀ key, (key, hello) ∉ (router_link_detach_handler s link closed).addr_hash) ∧
    ((router_link_detach_handler s link closed).address hello).rlinks = [] := by
  obtain ⟨-, -, -, -, -, f6, -, -, f9, -, -, -, f13⟩ :=
    router_link_detach_handler_fields s link closed hctx
  have hoaddr : detach_oaddr (s.link link) = some hello := by
    unfold detach_oaddr
    rw [if_pos hdir, hown]
  rw [hoaddr] at f6
  simp only [href, if_true] at f6
  have hrl : ((router_link_detach_handler s link closed).address hello).rlinks = [] := by
    rw [f6, upd_same]
    simp [hrlinks, remove_last]
  have hunused : address_unused (router_link_detach_handler s link closed) hello := by
    refine ⟨?_, hrl, ?_⟩
    · rw [f6, upd_same]
      exact hhandler
    · rw [f6, upd_same]
      exact hrnodes
  have hnot := f13 hello hoaddr hunused
  refine ⟨f9.trans hhello, fun hmem => hnot (Or.inl hmem), fun key hmem => hnot (Or.inr ⟨key, hmem⟩),
    hrl⟩

/-- The failing input of C34: on the interior router the outgoing router link
8 opens on the inter-router connection 1 and detaches again.  The state in
between is reachable from `qd_router`; afterwards the hello address record 101
is in neither table. -/
theorem C34_hello_address_removed_witness :
    router_interior.hello_addr = some 101 ∧
    101 ∈ router_interior.addrs ∧
    reachable example_iterator_string router_event.fresh router_interior
      (router_event.apply example_iterator_string router_interior (.outgoing_link 8 0)) ∧
    (router_event.apply example_iterator_string
      (router_event.apply example_iterator_string router_interior (.outgoing_link 8 0))
      (.link_detach 8 true)).hello_addr = some 101 ∧
    101 ∉ (router_event.apply example_iterator_string
      (router_event.apply example_iterator_string router_interior (.outgoing_link 8 0))
      (.link_detach 8 true)).addrs ∧
    (∀ key, (key, 101) ∉ (router_event.apply example_iterator_string
      (router_event.apply example_iterator_string router_interior (.outgoing_link 8 0))
      (.link_detach 8 true)).addr_hash) :=
  have h := C34_hello_address_removed
    (router_event.apply example_iterator_string router_interior (.outgoing_link 8 0)) 8 true 101
    (by decide) (by decide) (by decide) (by decide) (by decide) (by decide) (by decide)
    (by decide)
  ⟨by decide, by decide,
    reachable.step _ (.outgoing_link 8 0) reachable.init
      (by decide : router_interior.link_context 8 = false),
    h.1, h.2.1, h.2.2.1⟩

/-! ## Mask bits of router links on different connections -/

theorem interior_after_snoc (events : List router_event) (e : router_event) :
    interior_after (events ++ [e])
      = e.apply example_iterator_string (interior_after events) := by
  simp [interior_after, List.foldl_append]

theorem reachable_interior_step (guard : qd_router_t → router_event → Prop)
    (events : List router_event) (e : router_event)
    (h : reachable example_iterator_string guard router_interior (interior_after events))
    (hg : guard (interior_after events) e) :
    reachable example_iterator_string guard router_interior (interior_after (events ++ [e])) := by
  rw [interior_after_snoc]
  exact reachable.step _ e h hg

theorem reachable_interior_first :
    reachable example_iterator_string router_event.orderly router_interior
      (interior_after [.incoming_link 7]) :=
  reachable_interior_step router_event.orderly [] (.incoming_link 7) reachable.init
    ⟨rfl, fun _ _ =>
      ⟨fun _ hlive => (Bool.false_ne_true hlive.1).elim, Or.inr (by decide)⟩⟩

theorem interior_after_detach_live (other : Nat)
    (hlive : live_incoming_router
      (interior_after [.incoming_link 7, .outgoing_link 8 0, .link_detach 7 true]) other) :
    False := by
  have e3 : (interior_after [.incoming_link 7, .outgoing_link 8 0, .link_detach 7 true]).link_context
      = upd (interior_after [.incoming_link 7, .outgoing_link 8 0]).link_context 7 false :=
    (router_link_detach_handler_fields (interior_after [.incoming_link 7, .outgoing_link 8 0])
      7 true (by decide)).1
  have e2 : (interior_after [.incoming_link 7, .outgoing_link 8 0]).link_context
      = upd (interior_after [.incoming_link 7]).link_context 8 true :=
    (router_outgoing_link_handler_router example_iterator_string
      (interior_after [.incoming_link 7]) 8 0 (by decide) (by decide)).2.1
  have e1 : (interior_after [.incoming_link 7]).link_context
      = upd router_interior.link_context 7 true :=
    (router_incoming_link_handler_router router_interior 7 (by decide) (by decide)).2.1
  have h1 := hlive.1
  rw [e3] at h1
  by_cases h7 : other = 7
  · rw [h7, upd_same] at h1
    exact Bool.false_ne_true h1
  · rw [upd_other _ _ _ _ h7, e2] at h1
    by_cases h8 : other = 8
    · have hdir := hlive.2.2
      rw [h8] at hdir
      exact absurd hdir (by decide)
    · rw [upd_other _ _ _ _ h8, e1, upd_other _ _ _ _ h7] at h1
      exact Bool.false_ne_true h1

/-- Claim C33 as written does not hold.  On the interior router the incoming
router link 7 and the outgoing router link 8 open on connection 1 and share
mask bit 0; link 7 detaches, which returns bit 0 to the free mask while link 8
keeps it; then the incoming router link 9 opens on connection 2 and is given
bit 0.  Every step keeps the discipline of one incoming router link per
connection with a bit at hand, and in the state reached the live router links
8 and 9 belong to different connections and have the same mask bit. -/
theorem C33_counterexample :
    reachable example_iterator_string router_event.orderly router_interior
      (interior_after
        [.incoming_link 7, .outgoing_link 8 0, .link_detach 7 true, .incoming_link 9]) ∧
    (interior_after [.incoming_link 7, .outgoing_link 8 0, .link_detach 7 true,
      .incoming_link 9]).link_context 8 = true ∧
    (interior_after [.incoming_link 7, .outgoing_link 8 0, .link_detach 7 true,
      .incoming_link 9]).link_context 9 = true ∧
    ((interior_after [.incoming_link 7, .outgoing_link 8 0, .link_detach 7 true,
      .incoming_link 9]).link 8).link_type = .QD_LINK_ROUTER ∧
    ((interior_after [.incoming_link 7, .outgoing_link 8 0, .link_detach 7 true,
      .incoming_link 9]).link 9).link_type = .QD_LINK_ROUTER ∧
    (interior_after [.incoming_link 7, .outgoing_link 8 0, .link_detach 7 true,
      .incoming_link 9]).link_conn 8 = 1 ∧
    (interior_after [.incoming_link 7, .outgoing_link 8 0, .link_detach 7 true,
      .incoming_link 9]).link_conn 9 = 2 ∧
    ((interior_after [.incoming_link 7, .outgoing_link 8 0, .link_detach 7 true,
      .incoming_link 9]).link 8).mask_bit = 0 ∧
    ((interior_after [.incoming_link 7, .outgoing_link 8 0, .link_detach 7 true,
      .incoming_link 9]).link 9).mask_bit = 0 := by
  refine ⟨?_, by decide, by decide, by decide, by decide, by decide, by decide, by decide,
    by decide⟩
  have r2 : reachable example_iterator_string router_event.orderly router_interior
      (interior_after [.incoming_link 7, .outgoing_link 8 0]) :=
    reachable_interior_step router_event.orderly [.incoming_link 7] (.outgoing_link 8 0)
      reachable_interior_first
      (by decide : (interior_after [.incoming_link 7]).link_context 8 = false)
  have r3 : reachable example_iterator_string router_event.orderly router_interior
      (interior_after [.incoming_link 7, .outgoing_link 8 0, .link_detach 7 true]) :=
    reachable_interior_step router_event.orderly [.incoming_link 7, .outgoing_link 8 0]
      (.link_detach 7 true) r2 trivial
  exact reachable_interior_step router_event.orderly
    [.incoming_link 7, .outgoing_link 8 0, .link_detach 7 true] (.incoming_link 9) r3
    ⟨by decide, fun _ _ =>
      ⟨fun other hlive => (interior_after_detach_live other hlive).elim, Or.inr (by decide)⟩⟩

/-- Claim C33, amended: in every state reached from the state `qd_router`
sets up over pristine heaps by link opens, outbound connection opens and link
detaches (and registrations and address checks), where links are new when
they open and an incoming router link opens on an inter-router connection
only while that connection carries no other incoming router link and while a
mask bit is at hand, no two live incoming router links have the same mask
bit, whatever their connections; the mask bit of a live incoming router link
is not held by the shared context of another connection, so it is not the
mask bit of a link of another connection whose shared context holds that
link's bit; and it is not free. -/
theorem C33_incoming_mask_bits_distinct (iterator_string : String → qd_field_iterator_t)
    (world : qd_router_t) (width : Nat) (mode : qd_router_mode_t) (area id : String)
    (s : qd_router_t) (hw : pristine world)
    (h : reachable iterator_string router_event.orderly
      (qd_router iterator_string world width mode area id) s) :
    (∀ l l', live_incoming_router s l → live_incoming_router s l' → l ≠ l' →
      (s.link l).mask_bit ≠ (s.link l').mask_bit) ∧
    (∀ l c, live_incoming_router s l → c ≠ s.link_conn l →
      s.conn_context c ≠ some (s.link l).mask_bit) ∧
    (∀ l o, live_incoming_router s l → s.link_conn o ≠ s.link_conn l →
      s.conn_context (s.link_conn o) = some (s.link o).mask_bit →
      (s.link o).mask_bit ≠ (s.link l).mask_bit) ∧
    (∀ l, live_incoming_router s l →
      qd_bitmask_value s.neighbor_free_mask (s.link l).mask_bit = false) := by
  have hinv := mask_bits_accounted_reachable iterator_string _ s
    (mask_bits_accounted_init iterator_string world hw width mode area id) h
  refine ⟨?_, ?_, ?_, ?_⟩
  · intro l l' hl hl' hne heq
    exact hne (hinv.incoming_distinct l l' hl hl' heq)
  · intro l c hl hc
    exact hinv.incoming_not_held_elsewhere l c hl hc
  · intro l o hl hc hctx heq
    apply hinv.incoming_not_held_elsewhere l (s.link_conn o) hl hc
    rw [hctx, heq]
  · intro l hl
    have := hinv.incoming_not_free l hl
    simpa [qd_bitmask_value] using this

/-- C33 (amended) on the interior router: after the incoming router links 7
(connection 1) and 9 (connection 2) opened, they have different mask bits. -/
theorem C33_incoming_mask_bits_distinct_witness :
    live_incoming_router (interior_after [.incoming_link 7, .incoming_link 9]) 7 ∧
    live_incoming_router (interior_after [.incoming_link 7, .incoming_link 9]) 9 ∧
    ((interior_after [.incoming_link 7, .incoming_link 9]).link 7).mask_bit = 0 ∧
    ((interior_after [.incoming_link 7, .incoming_link 9]).link 9).mask_bit = 1 ∧
    ((interior_after [.incoming_link 7, .incoming_link 9]).link 7).mask_bit
      ≠ ((interior_after [.incoming_link 7, .incoming_link 9]).link 9).mask_bit := by
  have e1 : (interior_after [.incoming_link 7]).link_context
      = upd router_interior.link_context 7 true :=
    (router_incoming_link_handler_router router_interior 7 (by decide) (by decide)).2.1
  have e1c : (interior_after [.incoming_link 7]).link_conn = router_interior.link_conn :=
    (router_incoming_link_handler_router router_interior 7 (by decide) (by decide)).2.2.1
  have r2 : reachable example_iterator_string router_event.orderly router_interior
      (interior_after [.incoming_link 7, .incoming_link 9]) := by
    refine reachable_interior_step router_event.orderly [.incoming_link 7] (.incoming_link 9)
      reachable_interior_first
      ⟨by decide, fun _ _ => ⟨fun other hlive => ?_, Or.inr (by decide)⟩⟩
    have h1 := hlive.1
    rw [e1] at h1
    by_cases h7 : other = 7
    · rw [h7, e1c]
      decide
    · rw [upd_other _ _ _ _ h7] at h1
      exact (Bool.false_ne_true h1).elim
  exact ⟨⟨by decide, by decide, by decide⟩, ⟨by decide, by decide, by decide⟩, by decide,
    by decide,
    (C33_incoming_mask_bits_distinct example_iterator_string world_links 2
      .QD_ROUTER_MODE_INTERIOR "A" "r1" _ pristine_world_links r2).1 7 9
      ⟨by decide, by decide, by decide⟩ ⟨by decide, by decide, by decide⟩ (by decide)⟩

/-! ## Mobile notifications of one address -/

theorem mobile_notes_append (k : String) (xs ys : List qd_call) :
    mobile_notes k (xs ++ ys) = mobile_notes k xs ++ mobile_notes k ys := by
  simp [mobile_notes, List.filterMap_append]

theorem alternation_count : ∀ n,
    (alternation n).count true = (alternation n).count false + n % 2 := by
  intro n
  induction n with
  | zero => simp [alternation]
  | succ n ih =>
    simp only [alternation, List.count_append]
    by_cases h : n % 2 = 0
    · have h1 : (n + 1) % 2 = 1 := by omega
      simp [h, h1]
      omega
    · have h1 : (n + 1) % 2 = 0 := by omega
      have h2 : n % 2 = 1 := by omega
      simp [h, h1]
      omega

theorem qd_hash_retrieve_none_iff (h : List (String × Nat)) (k : String) :
    qd_hash_retrieve h k = none ↔ k ∉ h.map Prod.fst := by
  induction h with
  | nil => simp [qd_hash_retrieve]
  | cons e rest ih =>
    obtain ⟨k', a'⟩ := e
    simp only [qd_hash_retrieve, List.map_cons, List.mem_cons, not_or]
    by_cases hk : k' = k
    · simp [hk]
    · rw [if_neg hk, ih]
      constructor
      · intro h1
        exact ⟨fun e => hk e.symm, h1⟩
      · intro h1
        exact h1.2

theorem qd_hash_retrieve_append_new (h : List (String × Nat)) (k : String) (a : Nat)
    (hn : qd_hash_retrieve h k = none) : qd_hash_retrieve (h ++ [(k, a)]) k = some a := by
  induction h with
  | nil => simp [qd_hash_retrieve]
  | cons e rest ih =>
    obtain ⟨k', a'⟩ := e
    simp only [qd_hash_retrieve, List.cons_append] at hn ⊢
    by_cases hk : k' = k
    · rw [if_pos hk] at hn
      cases hn
    · rw [if_neg hk] at hn ⊢
      exact ih hn

theorem qd_hash_retrieve_of_mem (h : List (String × Nat)) (k : String) (a : Nat)
    (hnd : (h.map Prod.fst).Nodup) (hm : (k, a) ∈ h) : qd_hash_retrieve h k = some a := by
  induction h with
  | nil => cases hm
  | cons e rest ih =>
    obtain ⟨k', a'⟩ := e
    simp only [List.map_cons, List.nodup_cons] at hnd
    simp only [qd_hash_retrieve]
    rcases List.mem_cons.mp hm with he | he
    · cases he
      simp
    · have hne : k' ≠ k := by
        intro e
        apply hnd.1
        rw [e]
        exact List.mem_map_of_mem Prod.fst he
      rw [if_neg hne]
      exact ih hnd.2 he

theorem qd_hash_key_by_handle_of_mem (h : List (String × Nat)) (k : String) (a : Nat)
    (hnd : (h.map Prod.snd).Nodup) (hm : (k, a) ∈ h) :
    qd_hash_key_by_handle h a = some k := by
  induction h with
  | nil => cases hm
  | cons e rest ih =>
    obtain ⟨k', a'⟩ := e
    simp only [List.map_cons, List.nodup_cons] at hnd
    simp only [qd_hash_key_by_handle]
    rcases List.mem_cons.mp hm with he | he
    · cases he
      simp
    · have hne : a' ≠ a := by
        intro e
        apply hnd.1
        rw [e]
        exact List.mem_map_of_mem Prod.snd he
      rw [if_neg hne]
      exact ih hnd.2 he

theorem qd_hash_retrieve_removed (h : List (String × Nat)) (k : String) (a : Nat)
    (hnd : (h.map Prod.fst).Nodup) (hr : qd_hash_retrieve h k = some a) :
    qd_hash_retrieve (qd_hash_remove_by_handle h a) k = none := by
  cases hq : qd_hash_retrieve (qd_hash_remove_by_handle h a) k with
  | none => rfl
  | some a2 =>
    have hm2 := qd_hash_retrieve_mem _ _ _ hq
    rw [qd_hash_remove_by_handle_mem] at hm2
    have := qd_hash_retrieve_of_mem h k a2 hnd hm2.1
    rw [hr] at this
    exact absurd (Option.some.inj this).symm hm2.2

theorem table_wf_removed (s s' : qd_router_t) (a : Nat) (h : table_wf s)
    (hs : s'.addr_hash = qd_hash_remove_by_handle s.addr_hash a) : table_wf s' := by
  unfold table_wf
  rw [hs]
  unfold qd_hash_remove_by_handle
  exact ⟨h.1.sublist ((List.filter_sublist _).map _), h.2.sublist ((List.filter_sublist _).map _)⟩

theorem table_wf_inserted (s s' : qd_router_t) (k : String) (a : Nat) (h : table_wf s)
    (hk : qd_hash_retrieve s.addr_hash k = none) (ha : ∀ k' a', (k', a') ∈ s.addr_hash → a' ≠ a)
    (hs : s'.addr_hash = s.addr_hash ++ [(k, a)]) : table_wf s' := by
  unfold table_wf
  rw [hs]
  simp only [List.map_append, List.map_cons, List.map_nil]
  refine ⟨List.Nodup.append h.1 (List.nodup_singleton _) ?_,
    List.Nodup.append h.2 (List.nodup_singleton _) ?_⟩
  · intro x hx hx2
    rw [List.mem_singleton.mp hx2] at hx
    exact (qd_hash_retrieve_none_iff _ _).mp hk hx
  · intro x hx hx2
    rw [List.mem_singleton.mp hx2] at hx
    obtain ⟨⟨k', a'⟩, hm', he⟩ := List.mem_map.mp hx
    exact ha k' a' hm' he

theorem outgoing_link_subscriber_accepted (iterator_string : String → qd_field_iterator_t)
    (s : qd_router_t) (link : Nat) (src : String)
    (hr : qd_router_terminus_is_router (s.remote_target link) = false)
    (hd : (s.remote_source link).dynamic = false)
    (hsrc : (s.remote_source link).address = some src)
    (hM : (iterator_string src).address_hash.data.head? = some 'M') :
    outgoing_link_rejected iterator_string s link = false := by
  unfold outgoing_link_rejected
  simp [hr, hd, hsrc, hM]

theorem outgoing_source_iterator_static (iterator_string : String → qd_field_iterator_t)
    (s : qd_router_t) (link rnd : Nat) (src : String)
    (hd : (s.remote_source link).dynamic = false)
    (hsrc : (s.remote_source link).address = some src) :
    outgoing_source_iterator iterator_string s link rnd = iterator_string src := by
  simp [outgoing_source_iterator, hd, hsrc]

/-- The calls of `router_outgoing_link_handler` for an accepted endpoint link
whose source is not dynamic: `qd_router_mobile_added` when the address had no
local link, then `pn_link_open`. -/
theorem router_outgoing_link_handler_subscribed (iterator_string : String → qd_field_iterator_t)
    (s : qd_router_t) (link rnd : Nat) (src : String)
    (hr : qd_router_terminus_is_router (s.remote_target link) = false)
    (hd : (s.remote_source link).dynamic = false)
    (hsrc : (s.remote_source link).address = some src)
    (hM : (iterator_string src).address_hash.data.head? = some 'M') :
    (router_outgoing_link_handler iterator_string s link rnd).calls
      = s.calls ++
        (if ((find_or_create_address s (iterator_string src).address_hash
              default_semantics).1.address
            (find_or_create_address s (iterator_string src).address_hash
              default_semantics).2).rlinks = []
          then [.qd_router_mobile_added (iterator_string src)] else []) ++
        [.pn_link_open link] := by
  have hacc := outgoing_link_subscriber_accepted iterator_string s link src hr hd hsrc hM
  rw [router_outgoing_link_handler_accepted iterator_string s link rnd hacc]
  unfold outgoing_link_accept outgoing_endpoint_link find_or_create_address
  have hset : (set_link_record (copy_termini s link) link
      (new_router_link .QD_LINK_ENDPOINT .QD_OUTGOING 0)).addr_hash = s.addr_hash := rfl
  simp only [hr, hd, hsrc, hset, Bool.false_eq_true, if_false, and_self, if_true,
    Option.map_some', Option.getD_some]
  cases hret : qd_hash_retrieve s.addr_hash (iterator_string src).address_hash with
  | some a =>
    cases hl : (s.address a).rlinks <;>
      simp [qd_router_add_link_ref_LH, set_address, set_link_record, copy_termini, log_call,
        links_insert_tail, hl]
  | none =>
    simp [qd_router_add_link_ref_LH, set_address, set_link_record, copy_termini, log_call,
      links_insert_tail, new_address]

theorem detach_prefix_calls (s : qd_router_t) (link : Nat) :
    (detach_conn_context s link).calls = s.calls ∧ (detach_unlink s link).calls = s.calls := by
  constructor
  · unfold detach_conn_context
    cases s.conn_context (s.link_conn link) <;> rfl
  · unfold detach_unlink qd_router_del_link_ref_LH
    simp only
    cases detach_oaddr (s.link link) <;> simp only <;> split_ifs <;> rfl

/-- The calls of `qd_router_check_addr` for a record with hash key `k`. -/
theorem qd_router_check_addr_notifies (s : qd_router_t) (a : Nat) (was_local : Bool)
    (k : String) (hk : qd_hash_key_by_handle s.addr_hash a = some k) :
    (qd_router_check_addr s (some a) was_local).calls
      = s.calls ++
        (if was_local = true ∧ (s.address a).rlinks = [] ∧ k.data.head? = some 'M'
          then [qd_call.qd_router_mobile_removed k] else []) := by
  unfold qd_router_check_addr
  simp only [hk]
  by_cases hw : was_local = true
  · by_cases hr : (s.address a).rlinks = []
    · by_cases hm : k.data.head? = some 'M'
      · simp only [hw, hr, hm, key_is_mobile]
        split_ifs <;> simp_all [log_call]
      · simp only [hw, hr, hm, key_is_mobile]
        split_ifs <;> simp_all [log_call]
    · have hr' : ¬ (s.address a).rlinks.length = 0 := by
        simpa [List.length_eq_zero] using hr
      simp only [hw, hr, hr']
      split_ifs <;> simp_all [log_call]
  · simp only [hw]
    split_ifs <;> simp_all [log_call]

/-- The detach of an outgoing link that is a member of the `rlinks` of the
record `a` with hash key `k`: the notification, the table and the record
afterwards. -/
theorem router_link_detach_handler_subscriber (s : qd_router_t) (link : Nat) (closed : Bool)
    (a : Nat) (k : String)
    (hctx : s.link_context link = true)
    (hdir : (s.link link).link_direction = .QD_OUTGOING)
    (hown : (s.link link).owning_addr = some a)
    (href : (s.link link).ref = true)
    (hk : qd_hash_key_by_handle s.addr_hash a = some k) :
    (router_link_detach_handler s link closed).calls
      = s.calls ++
        (if remove_last link (s.address a).rlinks = [] ∧ k.data.head? = some 'M'
          then [qd_call.qd_router_mobile_removed k] else []) ∧
    (router_link_detach_handler s link closed).addr_hash
      = (if (s.address a).handler = none ∧ remove_last link (s.address a).rlinks = [] ∧
            (s.address a).rnodes = []
          then qd_hash_remove_by_handle s.addr_hash a else s.addr_hash) ∧
    (router_link_detach_handler s link closed).address
      = upd s.address a { s.address a with rlinks := remove_last link (s.address a).rlinks } := by
  have hoaddr : detach_oaddr (s.link link) = some a := by
    unfold detach_oaddr
    rw [if_pos hdir, hown]
  obtain ⟨-, c2, -, -, -, -, c7, -, c9, -, -, -⟩ := detach_conn_context_fields s link
  obtain ⟨u1, -, -, -, -, -, -, -, u9, -, -, -⟩ :=
    detach_unlink_fields (detach_conn_context s link) link
  obtain ⟨d1, -, -, -, -, -, -, -, -, -, -, -⟩ :=
    qd_router_del_link_ref_LH_fields (detach_conn_context s link) a link
  rw [c2, hoaddr] at u1
  simp only at u1
  rw [c2, href, c7] at d1
  simp only [if_true] at d1
  rw [d1] at u1
  have haddr : (detach_unlink (detach_conn_context s link) link).address a
      = { s.address a with rlinks := remove_last link (s.address a).rlinks } := by
    rw [u1, upd_same]
  have hhash : (detach_unlink (detach_conn_context s link) link).addr_hash = s.addr_hash :=
    u9.trans c9
  have hcalls : (detach_unlink (detach_conn_context s link) link).calls = s.calls :=
    (detach_prefix_calls _ link).2.trans (detach_prefix_calls s link).1
  have hk' : qd_hash_key_by_handle
      (detach_unlink (detach_conn_context s link) link).addr_hash a = some k := by
    rw [hhash]
    exact hk
  rw [router_link_detach_handler_record s link closed hctx, hoaddr]
  refine ⟨?_, ?_, ?_⟩
  · show (qd_router_check_addr _ (some a) true).calls = _
    rw [qd_router_check_addr_notifies _ a true k hk', hcalls, haddr]
    simp
  · show (qd_router_check_addr _ (some a) true).addr_hash = _
    obtain ⟨t1, t2⟩ := qd_router_check_addr_tables
      (detach_unlink (detach_conn_context s link) link) a true
    rw [haddr] at t1 t2
    simp only at t1 t2
    by_cases hc : (s.address a).handler = none ∧ remove_last link (s.address a).rlinks = [] ∧
        (s.address a).rnodes = []
    · rw [if_pos hc, (t1 hc).1, hhash]
    · rw [if_neg hc, (t2 hc).1, hhash]
  · show (qd_router_check_addr _ (some a) true).address = _
    rw [(qd_router_check_addr_frame _ (some a) true).1, u1]

theorem table_wf_congr (s s' : qd_router_t) (h : s'.addr_hash = s.addr_hash)
    (hwf : table_wf s) : table_wf s' := by
  unfold table_wf
  rw [h]
  exact hwf

theorem alternation_even_step (n : Nat) (h : ¬ n % 2 = 1) :
    alternation (n + 1) = alternation n ++ [true] ∧ (n + 1) % 2 = 1 := by
  have h0 : n % 2 = 0 := by omega
  refine ⟨?_, by omega⟩
  simp [alternation, h0]

theorem alternation_odd_step (n : Nat) (h : n % 2 = 1) :
    alternation (n + 1) = alternation n ++ [false] ∧ ¬ (n + 1) % 2 = 1 := by
  have h0 : ¬ n % 2 = 0 := by omega
  refine ⟨?_, by omega⟩
  simp [alternation, h0]

/-- The open of a subscriber link keeps the notifications alternating. -/
theorem subscription_inv_open (iterator_string : String → qd_field_iterator_t) (k : String)
    (s0 s : qd_router_t) (link rnd : Nat) (hk : k.data.head? = some 'M')
    (hinv : subscription_inv k s0 s)
    (hg : router_event.subscribes iterator_string k s (.outgoing_link link rnd)) :
    subscription_inv k s0 (router_outgoing_link_handler iterator_string s link rnd) := by
  obtain ⟨hfresh, hr, hd, src, hsrc, hkey⟩ := hg
  have hM : (iterator_string src).address_hash.data.head? = some 'M' := by
    rw [hkey]
    exact hk
  have hacc := outgoing_link_subscriber_accepted iterator_string s link src hr hd hsrc hM
  have hcons : rlinks_consistent (router_outgoing_link_handler iterator_string s link rnd) :=
    rlinks_consistent_step iterator_string s (.outgoing_link link rnd) hinv.consistent hfresh
  obtain ⟨-, -, -, -, -, -, f7, -, f9, -, -, -⟩ :=
    router_outgoing_link_handler_endpoint iterator_string s link rnd hr hacc
  have hcalls := router_outgoing_link_handler_subscribed iterator_string s link rnd src hr hd
    hsrc hM
  rw [outgoing_source_iterator_static iterator_string s link rnd src hd hsrc, hkey] at f7 f9
  rw [hkey] at hcalls
  obtain ⟨n, hn, hpar⟩ := hinv.notes
  have hnote_open : mobile_notes k [qd_call.pn_link_open link] = [] := rfl
  have hnote_added : mobile_notes k [qd_call.qd_router_mobile_added (iterator_string src)]
      = [true] := by
    simp [mobile_notes, mobile_note, hkey]
  cases hret : qd_hash_retrieve s.addr_hash k with
  | some a =>
    have hfc : find_or_create_address s k default_semantics = (s, a) := by
      simp [find_or_create_address, hret]
    rw [hfc] at f7 f9 hcalls
    simp only at f7 f9 hcalls
    have hsubs : local_subscribers s k = (s.address a).rlinks := by
      simp [local_subscribers, hret]
    have hsubs' : local_subscribers (router_outgoing_link_handler iterator_string s link rnd) k
        = (s.address a).rlinks ++ [link] := by
      simp [local_subscribers, f9, hret, f7]
    refine ⟨hcons, table_wf_congr s _ f9 hinv.table, ?_⟩
    rw [hsubs] at hpar
    rw [hsubs', hcalls, mobile_notes_append, mobile_notes_append, hnote_open, hn]
    by_cases hl : (s.address a).rlinks = []
    · have hodd : ¬ n % 2 = 1 := fun h => (hpar.mp h) hl
      obtain ⟨a1, a2⟩ := alternation_even_step n hodd
      refine ⟨n + 1, ?_, ?_⟩
      · rw [if_pos hl, hnote_added, a1]
        simp
      · simp [a2]
    · have hodd : n % 2 = 1 := hpar.mpr hl
      refine ⟨n, ?_, ?_⟩
      · rw [if_neg hl]
        simp [mobile_notes]
      · simp [hodd]
  | none =>
    have hfc : find_or_create_address s k default_semantics
        = ({ s with
            address := upd s.address s.address_next (new_address default_semantics)
            address_next := s.address_next + 1
            addr_hash := qd_hash_insert s.addr_hash k s.address_next
            addrs := s.addrs ++ [s.address_next] }, s.address_next) := by
      simp [find_or_create_address, hret]
    rw [hfc] at f7 f9 hcalls
    simp only [upd_same] at f7 f9 hcalls
    have hsubs : local_subscribers s k = [] := by
      simp [local_subscribers, hret]
    have hhash : (router_outgoing_link_handler iterator_string s link rnd).addr_hash
        = s.addr_hash ++ [(k, s.address_next)] := f9
    have hsubs' : local_subscribers (router_outgoing_link_handler iterator_string s link rnd) k
        = [link] := by
      simp [local_subscribers, hhash, qd_hash_retrieve_append_new _ _ _ hret, f7, new_address]
    have hwf : table_wf (router_outgoing_link_handler iterator_string s link rnd) := by
      refine table_wf_inserted s _ k s.address_next hinv.table hret ?_ hhash
      intro k' a' hm
      have := hinv.consistent.table_allocated k' a' hm
      omega
    refine ⟨hcons, hwf, ?_⟩
    rw [hsubs] at hpar
    have hodd : ¬ n % 2 = 1 := fun h => (hpar.mp h) rfl
    obtain ⟨a1, a2⟩ := alternation_even_step n hodd
    refine ⟨n + 1, ?_, ?_⟩
    · rw [hcalls, mobile_notes_append, mobile_notes_append, hnote_open, hn]
      simp only [new_address, if_true, hnote_added, a1]
      simp
    · rw [hsubs']
      simp [a2]

/-- The detach of a subscriber link keeps the notifications alternating. -/
theorem subscription_inv_detach (iterator_string : String → qd_field_iterator_t) (k : String)
    (s0 s : qd_router_t) (link : Nat) (closed : Bool) (hk : k.data.head? = some 'M')
    (hinv : subscription_inv k s0 s)
    (hg : router_event.subscribes iterator_string k s (.link_detach link closed)) :
    subscription_inv k s0 (router_link_detach_handler s link closed) := by
  have hcons : rlinks_consistent (router_link_detach_handler s link closed) :=
    rlinks_consistent_step iterator_string s (.link_detach link closed) hinv.consistent trivial
  obtain ⟨n, hn, hpar⟩ := hinv.notes
  by_cases hctx : s.link_context link = true
  · obtain ⟨hdir, a, hown, hret⟩ := hg hctx
    obtain ⟨hcount, href⟩ := hinv.consistent.member_once link a hctx hdir hown
    have hmem : (k, a) ∈ s.addr_hash := qd_hash_retrieve_mem _ _ _ hret
    have hkey := qd_hash_key_by_handle_of_mem s.addr_hash k a hinv.table.2 hmem
    obtain ⟨d1, d2, d3⟩ :=
      router_link_detach_handler_subscriber s link closed a k hctx hdir hown href hkey
    have hsubs : local_subscribers s k = (s.address a).rlinks := by
      simp [local_subscribers, hret]
    have hne : (s.address a).rlinks ≠ [] := by
      intro h
      rw [h] at hcount
      simp at hcount
    rw [hsubs] at hpar
    have hodd : n % 2 = 1 := hpar.mpr hne
    by_cases hR : remove_last link (s.address a).rlinks = []
    · obtain ⟨a1, a2⟩ := alternation_odd_step n hodd
      have hsubs' : local_subscribers (router_link_detach_handler s link closed) k = [] := by
        unfold local_subscribers
        rw [d2]
        by_cases hc : (s.address a).handler = none ∧
            remove_last link (s.address a).rlinks = [] ∧ (s.address a).rnodes = []
        · rw [if_pos hc, qd_hash_retrieve_removed _ _ _ hinv.table.1 hret]
        · rw [if_neg hc, hret]
          simp only
          rw [d3, upd_same]
          exact hR
      have hwf : table_wf (router_link_detach_handler s link closed) := by
        by_cases hc : (s.address a).handler = none ∧
            remove_last link (s.address a).rlinks = [] ∧ (s.address a).rnodes = []
        · rw [if_pos hc] at d2
          exact table_wf_removed s _ a hinv.table d2
        · rw [if_neg hc] at d2
          exact table_wf_congr s _ d2 hinv.table
      refine ⟨hcons, hwf, n + 1, ?_, ?_⟩
      · rw [d1, if_pos ⟨hR, hk⟩, mobile_notes_append, hn, a1]
        simp [mobile_notes, mobile_note]
      · rw [hsubs']
        simp [a2]
    · have hc : ¬ ((s.address a).handler = none ∧
          remove_last link (s.address a).rlinks = [] ∧ (s.address a).rnodes = []) :=
        fun h => hR h.2.1
      rw [if_neg hc] at d2
      have hsubs' : local_subscribers (router_link_detach_handler s link closed) k
          = remove_last link (s.address a).rlinks := by
        unfold local_subscribers
        rw [d2, hret]
        simp only
        rw [d3, upd_same]
      refine ⟨hcons, table_wf_congr s _ d2 hinv.table, n, ?_, ?_⟩
      · rw [d1, if_neg (fun h => hR h.1), List.append_nil]
        exact hn
      · rw [hsubs']
        simp [hodd, hR]
  · have hctx' : s.link_context link = false := by
      simpa using hctx
    rw [router_link_detach_handler_no_record s link closed hctx'] at hcons ⊢
    obtain ⟨-, -, -, -, -, -, c7, -, c9, -, -, -⟩ := detach_conn_context_fields s link
    have hcalls := (detach_prefix_calls s link).1
    refine ⟨hcons, table_wf_congr s _ c9 hinv.table, n, by rw [hcalls]; exact hn, ?_⟩
    have hsubs' : local_subscribers (detach_conn_context s link) k = local_subscribers s k := by
      unfold local_subscribers
      rw [c9, c7]
    rw [hsubs']
    exact hpar

theorem subscription_inv_reachable (iterator_string : String → qd_field_iterator_t)
    (k : String) (s0 s : qd_router_t) (hk : k.data.head? = some 'M')
    (h0 : subscription_inv k s0 s0)
    (h : reachable iterator_string (router_event.subscribes iterator_string k) s0 s) :
    subscription_inv k s0 s := by
  induction h with
  | init => exact h0
  | step s e _ hg ih =>
    cases e with
    | outgoing_link link rnd => exact subscription_inv_open iterator_string k s0 s link rnd hk ih hg
    | link_detach link closed =>
      exact subscription_inv_detach iterator_string k s0 s link closed hk ih hg
    | register_address address handler semantics context => exact hg.elim
    | incoming_link link => exact hg.elim
    | outbound_open conn receiver sender => exact hg.elim
    | check_addr addr was_local => exact hg.elim

/-- Claim C35: let `k` be a hash key of mobile class and `s0` a state with
consistent link references and a well-formed table in which the address with
key `k` has no local subscriber.  After any sequence of opens of new outgoing
endpoint links with a non-dynamic source of key `k` and of detaches of such
links, the notifications about `k` made since `s0` alternate, beginning with
`qd_router_mobile_added`: they are the first `n` terms of added, removed,
added, ..., where `n` is odd exactly when the address has a link in its
`rlinks`; so the number of `mobile_added` exceeds the number of
`mobile_removed` by 1 when the address has a local subscriber and by 0
otherwise. -/
theorem C35_mobile_notifications_alternate (iterator_string : String → qd_field_iterator_t)
    (k : String) (s0 s : qd_router_t) (hk : k.data.head? = some 'M')
    (hcons : rlinks_consistent s0) (htable : table_wf s0)
    (hstart : local_subscribers s0 k = [])
    (h : reachable iterator_string (router_event.subscribes iterator_string k) s0 s) :
    ∃ n, mobile_notes k s.calls = mobile_notes k s0.calls ++ alternation n ∧
      (n % 2 = 1 ↔ local_subscribers s k ≠ []) ∧
      (alternation n).count true
        = (alternation n).count false + (if local_subscribers s k ≠ [] then 1 else 0) := by
  have h0 : subscription_inv k s0 s0 :=
    ⟨hcons, htable, 0, by simp [alternation], by simp [hstart]⟩
  obtain ⟨n, hn, hpar⟩ := (subscription_inv_reachable iterator_string k s0 s hk h0 h).notes
  refine ⟨n, hn, hpar, ?_⟩
  rw [alternation_count n]
  by_cases hs : local_subscribers s k ≠ []
  · rw [if_pos hs, hpar.mpr hs]
  · rw [if_neg hs]
    have : ¬ n % 2 = 1 := fun h => hs (hpar.mp h)
    omega

/-- C35 on the interior router: link 20 subscribes to `svc` (hash key `Msvc`)
and detaches again.  The notifications are `mobile_added`, then
`mobile_removed`, and the address ends without local subscriber. -/
theorem C35_mobile_notifications_alternate_witness :
    "Msvc".data.head? = some 'M' ∧
    local_subscribers router_interior "Msvc" = [] ∧
    mobile_notes "Msvc" (interior_after [.outgoing_link 20 0]).calls = [true] ∧
    local_subscribers (interior_after [.outgoing_link 20 0]) "Msvc" = [20] ∧
    mobile_notes "Msvc" (interior_after [.outgoing_link 20 0, .link_detach 20 true]).calls
      = [true, false] ∧
    local_subscribers (interior_after [.outgoing_link 20 0, .link_detach 20 true]) "Msvc"
      = [] ∧
    ∃ n, mobile_notes "Msvc" (interior_after [.outgoing_link 20 0, .link_detach 20 true]).calls
        = mobile_notes "Msvc" router_interior.calls ++ alternation n ∧
      (n % 2 = 1 ↔
        local_subscribers (interior_after [.outgoing_link 20 0, .link_detach 20 true]) "Msvc"
          ≠ []) ∧
      (alternation n).count true
        = (alternation n).count false +
          (if local_subscribers (interior_after [.outgoing_link 20 0, .link_detach 20 true])
              "Msvc" ≠ [] then 1 else 0) := by
  have r1 : reachable example_iterator_string
      (router_event.subscribes example_iterator_string "Msvc") router_interior
      (interior_after [.outgoing_link 20 0]) :=
    reachable_interior_step _ [] (.outgoing_link 20 0) reachable.init
      ⟨by decide, by decide, by decide, "svc", by decide, by decide⟩
  have r2 : reachable example_iterator_string
      (router_event.subscribes example_iterator_string "Msvc") router_interior
      (interior_after [.outgoing_link 20 0, .link_detach 20 true]) :=
    reachable_interior_step _ [.outgoing_link 20 0] (.link_detach 20 true) r1
      (fun _ => ⟨by decide, 102, by decide, by decide⟩)
  have hwf : table_wf router_interior := by
    unfold table_wf
    decide
  exact ⟨by decide, by decide, by decide, by decide, by decide, by decide,
    C35_mobile_notifications_alternate example_iterator_string "Msvc" router_interior _
      (by decide)
      (rlinks_consistent_init example_iterator_string world_links pristine_world_links 2
        .QD_ROUTER_MODE_INTERIOR "A" "r1")
      hwf (by decide) r2⟩

end QpidDispatch
